import Mathlib

/-!
Verification development for the nupatch minified-source patch engine
(src/core.rs, src/integrity.rs).

The source text is modelled as a list of characters (`Str`).  Rust byte
indices coincide with character indices on the ASCII inputs the engine
manipulates; `String::find`/`rfind`/`contains`/`replacen(_,_,1)` become
`firstOcc`/`lastOcc`/`containsStr`/`replaceFirst` below.  The handful of
`fancy_regex` patterns used by discovery are modelled as executable
first-match parsers: every `\w+`/`\s+` sub-expression in those patterns is
followed by a character outside its class, so backtracking is forced to
the maximal run and the leftmost-first match is the first position at
which the deterministic parse succeeds.

Filesystem state is a record of the target file's content and the
optional `.bak` content; `fs::read_to_string` and `fs::write` are modelled
as always succeeding (I/O errors are outside the model).
-/

namespace Nupatch

set_option maxRecDepth 100000

abbrev Str := List Char

/-- `s.toList` shorthand for writing source literals. -/
def str (s : String) : Str := s.toList

/-- Rust `\w` on ASCII input: `[0-9A-Za-z_]`. -/
def wordChar (c : Char) : Bool :=
  (97 ≤ c.toNat && c.toNat ≤ 122) || (65 ≤ c.toNat && c.toNat ≤ 90) ||
  (48 ≤ c.toNat && c.toNat ≤ 57) || c.toNat == 95

/-- Rust `\s` on ASCII input. -/
def wsChar (c : Char) : Bool :=
  c == ' ' || c == '\t' || c == '\n' || c == '\r'

/-- Does `pat` occur in `s` starting at index `i`? -/
def occursAt (pat s : Str) (i : Nat) : Bool := pat.isPrefixOf (s.drop i)

/-- All start indices (ascending) at which `pat` occurs in `s`. -/
def occIdxs (pat s : Str) : List Nat :=
  (List.range (s.length + 1)).filter (fun i => occursAt pat s i)

/-- Rust `str::find` (index of the first occurrence). -/
def firstOcc (pat s : Str) : Option Nat := (occIdxs pat s).head?

/-- Rust `str::rfind` (index of the last occurrence). -/
def lastOcc (pat s : Str) : Option Nat := (occIdxs pat s).getLast?

/-- Rust `str::contains`. -/
def containsStr (s pat : Str) : Bool := (firstOcc pat s).isSome

/-- Splice `ins` into `s` at index `i` (Rust's manual `take`/`push_str` splice). -/
def insertAt (s ins : Str) (i : Nat) : Str := s.take i ++ ins ++ s.drop i

/-- Rust `str::replacen(find, repl, 1)`. -/
def replaceFirst (s find repl : Str) : Str :=
  match firstOcc find s with
  | none => s
  | some i => s.take i ++ repl ++ s.drop (i + find.length)

/-- Maximal `\w` run in `s` starting at index `i`. -/
def wordRunFwd (s : Str) (i : Nat) : Str := (s.drop i).takeWhile (fun c => wordChar c)

/-- Maximal `\w` run in `s` ending just before index `i`. -/
def wordRunBack (s : Str) (i : Nat) : Str :=
  ((s.take i).reverse.takeWhile (fun c => wordChar c)).reverse

/-- Maximal `\s` run in `s` starting at index `i`. -/
def wsRunFwd (s : Str) (i : Nat) : Str := (s.drop i).takeWhile (fun c => wsChar c)

/-!
### Discovery regexes (src/core.rs `discover_vars` / `quick_detect`)

`re1 = (\w+)\.includes\("zsh"\)\?(\w+)\.Zsh`.  A match is determined by the
position `k` of the literal `.includes("zsh")?`: the first capture is the
maximal word run ending at `k` (it must be non-empty) and the second is the
maximal word run after the literal, which must be followed by `.Zsh`.
Leftmost-first order over match starts coincides with ascending order of
`k`, because a later site's backward word run cannot cross the non-word
characters of an earlier site's literal.
-/

/-- The literal part of `re1`; 17 characters. -/
def zshLit : Str := str ".includes(\"zsh\")?"

def zshSiteValid (s : Str) (k : Nat) : Bool :=
  occursAt zshLit s k &&
  !(wordRunBack s k).isEmpty &&
  (let e := wordRunFwd s (k + 17)
   !e.isEmpty && occursAt (str ".Zsh") s (k + 17 + e.length))

/-- Position of the literal of the first `re1` match. -/
def zshFirstSite (s : Str) : Option Nat :=
  ((occIdxs zshLit s).filter (fun k => zshSiteValid s k)).head?

/-- First-match captures of `re1`: `(hint_var, enum_var)`. -/
def zshCaptures (s : Str) : Option (Str × Str) :=
  (zshFirstSite s).map (fun k => (wordRunBack s k, wordRunFwd s (k + 17)))

/-!
`re_cmd = function\s+(\w+)\(\w+\)\{try\{return(\(0,\w+\.\w+\))\(\w+,\[\]\)\.cmd!==\w+\}`
(the `quick_detect` copy omits the inner capture group but recognises the
same language, so both share this model).  The pattern starts with the
literal `function`, so match starts are exactly the positions where the
deterministic parse below succeeds.
-/

/-- Parse one `re_cmd` site at the position `k` of `function`;
returns `(fn_name, find_exec_call)`. -/
def parseCmdSite (s : Str) (k : Nat) : Option (Str × Str) :=
  if occursAt (str "function") s k then
    let ws := wsRunFwd s (k + 8)
    if ws.isEmpty then none else
    let f := wordRunFwd s (k + 8 + ws.length)
    if f.isEmpty then none else
    let p1 := k + 8 + ws.length + f.length
    if occursAt (str "(") s p1 then
      let a := wordRunFwd s (p1 + 1)
      if a.isEmpty then none else
      let p2 := p1 + 1 + a.length
      if occursAt (str ")\x7btry\x7breturn(0,") s p2 then
        let m := wordRunFwd s (p2 + 15)
        if m.isEmpty then none else
        let p3 := p2 + 15 + m.length
        if occursAt (str ".") s p3 then
          let g := wordRunFwd s (p3 + 1)
          if g.isEmpty then none else
          let p4 := p3 + 1 + g.length
          if occursAt (str ")(") s p4 then
            let a2 := wordRunFwd s (p4 + 2)
            if a2.isEmpty then none else
            let p5 := p4 + 2 + a2.length
            if occursAt (str ",[]).cmd!==") s p5 then
              let w := wordRunFwd s (p5 + 11)
              if w.isEmpty then none else
              if occursAt (str "\x7d") s (p5 + 11 + w.length) then
                some (f, str "(0," ++ m ++ str "." ++ g ++ str ")")
              else none
            else none
          else none
        else none
      else none
    else none
  else none

/-- First-match captures of `re_cmd`: `(cmd_exists_fn, find_exec_call)`. -/
def cmdCaptures (s : Str) : Option (Str × Str) :=
  ((occIdxs (str "function") s).filterMap (fun k => parseCmdSite s k)).head?

/-!
`re_uth = \.shell\?\?\w+\?\.userTerminalHint\?\?` (used via `is_match`): an
occurrence of `.shell??` followed by a non-empty word run followed by
`?.userTerminalHint??`.
-/

def uthSiteValid (s : Str) (k : Nat) : Bool :=
  occursAt (str ".shell??") s k &&
  (let x := wordRunFwd s (k + 8)
   !x.isEmpty && occursAt (str "?.userTerminalHint??") s (k + 8 + x.length))

/-- `re_uth.is_match` (the `has_user_terminal_hint` flag). -/
def uthFlagB (s : Str) : Bool :=
  (occIdxs (str ".shell??") s).any (fun k => uthSiteValid s k)

/-!
The capture regex of `patch_user_terminal_hint`:
`(\w+)\?\.shell\?\?(?!\w+\?\.userTerminalHint)`.  A site is a position `k`
of the literal `?.shell??` with a non-empty backward word run (the capture)
and a failing lookahead after the literal.  As with `re1`, leftmost-first
order over match starts coincides with ascending order of `k`.
-/

def uthMatchSite (s : Str) (k : Nat) : Option Str :=
  if occursAt (str "?.shell??") s k then
    let x := wordRunBack s k
    if x.isEmpty then none
    else
      let y := wordRunFwd s (k + 9)
      if !y.isEmpty && occursAt (str "?.userTerminalHint") s (k + 9 + y.length) then none
      else some x
  else none

/-- First-match capture of the `patch_user_terminal_hint` regex. -/
def uthCapture (s : Str) : Option Str :=
  ((occIdxs (str "?.shell??") s).filterMap (fun k => uthMatchSite s k)).head?

/-!
### Lazy-dot regexes

`re2 = case\s*{enum}\.Zsh\s*:.*?new\s+(\w+)\(` and the three
`naive_exec` alternatives.  `fancy_regex` compiles `.` without DOTALL, so
`.*?` cannot cross a newline; laziness means the first `new\s+(\w+)\(`
site reachable from the prefix end without a newline is taken, and a
`new` occurrence whose suffix fails to parse is skipped (the engine
extends `.*?` past it).
-/

/-- No `\n` in `s` between indices `p` (inclusive) and `j` (exclusive). -/
def noNewlineBetween (s : Str) (p j : Nat) : Bool :=
  ((s.drop p).take (j - p)).all (fun c => c != '\n')

/-- Parse `new\s+(\w+)\(` at the position `j` of `new`; returns the
capture and the index just past the `(`. -/
def parseNewSite (s : Str) (j : Nat) : Option (Str × Nat) :=
  if occursAt (str "new") s j then
    let ws := wsRunFwd s (j + 3)
    if ws.isEmpty then none else
    let w := wordRunFwd s (j + 3 + ws.length)
    if w.isEmpty then none else
    let p := j + 3 + ws.length + w.length
    if occursAt (str "(") s p then some (w, p + 1) else none
  else none

/-- Lazy search for `new\s+(\w+)\(` at or after `p`, not crossing a newline. -/
def lazyFindNew (s : Str) (p : Nat) : Option (Str × Nat) :=
  (((occIdxs (str "new") s).filter
      (fun j => decide (p ≤ j) && noNewlineBetween s p j)).filterMap
    (fun j => parseNewSite s j)).head?

/-- Parse `case\s*{e}{suffix}\s*:` at the position `k` of `case`;
returns the index just past the `:`. -/
def parseCasePrefix (s e suffix : Str) (k : Nat) : Option Nat :=
  if occursAt (str "case") s k then
    let ws1 := wsRunFwd s (k + 4)
    let p1 := k + 4 + ws1.length
    if occursAt (e ++ suffix) s p1 then
      let p2 := p1 + e.length + suffix.length
      let ws2 := wsRunFwd s p2
      if occursAt (str ":") s (p2 + ws2.length) then some (p2 + ws2.length + 1) else none
    else none
  else none

/-- `re2`: first-match capture of `case\s*{e}\.Zsh\s*:.*?new\s+(\w+)\(`. -/
def lazyExecCapture (s e : Str) : Option Str :=
  ((occIdxs (str "case") s).filterMap (fun k =>
    (parseCasePrefix s e (str ".Zsh") k).bind (fun p =>
      (lazyFindNew s p).map (fun wp => wp.1)))).head?

/-- Method A: `case\s*{e}\.Naive\s*:.*?new\s+\w+\(.*?new\s+(\w+)\(`. -/
def naiveExecA (s e : Str) : Option Str :=
  ((occIdxs (str "case") s).filterMap (fun k =>
    (parseCasePrefix s e (str ".Naive") k).bind (fun p =>
      (((occIdxs (str "new") s).filter
          (fun j => decide (p ≤ j) && noNewlineBetween s p j)).filterMap
        (fun j => (parseNewSite s j).bind (fun wp =>
          (lazyFindNew s wp.2).map (fun wp2 => wp2.1)))).head?))).head?

/-- Method C: `new\s+(\w+)\(process\.cwd\(\)\s*,\s*\{shell:`. -/
def naiveExecC (s : Str) : Option Str :=
  ((occIdxs (str "new") s).filterMap (fun j =>
    (parseNewSite s j).bind (fun wp =>
      let p := wp.2
      if occursAt (str "process.cwd()") s p then
        let ws1 := wsRunFwd s (p + 13)
        let p2 := p + 13 + ws1.length
        if occursAt (str ",") s p2 then
          let ws2 := wsRunFwd s (p2 + 1)
          if occursAt (str "\x7bshell:") s (p2 + 1 + ws2.length) then some wp.1 else none
        else none
      else none))).head?

/-- Method D: `new\s+(\w+)\(\w+,\s*\{\.\.\.\w+\s*,\s*shell\s*:`. -/
def naiveExecD (s : Str) : Option Str :=
  ((occIdxs (str "new") s).filterMap (fun j =>
    (parseNewSite s j).bind (fun wp =>
      let p := wp.2
      let a := wordRunFwd s p
      if a.isEmpty then none else
      let p1 := p + a.length
      if occursAt (str ",") s p1 then
        let ws1 := wsRunFwd s (p1 + 1)
        let p2 := p1 + 1 + ws1.length
        if occursAt (str "\x7b...") s p2 then
          let b := wordRunFwd s (p2 + 4)
          if b.isEmpty then none else
          let ws2 := wsRunFwd s (p2 + 4 + b.length)
          let p3 := p2 + 4 + b.length + ws2.length
          if occursAt (str ",") s p3 then
            let ws3 := wsRunFwd s (p3 + 1)
            let p4 := p3 + 1 + ws3.length
            if occursAt (str "shell") s p4 then
              let ws4 := wsRunFwd s (p4 + 5)
              if occursAt (str ":") s (p4 + 5 + ws4.length) then some wp.1 else none
            else none
          else none
        else none
      else none))).head?

/-- `re_opts = switch\(\w+\((\w+)\?\.userTerminalHint` (in `patch_naive_case`). -/
def optsCapture (s : Str) : Option Str :=
  ((occIdxs (str "switch(") s).filterMap (fun k =>
    let f := wordRunFwd s (k + 7)
    if f.isEmpty then none else
    let p := k + 7 + f.length
    if occursAt (str "(") s p then
      let o := wordRunFwd s (p + 1)
      if o.isEmpty then none else
      if occursAt (str "?.userTerminalHint") s (p + 1 + o.length) then some o else none
    else none)).head?

/-!
### Presence flags and discovery (src/core.rs lines 100-246)
-/

/-- `format!("case {enum_var}.Naive:")`. -/
def naive_case_str (enum : Str) : Str := str "case " ++ enum ++ str ".Naive:"

/-- `format!(".includes(\"nu\")?{enum_var}.Naive")`. -/
def nu_detection_str (enum : Str) : Str := str ".includes(\"nu\")?" ++ enum ++ str ".Naive"

/-- Presence flag: `code.contains(&naive_case_str)`. -/
def has_naive_case_in (code enum : Str) : Bool := containsStr code (naive_case_str enum)

/-- Presence flag: `code.contains(&nu_detection_str)`. -/
def has_nu_detection_in (code enum : Str) : Bool := containsStr code (nu_detection_str enum)

/-- Presence flag: `cmd_exists_fn.map(|f| code.contains(&format!("{f}(\"nu\")"))).unwrap_or(false)`. -/
def has_system_nu_in (code : Str) (cmdFn : Option Str) : Bool :=
  match cmdFn with
  | some f => containsStr code (f ++ str "(\"nu\")")
  | none => false

/-- Discovered minified variable names (struct `DiscoveredVars`). -/
structure DiscoveredVars where
  hint_var : Str
  enum_var : Str
  lazy_exec : Option Str
  naive_exec : Option Str
  cmd_exists_fn : Option Str
  find_exec_call : Option Str
  has_naive_case : Bool
  has_nu_detection : Bool
  has_system_nu : Bool
  has_user_terminal_hint : Bool
deriving Repr, DecidableEq

/-- `discover_vars` (src/core.rs lines 118-207). -/
def discover_vars (code : Str) : Except Str DiscoveredVars :=
  match zshCaptures code with
  | none => .error (str "Cannot find includes(\"zsh\")?<enum>.Zsh pattern")
  | some he =>
    let hint := he.1
    let enum := he.2
    let lazyE := lazyExecCapture code enum
    let hasNaive := has_naive_case_in code enum
    let n1 : Option Str := if hasNaive then naiveExecA code enum else none
    let n2 : Option Str := match n1 with | some x => some x | none => naiveExecC code
    let n3 : Option Str := match n2 with | some x => some x | none => naiveExecD code
    let cmdC := cmdCaptures code
    .ok
      { hint_var := hint
        enum_var := enum
        lazy_exec := lazyE
        naive_exec := n3
        cmd_exists_fn := cmdC.map (fun c => c.1)
        find_exec_call := cmdC.map (fun c => c.2)
        has_naive_case := hasNaive
        has_nu_detection := has_nu_detection_in code enum
        has_system_nu := has_system_nu_in code (cmdC.map (fun c => c.1))
        has_user_terminal_hint := uthFlagB code }

/-- Lightweight patch detection (struct `QuickDetect`). -/
structure QuickDetect where
  has_nu : Bool
  has_system_nu : Bool
  has_naive_case : Bool
  has_uth : Bool
deriving Repr, DecidableEq

/-- `quick_detect` (src/core.rs lines 217-246). -/
def quick_detect (code : Str) : Option QuickDetect :=
  (zshCaptures code).map (fun he =>
    let enum := he.2
    { has_nu := has_nu_detection_in code enum
      has_system_nu := has_system_nu_in code ((cmdCaptures code).map (fun c => c.1))
      has_naive_case := has_naive_case_in code enum
      has_uth := uthFlagB code })

/-!
### Step results and the five patch steps (src/core.rs lines 29-647)
-/

/-- Result of a single patch step (struct `StepResult`). -/
structure StepResult where
  name : Str
  ok : Bool
  message : Str
  skipped : Bool
  detail : Str
deriving Repr, DecidableEq

/-- `StepResult::ok`. -/
def StepResult.mkOk (name msg : Str) : StepResult :=
  { name := name, ok := true, message := msg, skipped := false, detail := [] }

/-- `StepResult::fail`. -/
def StepResult.mkFail (name msg : Str) : StepResult :=
  { name := name, ok := false, message := msg, skipped := false, detail := [] }

/-- `StepResult::skipped`. -/
def StepResult.mkSkipped (name msg : Str) : StepResult :=
  { name := name, ok := true, message := msg, skipped := true, detail := [] }

/-- `StepResult::with_detail`. -/
def StepResult.withDetail (r : StepResult) (d : Str) : StepResult := { r with detail := d }

/-- Rust `{:?}` on an `Option<String>`. -/
def fmtOpt : Option Str → Str
  | none => str "None"
  | some s => str "Some(\"" ++ s ++ str "\")"

/-- Rust `{}` on a `bool`. -/
def fmtBool : Bool → Str
  | true => str "true"
  | false => str "false"

/-- The insertion built by `patch_nu_detection`. -/
def nuInsertion (v : DiscoveredVars) : Str :=
  v.hint_var ++ str ".includes(\"nu\")?" ++ v.enum_var ++ str ".Naive:"

/-- `patch_nu_detection` (src/core.rs lines 253-317). -/
def patch_nu_detection (code : Str) (v : DiscoveredVars) : Str × StepResult :=
  if v.has_nu_detection then
    (code, .mkSkipped (str "Nu detection") (str "Already present, skipped"))
  else
    let zshPattern := v.hint_var ++ str ".includes(\"zsh\")"
    match firstOcc zshPattern code with
    | none =>
      (code, .mkFail (str "Nu detection") (str "Cannot locate detectShellType region"))
    | some zshIdx =>
      let region := (code.drop zshIdx).take 2000
      let psIncludes := v.hint_var ++ str ".includes(\"pwsh\")"
      match firstOcc psIncludes region with
      | none =>
        (code, .mkFail (str "Nu detection")
          (str "Cannot find " ++ psIncludes ++ str " in detectShellType"))
      | some psIncIdx =>
        let insPoint := zshIdx + psIncIdx
        let insertion := nuInsertion v
        if insertion.isPrefixOf (code.drop insPoint) then
          (code, .mkSkipped (str "Nu detection") (str "Already present at insertion point, skipped"))
        else
          let newCode := insertAt code insertion insPoint
          let ctxStart := insPoint - 40
          let ctxEnd := min (insPoint + insertion.length + 60) newCode.length
          let detail := str "Insertion: " ++ insertion ++ str "\nContext:   ..." ++
            ((newCode.drop ctxStart).take (ctxEnd - ctxStart)) ++ str "..."
          (newCode,
           (StepResult.mkOk (str "Nu detection")
             (str "Inserted before PowerShell check")).withDetail detail)

/-- The insertion built by `patch_system_nu_detection`. -/
def sysNuInsertion (cmdExists enum : Str) : Str :=
  cmdExists ++ str "(\"nu\")?" ++ enum ++ str ".Naive:"

/-- `patch_system_nu_detection` (src/core.rs lines 331-398). -/
def patch_system_nu_detection (code : Str) (v : DiscoveredVars) : Str × StepResult :=
  if v.has_system_nu then
    (code, .mkSkipped (str "System nu detection") (str "Already present, skipped"))
  else
    match v.cmd_exists_fn with
    | none =>
      (code, .mkFail (str "System nu detection") (str "Cannot find commandExists function (Ie/Qe)"))
    | some cmdExists =>
      let tailPattern := v.enum_var ++ str ".PowerShell:" ++ v.enum_var ++ str ".Naive\x7d"
      match lastOcc tailPattern code with
      | none =>
        (code, .mkFail (str "System nu detection")
          (str "Cannot find `" ++ tailPattern ++ str "` at end of detectShellType"))
      | some tailIdx =>
        let psColon := v.enum_var ++ str ".PowerShell:"
        let naiveStart := tailIdx + psColon.length
        let insertion := sysNuInsertion cmdExists v.enum_var
        let newCode := insertAt code insertion naiveStart
        let ctxStart := naiveStart - 40
        let ctxEnd := min (naiveStart + insertion.length + 40) newCode.length
        let detail := str "Insertion: " ++ insertion ++ str "\nContext:   ..." ++
          ((newCode.drop ctxStart).take (ctxEnd - ctxStart)) ++ str "..."
        (newCode,
         (StepResult.mkOk (str "System nu detection")
           (str "Inserted PATH-based nu check before final fallback")).withDetail detail)

/-- `patch_user_terminal_hint` (src/core.rs lines 411-441). -/
def patch_user_terminal_hint (code : Str) (v : DiscoveredVars) : Str × StepResult :=
  if v.has_user_terminal_hint then
    (code, .mkSkipped (str "userTerminalHint") (str "Already present, skipped"))
  else
    match uthCapture code with
    | none =>
      (code, .mkFail (str "userTerminalHint") (str "Cannot find ?.shell?? pattern"))
    | some shellVar =>
      let find := shellVar ++ str "?.shell??"
      let repl := shellVar ++ str "?.shell??" ++ shellVar ++ str "?.userTerminalHint??"
      let newCode := replaceFirst code find repl
      let detail := str "Find:    " ++ find ++ str "\nReplace: " ++ repl
      (newCode,
       (StepResult.mkOk (str "userTerminalHint")
         (find ++ str " -> " ++ repl)).withDetail detail)

/-- The `case <enum>.Naive:` block built by `patch_naive_case`. -/
def naiveCaseBlock (enum findExec lazyExec naiveExec optsVar : Str) : Str :=
  str "case " ++ enum ++ str ".Naive:\x7bconst _np=" ++ findExec ++
  str "(\"nu\",[]).cmd;return new " ++ lazyExec ++ str "(Promise.resolve(new " ++
  naiveExec ++ str "(process.cwd(),\x7bshell:" ++ optsVar ++
  str "?.userTerminalHint||(_np!==\"nu\"?_np:void 0)||process.env.SHELL||\"/bin/sh\",..." ++
  optsVar ++ str "\x7d)))\x7d"

/-- The failure message shared by the two missing-executor branches. -/
def naiveCaseFailMsg (v : DiscoveredVars) : Str :=
  str "Cannot construct Naive case (lazy_exec=" ++ fmtOpt v.lazy_exec ++
  str ", naive_exec=" ++ fmtOpt v.naive_exec ++ str ")"

/-- `patch_naive_case` (src/core.rs lines 452-562). -/
def patch_naive_case (code : Str) (v : DiscoveredVars) : Str × StepResult :=
  if v.has_naive_case then
    (code, .mkSkipped (str "Naive case") (str "Already exists, skipped"))
  else
    match v.lazy_exec with
    | none => (code, .mkFail (str "Naive case") (naiveCaseFailMsg v))
    | some lazyExec =>
      match v.naive_exec with
      | none => (code, .mkFail (str "Naive case") (naiveCaseFailMsg v))
      | some naiveExec =>
        match v.find_exec_call with
        | none =>
          (code, .mkFail (str "Naive case") (str "Cannot find findActualExecutable call pattern"))
        | some findExec =>
          let optsVar := (optsCapture code).getD (str "t")
          let naiveCase := naiveCaseBlock v.enum_var findExec lazyExec naiveExec optsVar
          let zshCase := str "case " ++ v.enum_var ++ str ".Zsh:"
          match firstOcc zshCase code with
          | none => (code, .mkFail (str "Naive case") (str "Cannot find executor factory"))
          | some searchFrom =>
            let rest := code.drop searchFrom
            let defaultIdx := (firstOcc (str "default:") rest).filter (fun d => d < 10000)
            let zshLight := str "case " ++ v.enum_var ++ str ".ZshLight:"
            let targetChoice : Option (Nat × Str) :=
              match defaultIdx with
              | some d => some (searchFrom + d, str "before default:")
              | none =>
                match firstOcc zshLight rest with
                | some z => some (searchFrom + z, str "before ZshLight")
                | none => none
            match targetChoice with
            | none =>
              (code, .mkFail (str "Naive case") (str "Cannot find insertion point for Naive case"))
            | some ti =>
              let newCode := insertAt code naiveCase ti.1
              (newCode,
               (StepResult.mkOk (str "Naive case")
                 (str "Inserted " ++ ti.2)).withDetail (str "Insertion: " ++ naiveCase))

/-- The replacement expression built by `patch_shell_path_fallback`. -/
def shellFallbackRepl (enum findExec : Str) : Str :=
  str "case " ++ enum ++ str ".Naive:\x7bconst _np=" ++ findExec ++
  str "(\"nu\",[]).cmd;if(_np!==\"nu\")return _np\x7ddefault:return process.env.SHELL||(\"win32\"===process.platform?ne():\"/bin/sh\")"

/-- The literal searched for by `patch_shell_path_fallback`. -/
def shellFallbackFind : Str := str "default:return process.env.SHELL||\"/bin/sh\""

/-- `patch_shell_path_fallback` (src/core.rs lines 576-647). -/
def patch_shell_path_fallback (code : Str) (v : DiscoveredVars) : Str × StepResult :=
  match v.find_exec_call with
  | none =>
    (code, .mkFail (str "Shell path fallback") (str "Cannot find findActualExecutable call pattern"))
  | some findExec =>
    let naiveMarker := findExec ++ str "(\"nu\",[])"
    if containsStr code naiveMarker then
      (code, .mkSkipped (str "Shell path fallback") (str "Already patched, skipped"))
    else
      let find := shellFallbackFind
      if !containsStr code find then
        (code, .mkFail (str "Shell path fallback")
          (str "Cannot find `" ++ find ++ str "` pattern"))
      else
        let ctxOk :=
          match firstOcc find code with
          | some idx =>
            let regionStart := idx - 500
            let region := (code.drop regionStart).take (idx - regionStart)
            containsStr region (str "findActualExecutable") || containsStr region (str "PowerShell")
          | none => true
        if !ctxOk then
          (code, .mkFail (str "Shell path fallback")
            (str "Found pattern but not in getShellExecutablePath context"))
        else
          let repl := shellFallbackRepl v.enum_var findExec
          let newCode := replaceFirst code find repl
          let detail := str "Find:    " ++ find ++ str "\nReplace: " ++ repl
          (newCode,
           (StepResult.mkOk (str "Shell path fallback")
             (str "Added Naive case with PATH-based nu discovery")).withDetail detail)

/-!
### Driver (src/core.rs lines 653-789, src/integrity.rs lines 58-88)
-/

/-- Result of a patch operation (struct `PatchResult`). -/
structure PatchResult where
  success : Bool
  steps : List StepResult
deriving Repr, DecidableEq

abbrev PatchFn := Str → DiscoveredVars → Str × StepResult

/-- Static plan configuration (struct `PatchPlan`). -/
structure PatchPlan where
  label : Str
  patches : List (Str × PatchFn)
  is_fully_patched : QuickDetect → Bool
  restore_before_patch : Bool

/-- On-disk state relevant to one `run_patch` call: the target file's
content, the content of its `.bak` sibling when that file exists, and the
target's display name (used only in messages). -/
structure FsState where
  target : Str
  bak : Option Str
  fname : Str
deriving Repr, DecidableEq

/-- `integrity::backup`: create the `.bak` copy only if absent. -/
def backup (fs : FsState) : FsState :=
  match fs.bak with
  | some _ => fs
  | none => { fs with bak := some fs.target }

/-- `integrity::restore_from_backup`: copy `.bak` over the target when present. -/
def restore_from_backup (fs : FsState) : FsState × Bool :=
  match fs.bak with
  | some b => ({ fs with target := b }, true)
  | none => (fs, false)

/-- The step loop of `run_patch` (src/core.rs lines 722-735): run each
patch in order over the accumulated text, stopping at the first failure. -/
def applySteps (patches : List (Str × PatchFn)) (code : Str) (v : DiscoveredVars) :
    Str × List StepResult × Bool :=
  match patches with
  | [] => (code, [], true)
  | nf :: rest =>
    let r := nf.2 code v
    if r.2.ok then
      let t := applySteps rest r.1 v
      (t.1, r.2 :: t.2.1, t.2.2)
    else (code, [r.2], false)

/-- The detail attached to the "Pattern discovery" step. -/
def discoveryDetail (v : DiscoveredVars) : Str :=
  str "hint_var=" ++ v.hint_var ++ str "  enum_var=" ++ v.enum_var ++
  str "  lazy_exec=" ++ fmtOpt v.lazy_exec ++ str "  naive_exec=" ++ fmtOpt v.naive_exec ++
  str "  cmd_exists=" ++ fmtOpt v.cmd_exists_fn ++ str "  find_exec=" ++ fmtOpt v.find_exec_call ++
  str "  has_uth=" ++ fmtBool v.has_user_terminal_hint ++
  str "  has_sys_nu=" ++ fmtBool v.has_system_nu

/-- The "Pattern discovery" step pushed on the non-short-circuit path. -/
def discStep (v : DiscoveredVars) : StepResult :=
  (StepResult.mkOk (str "Pattern discovery")
    (str "Discovered minified variable names")).withDetail (discoveryDetail v)

/-- Does the quick-detection short-circuit of `run_patch` fire? -/
def shortCircuits (fs : FsState) (plan : PatchPlan) : Bool :=
  match quick_detect fs.target with
  | some det => plan.is_fully_patched det
  | none => false

/-- The steps reported by the short-circuit branch of `run_patch`. -/
def shortCircuitSteps (plan : PatchPlan) : List StepResult :=
  StepResult.mkOk (str "Pattern discovery") (str "Discovered minified variable names")
    :: plan.patches.map (fun p => StepResult.mkSkipped p.1 (str "Already present, skipped"))

/-- The filesystem state after the backup/restore prelude of a non-dry
run (src/core.rs lines 688-697). -/
def prepped (fs : FsState) (plan : PatchPlan) : FsState :=
  let fs1 := backup fs
  if plan.restore_before_patch then (restore_from_backup fs1).1 else fs1

/-- The non-short-circuit path of `run_patch` (src/core.rs lines 688-747). -/
def run_patch_main (fs : FsState) (dry_run : Bool) (plan : PatchPlan) : FsState × PatchResult :=
  let fs2 := if dry_run then fs else prepped fs plan
  let code := fs2.target
  match discover_vars code with
  | .error err =>
    (fs2, { success := false, steps := [StepResult.mkFail (str "Pattern discovery") err] })
  | .ok v =>
    let t := applySteps plan.patches code v
    if !t.2.2 then
      (fs2, { success := false, steps := discStep v :: t.2.1 })
    else if !dry_run then
      ({ fs2 with target := t.1 },
       { success := true,
         steps := discStep v :: t.2.1 ++
           [StepResult.mkOk (str "Write") (str "Written: " ++ fs.fname)] })
    else
      (fs2,
       { success := true,
         steps := discStep v :: t.2.1 ++
           [StepResult.mkSkipped (str "Write") (str "Would write: " ++ fs.fname)] })

/-- `run_patch` (src/core.rs lines 665-748). -/
def run_patch (fs : FsState) (dry_run : Bool) (plan : PatchPlan) : FsState × PatchResult :=
  if shortCircuits fs plan then
    (fs, { success := true, steps := shortCircuitSteps plan })
  else run_patch_main fs dry_run plan

/-- `CLI_PLAN` (src/core.rs lines 754-763). -/
def CLI_PLAN : PatchPlan :=
  { label := str "CLI"
    patches := [(str "Nu detection", patch_nu_detection),
                (str "System nu detection", patch_system_nu_detection),
                (str "Naive case", patch_naive_case)]
    is_fully_patched := fun d => d.has_nu && d.has_system_nu && d.has_naive_case
    restore_before_patch := false }

/-- `IDE_PLAN` (src/core.rs lines 774-784). -/
def IDE_PLAN : PatchPlan :=
  { label := str "IDE"
    patches := [(str "Nu detection", patch_nu_detection),
                (str "System nu detection", patch_system_nu_detection),
                (str "userTerminalHint", patch_user_terminal_hint),
                (str "Shell path fallback", patch_shell_path_fallback)]
    is_fully_patched := fun d => d.has_nu && d.has_system_nu && d.has_uth
    restore_before_patch := true }

/-- `patch_cli_agent` (src/core.rs lines 766-768). -/
def patch_cli_agent (fs : FsState) (dry_run : Bool) : FsState × PatchResult :=
  run_patch fs dry_run CLI_PLAN

/-- `patch_ide_agent` (src/core.rs lines 787-789). -/
def patch_ide_agent (fs : FsState) (dry_run : Bool) : FsState × PatchResult :=
  run_patch fs dry_run IDE_PLAN

/-!
### Concrete inputs used as witnesses and counterexamples
-/

/-- A CLI-target text on which all three CLI presence flags hold. -/
def fulCliText : Str :=
  str "h.includes(\"zsh\")?E.Zsh;h.includes(\"nu\")?E.Naive;case E.Naive:;function F(x)\x7btry\x7breturn(0,m.g)(x,[]).cmd!==x\x7d;F(\"nu\")"

/-- Filesystem state holding `fulCliText` with no backup. -/
def fulCliFs : FsState := { target := fulCliText, bak := none, fname := str "index.js" }

/-- The quick-detection result of `fulCliText`. -/
def fulCliDet : QuickDetect :=
  { has_nu := true, has_system_nu := true, has_naive_case := true, has_uth := false }

/-- An unpatched CLI-target text on which every CLI patch step succeeds. -/
def demoCliText : Str :=
  str "a.includes(\"zsh\")?q.Zsh:a.includes(\"pwsh\")?q.Pwsh:q.PowerShell:q.Naive\x7dfunction F(x)\x7btry\x7breturn(0,m.g)(x,[]).cmd!==x\x7dcase q.Zsh:new L(new N(process.cwd(),\x7bshell:x\x7d)default:"

/-- Filesystem state holding `demoCliText` with no backup. -/
def demoCliFs : FsState := { target := demoCliText, bak := none, fname := str "index.js" }

/-- The `DiscoveredVars` of `demoCliText`. -/
def demoCliVars : DiscoveredVars :=
  { hint_var := str "a", enum_var := str "q", lazy_exec := some (str "L")
    naive_exec := some (str "N"), cmd_exists_fn := some (str "F")
    find_exec_call := some (str "(0,m.g)"), has_naive_case := false, has_nu_detection := false
    has_system_nu := false, has_user_terminal_hint := false }

/-- Target whose live content has a discoverable anchor but whose stale
backup does not; drives the C2/C4 counterexamples. -/
def divergentFs : FsState :=
  { target := str "a.includes(\"zsh\")?b.Zsh", bak := some (str "x"), fname := str "main.js" }

/-- A `DiscoveredVars` record with no optional symbol found and no flag set. -/
def emptyVars : DiscoveredVars :=
  { hint_var := str "h", enum_var := str "E", lazy_exec := none, naive_exec := none
    cmd_exists_fn := none, find_exec_call := none, has_naive_case := false
    has_nu_detection := false, has_system_nu := false, has_user_terminal_hint := false }

/-- `emptyVars` with the `findActualExecutable` call pattern present. -/
def fexVars : DiscoveredVars :=
  { emptyVars with cmd_exists_fn := some (str "F"), find_exec_call := some (str "(0,m.g)") }

/-- Bool test: the head character, if any, is not a word character. -/
def headNonWord (s : Str) : Bool :=
  match s.head? with
  | none => true
  | some c => !wordChar c

/-- Bool test: the last character, if any, is not a word character. -/
def lastNonWord (s : Str) : Bool :=
  match s.getLast? with
  | none => true
  | some c => !wordChar c

/-- All characters are word characters. -/
def allWord (s : Str) : Bool := s.all (fun c => wordChar c)

/-- All characters are whitespace characters. -/
def allWs (s : Str) : Bool := s.all (fun c => wsChar c)

/-- Bool test: the head character, if any, is not a whitespace character. -/
def headNonWs (s : Str) : Bool :=
  match s.head? with
  | none => true
  | some c => !wsChar c

/-- The full text matched by one `re1` site with enum run `e`. -/
def zshW (e : Str) : Str := zshLit ++ e ++ str ".Zsh"

/-- The full text matched by one `re_cmd` site with the given runs. -/
def cmdW (ws f a m g a2 w : Str) : Str :=
  str "function" ++ ws ++ f ++ str "(" ++ a ++ str ")\x7btry\x7breturn(0," ++ m ++
  str "." ++ g ++ str ")(" ++ a2 ++ str ",[]).cmd!==" ++ w ++ str "\x7d"

/-- The full text matched by one `re_uth` site with shell run `x`. -/
def uthW (x : Str) : Str := str ".shell??" ++ x ++ str "?.userTerminalHint??"

/-- Decomposition form of one valid `re1` site at literal position `k`. -/
def zshSiteAt (s : Str) (k : Nat) (ch : Char) (e rest : Str) : Prop :=
  wordChar ch = true ∧ e ≠ [] ∧ allWord e = true ∧ 1 ≤ k ∧
  s.drop (k - 1) = ch :: (zshLit ++ (e ++ (str ".Zsh" ++ rest)))

/-- Decomposition form of one `re_uth` site at position `k`. -/
def uthSiteAt (s : Str) (k : Nat) (x rest : Str) : Prop :=
  x ≠ [] ∧ allWord x = true ∧
  s.drop k = str ".shell??" ++ (x ++ (str "?.userTerminalHint??" ++ rest))

/-- Decomposition form of one `re_cmd` site at position `k`. -/
def cmdSiteAt (s : Str) (k : Nat) (ws f a m g a2 w rest : Str) : Prop :=
  allWs ws = true ∧ ws ≠ [] ∧ allWord f = true ∧ f ≠ [] ∧
  allWord a = true ∧ a ≠ [] ∧ allWord m = true ∧ m ≠ [] ∧
  allWord g = true ∧ g ≠ [] ∧ allWord a2 = true ∧ a2 ≠ [] ∧
  allWord w = true ∧ w ≠ [] ∧
  s.drop k = str "function" ++ (ws ++ (f ++ (str "(" ++ (a ++
    (str ")\x7btry\x7breturn(0," ++ (m ++ (str "." ++ (g ++ (str ")(" ++
    (a2 ++ (str ",[]).cmd!==" ++ (w ++ (str "\x7d" ++ rest)))))))))))))

/-- The common outcome shape of a patch step: a fixed name, and either a
skipped success, a failure, or a genuine success; the text is returned
unchanged exactly in the first two cases, and detail is attached exactly
in the third. -/
def StepShape (name code : Str) (r : Str × StepResult) : Prop :=
  r.2.name = name ∧
  ((r.2.skipped = true ∧ r.2.ok = true ∧ r.1 = code ∧ r.2.detail = []) ∨
   (r.2.ok = false ∧ r.2.skipped = false ∧ r.1 = code ∧ r.2.detail = []) ∨
   (r.2.ok = true ∧ r.2.skipped = false ∧ r.1 ≠ code ∧ r.2.detail ≠ []))

/-!
## Basic lemmas about the string operations
-/

theorem occursAt_iff {pat s : Str} {i : Nat} : occursAt pat s i = true ↔ pat <+: s.drop i := by
  simp [occursAt]

theorem mem_occIdxs_iff {pat s : Str} {i : Nat} :
    i ∈ occIdxs pat s ↔ i < s.length + 1 ∧ pat <+: s.drop i := by
  simp [occIdxs, List.mem_filter, List.mem_range, occursAt_iff]

theorem containsStr_iff {s pat : Str} : containsStr s pat = true ↔ pat <:+: s := by
  constructor
  · intro h
    have hsome : (firstOcc pat s).isSome := by simpa [containsStr] using h
    obtain ⟨i, hi⟩ := Option.isSome_iff_exists.mp hsome
    have hmem : i ∈ occIdxs pat s := List.mem_of_mem_head? (by simp [firstOcc] at hi; simp [hi])
    have := mem_occIdxs_iff.mp hmem
    exact List.infix_iff_prefix_suffix.mpr ⟨s.drop i, this.2, List.drop_suffix i s⟩
  · rintro ⟨u, w, rfl⟩
    have hocc : u.length ∈ occIdxs pat (u ++ pat ++ w) := by
      rw [mem_occIdxs_iff]
      constructor
      · simp; omega
      · rw [List.append_assoc, List.drop_left]
        exact ⟨w, rfl⟩
    have hne : occIdxs pat (u ++ pat ++ w) ≠ [] := List.ne_nil_of_mem hocc
    simp only [containsStr, firstOcc]
    rw [Option.isSome_iff_ne_none]
    simpa using hne

theorem firstOcc_some_spec {pat s : Str} {i : Nat} (h : firstOcc pat s = some i) :
    i ≤ s.length ∧ pat <+: s.drop i := by
  have hmem : i ∈ occIdxs pat s := List.mem_of_mem_head? (by simp [firstOcc] at h; simp [h])
  have := mem_occIdxs_iff.mp hmem
  exact ⟨by omega, this.2⟩

theorem lastOcc_some_spec {pat s : Str} {i : Nat} (h : lastOcc pat s = some i) :
    i ≤ s.length ∧ pat <+: s.drop i := by
  have hmem : i ∈ occIdxs pat s := by
    simp only [lastOcc] at h
    exact List.mem_of_getLast?_eq_some h
  have := mem_occIdxs_iff.mp hmem
  exact ⟨by omega, this.2⟩

theorem length_insertAt (s ins : Str) (i : Nat) :
    (insertAt s ins i).length = s.length + ins.length := by
  simp [insertAt]
  omega

theorem insertAt_ne_of_ne_nil {s ins : Str} (i : Nat) (h : ins ≠ []) : insertAt s ins i ≠ s := by
  intro he
  have := length_insertAt s ins i
  rw [he] at this
  have : ins.length = 0 := by omega
  exact h (List.length_eq_zero.mp this)

theorem insertAt_keeps_sub {s ins pat : Str} {i : Nat} (h : pat <:+: ins) :
    pat <:+: insertAt s ins i :=
  h.trans ⟨s.take i, s.drop i, rfl⟩

theorem containsStr_insertAt_of_sub {s ins pat : Str} {i : Nat} (h : pat <:+: ins) :
    containsStr (insertAt s ins i) pat = true :=
  containsStr_iff.mpr (insertAt_keeps_sub h)

theorem replaceFirst_found {s find repl : Str} {i : Nat} (h : firstOcc find s = some i) :
    replaceFirst s find repl = s.take i ++ repl ++ s.drop (i + find.length) := by
  simp [replaceFirst, h]

theorem replaceFirst_keeps_sub {s find repl pat : Str} {i : Nat}
    (hf : firstOcc find s = some i) (h : pat <:+: repl) :
    pat <:+: replaceFirst s find repl := by
  rw [replaceFirst_found hf]
  exact h.trans ⟨s.take i, s.drop (i + find.length), rfl⟩

theorem length_replaceFirst_found {s find repl : Str} {i : Nat} (h : firstOcc find s = some i) :
    (replaceFirst s find repl).length = s.length - find.length + repl.length := by
  obtain ⟨hle, hpre⟩ := firstOcc_some_spec h
  have hfit : find.length ≤ s.length - i := by
    have := hpre.length_le
    simpa using this
  rw [replaceFirst_found h]
  simp
  omega

theorem containsStr_some_firstOcc {s pat : Str} (h : containsStr s pat = true) :
    ∃ i, firstOcc pat s = some i := by
  simp only [containsStr] at h
  exact Option.isSome_iff_exists.mp h

theorem ne_nil_append_right {a b : Str} (h : b ≠ []) : a ++ b ≠ [] := by
  simp only [ne_eq, List.append_eq_nil]
  exact fun hc => h hc.2

theorem ne_nil_append_left {a b : Str} (h : a ≠ []) : a ++ b ≠ [] := by
  simp only [ne_eq, List.append_eq_nil]
  exact fun hc => h hc.1

theorem wordRunBack_suffix (s : Str) (i : Nat) : wordRunBack s i <:+ s.take i := by
  refine ⟨((s.take i).reverse.dropWhile (fun c => wordChar c)).reverse, ?_⟩
  unfold wordRunBack
  rw [← List.reverse_append, List.takeWhile_append_dropWhile, List.reverse_reverse]

/-!
## Per-step outcome shapes
-/

theorem patch_nu_detection_shape (code : Str) (v : DiscoveredVars) :
    StepShape (str "Nu detection") code (patch_nu_detection code v) := by
  unfold patch_nu_detection StepShape
  split
  · exact ⟨rfl, Or.inl ⟨rfl, rfl, rfl, rfl⟩⟩
  · dsimp only
    split
    · exact ⟨rfl, Or.inr (Or.inl ⟨rfl, rfl, rfl, rfl⟩)⟩
    · split
      · exact ⟨rfl, Or.inr (Or.inl ⟨rfl, rfl, rfl, rfl⟩)⟩
      · split
        · exact ⟨rfl, Or.inl ⟨rfl, rfl, rfl, rfl⟩⟩
        · refine ⟨rfl, Or.inr (Or.inr ⟨rfl, rfl, ?_, ?_⟩)⟩
          · apply insertAt_ne_of_ne_nil
            unfold nuInsertion
            apply ne_nil_append_right
            decide
          · apply ne_nil_append_left
            apply ne_nil_append_left
            apply ne_nil_append_left
            apply ne_nil_append_left
            decide

theorem patch_system_nu_detection_shape (code : Str) (v : DiscoveredVars) :
    StepShape (str "System nu detection") code (patch_system_nu_detection code v) := by
  unfold patch_system_nu_detection StepShape
  split
  · exact ⟨rfl, Or.inl ⟨rfl, rfl, rfl, rfl⟩⟩
  · split
    case h_1 => exact ⟨rfl, Or.inr (Or.inl ⟨rfl, rfl, rfl, rfl⟩)⟩
    case h_2 cmdExists hcmd =>
      dsimp only
      split
      · exact ⟨rfl, Or.inr (Or.inl ⟨rfl, rfl, rfl, rfl⟩)⟩
      · refine ⟨rfl, Or.inr (Or.inr ⟨rfl, rfl, ?_, ?_⟩)⟩
        · apply insertAt_ne_of_ne_nil
          unfold sysNuInsertion
          apply ne_nil_append_right
          decide
        · apply ne_nil_append_left
          apply ne_nil_append_left
          apply ne_nil_append_left
          apply ne_nil_append_left
          decide

theorem uthMatchSite_spec {code x : Str} {k : Nat} (h : uthMatchSite code k = some x) :
    occursAt (str "?.shell??") code k = true ∧ x = wordRunBack code k ∧ x ≠ [] := by
  unfold uthMatchSite at h
  split at h
  case isFalse => exact absurd h (by simp)
  case isTrue hocc =>
    dsimp only at h
    split at h
    case isTrue => exact absurd h (by simp)
    case isFalse hxe =>
      split at h
      case isTrue => exact absurd h (by simp)
      case isFalse =>
        have hx : wordRunBack code k = x := Option.some.inj h
        refine ⟨hocc, hx.symm, ?_⟩
        rw [← hx]
        intro hnil
        exact hxe (by simp [hnil])

theorem uthCapture_spec {code x : Str} (h : uthCapture code = some x) :
    x ≠ [] ∧ containsStr code (x ++ str "?.shell??") = true := by
  have hmem2 : x ∈ (occIdxs (str "?.shell??") code).filterMap (fun k => uthMatchSite code k) :=
    List.mem_of_mem_head? (Option.mem_def.mpr h)
  obtain ⟨k, hk, hsite⟩ := List.mem_filterMap.mp hmem2
  obtain ⟨hocc, hx, hxne⟩ := uthMatchSite_spec hsite
  refine ⟨hxne, ?_⟩
  rw [containsStr_iff]
  obtain ⟨y, hy⟩ := wordRunBack_suffix code k
  obtain ⟨z, hz⟩ := occursAt_iff.mp hocc
  refine ⟨y, z, ?_⟩
  conv_rhs => rw [← List.take_append_drop k code]
  rw [← hy, ← hz, hx]
  simp

theorem patch_user_terminal_hint_shape (code : Str) (v : DiscoveredVars) :
    StepShape (str "userTerminalHint") code (patch_user_terminal_hint code v) := by
  unfold patch_user_terminal_hint StepShape
  split
  · exact ⟨rfl, Or.inl ⟨rfl, rfl, rfl, rfl⟩⟩
  · split
    case h_1 => exact ⟨rfl, Or.inr (Or.inl ⟨rfl, rfl, rfl, rfl⟩)⟩
    case h_2 x hcap =>
      dsimp only
      refine ⟨rfl, Or.inr (Or.inr ⟨rfl, rfl, ?_, ?_⟩)⟩
      · obtain ⟨hxne, hcs⟩ := uthCapture_spec hcap
        obtain ⟨i, hi⟩ := containsStr_some_firstOcc hcs
        intro he
        have hlen := @length_replaceFirst_found code (x ++ str "?.shell??")
          (x ++ str "?.shell??" ++ x ++ str "?.userTerminalHint??") i hi
        rw [he] at hlen
        obtain ⟨hile, hpre⟩ := firstOcc_some_spec hi
        have hfit := hpre.length_le
        have h9 : (str "?.shell??").length = 9 := by decide
        have h20 : (str "?.userTerminalHint??").length = 20 := by decide
        simp only [List.length_append, List.length_drop, h9, h20] at hfit hlen
        omega
      · apply ne_nil_append_left
        apply ne_nil_append_left
        apply ne_nil_append_left
        decide

theorem patch_naive_case_shape (code : Str) (v : DiscoveredVars) :
    StepShape (str "Naive case") code (patch_naive_case code v) := by
  unfold patch_naive_case StepShape
  split
  · exact ⟨rfl, Or.inl ⟨rfl, rfl, rfl, rfl⟩⟩
  · split
    case h_1 => exact ⟨rfl, Or.inr (Or.inl ⟨rfl, rfl, rfl, rfl⟩)⟩
    case h_2 lazyExec hlz =>
      split
      case h_1 => exact ⟨rfl, Or.inr (Or.inl ⟨rfl, rfl, rfl, rfl⟩)⟩
      case h_2 naiveExec hne =>
        split
        case h_1 => exact ⟨rfl, Or.inr (Or.inl ⟨rfl, rfl, rfl, rfl⟩)⟩
        case h_2 findExec hfx =>
          dsimp only
          split
          case h_1 => exact ⟨rfl, Or.inr (Or.inl ⟨rfl, rfl, rfl, rfl⟩)⟩
          case h_2 searchFrom hsf =>
            split
            case h_1 => exact ⟨rfl, Or.inr (Or.inl ⟨rfl, rfl, rfl, rfl⟩)⟩
            case h_2 ti hti =>
              refine ⟨rfl, Or.inr (Or.inr ⟨rfl, rfl, ?_, ?_⟩)⟩
              · apply insertAt_ne_of_ne_nil
                unfold naiveCaseBlock
                apply ne_nil_append_right
                decide
              · apply ne_nil_append_left
                decide

theorem patch_shell_path_fallback_shape (code : Str) (v : DiscoveredVars) :
    StepShape (str "Shell path fallback") code (patch_shell_path_fallback code v) := by
  unfold patch_shell_path_fallback StepShape
  split
  case h_1 => exact ⟨rfl, Or.inr (Or.inl ⟨rfl, rfl, rfl, rfl⟩)⟩
  case h_2 findExec hfex =>
    dsimp only
    split
    · exact ⟨rfl, Or.inl ⟨rfl, rfl, rfl, rfl⟩⟩
    · split
      case isTrue => exact ⟨rfl, Or.inr (Or.inl ⟨rfl, rfl, rfl, rfl⟩)⟩
      case isFalse hfind =>
        split
        · exact ⟨rfl, Or.inr (Or.inl ⟨rfl, rfl, rfl, rfl⟩)⟩
        · refine ⟨rfl, Or.inr (Or.inr ⟨rfl, rfl, ?_, ?_⟩)⟩
          · have hcs : containsStr code shellFallbackFind = true := by
              revert hfind
              simp
            obtain ⟨i, hi⟩ := containsStr_some_firstOcc hcs
            intro he
            dsimp only at he
            have hlen := @length_replaceFirst_found code shellFallbackFind
              (shellFallbackRepl v.enum_var findExec) i hi
            rw [he] at hlen
            obtain ⟨hile, hpre⟩ := firstOcc_some_spec hi
            have hfit := hpre.length_le
            have hf1 : shellFallbackFind.length = 43 := by decide
            have hrep : 43 < (shellFallbackRepl v.enum_var findExec).length := by
              unfold shellFallbackRepl
              simp only [List.length_append]
              have h3 : 43 < (str "(\"nu\",[]).cmd;if(_np!==\"nu\")return _np\x7ddefault:return process.env.SHELL||(\"win32\"===process.platform?ne():\"/bin/sh\")").length := by decide
              omega
            simp only [List.length_drop, hf1] at hfit hlen
            omega
          · apply ne_nil_append_left
            apply ne_nil_append_left
            apply ne_nil_append_right
            decide

/-!
## Driver-level lemmas
-/

theorem plan_step_shapes {plan : PatchPlan} (hp : plan = CLI_PLAN ∨ plan = IDE_PLAN) :
    ∀ nf ∈ plan.patches, ∀ (code : Str) (v : DiscoveredVars),
      StepShape nf.1 code (nf.2 code v) := by
  intro nf hnf code v
  rcases hp with rfl | rfl
  · simp only [CLI_PLAN, List.mem_cons, List.not_mem_nil, or_false] at hnf
    rcases hnf with rfl | rfl | rfl
    · exact patch_nu_detection_shape code v
    · exact patch_system_nu_detection_shape code v
    · exact patch_naive_case_shape code v
  · simp only [IDE_PLAN, List.mem_cons, List.not_mem_nil, or_false] at hnf
    rcases hnf with rfl | rfl | rfl | rfl
    · exact patch_nu_detection_shape code v
    · exact patch_system_nu_detection_shape code v
    · exact patch_user_terminal_hint_shape code v
    · exact patch_shell_path_fallback_shape code v

theorem applySteps_sourced (patches : List (Str × PatchFn)) (code : Str) (v : DiscoveredVars) :
    ∀ s ∈ (applySteps patches code v).2.1, ∃ nf ∈ patches, ∃ c, s = (nf.2 c v).2 := by
  induction patches generalizing code with
  | nil =>
    intro s hs
    simp [applySteps] at hs
  | cons nf rest ih =>
    intro s hs
    unfold applySteps at hs
    dsimp only at hs
    split at hs
    · rcases List.mem_cons.mp hs with rfl | hmem
      · exact ⟨nf, List.mem_cons_self nf rest, code, rfl⟩
      · obtain ⟨nf', hnf', c, hc⟩ := ih (nf.2 code v).1 s hmem
        exact ⟨nf', List.mem_cons_of_mem nf hnf', c, hc⟩
    · rcases List.mem_cons.mp hs with rfl | hmem
      · exact ⟨nf, List.mem_cons_self nf rest, code, rfl⟩
      · exact absurd hmem (by simp)

theorem applySteps_ok_structure (patches : List (Str × PatchFn)) (code : Str) (v : DiscoveredVars) :
    ((applySteps patches code v).2.2 = true →
      ∀ s ∈ (applySteps patches code v).2.1, s.ok = true) ∧
    ((applySteps patches code v).2.2 = false →
      ∃ pre last, (applySteps patches code v).2.1 = pre ++ [last] ∧
        (∀ s ∈ pre, s.ok = true) ∧ last.ok = false) := by
  induction patches generalizing code with
  | nil => simp [applySteps]
  | cons nf rest ih =>
    unfold applySteps
    dsimp only
    split
    case isTrue hok =>
      obtain ⟨ih1, ih2⟩ := ih (nf.2 code v).1
      constructor
      · intro hall s hs
        rcases List.mem_cons.mp hs with rfl | hmem
        · exact hok
        · exact ih1 hall s hmem
      · intro hfail
        obtain ⟨pre, last, heq, hpre, hlast⟩ := ih2 hfail
        exact ⟨(nf.2 code v).2 :: pre, last, by rw [heq]; rfl, by
          intro s hs
          rcases List.mem_cons.mp hs with rfl | hmem
          · exact hok
          · exact hpre s hmem, hlast⟩
    case isFalse hok =>
      constructor
      · intro h
        exact absurd h (by simp)
      · intro _
        refine ⟨[], (nf.2 code v).2, rfl, by simp, ?_⟩
        simpa using hok

theorem run_patch_dry_state (fs : FsState) (plan : PatchPlan) :
    (run_patch fs true plan).1 = fs := by
  unfold run_patch run_patch_main
  split
  · rfl
  · dsimp only
    split
    · rfl
    · split_ifs <;> first | rfl | (exfalso; simp_all)

theorem applySteps_detail {plan : PatchPlan} (hplan : plan = CLI_PLAN ∨ plan = IDE_PLAN)
    (code : Str) (v : DiscoveredVars) :
    ∀ s ∈ (applySteps plan.patches code v).2.1,
      s.ok = true → s.skipped = false → s.detail ≠ [] := by
  intro s hs hok hskip
  obtain ⟨nf, hnf, c, rfl⟩ := applySteps_sourced _ _ _ s hs
  obtain ⟨-, hsh⟩ := plan_step_shapes hplan nf hnf c v
  rcases hsh with ⟨h1, -, -, -⟩ | ⟨h1, -, -, -⟩ | ⟨-, -, -, h4⟩
  · simp [h1] at hskip
  · simp [h1] at hok
  · exact h4

theorem applySteps_skip_ok {plan : PatchPlan} (hplan : plan = CLI_PLAN ∨ plan = IDE_PLAN)
    (code : Str) (v : DiscoveredVars) :
    ∀ s ∈ (applySteps plan.patches code v).2.1, s.skipped = true → s.ok = true := by
  intro s hs hskip
  obtain ⟨nf, hnf, c, rfl⟩ := applySteps_sourced _ _ _ s hs
  obtain ⟨-, hsh⟩ := plan_step_shapes hplan nf hnf c v
  rcases hsh with ⟨-, h2, -, -⟩ | ⟨-, h2, -, -⟩ | ⟨h1, -, -, -⟩
  · exact h2
  · simp [h2] at hskip
  · exact h1

theorem run_patch_dry_detail (fs : FsState) (plan : PatchPlan)
    (hplan : plan = CLI_PLAN ∨ plan = IDE_PLAN) :
    ∀ s ∈ (run_patch fs true plan).2.steps,
      s.ok = true → s.skipped = false → s.name ≠ str "Pattern discovery" → s.detail ≠ [] := by
  intro s hs hok hskip hname
  unfold run_patch run_patch_main at hs
  simp only [Bool.not_true, reduceIte] at hs
  split at hs
  · simp only [shortCircuitSteps] at hs
    rcases List.mem_cons.mp hs with rfl | hmem
    · exact absurd rfl hname
    · obtain ⟨p, hp, rfl⟩ := List.mem_map.mp hmem
      simp [StepResult.mkSkipped] at hskip
  · split at hs
    · simp only [List.mem_singleton] at hs
      subst hs
      simp [StepResult.mkFail] at hok
    · split at hs
      · rcases List.mem_cons.mp hs with rfl | hmem
        · exact absurd rfl hname
        · exact applySteps_detail hplan _ _ s hmem hok hskip
      · rcases List.mem_cons.mp hs with rfl | hmem
        · exact absurd rfl hname
        · rcases List.mem_append.mp hmem with hmem2 | hmem2
          · exact applySteps_detail hplan _ _ s hmem2 hok hskip
          · simp only [List.mem_singleton] at hmem2
            subst hmem2
            simp [StepResult.mkSkipped] at hskip

/-!
## Claim theorems
-/

/-- C6: whenever the quick-detection flags of the target satisfy the
plan's idempotency predicate, `run_patch` short-circuits: the state is
unchanged (no backup, no restore, no write — even with `dry_run = false`),
the overall result is a success, and every configured patch step is
reported as skipped. -/
theorem C6_quick_detect_short_circuit (fs : FsState) (dry_run : Bool) (plan : PatchPlan)
    (det : QuickDetect) (hq : quick_detect fs.target = some det)
    (hf : plan.is_fully_patched det = true) :
    (run_patch fs dry_run plan).1 = fs ∧
    (run_patch fs dry_run plan).2.success = true ∧
    ((run_patch fs dry_run plan).2.steps.tail.map (fun s => s.name) =
      plan.patches.map (fun p => p.1)) ∧
    (∀ s ∈ (run_patch fs dry_run plan).2.steps.tail, s.skipped = true ∧ s.ok = true) := by
  have hsc : shortCircuits fs plan = true := by
    unfold shortCircuits
    rw [hq]
    exact hf
  unfold run_patch
  rw [hsc]
  simp only [if_true, shortCircuitSteps, List.tail_cons]
  refine ⟨trivial, trivial, ?_, ?_⟩
  · rw [List.map_map]
    rfl
  · intro s hs
    obtain ⟨p, hp, rfl⟩ := List.mem_map.mp hs
    exact ⟨rfl, rfl⟩

/-- Witness for C6 on a concrete fully patched CLI target. -/
theorem C6_witness :
    (run_patch fulCliFs false CLI_PLAN).1 = fulCliFs ∧
    (run_patch fulCliFs false CLI_PLAN).2.success = true :=
  have h := C6_quick_detect_short_circuit fulCliFs false CLI_PLAN fulCliDet
    (by decide) (by decide)
  ⟨h.1, h.2.1⟩

/-- C3: a dry-run invocation of `patch_cli_agent` or `patch_ide_agent`
never modifies the filesystem state (no backup, no restore, no write),
while discovery and the step computations still run: every patch step
that reports a genuine (non-skipped) success carries a non-empty detail
payload describing the literal change. -/
theorem C3_dry_run_contract (fs : FsState) :
    (patch_cli_agent fs true).1 = fs ∧ (patch_ide_agent fs true).1 = fs ∧
    (∀ s ∈ (patch_cli_agent fs true).2.steps,
      s.ok = true → s.skipped = false → s.name ≠ str "Pattern discovery" → s.detail ≠ []) ∧
    (∀ s ∈ (patch_ide_agent fs true).2.steps,
      s.ok = true → s.skipped = false → s.name ≠ str "Pattern discovery" → s.detail ≠ []) := by
  refine ⟨run_patch_dry_state fs CLI_PLAN, run_patch_dry_state fs IDE_PLAN, ?_, ?_⟩
  · exact run_patch_dry_detail fs CLI_PLAN (Or.inl rfl)
  · exact run_patch_dry_detail fs IDE_PLAN (Or.inr rfl)

/-- Witness for C3 on a concrete state whose dry CLI run reaches every step. -/
theorem C3_witness :
    (patch_cli_agent demoCliFs true).1 = demoCliFs :=
  (C3_dry_run_contract demoCliFs).1

/-- C7: every patch step of the two plans either returns a changed text
together with a genuine (non-skipped) success report, or returns the
input text unchanged together with a failure or skipped report. -/
theorem C7_step_frame :
    ∀ nf ∈ CLI_PLAN.patches ++ IDE_PLAN.patches, ∀ (code : Str) (v : DiscoveredVars),
      (((nf.2 code v).2.ok = false ∨ (nf.2 code v).2.skipped = true) →
        (nf.2 code v).1 = code) ∧
      (((nf.2 code v).2.ok = true ∧ (nf.2 code v).2.skipped = false) →
        (nf.2 code v).1 ≠ code) := by
  intro nf hnf code v
  have hsh : StepShape nf.1 code (nf.2 code v) := by
    rcases List.mem_append.mp hnf with h | h
    · exact plan_step_shapes (Or.inl rfl) nf h code v
    · exact plan_step_shapes (Or.inr rfl) nf h code v
  obtain ⟨-, hsh⟩ := hsh
  constructor
  · rintro (hok | hskip)
    · rcases hsh with ⟨-, h2, -, -⟩ | ⟨-, -, h3, -⟩ | ⟨h1, -, -, -⟩
      · simp [h2] at hok
      · exact h3
      · simp [h1] at hok
    · rcases hsh with ⟨-, -, h3, -⟩ | ⟨-, h2, -, -⟩ | ⟨-, h2, -, -⟩
      · exact h3
      · simp [h2] at hskip
      · simp [h2] at hskip
  · rintro ⟨hok, hskip⟩
    rcases hsh with ⟨h1, -, -, -⟩ | ⟨h1, -, -, -⟩ | ⟨-, -, h3, -⟩
    · simp [h1] at hskip
    · simp [h1] at hok
    · exact h3

/-- Witness for C7: the nu-detection step genuinely rewrites `demoCliText`. -/
theorem C7_witness :
    (patch_nu_detection demoCliText demoCliVars).2.ok = true ∧
    (patch_nu_detection demoCliText demoCliVars).2.skipped = false ∧
    (patch_nu_detection demoCliText demoCliVars).1 ≠ demoCliText :=
  ⟨by decide, by decide,
    (C7_step_frame (str "Nu detection", patch_nu_detection)
      (by simp [CLI_PLAN, IDE_PLAN]) demoCliText demoCliVars).2
      ⟨by decide, by decide⟩⟩

theorem run_patch_forms (fs : FsState) (dry_run : Bool) (plan : PatchPlan) :
    (run_patch fs dry_run plan).2 = ⟨true, shortCircuitSteps plan⟩ ∨
    (∃ err, (run_patch fs dry_run plan).2 =
      ⟨false, [StepResult.mkFail (str "Pattern discovery") err]⟩) ∨
    (∃ code v, (run_patch fs dry_run plan).2 =
        ⟨false, discStep v :: (applySteps plan.patches code v).2.1⟩ ∧
      (applySteps plan.patches code v).2.2 = false) ∨
    (∃ code v w, w.ok = true ∧ (run_patch fs dry_run plan).2 =
        ⟨true, discStep v :: (applySteps plan.patches code v).2.1 ++ [w]⟩ ∧
      (applySteps plan.patches code v).2.2 = true) := by
  unfold run_patch run_patch_main
  by_cases hsc : shortCircuits fs plan = true
  · simp only [hsc, reduceIte]
    exact Or.inl trivial
  · simp only [Bool.not_eq_true] at hsc
    simp only [hsc, Bool.false_eq_true, reduceIte]
    set code := (if dry_run then fs else prepped fs plan).target with hcode
    cases hdisc : discover_vars code with
    | error e =>
      exact Or.inr (Or.inl ⟨e, rfl⟩)
    | ok v =>
      dsimp only
      by_cases ht : (applySteps plan.patches code v).2.2 = true
      · simp only [ht, Bool.not_true, Bool.false_eq_true, reduceIte]
        by_cases hdry : dry_run = true
        · simp only [hdry, Bool.not_true, Bool.false_eq_true, reduceIte]
          exact Or.inr (Or.inr (Or.inr ⟨code, v, _, rfl, rfl, ht⟩))
        · simp only [Bool.not_eq_true] at hdry
          simp only [hdry, Bool.not_false, reduceIte]
          exact Or.inr (Or.inr (Or.inr ⟨code, v, _, rfl, rfl, ht⟩))
      · simp only [Bool.not_eq_true] at ht
        simp only [ht, Bool.not_false, reduceIte]
        exact Or.inr (Or.inr (Or.inl ⟨code, v, rfl, ht⟩))

/-- C8: in every `run_patch` result over the two concrete plans, skipped
implies success; every step except possibly the last is successful (the
first failure terminates the loop, so no later step is attempted); and
the overall success flag holds exactly when all reported steps succeeded. -/
theorem C8_step_invariants (fs : FsState) (dry_run : Bool) (plan : PatchPlan)
    (hplan : plan = CLI_PLAN ∨ plan = IDE_PLAN) :
    (∀ s ∈ (run_patch fs dry_run plan).2.steps, s.skipped = true → s.ok = true) ∧
    (∀ s ∈ (run_patch fs dry_run plan).2.steps.dropLast, s.ok = true) ∧
    ((run_patch fs dry_run plan).2.success = true ↔
      ∀ s ∈ (run_patch fs dry_run plan).2.steps, s.ok = true) := by
  rcases run_patch_forms fs dry_run plan with hf | ⟨err, hf⟩ | ⟨code, v, hf, ht⟩ |
    ⟨code, v, w, hw, hf, ht⟩ <;> rw [hf] <;> dsimp only
  · refine ⟨?_, ?_, ?_⟩
    · intro s hs _
      rcases List.mem_cons.mp hs with rfl | hmem
      · rfl
      · obtain ⟨p, hp, rfl⟩ := List.mem_map.mp hmem
        rfl
    · intro s hs
      have hs2 : s ∈ (shortCircuitSteps plan) := (List.dropLast_prefix _).subset hs
      rcases List.mem_cons.mp hs2 with rfl | hmem
      · rfl
      · obtain ⟨p, hp, rfl⟩ := List.mem_map.mp hmem
        rfl
    · simp only [true_iff]
      intro s hs
      rcases List.mem_cons.mp hs with rfl | hmem
      · rfl
      · obtain ⟨p, hp, rfl⟩ := List.mem_map.mp hmem
        rfl
  · refine ⟨?_, ?_, ?_⟩
    · intro s hs
      simp only [List.mem_singleton] at hs
      subst hs
      intro h
      simp [StepResult.mkFail] at h
    · intro s hs
      simp at hs
    · simp [StepResult.mkFail]
  · obtain ⟨pre, last, heq, hpre, hlast⟩ :=
      (applySteps_ok_structure plan.patches code v).2 ht
    refine ⟨?_, ?_, ?_⟩
    · intro s hs hskip
      rcases List.mem_cons.mp hs with rfl | hmem
      · rfl
      · exact applySteps_skip_ok hplan _ _ s hmem hskip
    · intro s hs
      rw [heq, ← List.cons_append, List.dropLast_concat] at hs
      rcases List.mem_cons.mp hs with rfl | hmem
      · rfl
      · exact hpre s hmem
    · simp only [Bool.false_eq_true, false_iff, not_forall]
      refine ⟨last, ?_, ?_⟩
      · rw [heq]
        exact List.mem_cons_of_mem _ (by simp)
      · simp [hlast]
  · have hall := (applySteps_ok_structure plan.patches code v).1 ht
    have hallsteps : ∀ s ∈ discStep v :: (applySteps plan.patches code v).2.1 ++ [w],
        s.ok = true := by
      intro s hs
      rcases List.mem_cons.mp hs with rfl | hmem
      · rfl
      · rcases List.mem_append.mp hmem with h2 | h2
        · exact hall s h2
        · simp only [List.mem_singleton] at h2
          subst h2
          exact hw
    exact ⟨fun s hs _ => hallsteps s hs,
           fun s hs => hallsteps s ((List.dropLast_prefix _).subset hs),
           by simp only [true_iff]; exact hallsteps⟩

/-- Witness for C8 on a concrete successful CLI run. -/
theorem C8_witness :
    (∀ s ∈ (run_patch demoCliFs false CLI_PLAN).2.steps, s.skipped = true → s.ok = true) ∧
    (∀ s ∈ (run_patch demoCliFs false CLI_PLAN).2.steps.dropLast, s.ok = true) :=
  ⟨(C8_step_invariants demoCliFs false CLI_PLAN (Or.inl rfl)).1,
   (C8_step_invariants demoCliFs false CLI_PLAN (Or.inl rfl)).2.1⟩

theorem backup_of_none {fs : FsState} (hb : fs.bak = none) :
    backup fs = { fs with bak := some fs.target } := by
  unfold backup
  rw [hb]

theorem backup_of_some {fs : FsState} {b : Str} (hb : fs.bak = some b) : backup fs = fs := by
  unfold backup
  rw [hb]

theorem restore_of_some {fs : FsState} {b : Str} (hb : fs.bak = some b) :
    (restore_from_backup fs).1 = { fs with target := b } := by
  unfold restore_from_backup
  rw [hb]

theorem restore_from_backup_bak (fs : FsState) : (restore_from_backup fs).1.bak = fs.bak := by
  unfold restore_from_backup
  cases hb : fs.bak with
  | none => exact hb
  | some b => rfl

theorem prepped_bak (fs : FsState) (plan : PatchPlan) :
    (prepped fs plan).bak = (backup fs).bak := by
  unfold prepped
  split
  · exact restore_from_backup_bak (backup fs)
  · rfl

/-- The target content after the backup/restore prelude: unchanged unless
the plan restores from a pre-existing backup. -/
theorem prepped_target_cases (fs : FsState) (plan : PatchPlan) :
    (prepped fs plan).target = fs.target ∨
    (plan.restore_before_patch = true ∧ fs.bak = some (prepped fs plan).target) := by
  unfold prepped
  by_cases hrb : plan.restore_before_patch = true
  · simp only [hrb, reduceIte]
    cases hb : fs.bak with
    | none =>
      left
      rw [backup_of_none hb, @restore_of_some { fs with bak := some fs.target } fs.target rfl]
    | some b =>
      right
      refine ⟨by trivial, ?_⟩
      rw [backup_of_some hb, restore_of_some hb]
  · simp only [Bool.not_eq_true] at hrb
    simp only [hrb, Bool.false_eq_true, reduceIte]
    left
    unfold backup
    cases hb : fs.bak <;> rfl

theorem run_patch_live_state_forms (fs : FsState) (plan : PatchPlan)
    (hsc : shortCircuits fs plan = false) :
    (run_patch fs false plan).1 = prepped fs plan ∨
    (∃ t, (run_patch fs false plan).1 = { prepped fs plan with target := t }) := by
  unfold run_patch run_patch_main
  simp only [hsc, Bool.false_eq_true, reduceIte, Bool.not_false]
  cases hdisc : discover_vars (prepped fs plan).target with
  | error e => exact Or.inl (by trivial)
  | ok v =>
    dsimp only
    by_cases ht : (applySteps plan.patches (prepped fs plan).target v).2.2 = true
    · simp only [ht, Bool.not_true, Bool.false_eq_true, reduceIte]
      exact Or.inr ⟨_, by trivial⟩
    · simp only [Bool.not_eq_true] at ht
      simp only [ht, Bool.not_false, reduceIte]
      exact Or.inl (by trivial)

/-- C2 as stated is refuted: under the IDE plan, a run whose discovery
fails still overwrites the live target from a stale backup first. -/
theorem C2_counterexample :
    ((run_patch divergentFs false IDE_PLAN).2.steps.map (fun s => (s.name, s.ok)) =
      [(str "Pattern discovery", false)]) ∧
    (run_patch divergentFs false IDE_PLAN).1.target ≠ divergentFs.target := by
  constructor
  · decide
  · decide

/-- C2 (amended): on a non-dry run that does not short-circuit and whose
full discovery fails, no patch step is attempted and the discovery error
is the sole reported step; the target is untouched except that a
restore-before-patch plan first overwrites it with the content of the
pre-existing backup. -/
theorem C2_discovery_failure_contract (fs : FsState) (plan : PatchPlan) (err : Str)
    (hsc : shortCircuits fs plan = false)
    (hdisc : discover_vars (prepped fs plan).target = .error err) :
    run_patch fs false plan =
      (prepped fs plan,
       { success := false, steps := [StepResult.mkFail (str "Pattern discovery") err] }) ∧
    ((prepped fs plan).target = fs.target ∨
      (plan.restore_before_patch = true ∧ fs.bak = some (prepped fs plan).target)) := by
  constructor
  · unfold run_patch run_patch_main
    simp only [hsc, Bool.false_eq_true, reduceIte, hdisc]
  · exact prepped_target_cases fs plan

/-- Witness for C2 on the concrete divergent-backup state. -/
theorem C2_witness :
    run_patch divergentFs false IDE_PLAN =
      (prepped divergentFs IDE_PLAN,
       { success := false,
         steps := [StepResult.mkFail (str "Pattern discovery")
           (str "Cannot find includes(\"zsh\")?<enum>.Zsh pattern")] }) :=
  (C2_discovery_failure_contract divergentFs IDE_PLAN _ (by decide) (by rfl)).1

/-- C9 as stated is refuted: a non-dry patch attempt on an
already-fully-patched target short-circuits and creates no backup. -/
theorem C9_counterexample :
    (run_patch fulCliFs false CLI_PLAN).2.success = true ∧
    (run_patch fulCliFs false CLI_PLAN).1.bak = none := by
  constructor
  · decide
  · decide

/-- C9 (amended): on a non-dry patch attempt that does not short-circuit
on the already-fully-patched quick check, a missing backup is created
with the target's pre-run content, and an existing backup is never
overwritten — whether the run succeeds or fails. -/
theorem C9_backup_invariant (fs : FsState) (plan : PatchPlan)
    (hsc : shortCircuits fs plan = false) :
    (fs.bak = none → (run_patch fs false plan).1.bak = some fs.target) ∧
    (∀ b, fs.bak = some b → (run_patch fs false plan).1.bak = some b) := by
  have hbak : (run_patch fs false plan).1.bak = (backup fs).bak := by
    rcases run_patch_live_state_forms fs plan hsc with hform | ⟨t, hform⟩ <;>
      rw [hform] <;> exact prepped_bak fs plan
  constructor
  · intro hb
    rw [hbak]
    unfold backup
    rw [hb]
  · intro b hb
    rw [hbak]
    unfold backup
    rw [hb]
    exact hb

/-- Witness for C9 on a concrete unpatched CLI state with no backup. -/
theorem C9_witness :
    (run_patch demoCliFs false CLI_PLAN).1.bak = some demoCliText :=
  (C9_backup_invariant demoCliFs CLI_PLAN (by decide)).1 rfl

/-- C5 as stated is refuted: when the nu-detection step's anchor is
absent it reports a failure, not `skipped`. -/
theorem C5_counterexample :
    (patch_nu_detection (str "x") emptyVars).2.skipped = false ∧
    (patch_nu_detection (str "x") emptyVars).2.ok = false := by
  constructor
  · decide
  · decide

/-- C5 (amended): for the two detection-insertion steps with their
presence flag unset, a missing anchor makes the step report a failure
(not `skipped`) and return the text unchanged; only `patch_nu_detection`
re-checks the insertion point and reports `skipped` when the intended
insertion already sits exactly there; `patch_system_nu_detection` has no
such re-check and fails when its tail anchor is missing. -/
theorem C5_detection_step_guards (code : Str) (v : DiscoveredVars) :
    (v.has_nu_detection = false →
      (firstOcc (v.hint_var ++ str ".includes(\"zsh\")") code = none →
        patch_nu_detection code v =
          (code, StepResult.mkFail (str "Nu detection")
            (str "Cannot locate detectShellType region"))) ∧
      (∀ i, firstOcc (v.hint_var ++ str ".includes(\"zsh\")") code = some i →
        firstOcc (v.hint_var ++ str ".includes(\"pwsh\")") ((code.drop i).take 2000) = none →
        patch_nu_detection code v =
          (code, StepResult.mkFail (str "Nu detection")
            (str "Cannot find " ++ (v.hint_var ++ str ".includes(\"pwsh\")") ++
              str " in detectShellType"))) ∧
      (∀ i j, firstOcc (v.hint_var ++ str ".includes(\"zsh\")") code = some i →
        firstOcc (v.hint_var ++ str ".includes(\"pwsh\")") ((code.drop i).take 2000) = some j →
        (nuInsertion v).isPrefixOf (code.drop (i + j)) = true →
        patch_nu_detection code v =
          (code, StepResult.mkSkipped (str "Nu detection")
            (str "Already present at insertion point, skipped")))) ∧
    (v.has_system_nu = false →
      (v.cmd_exists_fn = none →
        patch_system_nu_detection code v =
          (code, StepResult.mkFail (str "System nu detection")
            (str "Cannot find commandExists function (Ie/Qe)"))) ∧
      (∀ c, v.cmd_exists_fn = some c →
        lastOcc (v.enum_var ++ str ".PowerShell:" ++ v.enum_var ++ str ".Naive\x7d") code = none →
        patch_system_nu_detection code v =
          (code, StepResult.mkFail (str "System nu detection")
            (str "Cannot find `" ++
              (v.enum_var ++ str ".PowerShell:" ++ v.enum_var ++ str ".Naive\x7d") ++
              str "` at end of detectShellType")))) := by
  constructor
  · intro hnu
    refine ⟨?_, ?_, ?_⟩
    · intro hz
      unfold patch_nu_detection
      simp only [hnu, Bool.false_eq_true, reduceIte, hz]
    · intro i hz hp
      unfold patch_nu_detection
      simp only [hnu, Bool.false_eq_true, reduceIte, hz, hp]
    · intro i j hz hp hpre
      unfold patch_nu_detection
      simp only [hnu, Bool.false_eq_true, reduceIte, hz, hp, hpre]
  · intro hsys
    refine ⟨?_, ?_⟩
    · intro hc
      unfold patch_system_nu_detection
      simp only [hsys, Bool.false_eq_true, reduceIte, hc]
    · intro c hc htail
      unfold patch_system_nu_detection
      simp only [hsys, Bool.false_eq_true, reduceIte, hc, htail]

/-- Witness for C5 at concrete inputs missing each anchor. -/
theorem C5_witness :
    patch_nu_detection (str "x") emptyVars =
      ((str "x"), StepResult.mkFail (str "Nu detection")
        (str "Cannot locate detectShellType region")) ∧
    patch_system_nu_detection (str "x") emptyVars =
      ((str "x"), StepResult.mkFail (str "System nu detection")
        (str "Cannot find commandExists function (Ie/Qe)")) :=
  ⟨((C5_detection_step_guards (str "x") emptyVars).1 (by decide)).1 (by decide),
   ((C5_detection_step_guards (str "x") emptyVars).2 (by decide)).1 (by decide)⟩

/-- C4 as stated is refuted: under the IDE plan with a stale backup, the
live run restores the backup first and its step outcomes diverge from
the dry run's beyond the final Write step. -/
theorem C4_counterexample :
    ((run_patch divergentFs true IDE_PLAN).2.steps.filter
        (fun s => !(s.name == str "Write"))).map (fun s => s.ok) ≠
    ((run_patch divergentFs false IDE_PLAN).2.steps.filter
        (fun s => !(s.name == str "Write"))).map (fun s => s.ok) := by
  decide

theorem prepped_target_of_benign (fs : FsState) (plan : PatchPlan)
    (h : plan.restore_before_patch = false ∨ fs.bak = none ∨ fs.bak = some fs.target) :
    (prepped fs plan).target = fs.target := by
  rcases prepped_target_cases fs plan with hc | ⟨hrb, hbak⟩
  · exact hc
  · rcases h with h | h | h
    · rw [h] at hrb
      cases hrb
    · rw [h] at hbak
      cases hbak
    · rw [h] at hbak
      exact (Option.some.inj hbak).symm

/-- C4 (amended): the dry-run and live step sequences (names, outcomes,
messages and detail text) coincide once the final `Write` steps are
removed, provided the plan does not restore-before-patch from a backup
that differs from the live file (always for the CLI plan; for the IDE
plan whenever no backup exists or it matches the live content). -/
theorem C4_dry_live_equivalence (fs : FsState) (plan : PatchPlan)
    (h : plan.restore_before_patch = false ∨ fs.bak = none ∨ fs.bak = some fs.target) :
    ((run_patch fs true plan).2.steps.filter (fun s => !(s.name == str "Write"))) =
    ((run_patch fs false plan).2.steps.filter (fun s => !(s.name == str "Write"))) := by
  have hpt := prepped_target_of_benign fs plan h
  unfold run_patch run_patch_main
  by_cases hsc : shortCircuits fs plan = true
  · simp only [hsc, reduceIte]
  · simp only [Bool.not_eq_true] at hsc
    simp only [hsc, Bool.false_eq_true, reduceIte, Bool.not_true, Bool.not_false, hpt]
    cases hdisc : discover_vars fs.target with
    | error e => rfl
    | ok v =>
      dsimp only
      by_cases ht : (applySteps plan.patches fs.target v).2.2 = true
      · simp only [ht, Bool.not_true, Bool.false_eq_true, reduceIte]
        have hd : (!(StepResult.mkSkipped (str "Write")
            (str "Would write: " ++ fs.fname)).name == str "Write") = false := by
          simp [StepResult.mkSkipped]
        have hl : (!(StepResult.mkOk (str "Write")
            (str "Written: " ++ fs.fname)).name == str "Write") = false := by
          simp [StepResult.mkOk]
        simp only [List.filter_append, List.filter_cons, hd, hl]
        simp
      · simp only [Bool.not_eq_true] at ht
        simp only [ht, Bool.not_false, reduceIte]

/-- Witness for C4 on a concrete CLI state. -/
theorem C4_witness :
    ((run_patch demoCliFs true CLI_PLAN).2.steps.filter
        (fun s => !(s.name == str "Write"))) =
    ((run_patch demoCliFs false CLI_PLAN).2.steps.filter
        (fun s => !(s.name == str "Write"))) :=
  C4_dry_live_equivalence demoCliFs CLI_PLAN (Or.inl rfl)

/-!
## C10: each successful step establishes its own presence flag
-/

theorem wordRunBack_all_word (s : Str) (i : Nat) :
    ∀ c ∈ wordRunBack s i, wordChar c = true := by
  intro c hc
  unfold wordRunBack at hc
  rw [List.mem_reverse] at hc
  exact List.mem_takeWhile_imp hc

theorem uthCapture_word {code x : Str} (h : uthCapture code = some x) :
    ∀ c ∈ x, wordChar c = true := by
  have hmem2 : x ∈ (occIdxs (str "?.shell??") code).filterMap (fun k => uthMatchSite code k) :=
    List.mem_of_mem_head? (Option.mem_def.mpr h)
  obtain ⟨k, hk, hsite⟩ := List.mem_filterMap.mp hmem2
  obtain ⟨-, hx, -⟩ := uthMatchSite_spec hsite
  rw [hx]
  exact wordRunBack_all_word code k

theorem nuDet_infix_insertion (v : DiscoveredVars) :
    nu_detection_str v.enum_var <:+: nuInsertion v := by
  refine ⟨v.hint_var, str ":", ?_⟩
  unfold nu_detection_str nuInsertion
  have h : str ".Naive:" = str ".Naive" ++ str ":" := by decide
  rw [h]
  simp [List.append_assoc]

theorem sysNu_infix_insertion (c enum : Str) :
    (c ++ str "(\"nu\")") <:+: sysNuInsertion c enum := by
  refine ⟨[], str "?" ++ enum ++ str ".Naive:", ?_⟩
  unfold sysNuInsertion
  have h : str "(\"nu\")?" = str "(\"nu\")" ++ str "?" := by decide
  rw [h]
  simp [List.append_assoc]

theorem naiveCase_infix_insertion (enum findExec lazyExec naiveExec optsVar : Str) :
    naive_case_str enum <:+: naiveCaseBlock enum findExec lazyExec naiveExec optsVar := by
  refine List.infix_iff_prefix_suffix.mpr
    ⟨naiveCaseBlock enum findExec lazyExec naiveExec optsVar, ?_, List.suffix_rfl⟩
  unfold naive_case_str naiveCaseBlock
  have h : str ".Naive:\x7bconst _np=" = str ".Naive:" ++ str "\x7bconst _np=" := by decide
  rw [h]
  refine ⟨str "\x7bconst _np=" ++ findExec ++ str "(\"nu\",[]).cmd;return new " ++ lazyExec ++
    str "(Promise.resolve(new " ++ naiveExec ++ str "(process.cwd(),\x7bshell:" ++ optsVar ++
    str "?.userTerminalHint||(_np!==\"nu\"?_np:void 0)||process.env.SHELL||\"/bin/sh\",..." ++
    optsVar ++ str "\x7d)))\x7d", ?_⟩
  simp [List.append_assoc]

/-- Establishing the `userTerminalHint` flag: if the text at index `k`
continues with `.shell??`, a non-empty word run, and
`?.userTerminalHint??`, the flag regex matches. -/
theorem uthFlagB_intro {s x rest : Str} {k : Nat}
    (hx : x ≠ []) (hxw : ∀ c ∈ x, wordChar c = true)
    (hdrop : s.drop k = str ".shell??" ++ (x ++ (str "?.userTerminalHint??" ++ rest)))
    (hk : k ≤ s.length) :
    uthFlagB s = true := by
  have h8 : (str ".shell??").length = 8 := by decide
  have hdrop8 : s.drop (k + 8) = x ++ (str "?.userTerminalHint??" ++ rest) := by
    rw [← List.drop_drop, hdrop]
    exact List.drop_left' h8
  have hrun : wordRunFwd s (k + 8) = x := by
    unfold wordRunFwd
    rw [hdrop8, List.takeWhile_append_of_pos hxw]
    have hq : str "?.userTerminalHint??" = '?' :: str ".userTerminalHint??" := by decide
    rw [hq, List.cons_append, List.takeWhile_cons_of_neg (by decide)]
    simp
  have hocc2 : occursAt (str "?.userTerminalHint??") s (k + 8 + x.length) = true := by
    unfold occursAt
    rw [← List.drop_drop, hdrop8, List.drop_left]
    rw [List.isPrefixOf_iff_prefix]
    exact ⟨rest, rfl⟩
  unfold uthFlagB
  rw [List.any_eq_true]
  refine ⟨k, ?_, ?_⟩
  · rw [mem_occIdxs_iff]
    refine ⟨by omega, ?_⟩
    rw [hdrop]
    exact ⟨x ++ (str "?.userTerminalHint??" ++ rest), rfl⟩
  · have hocc1 : occursAt (str ".shell??") s k = true := by
      unfold occursAt
      rw [hdrop, List.isPrefixOf_iff_prefix]
      exact ⟨x ++ (str "?.userTerminalHint??" ++ rest), rfl⟩
    unfold uthSiteValid
    rw [hocc1]
    dsimp only
    rw [hrun, hocc2]
    simp [List.isEmpty_iff, hx]

/-- C10: every patch step that reports a genuine (ok, non-skipped)
success establishes its own presence flag over the output text, the
flags being derived exactly as `discover_vars` / `quick_detect` derive
them from the discovered names. -/
theorem C10_success_establishes_flag (code : Str) (v : DiscoveredVars) :
    ((patch_nu_detection code v).2.ok = true → (patch_nu_detection code v).2.skipped = false →
      has_nu_detection_in (patch_nu_detection code v).1 v.enum_var = true) ∧
    ((patch_system_nu_detection code v).2.ok = true →
      (patch_system_nu_detection code v).2.skipped = false →
      has_system_nu_in (patch_system_nu_detection code v).1 v.cmd_exists_fn = true) ∧
    ((patch_naive_case code v).2.ok = true → (patch_naive_case code v).2.skipped = false →
      has_naive_case_in (patch_naive_case code v).1 v.enum_var = true) ∧
    ((patch_user_terminal_hint code v).2.ok = true →
      (patch_user_terminal_hint code v).2.skipped = false →
      uthFlagB (patch_user_terminal_hint code v).1 = true) := by
  refine ⟨?_, ?_, ?_, ?_⟩
  · unfold patch_nu_detection
    split
    · intro _ hsk
      simp [StepResult.mkSkipped] at hsk
    · dsimp only
      split
      · intro hok
        simp [StepResult.mkFail] at hok
      · split
        · intro hok
          simp [StepResult.mkFail] at hok
        · split
          · intro _ hsk
            simp [StepResult.mkSkipped] at hsk
          · intro _ _
            exact containsStr_insertAt_of_sub (nuDet_infix_insertion v)
  · unfold patch_system_nu_detection
    split
    · intro _ hsk
      simp [StepResult.mkSkipped] at hsk
    · split
      case h_1 => intro hok; simp [StepResult.mkFail] at hok
      case h_2 cmdExists hcmd =>
        dsimp only
        split
        · intro hok
          simp [StepResult.mkFail] at hok
        · intro _ _
          rw [hcmd]
          unfold has_system_nu_in
          exact containsStr_insertAt_of_sub (sysNu_infix_insertion cmdExists v.enum_var)
  · unfold patch_naive_case
    split
    · intro _ hsk
      simp [StepResult.mkSkipped] at hsk
    · split
      case h_1 => intro hok; simp [StepResult.mkFail] at hok
      case h_2 lazyExec hlz =>
        split
        case h_1 => intro hok; simp [StepResult.mkFail] at hok
        case h_2 naiveExec hne =>
          split
          case h_1 => intro hok; simp [StepResult.mkFail] at hok
          case h_2 findExec hfx =>
            dsimp only
            split
            case h_1 => intro hok; simp [StepResult.mkFail] at hok
            case h_2 searchFrom hsf =>
              split
              case h_1 => intro hok; simp [StepResult.mkFail] at hok
              case h_2 ti hti =>
                intro _ _
                exact containsStr_insertAt_of_sub
                  (naiveCase_infix_insertion v.enum_var findExec lazyExec naiveExec _)
  · unfold patch_user_terminal_hint
    split
    · intro _ hsk
      simp [StepResult.mkSkipped] at hsk
    · split
      case h_1 => intro hok; simp [StepResult.mkFail] at hok
      case h_2 x hcap =>
        intro _ _
        dsimp only
        obtain ⟨hxne, hcs⟩ := uthCapture_spec hcap
        have hxw := uthCapture_word hcap
        obtain ⟨i, hi⟩ := containsStr_some_firstOcc hcs
        obtain ⟨hile, hpre⟩ := firstOcc_some_spec hi
        rw [replaceFirst_found hi]
        have hq9 : str "?.shell??" = str "?" ++ str ".shell??" := by decide
        have hassoc : code.take i ++ (x ++ str "?.shell??" ++ x ++ str "?.userTerminalHint??") ++
            code.drop (i + (x ++ str "?.shell??").length) =
            (code.take i ++ (x ++ str "?")) ++ (str ".shell??" ++ (x ++
              (str "?.userTerminalHint??" ++
                code.drop (i + (x ++ str "?.shell??").length)))) := by
          rw [hq9]
          simp [List.append_assoc]
        rw [hassoc]
        exact @uthFlagB_intro
          ((code.take i ++ (x ++ str "?")) ++ (str ".shell??" ++ (x ++
            (str "?.userTerminalHint??" ++ code.drop (i + (x ++ str "?.shell??").length)))))
          x
          (code.drop (i + (x ++ str "?.shell??").length))
          (code.take i ++ (x ++ str "?")).length
          hxne hxw (List.drop_left _ _) (by simp)

/-- Witness for C10: the nu-detection step on `demoCliText` establishes
its own presence flag. -/
theorem C10_witness :
    has_nu_detection_in (patch_nu_detection demoCliText demoCliVars).1
      demoCliVars.enum_var = true :=
  (C10_success_establishes_flag demoCliText demoCliVars).1 (by decide) (by decide)

/-!
## Occurrence toolkit for the idempotence development
-/

theorem occursAt_bound {pat s : Str} {k : Nat} (h : occursAt pat s k = true)
    (hne : pat ≠ []) : k + pat.length ≤ s.length := by
  rw [occursAt_iff] at h
  have hlen := h.length_le
  rw [List.length_drop] at hlen
  by_cases hk : k ≤ s.length
  · omega
  · exfalso
    have : s.drop k = [] := List.drop_eq_nil_of_le (by omega)
    rw [this] at h
    exact hne (List.prefix_nil.mp h)

theorem occursAt_decomp {pat s : Str} {k : Nat} (h : occursAt pat s k = true) :
    s.drop k = pat ++ s.drop (k + pat.length) := by
  rw [occursAt_iff] at h
  obtain ⟨z, hz⟩ := h
  have hzd : s.drop (k + pat.length) = z := by
    rw [← List.drop_drop, ← hz, List.drop_left]
  rw [hzd, ← hz]

theorem occursAt_of_drop_eq {pat s rest : Str} {k : Nat}
    (h : s.drop k = pat ++ rest) : occursAt pat s k = true := by
  rw [occursAt_iff, h]
  exact ⟨rest, rfl⟩

theorem occursAt_append_left {pat A B : Str} {k : Nat} (h : occursAt pat A k = true) :
    occursAt pat (A ++ B) k = true := by
  rw [occursAt_iff] at h ⊢
  obtain ⟨z, hz⟩ := h
  rw [List.drop_append_eq_append_drop, ← hz]
  exact ⟨z ++ B.drop (k - A.length), by simp⟩

theorem occursAt_append_right {pat A B : Str} {k : Nat} (h : occursAt pat B k = true) :
    occursAt pat (A ++ B) (A.length + k) = true := by
  rw [occursAt_iff] at h ⊢
  rwa [List.drop_append]

theorem occursAt_take {pat s : Str} {k n : Nat} (h : occursAt pat s k = true)
    (hn : k + pat.length ≤ n) : occursAt pat (s.take n) k = true := by
  rw [occursAt_iff] at h ⊢
  rw [List.prefix_iff_eq_take] at h ⊢
  rw [List.drop_take, List.take_take, Nat.min_eq_left (by omega)]
  exact h

theorem occursAt_in_slice {pat s : Str} {a n k : Nat}
    (h : occursAt pat ((s.drop a).take n) k = true) :
    occursAt pat s (a + k) = true := by
  rw [occursAt_iff] at h ⊢
  rw [List.drop_take] at h
  have h2 : pat <+: (s.drop a).drop k := h.trans (List.take_prefix _ _)
  rwa [List.drop_drop] at h2

theorem containsStr_of_occursAt {s pat : Str} {k : Nat} (h : occursAt pat s k = true) :
    containsStr s pat = true := by
  by_cases hk : k ≤ s.length
  · have hmem : k ∈ occIdxs pat s := by
      rw [mem_occIdxs_iff]
      exact ⟨by omega, occursAt_iff.mp h⟩
    unfold containsStr firstOcc
    rw [Option.isSome_iff_exists]
    cases hh : (occIdxs pat s).head? with
    | none => exact absurd (List.head?_eq_none_iff.mp hh) (List.ne_nil_of_mem hmem)
    | some i => exact ⟨i, rfl⟩
  · have hnil : s.drop k = [] := List.drop_eq_nil_of_le (by omega)
    rw [occursAt_iff, hnil] at h
    have hp : pat = [] := List.prefix_nil.mp h
    subst hp
    have h0 : occursAt ([] : Str) s 0 = true := by
      rw [occursAt_iff]
      exact List.nil_prefix
    have hmem : 0 ∈ occIdxs ([] : Str) s := by
      rw [mem_occIdxs_iff]
      exact ⟨by omega, occursAt_iff.mp h0⟩
    unfold containsStr firstOcc
    rw [Option.isSome_iff_exists]
    cases hh : (occIdxs ([] : Str) s).head? with
    | none => exact absurd (List.head?_eq_none_iff.mp hh) (List.ne_nil_of_mem hmem)
    | some i => exact ⟨i, rfl⟩

theorem occursAt_of_containsStr {s pat : Str} (h : containsStr s pat = true) :
    ∃ k, occursAt pat s k = true ∧ k ≤ s.length := by
  obtain ⟨i, hi⟩ := containsStr_some_firstOcc h
  have hmem : i ∈ occIdxs pat s := List.mem_of_mem_head? (Option.mem_def.mpr hi)
  obtain ⟨hb, hp⟩ := mem_occIdxs_iff.mp hmem
  exact ⟨i, occursAt_iff.mpr hp, by omega⟩

theorem occursAt_insert_before {t I pat : Str} {k p : Nat}
    (h : occursAt pat t k = true) (hk : k + pat.length ≤ p) :
    occursAt pat (insertAt t I p) k = true := by
  have h1 : occursAt pat (t.take p) k = true := occursAt_take h hk
  unfold insertAt
  rw [List.append_assoc]
  exact occursAt_append_left h1

theorem occursAt_insert_after {t I pat : Str} {k p : Nat}
    (h : occursAt pat t k = true) (hp : p ≤ k) (hpt : p ≤ t.length) :
    occursAt pat (insertAt t I p) (k + I.length) = true := by
  rw [occursAt_iff] at h ⊢
  unfold insertAt
  have hlen : (t.take p ++ I).length = p + I.length := by
    simp [Nat.min_eq_left hpt]
  have harith : k + I.length = (t.take p ++ I).length + (k - p) := by omega
  rw [harith, List.drop_append, List.drop_drop]
  have : p + (k - p) = k := by omega
  rwa [this]

theorem occursAt_cross_take {pat s : Str} {k p : Nat}
    (h : occursAt pat s k = true) (h1 : k < p) (h2 : p ≤ k + pat.length) :
    pat.take (p - k) <:+ s.take p := by
  have hd := occursAt_decomp h
  have hsplit : s.take p = s.take k ++ (s.drop k).take (p - k) := by
    rw [← List.take_add]
    congr 1
    omega
  have htk : s.take p = s.take k ++ pat.take (p - k) := by
    rw [hsplit, hd, List.take_append_eq_append_take]
    have : p - k - pat.length = 0 := by omega
    rw [this, List.take_zero, List.append_nil]
  rw [htk]
  exact ⟨s.take k, rfl⟩

theorem occursAt_cross_drop {pat s : Str} {k p : Nat}
    (h : occursAt pat s k = true) (h1 : k ≤ p) :
    pat.drop (p - k) <+: s.drop p := by
  have hd := occursAt_decomp h
  have : s.drop p = (s.drop k).drop (p - k) := by
    rw [List.drop_drop]
    congr 1
    omega
  rw [this, hd, List.drop_append_eq_append_drop]
  exact ⟨(s.drop (k + pat.length)).drop (p - k - pat.length), rfl⟩

theorem prefix_align {u f rest : Str} (h : u <+: f ++ rest) : u <+: f ∨ f <+: u := by
  by_cases hl : u.length ≤ f.length
  · exact Or.inl (List.prefix_of_prefix_length_le h (List.prefix_append f rest) hl)
  · exact Or.inr (List.prefix_of_prefix_length_le (List.prefix_append f rest) h (by omega))

theorem suffix_align {u g A : Str} (h : u <:+ A ++ g) : u <:+ g ∨ g <:+ u := by
  rw [← List.reverse_prefix] at h
  rw [List.reverse_append] at h
  rcases prefix_align h with h1 | h1
  · exact Or.inl (List.reverse_prefix.mp h1)
  · exact Or.inr (List.reverse_prefix.mp h1)

theorem headNonWord_cons {c : Char} {u : Str} (h : headNonWord (c :: u) = true) :
    wordChar c = false := by
  unfold headNonWord at h
  simp at h
  exact h

theorem word_prefix_align {a u b v : Str}
    (ha : ∀ c ∈ a, wordChar c = true) (hb : ∀ c ∈ b, wordChar c = true)
    (hu : headNonWord u = true) (hv : headNonWord v = true) (hune : u ≠ [])
    (h : a ++ u <+: b ++ v) : a = b ∧ u <+: v := by
  induction a generalizing b with
  | nil =>
    cases b with
    | nil => exact ⟨rfl, by simpa using h⟩
    | cons d b' =>
      exfalso
      cases u with
      | nil => exact hune rfl
      | cons c u' =>
        simp only [List.nil_append, List.cons_append, List.cons_prefix_cons] at h
        have hcw : wordChar c = false := headNonWord_cons hu
        have hdw : wordChar d = true := hb d (by simp)
        rw [h.1] at hcw
        rw [hcw] at hdw
        exact Bool.false_ne_true hdw
  | cons c a' ih =>
    cases b with
    | nil =>
      exfalso
      simp only [List.nil_append] at h
      cases v with
      | nil =>
        have hlen := h.length_le
        simp at hlen
      | cons e v' =>
        simp only [List.cons_append, List.cons_prefix_cons] at h
        have hew : wordChar e = false := headNonWord_cons hv
        have hcw : wordChar c = true := ha c (by simp)
        rw [← h.1] at hew
        rw [hew] at hcw
        exact Bool.false_ne_true hcw
    | cons d b' =>
      simp only [List.cons_append, List.cons_prefix_cons] at h
      have := ih (fun x hx => ha x (by simp [hx])) (fun x hx => hb x (by simp [hx])) h.2
      exact ⟨by rw [h.1, this.1], this.2⟩

theorem lastNonWord_reverse {u : Str} (h : lastNonWord u = true) :
    headNonWord u.reverse = true := by
  unfold lastNonWord at h
  unfold headNonWord
  rwa [List.head?_reverse]

theorem word_suffix_align {a u b v : Str}
    (ha : ∀ c ∈ a, wordChar c = true) (hb : ∀ c ∈ b, wordChar c = true)
    (hu : lastNonWord u = true) (hv : lastNonWord v = true) (hune : u ≠ [])
    (h : u ++ a <:+ v ++ b) : a = b ∧ u <:+ v := by
  rw [← List.reverse_prefix, List.reverse_append, List.reverse_append] at h
  have hrev := word_prefix_align
    (fun c hc => ha c (List.mem_reverse.mp hc))
    (fun c hc => hb c (List.mem_reverse.mp hc))
    (lastNonWord_reverse hu) (lastNonWord_reverse hv)
    (by simpa using hune) h
  constructor
  · have := hrev.1
    have h2 : a.reverse.reverse = b.reverse.reverse := by rw [this]
    simpa using h2
  · exact List.reverse_prefix.mp hrev.2

theorem mem_of_pref {c : Char} {u v : Str} (h : u <+: v) (hc : c ∈ u) : c ∈ v := by
  obtain ⟨z, rfl⟩ := h
  exact List.mem_append.mpr (Or.inl hc)

theorem mem_of_suffix {c : Char} {u v : Str} (h : u <:+ v) (hc : c ∈ u) : c ∈ v := by
  obtain ⟨z, rfl⟩ := h
  exact List.mem_append.mpr (Or.inr hc)

theorem allWord_mem {s : Str} (h : allWord s = true) {c : Char} (hc : c ∈ s) :
    wordChar c = true := by
  unfold allWord at h
  rw [List.all_eq_true] at h
  exact h c hc

theorem allWs_mem {s : Str} (h : allWs s = true) {c : Char} (hc : c ∈ s) :
    wsChar c = true := by
  unfold allWs at h
  rw [List.all_eq_true] at h
  exact h c hc

theorem takeWhile_stops {p : Char → Bool} {e rest : Str}
    (he : ∀ c ∈ e, p c = true) (hrest : ∀ c, rest.head? = some c → p c = false) :
    (e ++ rest).takeWhile p = e := by
  rw [List.takeWhile_append_of_pos he]
  cases rest with
  | nil => simp
  | cons c tl =>
    rw [List.takeWhile_cons_of_neg]
    · simp
    · have := hrest c rfl
      simp [this]

theorem headNonWord_append_left {u rest : Str} (hu : headNonWord u = true) (hne : u ≠ []) :
    headNonWord (u ++ rest) = true := by
  cases u with
  | nil => exact absurd rfl hne
  | cons c l =>
    unfold headNonWord at hu ⊢
    simpa using hu

theorem headNonWs_append_left {u rest : Str} (hu : headNonWs u = true) (hne : u ≠ []) :
    headNonWs (u ++ rest) = true := by
  cases u with
  | nil => exact absurd rfl hne
  | cons c l =>
    unfold headNonWs at hu ⊢
    simpa using hu

theorem headNonWord_of_allWs {u : Str} (hu : allWs u = true) (hne : u ≠ []) :
    headNonWord u = true := by
  cases u with
  | nil => exact absurd rfl hne
  | cons c l =>
    have hcw : wsChar c = true := allWs_mem hu (by simp)
    unfold headNonWord
    simp only [List.head?_cons]
    have : wordChar c = false := by
      by_contra hcon
      rw [Bool.not_eq_false] at hcon
      unfold wsChar at hcw
      unfold wordChar at hcon
      simp only [Bool.or_eq_true, Bool.and_eq_true, decide_eq_true_eq, beq_iff_eq] at hcw hcon
      rcases hcw with ((h | h) | h) | h <;> (subst h; exact absurd hcon (by decide))
    simp [this]

theorem headNonWs_of_allWord {u : Str} (hu : allWord u = true) (hne : u ≠ []) :
    headNonWs u = true := by
  cases u with
  | nil => exact absurd rfl hne
  | cons c l =>
    have hcw : wordChar c = true := allWord_mem hu (by simp)
    unfold headNonWs
    simp only [List.head?_cons]
    have : wsChar c = false := by
      by_contra hcon
      rw [Bool.not_eq_false] at hcon
      unfold wsChar at hcon
      unfold wordChar at hcw
      simp only [Bool.or_eq_true, Bool.and_eq_true, decide_eq_true_eq, beq_iff_eq] at hcw hcon
      rcases hcon with ((h | h) | h) | h <;> (subst h; exact absurd hcw (by decide))
    simp [this]

theorem wordRun_of_drop {s e rest : Str} {a : Nat}
    (hew : allWord e = true) (hrest : headNonWord rest = true)
    (hdrop : s.drop a = e ++ rest) : wordRunFwd s a = e := by
  unfold wordRunFwd
  rw [hdrop]
  refine takeWhile_stops (fun c hc => allWord_mem hew hc) ?_
  intro c hc
  unfold headNonWord at hrest
  rw [hc] at hrest
  simpa using hrest

theorem wsRun_of_drop {s e rest : Str} {a : Nat}
    (hew : allWs e = true) (hrest : headNonWs rest = true)
    (hdrop : s.drop a = e ++ rest) : wsRunFwd s a = e := by
  unfold wsRunFwd
  rw [hdrop]
  refine takeWhile_stops (fun c hc => allWs_mem hew hc) ?_
  intro c hc
  unfold headNonWs at hrest
  rw [hc] at hrest
  simpa using hrest

theorem wordRunBack_ne_nil_intro {s d : Str} {ch : Char} {k : Nat} (hk : 1 ≤ k)
    (hch : wordChar ch = true) (hdrop : s.drop (k - 1) = ch :: d) :
    (wordRunBack s k).isEmpty = false := by
  have hk1 : k - 1 < s.length := by
    by_contra hc
    push_neg at hc
    have : s.drop (k - 1) = [] := List.drop_eq_nil_of_le hc
    rw [this] at hdrop
    exact absurd hdrop (by simp)
  have htake : s.take k = s.take (k - 1) ++ [ch] := by
    have hkk : k = (k - 1) + 1 := by omega
    conv_lhs => rw [hkk]
    rw [List.take_add, hdrop]
    simp
  unfold wordRunBack
  rw [htake, List.reverse_append]
  simp only [List.reverse_cons, List.reverse_nil, List.nil_append, List.singleton_append]
  rw [List.takeWhile_cons_of_pos hch]
  simp

theorem wordRunBack_ne_nil_elim {s : Str} {k : Nat}
    (h : (wordRunBack s k).isEmpty = false) (hk : k ≤ s.length) :
    ∃ ch, wordChar ch = true ∧ 1 ≤ k ∧ s.drop (k - 1) = ch :: s.drop k := by
  unfold wordRunBack at h
  cases hl : (s.take k).reverse with
  | nil => rw [hl] at h; simp at h
  | cons c tl =>
    rw [hl] at h
    by_cases hcw : wordChar c = true
    · refine ⟨c, hcw, ?_, ?_⟩
      · cases k with
        | zero => simp at hl
        | succ n => omega
      · have htake : s.take k = tl.reverse ++ [c] := by
          have h2 : (s.take k).reverse.reverse = (c :: tl).reverse := by rw [hl]
          simpa using h2
        have hlen : (s.take k).length = k := by
          rw [List.length_take]
          omega
        have hlen2 : tl.reverse.length = k - 1 := by
          rw [htake] at hlen
          rw [List.length_append, List.length_cons, List.length_nil] at hlen
          omega
        have hs : s.drop (k - 1) = [c] ++ s.drop k := by
          conv_lhs => rw [← List.take_append_drop k s, htake]
          rw [List.append_assoc]
          exact List.drop_left' hlen2
        simpa using hs
    · rw [List.takeWhile_cons_of_neg (by simpa using hcw)] at h
      simp at h

theorem zshValid_intro {s e rest : Str} {ch : Char} {k : Nat} (hch : wordChar ch = true)
    (hene : e ≠ []) (hew : allWord e = true) (hk : 1 ≤ k)
    (hdrop : s.drop (k - 1) = ch :: (zshLit ++ (e ++ (str ".Zsh" ++ rest)))) :
    zshSiteValid s k = true ∧ wordRunFwd s (k + 17) = e := by
  have hdk : s.drop k = zshLit ++ (e ++ (str ".Zsh" ++ rest)) := by
    have h1 : s.drop k = (s.drop (k - 1)).drop 1 := by
      rw [List.drop_drop]
      congr 1
      omega
    rw [h1, hdrop]
    simp
  have hd17 : s.drop (k + 17) = e ++ (str ".Zsh" ++ rest) := by
    have h1 : s.drop (k + 17) = (s.drop k).drop 17 := by
      rw [List.drop_drop]
    rw [h1, hdk]
    exact List.drop_left' (by decide)
  have hrun : wordRunFwd s (k + 17) = e :=
    wordRun_of_drop hew (headNonWord_append_left (by decide) (by decide)) hd17
  refine ⟨?_, hrun⟩
  unfold zshSiteValid
  simp only [Bool.and_eq_true]
  refine ⟨⟨occursAt_of_drop_eq hdk, ?_⟩, ?_⟩
  · rw [wordRunBack_ne_nil_intro hk hch hdrop]
    rfl
  · dsimp only
    rw [hrun]
    refine ⟨by simpa [List.isEmpty_iff] using hene, ?_⟩
    apply occursAt_of_drop_eq
    rw [← List.drop_drop, hd17, List.drop_left]

theorem zshValid_elim {s : Str} {k : Nat} (h : zshSiteValid s k = true) :
    ∃ ch e, wordChar ch = true ∧ e ≠ [] ∧ allWord e = true ∧ 1 ≤ k ∧
      k + 21 + e.length ≤ s.length ∧ wordRunFwd s (k + 17) = e ∧
      s.drop (k - 1) = ch :: (zshLit ++ (e ++ (str ".Zsh" ++ s.drop (k + 21 + e.length)))) := by
  unfold zshSiteValid at h
  simp only [Bool.and_eq_true] at h
  obtain ⟨⟨hlit, hwb'⟩, hene, hZ⟩ := h
  have hwb : (wordRunBack s k).isEmpty = false := by simpa using hwb'
  set e := wordRunFwd s (k + 17) with he
  have hene' : e ≠ [] := by simpa [List.isEmpty_iff] using hene
  have hklen : k + 17 ≤ s.length := by
    have := occursAt_bound hlit (by decide)
    simpa [show zshLit.length = 17 from by decide] using this
  obtain ⟨ch, hch, hk1, hchar⟩ := wordRunBack_ne_nil_elim hwb (by omega)
  have hdk : s.drop k = zshLit ++ s.drop (k + 17) := by
    have := occursAt_decomp hlit
    rwa [show zshLit.length = 17 from by decide] at this
  have hew : allWord e = true := by
    rw [he]
    unfold allWord wordRunFwd
    rw [List.all_eq_true]
    intro c hc
    exact List.mem_takeWhile_imp hc
  have hd17 : s.drop (k + 17) = e ++ (s.drop (k + 17)).dropWhile (fun c => wordChar c) := by
    have h0 : (s.drop (k + 17)).takeWhile (fun c => wordChar c) ++
        (s.drop (k + 17)).dropWhile (fun c => wordChar c) = s.drop (k + 17) :=
      List.takeWhile_append_dropWhile _ _
    rw [he]
    unfold wordRunFwd
    exact h0.symm
  have hZd : s.drop (k + 17 + e.length) = (s.drop (k + 17)).dropWhile (fun c => wordChar c) := by
    conv_lhs => rw [← List.drop_drop, hd17]
    rw [List.drop_left]
  have hZocc : s.drop (k + 17 + e.length) =
      str ".Zsh" ++ s.drop (k + 21 + e.length) := by
    have := occursAt_decomp hZ
    rw [show (str ".Zsh").length = 4 from by decide] at this
    rw [this]
    congr 2
    omega
  refine ⟨ch, e, hch, hene', hew, hk1, ?_, he.symm, ?_⟩
  · have hb := occursAt_bound hZ (by decide)
    rw [show (str ".Zsh").length = 4 from by decide] at hb
    omega
  · rw [hchar, hdk, hd17, ← hZd, hZocc]

theorem drop_shift {s u v : Str} {a n : Nat} (hu : u.length = n)
    (h : s.drop a = u ++ v) : s.drop (a + n) = v := by
  rw [← List.drop_drop, h]
  exact List.drop_left' hu

theorem isEmpty_false_of_ne_nil {u : Str} (h : u ≠ []) : u.isEmpty = false := by
  simpa [List.isEmpty_iff] using h

/-- The nested right-associated text of one `re_cmd` site; equal to `cmdW`. -/
theorem cmdParse_intro {s ws f a m g a2 w rest : Str} {k : Nat}
    (hws : allWs ws = true) (hwsne : ws ≠ [])
    (hf : allWord f = true) (hfne : f ≠ [])
    (ha : allWord a = true) (hane : a ≠ [])
    (hm : allWord m = true) (hmne : m ≠ [])
    (hg : allWord g = true) (hgne : g ≠ [])
    (ha2 : allWord a2 = true) (ha2ne : a2 ≠ [])
    (hw : allWord w = true) (hwne : w ≠ [])
    (hdk : s.drop k = str "function" ++ (ws ++ (f ++ (str "(" ++ (a ++
      (str ")\x7btry\x7breturn(0," ++ (m ++ (str "." ++ (g ++ (str ")(" ++
      (a2 ++ (str ",[]).cmd!==" ++ (w ++ (str "\x7d" ++ rest)))))))))))))) :
    parseCmdSite s k = some (f, str "(0," ++ m ++ str "." ++ g ++ str ")") := by
  have hoccF : occursAt (str "function") s k = true := occursAt_of_drop_eq hdk
  have hd8 : s.drop (k + 8) = ws ++ (f ++ (str "(" ++ (a ++
      (str ")\x7btry\x7breturn(0," ++ (m ++ (str "." ++ (g ++ (str ")(" ++
      (a2 ++ (str ",[]).cmd!==" ++ (w ++ (str "\x7d" ++ rest)))))))))))) :=
    drop_shift (by decide) hdk
  have hwsr : wsRunFwd s (k + 8) = ws :=
    wsRun_of_drop hws (headNonWs_append_left (headNonWs_of_allWord hf hfne) hfne) hd8
  have hdf : s.drop (k + 8 + ws.length) = f ++ (str "(" ++ (a ++
      (str ")\x7btry\x7breturn(0," ++ (m ++ (str "." ++ (g ++ (str ")(" ++
      (a2 ++ (str ",[]).cmd!==" ++ (w ++ (str "\x7d" ++ rest))))))))))) :=
    drop_shift rfl hd8
  have hfr : wordRunFwd s (k + 8 + ws.length) = f :=
    wordRun_of_drop hf (headNonWord_append_left (by decide) (by decide)) hdf
  have hdp1 : s.drop (k + 8 + ws.length + f.length) = str "(" ++ (a ++
      (str ")\x7btry\x7breturn(0," ++ (m ++ (str "." ++ (g ++ (str ")(" ++
      (a2 ++ (str ",[]).cmd!==" ++ (w ++ (str "\x7d" ++ rest)))))))))) :=
    drop_shift rfl hdf
  have hoccP1 : occursAt (str "(") s (k + 8 + ws.length + f.length) = true :=
    occursAt_of_drop_eq hdp1
  have hda : s.drop (k + 8 + ws.length + f.length + 1) = a ++
      (str ")\x7btry\x7breturn(0," ++ (m ++ (str "." ++ (g ++ (str ")(" ++
      (a2 ++ (str ",[]).cmd!==" ++ (w ++ (str "\x7d" ++ rest))))))))) :=
    drop_shift (by decide) hdp1
  have har : wordRunFwd s (k + 8 + ws.length + f.length + 1) = a :=
    wordRun_of_drop ha (headNonWord_append_left (by decide) (by decide)) hda
  have hdp2 : s.drop (k + 8 + ws.length + f.length + 1 + a.length) =
      str ")\x7btry\x7breturn(0," ++ (m ++ (str "." ++ (g ++ (str ")(" ++
      (a2 ++ (str ",[]).cmd!==" ++ (w ++ (str "\x7d" ++ rest)))))))) :=
    drop_shift rfl hda
  have hoccP2 : occursAt (str ")\x7btry\x7breturn(0,") s
      (k + 8 + ws.length + f.length + 1 + a.length) = true :=
    occursAt_of_drop_eq hdp2
  have hdm : s.drop (k + 8 + ws.length + f.length + 1 + a.length + 15) =
      m ++ (str "." ++ (g ++ (str ")(" ++
      (a2 ++ (str ",[]).cmd!==" ++ (w ++ (str "\x7d" ++ rest))))))) :=
    drop_shift (by decide) hdp2
  have hmr : wordRunFwd s (k + 8 + ws.length + f.length + 1 + a.length + 15) = m :=
    wordRun_of_drop hm (headNonWord_append_left (by decide) (by decide)) hdm
  have hdp3 : s.drop (k + 8 + ws.length + f.length + 1 + a.length + 15 + m.length) =
      str "." ++ (g ++ (str ")(" ++
      (a2 ++ (str ",[]).cmd!==" ++ (w ++ (str "\x7d" ++ rest)))))) :=
    drop_shift rfl hdm
  have hoccP3 : occursAt (str ".") s
      (k + 8 + ws.length + f.length + 1 + a.length + 15 + m.length) = true :=
    occursAt_of_drop_eq hdp3
  have hdg : s.drop (k + 8 + ws.length + f.length + 1 + a.length + 15 + m.length + 1) =
      g ++ (str ")(" ++ (a2 ++ (str ",[]).cmd!==" ++ (w ++ (str "\x7d" ++ rest))))) :=
    drop_shift (by decide) hdp3
  have hgr : wordRunFwd s (k + 8 + ws.length + f.length + 1 + a.length + 15 + m.length + 1) = g :=
    wordRun_of_drop hg (headNonWord_append_left (by decide) (by decide)) hdg
  have hdp4 : s.drop (k + 8 + ws.length + f.length + 1 + a.length + 15 + m.length + 1 + g.length) =
      str ")(" ++ (a2 ++ (str ",[]).cmd!==" ++ (w ++ (str "\x7d" ++ rest)))) :=
    drop_shift rfl hdg
  have hoccP4 : occursAt (str ")(") s
      (k + 8 + ws.length + f.length + 1 + a.length + 15 + m.length + 1 + g.length) = true :=
    occursAt_of_drop_eq hdp4
  have hda2 : s.drop
      (k + 8 + ws.length + f.length + 1 + a.length + 15 + m.length + 1 + g.length + 2) =
      a2 ++ (str ",[]).cmd!==" ++ (w ++ (str "\x7d" ++ rest))) :=
    drop_shift (by decide) hdp4
  have ha2r : wordRunFwd s
      (k + 8 + ws.length + f.length + 1 + a.length + 15 + m.length + 1 + g.length + 2) = a2 :=
    wordRun_of_drop ha2 (headNonWord_append_left (by decide) (by decide)) hda2
  have hdp5 : s.drop (k + 8 + ws.length + f.length + 1 + a.length + 15 + m.length + 1 +
      g.length + 2 + a2.length) = str ",[]).cmd!==" ++ (w ++ (str "\x7d" ++ rest)) :=
    drop_shift rfl hda2
  have hoccP5 : occursAt (str ",[]).cmd!==") s (k + 8 + ws.length + f.length + 1 + a.length +
      15 + m.length + 1 + g.length + 2 + a2.length) = true :=
    occursAt_of_drop_eq hdp5
  have hdw : s.drop (k + 8 + ws.length + f.length + 1 + a.length + 15 + m.length + 1 +
      g.length + 2 + a2.length + 11) = w ++ (str "\x7d" ++ rest) :=
    drop_shift (by decide) hdp5
  have hwr : wordRunFwd s (k + 8 + ws.length + f.length + 1 + a.length + 15 + m.length + 1 +
      g.length + 2 + a2.length + 11) = w :=
    wordRun_of_drop hw (headNonWord_append_left (by decide) (by decide)) hdw
  have hdend : s.drop (k + 8 + ws.length + f.length + 1 + a.length + 15 + m.length + 1 +
      g.length + 2 + a2.length + 11 + w.length) = str "\x7d" ++ rest :=
    drop_shift rfl hdw
  have hoccP6 : occursAt (str "\x7d") s (k + 8 + ws.length + f.length + 1 + a.length + 15 +
      m.length + 1 + g.length + 2 + a2.length + 11 + w.length) = true :=
    occursAt_of_drop_eq hdend
  unfold parseCmdSite
  simp only [hoccF, reduceIte]
  rw [hwsr]
  simp only [isEmpty_false_of_ne_nil hwsne, Bool.false_eq_true, reduceIte]
  rw [hfr]
  simp only [isEmpty_false_of_ne_nil hfne, Bool.false_eq_true, reduceIte]
  simp only [hoccP1, reduceIte]
  rw [har]
  simp only [isEmpty_false_of_ne_nil hane, Bool.false_eq_true, reduceIte]
  simp only [hoccP2, reduceIte]
  rw [hmr]
  simp only [isEmpty_false_of_ne_nil hmne, Bool.false_eq_true, reduceIte]
  simp only [hoccP3, reduceIte]
  rw [hgr]
  simp only [isEmpty_false_of_ne_nil hgne, Bool.false_eq_true, reduceIte]
  simp only [hoccP4, reduceIte]
  rw [ha2r]
  simp only [isEmpty_false_of_ne_nil ha2ne, Bool.false_eq_true, reduceIte]
  simp only [hoccP5, reduceIte]
  rw [hwr]
  simp only [isEmpty_false_of_ne_nil hwne, Bool.false_eq_true, reduceIte]
  simp only [hoccP6, reduceIte]

/-- A forward word run decomposes the suffix at its end. -/
theorem run_split {s : Str} {a : Nat} :
    s.drop a = wordRunFwd s a ++ s.drop (a + (wordRunFwd s a).length) := by
  unfold wordRunFwd
  have h0 : (s.drop a).takeWhile (fun c => wordChar c) ++
      (s.drop a).dropWhile (fun c => wordChar c) = s.drop a :=
    List.takeWhile_append_dropWhile _ _
  have h1 : s.drop (a + ((s.drop a).takeWhile (fun c => wordChar c)).length) =
      (s.drop a).dropWhile (fun c => wordChar c) := by
    have h2 : s.drop (a + ((s.drop a).takeWhile (fun c => wordChar c)).length) =
        ((s.drop a).takeWhile (fun c => wordChar c) ++
          (s.drop a).dropWhile (fun c => wordChar c)).drop
          ((s.drop a).takeWhile (fun c => wordChar c)).length := by
      rw [h0, List.drop_drop]
    rw [h2, List.drop_left]
  rw [h1]
  exact h0.symm

theorem ws_run_split {s : Str} {a : Nat} :
    s.drop a = wsRunFwd s a ++ s.drop (a + (wsRunFwd s a).length) := by
  unfold wsRunFwd
  have h0 : (s.drop a).takeWhile (fun c => wsChar c) ++
      (s.drop a).dropWhile (fun c => wsChar c) = s.drop a :=
    List.takeWhile_append_dropWhile _ _
  have h1 : s.drop (a + ((s.drop a).takeWhile (fun c => wsChar c)).length) =
      (s.drop a).dropWhile (fun c => wsChar c) := by
    have h2 : s.drop (a + ((s.drop a).takeWhile (fun c => wsChar c)).length) =
        ((s.drop a).takeWhile (fun c => wsChar c) ++
          (s.drop a).dropWhile (fun c => wsChar c)).drop
          ((s.drop a).takeWhile (fun c => wsChar c)).length := by
      rw [h0, List.drop_drop]
    rw [h2, List.drop_left]
  rw [h1]
  exact h0.symm

theorem wordRunFwd_allWord (s : Str) (a : Nat) : allWord (wordRunFwd s a) = true := by
  unfold allWord wordRunFwd
  rw [List.all_eq_true]
  intro c hc
  exact List.mem_takeWhile_imp hc

theorem wsRunFwd_allWs (s : Str) (a : Nat) : allWs (wsRunFwd s a) = true := by
  unfold allWs wsRunFwd
  rw [List.all_eq_true]
  intro c hc
  exact List.mem_takeWhile_imp hc

theorem cmdParse_elim {s f fx : Str} {k : Nat} (h : parseCmdSite s k = some (f, fx)) :
    ∃ ws a m g a2 w, allWs ws = true ∧ ws ≠ [] ∧ allWord f = true ∧ f ≠ [] ∧
      allWord a = true ∧ a ≠ [] ∧ allWord m = true ∧ m ≠ [] ∧
      allWord g = true ∧ g ≠ [] ∧ allWord a2 = true ∧ a2 ≠ [] ∧
      allWord w = true ∧ w ≠ [] ∧
      fx = str "(0," ++ m ++ str "." ++ g ++ str ")" ∧
      s.drop k = str "function" ++ (ws ++ (f ++ (str "(" ++ (a ++
        (str ")\x7btry\x7breturn(0," ++ (m ++ (str "." ++ (g ++ (str ")(" ++
        (a2 ++ (str ",[]).cmd!==" ++ (w ++ (str "\x7d" ++
          s.drop (k + 39 + ws.length + f.length + a.length + m.length + g.length +
            a2.length + w.length)))))))))))))) := by
  unfold parseCmdSite at h
  by_cases hoccF : occursAt (str "function") s k = true
  case neg => rw [if_neg hoccF] at h; exact absurd h (by simp)
  case pos =>
  rw [if_pos hoccF] at h
  dsimp only at h
  set ws := wsRunFwd s (k + 8) with hws
  by_cases hwsE : ws.isEmpty = true
  case pos => rw [if_pos hwsE] at h; exact absurd h (by simp)
  case neg =>
  rw [if_neg hwsE] at h
  set f1 := wordRunFwd s (k + 8 + ws.length) with hf1
  by_cases hfE : f1.isEmpty = true
  case pos => rw [if_pos hfE] at h; exact absurd h (by simp)
  case neg =>
  rw [if_neg hfE] at h
  by_cases hocc1 : occursAt (str "(") s (k + 8 + ws.length + f1.length) = true
  case neg => rw [if_neg hocc1] at h; exact absurd h (by simp)
  case pos =>
  rw [if_pos hocc1] at h
  set a1 := wordRunFwd s (k + 8 + ws.length + f1.length + 1) with ha1
  by_cases haE : a1.isEmpty = true
  case pos => rw [if_pos haE] at h; exact absurd h (by simp)
  case neg =>
  rw [if_neg haE] at h
  by_cases hocc2 : occursAt (str ")\x7btry\x7breturn(0,") s
    (k + 8 + ws.length + f1.length + 1 + a1.length) = true
  case neg => rw [if_neg hocc2] at h; exact absurd h (by simp)
  case pos =>
  rw [if_pos hocc2] at h
  set m1 := wordRunFwd s (k + 8 + ws.length + f1.length + 1 + a1.length + 15) with hm1
  by_cases hmE : m1.isEmpty = true
  case pos => rw [if_pos hmE] at h; exact absurd h (by simp)
  case neg =>
  rw [if_neg hmE] at h
  by_cases hocc3 : occursAt (str ".") s
    (k + 8 + ws.length + f1.length + 1 + a1.length + 15 + m1.length) = true
  case neg => rw [if_neg hocc3] at h; exact absurd h (by simp)
  case pos =>
  rw [if_pos hocc3] at h
  set g1 := wordRunFwd s (k + 8 + ws.length + f1.length + 1 + a1.length + 15 + m1.length + 1)
    with hg1
  by_cases hgE : g1.isEmpty = true
  case pos => rw [if_pos hgE] at h; exact absurd h (by simp)
  case neg =>
  rw [if_neg hgE] at h
  by_cases hocc4 : occursAt (str ")(") s
    (k + 8 + ws.length + f1.length + 1 + a1.length + 15 + m1.length + 1 + g1.length) = true
  case neg => rw [if_neg hocc4] at h; exact absurd h (by simp)
  case pos =>
  rw [if_pos hocc4] at h
  set a21 := wordRunFwd s (k + 8 + ws.length + f1.length + 1 + a1.length + 15 + m1.length +
    1 + g1.length + 2) with ha21
  by_cases ha2E : a21.isEmpty = true
  case pos => rw [if_pos ha2E] at h; exact absurd h (by simp)
  case neg =>
  rw [if_neg ha2E] at h
  by_cases hocc5 : occursAt (str ",[]).cmd!==") s (k + 8 + ws.length + f1.length + 1 +
    a1.length + 15 + m1.length + 1 + g1.length + 2 + a21.length) = true
  case neg => rw [if_neg hocc5] at h; exact absurd h (by simp)
  case pos =>
  rw [if_pos hocc5] at h
  set w1 := wordRunFwd s (k + 8 + ws.length + f1.length + 1 + a1.length + 15 + m1.length +
    1 + g1.length + 2 + a21.length + 11) with hw1
  by_cases hwE : w1.isEmpty = true
  case pos => rw [if_pos hwE] at h; exact absurd h (by simp)
  case neg =>
  rw [if_neg hwE] at h
  by_cases hocc6 : occursAt (str "\x7d") s (k + 8 + ws.length + f1.length + 1 + a1.length +
    15 + m1.length + 1 + g1.length + 2 + a21.length + 11 + w1.length) = true
  case neg => rw [if_neg hocc6] at h; exact absurd h (by simp)
  case pos =>
  rw [if_pos hocc6] at h
  rw [Option.some_inj, Prod.mk.injEq] at h
  obtain ⟨hfeq, hfxeq⟩ := h
  have hd0 : s.drop k = str "function" ++ s.drop (k + 8) := by
    have := occursAt_decomp hoccF
    rwa [show (str "function").length = 8 from by decide] at this
  have hd1 : s.drop (k + 8) = ws ++ s.drop (k + 8 + ws.length) :=
    ws_run_split.trans (by rw [← hws])
  have hd2 : s.drop (k + 8 + ws.length) = f1 ++ s.drop (k + 8 + ws.length + f1.length) :=
    run_split.trans (by rw [← hf1])
  have hd3 : s.drop (k + 8 + ws.length + f1.length) =
      str "(" ++ s.drop (k + 8 + ws.length + f1.length + 1) := by
    have := occursAt_decomp hocc1
    rwa [show (str "(").length = 1 from by decide] at this
  have hd4 : s.drop (k + 8 + ws.length + f1.length + 1) =
      a1 ++ s.drop (k + 8 + ws.length + f1.length + 1 + a1.length) :=
    run_split.trans (by rw [← ha1])
  have hd5 : s.drop (k + 8 + ws.length + f1.length + 1 + a1.length) =
      str ")\x7btry\x7breturn(0," ++
      s.drop (k + 8 + ws.length + f1.length + 1 + a1.length + 15) := by
    have := occursAt_decomp hocc2
    rwa [show (str ")\x7btry\x7breturn(0,").length = 15 from by decide] at this
  have hd6 : s.drop (k + 8 + ws.length + f1.length + 1 + a1.length + 15) =
      m1 ++ s.drop (k + 8 + ws.length + f1.length + 1 + a1.length + 15 + m1.length) :=
    run_split.trans (by rw [← hm1])
  have hd7 : s.drop (k + 8 + ws.length + f1.length + 1 + a1.length + 15 + m1.length) =
      str "." ++ s.drop (k + 8 + ws.length + f1.length + 1 + a1.length + 15 + m1.length + 1) := by
    have := occursAt_decomp hocc3
    rwa [show (str ".").length = 1 from by decide] at this
  have hd8 : s.drop (k + 8 + ws.length + f1.length + 1 + a1.length + 15 + m1.length + 1) =
      g1 ++ s.drop (k + 8 + ws.length + f1.length + 1 + a1.length + 15 + m1.length + 1 +
        g1.length) :=
    run_split.trans (by rw [← hg1])
  have hd9 : s.drop (k + 8 + ws.length + f1.length + 1 + a1.length + 15 + m1.length + 1 +
      g1.length) = str ")(" ++ s.drop (k + 8 + ws.length + f1.length + 1 + a1.length + 15 +
      m1.length + 1 + g1.length + 2) := by
    have := occursAt_decomp hocc4
    rwa [show (str ")(").length = 2 from by decide] at this
  have hd10 : s.drop (k + 8 + ws.length + f1.length + 1 + a1.length + 15 + m1.length + 1 +
      g1.length + 2) = a21 ++ s.drop (k + 8 + ws.length + f1.length + 1 + a1.length + 15 +
      m1.length + 1 + g1.length + 2 + a21.length) :=
    run_split.trans (by rw [← ha21])
  have hd11 : s.drop (k + 8 + ws.length + f1.length + 1 + a1.length + 15 + m1.length + 1 +
      g1.length + 2 + a21.length) = str ",[]).cmd!==" ++ s.drop (k + 8 + ws.length + f1.length +
      1 + a1.length + 15 + m1.length + 1 + g1.length + 2 + a21.length + 11) := by
    have := occursAt_decomp hocc5
    rwa [show (str ",[]).cmd!==").length = 11 from by decide] at this
  have hd12 : s.drop (k + 8 + ws.length + f1.length + 1 + a1.length + 15 + m1.length + 1 +
      g1.length + 2 + a21.length + 11) = w1 ++ s.drop (k + 8 + ws.length + f1.length + 1 +
      a1.length + 15 + m1.length + 1 + g1.length + 2 + a21.length + 11 + w1.length) :=
    run_split.trans (by rw [← hw1])
  have hd13 : s.drop (k + 8 + ws.length + f1.length + 1 + a1.length + 15 + m1.length + 1 +
      g1.length + 2 + a21.length + 11 + w1.length) = str "\x7d" ++ s.drop (k + 8 + ws.length +
      f1.length + 1 + a1.length + 15 + m1.length + 1 + g1.length + 2 + a21.length + 11 +
      w1.length + 1) := by
    have := occursAt_decomp hocc6
    rwa [show (str "\x7d").length = 1 from by decide] at this
  refine ⟨ws, a1, m1, g1, a21, w1, wsRunFwd_allWs s _, ?_, ?_, ?_,
    wordRunFwd_allWord s _, ?_, wordRunFwd_allWord s _, ?_, wordRunFwd_allWord s _, ?_,
    wordRunFwd_allWord s _, ?_, wordRunFwd_allWord s _, ?_, ?_, ?_⟩
  · simpa [List.isEmpty_iff] using hwsE
  · rw [← hfeq]
    exact wordRunFwd_allWord s _
  · rw [← hfeq]
    simpa [List.isEmpty_iff] using hfE
  · simpa [List.isEmpty_iff] using haE
  · simpa [List.isEmpty_iff] using hmE
  · simpa [List.isEmpty_iff] using hgE
  · simpa [List.isEmpty_iff] using ha2E
  · simpa [List.isEmpty_iff] using hwE
  · rw [← hfxeq]
  · rw [← hfeq]
    rw [hd0, hd1, hd2, hd3, hd4, hd5, hd6, hd7, hd8, hd9, hd10, hd11, hd12, hd13]
    simp only [List.append_assoc, List.append_cancel_left_eq]
    congr 1
    omega

theorem filterMap_range_head {β : Type} {n : Nat} {g : Nat → Option β} {b : β} :
    (((List.range n).filterMap g).head? = some b) ↔
      ∃ k, k < n ∧ g k = some b ∧ ∀ j < k, g j = none := by
  induction n generalizing g with
  | zero => simp
  | succ m ih =>
    rw [List.range_succ_eq_map, List.filterMap_cons]
    cases hg0 : g 0 with
    | some c =>
      simp only [List.head?_cons, Option.some_inj]
      constructor
      · rintro rfl
        exact ⟨0, by omega, hg0, by omega⟩
      · rintro ⟨k, hk, hgk, hmin⟩
        cases k with
        | zero =>
          rw [hg0] at hgk
          exact Option.some_inj.mp hgk
        | succ k' =>
          have h0 := hmin 0 (by omega)
          rw [hg0] at h0
          exact absurd h0 (by simp)
    | none =>
      rw [List.filterMap_map]
      have hih := @ih (fun i => g (Nat.succ i))
      rw [show (g ∘ Nat.succ) = (fun i => g (Nat.succ i)) from rfl, hih]
      constructor
      · rintro ⟨k, hk, hgk, hmin⟩
        refine ⟨k + 1, by omega, hgk, ?_⟩
        intro j hj
        cases j with
        | zero => exact hg0
        | succ j' => exact hmin j' (by omega)
      · rintro ⟨k, hk, hgk, hmin⟩
        cases k with
        | zero =>
          rw [hg0] at hgk
          exact absurd hgk (by simp)
        | succ k' =>
          refine ⟨k', by omega, hgk, ?_⟩
          intro j hj
          exact hmin (j + 1) (by omega)

theorem filter_range_head {n : Nat} {q : Nat → Bool} {k : Nat} :
    (((List.range n).filter q).head? = some k) ↔
      k < n ∧ q k = true ∧ ∀ j < k, q j = false := by
  have hfm : (List.range n).filter q =
      (List.range n).filterMap (fun i => if q i then some i else none) := by
    induction (List.range n) with
    | nil => simp
    | cons a l ihl =>
      rw [List.filter_cons, List.filterMap_cons]
      by_cases hqa : q a = true
      · rw [if_pos hqa, if_pos hqa, ihl]
      · rw [if_neg hqa, if_neg hqa, ihl]
  rw [hfm, filterMap_range_head]
  constructor
  · rintro ⟨k', hk', hgk, hmin⟩
    by_cases hq : q k' = true
    · rw [if_pos hq] at hgk
      obtain rfl : k' = k := Option.some_inj.mp hgk
      refine ⟨hk', hq, ?_⟩
      intro j hj
      have := hmin j hj
      by_cases hqj : q j = true
      · rw [if_pos hqj] at this
        exact absurd this (by simp)
      · simpa using hqj
    · rw [if_neg hq] at hgk
      exact absurd hgk (by simp)
  · rintro ⟨hk, hq, hmin⟩
    refine ⟨k, hk, by rw [if_pos hq], ?_⟩
    intro j hj
    rw [if_neg]
    simp [hmin j hj]

theorem parseCmdSite_none_of_no_function {s : Str} {j : Nat}
    (h : occursAt (str "function") s j = false) : parseCmdSite s j = none := by
  unfold parseCmdSite
  rw [if_neg]
  simp [h]

theorem cmdCaptures_eq_some_iff {s : Str} {v : Str × Str} :
    cmdCaptures s = some v ↔
      ∃ k, k < s.length + 1 ∧ parseCmdSite s k = some v ∧
        ∀ j < k, parseCmdSite s j = none := by
  unfold cmdCaptures occIdxs
  have hfm : ((List.range (s.length + 1)).filter
        (fun i => occursAt (str "function") s i)).filterMap (fun k => parseCmdSite s k) =
      (List.range (s.length + 1)).filterMap (fun k => parseCmdSite s k) := by
    induction (List.range (s.length + 1)) with
    | nil => simp
    | cons a l ihl =>
      rw [List.filter_cons]
      by_cases hqa : occursAt (str "function") s a = true
      · rw [if_pos (by simp [hqa]), List.filterMap_cons, ihl]
        rw [List.filterMap_cons]
      · rw [if_neg (by simp [hqa]), ihl, List.filterMap_cons,
          parseCmdSite_none_of_no_function (by simpa using hqa)]
  rw [hfm, filterMap_range_head]

theorem zshFirstSite_eq_some_iff {s : Str} {k : Nat} :
    zshFirstSite s = some k ↔
      k < s.length + 1 ∧ zshSiteValid s k = true ∧ ∀ j < k, zshSiteValid s j = false := by
  unfold zshFirstSite occIdxs
  rw [List.filter_filter]
  have hhead : (((List.range (s.length + 1)).filter
      (fun j => zshSiteValid s j && occursAt zshLit s j)).head? = some k) ↔
      k < s.length + 1 ∧ (zshSiteValid s k && occursAt zshLit s k) = true ∧
        ∀ j < k, (zshSiteValid s j && occursAt zshLit s j) = false :=
    filter_range_head
  rw [hhead]
  have hv : ∀ j, (zshSiteValid s j && occursAt zshLit s j) = zshSiteValid s j := by
    intro j
    by_cases hz : zshSiteValid s j = true
    · have hocc : occursAt zshLit s j = true := by
        unfold zshSiteValid at hz
        simp only [Bool.and_eq_true] at hz
        exact hz.1.1
      rw [hz, hocc]
      rfl
    · rw [Bool.not_eq_true] at hz
      rw [hz, Bool.false_and]
  constructor
  · rintro ⟨h1, h2, h3⟩
    rw [hv] at h2
    refine ⟨h1, h2, ?_⟩
    intro j hj
    have := h3 j hj
    rwa [hv] at this
  · rintro ⟨h1, h2, h3⟩
    refine ⟨h1, ?_, ?_⟩
    · rw [hv]
      exact h2
    · intro j hj
      rw [hv]
      exact h3 j hj

theorem zshCaptures_eq_iff {s : Str} {he : Str × Str} :
    zshCaptures s = some he ↔
      ∃ k, zshFirstSite s = some k ∧ he = (wordRunBack s k, wordRunFwd s (k + 17)) := by
  unfold zshCaptures
  cases hfs : zshFirstSite s with
  | none => simp
  | some k =>
    constructor
    · intro h
      refine ⟨k, rfl, ?_⟩
      have h2 : (wordRunBack s k, wordRunFwd s (k + 17)) = he := by simpa using h
      exact h2.symm
    · rintro ⟨k', hk', hhe⟩
      rw [Option.some_inj] at hk'
      subst hk'
      subst hhe
      simp

theorem prefix_of_append_le {w u v : Str} (h : w <+: u ++ v) (hl : w.length ≤ u.length) :
    w <+: u :=
  List.prefix_of_prefix_length_le h (List.prefix_append u v) hl

theorem drop_append_ge {A B : Str} {n : Nat} (h : A.length ≤ n) :
    (A ++ B).drop n = B.drop (n - A.length) := by
  rw [List.drop_append_eq_append_drop, List.drop_eq_nil_of_le h, List.nil_append]

theorem drop_split_at {s : Str} {a p : Nat} (hap : a ≤ p) (hp : p ≤ s.length) :
    s.drop a = (s.take p).drop a ++ s.drop p := by
  conv_lhs => rw [← List.take_append_drop p s]
  rw [List.drop_append_eq_append_drop]
  have h0 : a - (s.take p).length = 0 := by
    rw [List.length_take]
    omega
  rw [h0, List.drop_zero]

theorem insertAt_take_left {t I : Str} {p : Nat} (hp : p ≤ t.length) :
    (insertAt t I p).take p = t.take p := by
  unfold insertAt
  rw [List.append_assoc, List.take_append_eq_append_take]
  have h1 : p - (t.take p).length = 0 := by
    rw [List.length_take]
    omega
  rw [h1, List.take_zero, List.append_nil, List.take_take, Nat.min_self]


theorem insertAt_length {t I : Str} {p : Nat} (hp : p ≤ t.length) :
    (insertAt t I p).length = t.length + I.length := by
  unfold insertAt
  simp [List.length_append, List.length_take, List.length_drop]
  omega

/-- Classify an occurrence in `A ++ I ++ B` by its position relative to the
two junctions. -/
theorem occ_in_append3 {A I B w : Str} {k : Nat}
    (h : occursAt w (A ++ I ++ B) k = true) :
    (k + w.length ≤ A.length ∧ occursAt w A k = true) ∨
    (A.length + I.length ≤ k ∧ occursAt w B (k - A.length - I.length) = true) ∨
    (A.length ≤ k ∧ k + w.length ≤ A.length + I.length ∧
      occursAt w I (k - A.length) = true) ∨
    (k < A.length ∧ A.length < k + w.length ∧
      w.take (A.length - k) <:+ A ∧ w.drop (A.length - k) <+: I ++ B) ∨
    (A.length ≤ k ∧ k < A.length + I.length ∧ A.length + I.length < k + w.length ∧
      w.take (A.length + I.length - k) <:+ A ++ I ∧
      w.drop (A.length + I.length - k) <+: B) := by
  by_cases h1 : k < A.length
  · by_cases h2 : k + w.length ≤ A.length
    · refine Or.inl ⟨h2, ?_⟩
      rw [occursAt_iff] at h ⊢
      have hd : (A ++ I ++ B).drop k = A.drop k ++ (I ++ B) := by
        rw [List.append_assoc, List.drop_append_eq_append_drop]
        have : k - A.length = 0 := by omega
        rw [this, List.drop_zero]
      rw [hd] at h
      refine prefix_of_append_le h ?_
      rw [List.length_drop]
      omega
    · push_neg at h2
      refine Or.inr (Or.inr (Or.inr (Or.inl ⟨h1, by omega, ?_, ?_⟩)))
      · have hh := @occursAt_cross_take w (A ++ I ++ B) k A.length h h1 (by omega)
        rwa [List.append_assoc, List.take_left] at hh
      · have hh := @occursAt_cross_drop w (A ++ I ++ B) k A.length h (by omega)
        rwa [List.append_assoc, List.drop_left] at hh
  · push_neg at h1
    by_cases h3 : A.length + I.length ≤ k
    · refine Or.inr (Or.inl ⟨h3, ?_⟩)
      rw [occursAt_iff] at h ⊢
      rw [List.append_assoc, drop_append_ge (by omega), drop_append_ge (by omega)] at h
      exact h
    · push_neg at h3
      by_cases h4 : k + w.length ≤ A.length + I.length
      · refine Or.inr (Or.inr (Or.inl ⟨h1, h4, ?_⟩))
        rw [occursAt_iff] at h ⊢
        rw [List.append_assoc, drop_append_ge h1] at h
        rw [List.drop_append_eq_append_drop] at h
        have : k - A.length - I.length = 0 := by omega
        rw [this, List.drop_zero] at h
        refine prefix_of_append_le h ?_
        rw [List.length_drop]
        omega
      · push_neg at h4
        refine Or.inr (Or.inr (Or.inr (Or.inr ⟨h1, h3, h4, ?_, ?_⟩)))
        · have hh := @occursAt_cross_take w (A ++ I ++ B) k (A.length + I.length) h
            (by omega) (by omega)
          have hlen : (A ++ I).length = A.length + I.length := by
            rw [List.length_append]
          rw [← hlen] at hh ⊢
          rwa [List.take_left] at hh
        · have hh := @occursAt_cross_drop w (A ++ I ++ B) k (A.length + I.length) h (by omega)
          have hlen : (A ++ I).length = A.length + I.length := by
            rw [List.length_append]
          rw [← hlen] at hh ⊢
          rwa [List.drop_left] at hh

/-- A drop-equation whose window ends below `p` transfers to any string
agreeing on the first `p` characters. -/
theorem drop_eq_transfer_low {t t' u rest : Str} {a p : Nat}
    (hagree : t'.take p = t.take p) (hd : t.drop a = u ++ rest)
    (hwin : a + u.length ≤ p) (hpt' : p ≤ t'.length) :
    t'.drop a = u ++ (rest.take (p - a - u.length) ++ t'.drop p) := by
  have h1 : t'.drop a = (t'.take p).drop a ++ t'.drop p := drop_split_at (by omega) hpt'
  rw [hagree] at h1
  have h2 : (t.take p).drop a = (t.drop a).take (p - a) := by
    rw [List.drop_take]
  rw [h2, hd, List.take_append_eq_append_take] at h1
  have h3 : u.take (p - a) = u := List.take_of_length_le (by omega)
  rw [h3] at h1
  rw [h1, List.append_assoc]

/-- A drop-equation whose window sits inside the shared suffix `B`
transfers across a change of prefix. -/
theorem drop_eq_transfer_high {A A' B u rest : Str} {k : Nat}
    (hd : (A ++ B).drop k = u ++ rest) (hk : A.length ≤ k) :
    (A' ++ B).drop (k - A.length + A'.length) = u ++ rest := by
  rw [drop_append_ge hk] at hd
  have h2 : (A' ++ B).drop (k - A.length + A'.length) = B.drop (k - A.length) := by
    have harith : k - A.length + A'.length = A'.length + (k - A.length) := by omega
    rw [harith, List.drop_append]
  rw [h2, hd]

theorem zshSiteAt_flat {s : Str} {k : Nat} {ch : Char} {e rest : Str}
    (hs : zshSiteAt s k ch e rest) :
    s.drop (k - 1) = (ch :: (zshLit ++ (e ++ str ".Zsh"))) ++ rest := by
  obtain ⟨-, -, -, -, hdrop⟩ := hs
  rw [hdrop]
  simp [List.append_assoc]

theorem zshSiteAt_of_flat {s : Str} {k : Nat} {ch : Char} {e rest : Str}
    (hch : wordChar ch = true) (hene : e ≠ []) (hew : allWord e = true) (hk : 1 ≤ k)
    (hd : s.drop (k - 1) = (ch :: (zshLit ++ (e ++ str ".Zsh"))) ++ rest) :
    zshSiteAt s k ch e rest := by
  refine ⟨hch, hene, hew, hk, ?_⟩
  rw [hd]
  simp [List.append_assoc]

theorem zshW_flat_length {ch : Char} {e : Str} :
    (ch :: (zshLit ++ (e ++ str ".Zsh"))).length = 22 + e.length := by
  simp only [List.length_cons, List.length_append]
  rw [show zshLit.length = 17 from by decide, show (str ".Zsh").length = 4 from by decide]
  omega

theorem zshSiteAt_low {t t' : Str} {p k : Nat} {ch : Char} {e rest : Str}
    (hagree : t'.take p = t.take p) (hs : zshSiteAt t k ch e rest)
    (hwin : k + 21 + e.length ≤ p) (hpt' : p ≤ t'.length) :
    ∃ rest', zshSiteAt t' k ch e rest' := by
  have hd := zshSiteAt_flat hs
  obtain ⟨hch, hene, hew, hk1, -⟩ := hs
  have htr := drop_eq_transfer_low hagree hd
    (by rw [zshW_flat_length]; omega) hpt'
  exact ⟨_, zshSiteAt_of_flat hch hene hew hk1 htr⟩

theorem zshSiteAt_high {A A' B : Str} {k : Nat} {ch : Char} {e rest : Str}
    (hs : zshSiteAt (A ++ B) k ch e rest) (hk : A.length + 1 ≤ k) :
    zshSiteAt (A' ++ B) (k - A.length + A'.length) ch e rest := by
  have hd := zshSiteAt_flat hs
  obtain ⟨hch, hene, hew, hk1, -⟩ := hs
  have htr := @drop_eq_transfer_high A A' B _ _ _ hd (by omega)
  refine zshSiteAt_of_flat hch hene hew (by omega) ?_
  have harith : k - A.length + A'.length - 1 = k - 1 - A.length + A'.length := by omega
  rw [harith]
  exact htr

theorem uthSiteAt_flat {s : Str} {k : Nat} {x rest : Str}
    (hs : uthSiteAt s k x rest) :
    s.drop k = (str ".shell??" ++ (x ++ str "?.userTerminalHint??")) ++ rest := by
  obtain ⟨-, -, hdrop⟩ := hs
  rw [hdrop]
  simp [List.append_assoc]

theorem uthSiteAt_of_flat {s : Str} {k : Nat} {x rest : Str}
    (hxne : x ≠ []) (hxw : allWord x = true)
    (hd : s.drop k = (str ".shell??" ++ (x ++ str "?.userTerminalHint??")) ++ rest) :
    uthSiteAt s k x rest := by
  refine ⟨hxne, hxw, ?_⟩
  rw [hd]
  simp [List.append_assoc]

theorem uthW_flat_length {x : Str} :
    (str ".shell??" ++ (x ++ str "?.userTerminalHint??")).length = 28 + x.length := by
  simp only [List.length_append]
  rw [show (str ".shell??").length = 8 from by decide,
    show (str "?.userTerminalHint??").length = 20 from by decide]
  omega

theorem uthSiteAt_low {t t' : Str} {p k : Nat} {x rest : Str}
    (hagree : t'.take p = t.take p) (hs : uthSiteAt t k x rest)
    (hwin : k + 28 + x.length ≤ p) (hpt' : p ≤ t'.length) :
    ∃ rest', uthSiteAt t' k x rest' := by
  have hd := uthSiteAt_flat hs
  obtain ⟨hxne, hxw, -⟩ := hs
  have htr := drop_eq_transfer_low hagree hd
    (by rw [uthW_flat_length]; omega) hpt'
  exact ⟨_, uthSiteAt_of_flat hxne hxw htr⟩

theorem uthSiteAt_high {A A' B : Str} {k : Nat} {x rest : Str}
    (hs : uthSiteAt (A ++ B) k x rest) (hk : A.length ≤ k) :
    uthSiteAt (A' ++ B) (k - A.length + A'.length) x rest := by
  have hd := uthSiteAt_flat hs
  obtain ⟨hxne, hxw, -⟩ := hs
  have htr := @drop_eq_transfer_high A A' B _ _ _ hd hk
  exact uthSiteAt_of_flat hxne hxw htr

theorem cmdSiteAt_flat {s : Str} {k : Nat} {ws f a m g a2 w rest : Str}
    (hs : cmdSiteAt s k ws f a m g a2 w rest) :
    s.drop k = (str "function" ++ (ws ++ (f ++ (str "(" ++ (a ++
      (str ")\x7btry\x7breturn(0," ++ (m ++ (str "." ++ (g ++ (str ")(" ++
      (a2 ++ (str ",[]).cmd!==" ++ (w ++ str "\x7d"))))))))))))) ++ rest := by
  obtain ⟨-, -, -, -, -, -, -, -, -, -, -, -, -, -, hdrop⟩ := hs
  rw [hdrop]
  simp [List.append_assoc]

theorem cmdSiteAt_of_flat {s : Str} {k : Nat} {ws f a m g a2 w rest : Str}
    (hws : allWs ws = true) (hwsne : ws ≠ [])
    (hf : allWord f = true) (hfne : f ≠ [])
    (ha : allWord a = true) (hane : a ≠ [])
    (hm : allWord m = true) (hmne : m ≠ [])
    (hg : allWord g = true) (hgne : g ≠ [])
    (ha2 : allWord a2 = true) (ha2ne : a2 ≠ [])
    (hw : allWord w = true) (hwne : w ≠ [])
    (hd : s.drop k = (str "function" ++ (ws ++ (f ++ (str "(" ++ (a ++
      (str ")\x7btry\x7breturn(0," ++ (m ++ (str "." ++ (g ++ (str ")(" ++
      (a2 ++ (str ",[]).cmd!==" ++ (w ++ str "\x7d"))))))))))))) ++ rest) :
    cmdSiteAt s k ws f a m g a2 w rest := by
  refine ⟨hws, hwsne, hf, hfne, ha, hane, hm, hmne, hg, hgne, ha2, ha2ne, hw, hwne, ?_⟩
  rw [hd]
  simp [List.append_assoc]

theorem cmdW_flat_length {ws f a m g a2 w : Str} :
    (str "function" ++ (ws ++ (f ++ (str "(" ++ (a ++
      (str ")\x7btry\x7breturn(0," ++ (m ++ (str "." ++ (g ++ (str ")(" ++
      (a2 ++ (str ",[]).cmd!==" ++ (w ++ str "\x7d"))))))))))))).length =
    39 + ws.length + f.length + a.length + m.length + g.length + a2.length + w.length := by
  simp only [List.length_append]
  rw [show (str "function").length = 8 from by decide,
    show (str "(").length = 1 from by decide,
    show (str ")\x7btry\x7breturn(0,").length = 15 from by decide,
    show (str ".").length = 1 from by decide,
    show (str ")(").length = 2 from by decide,
    show (str ",[]).cmd!==").length = 11 from by decide,
    show (str "\x7d").length = 1 from by decide]
  omega

theorem cmdSiteAt_low {t t' : Str} {p k : Nat} {ws f a m g a2 w rest : Str}
    (hagree : t'.take p = t.take p) (hs : cmdSiteAt t k ws f a m g a2 w rest)
    (hwin : k + 39 + ws.length + f.length + a.length + m.length + g.length +
      a2.length + w.length ≤ p) (hpt' : p ≤ t'.length) :
    ∃ rest', cmdSiteAt t' k ws f a m g a2 w rest' := by
  have hd := cmdSiteAt_flat hs
  obtain ⟨hws, hwsne, hf, hfne, ha, hane, hm, hmne, hg, hgne, ha2, ha2ne, hw, hwne, -⟩ := hs
  have htr := drop_eq_transfer_low hagree hd
    (by rw [cmdW_flat_length]; omega) hpt'
  exact ⟨_, cmdSiteAt_of_flat hws hwsne hf hfne ha hane hm hmne hg hgne ha2 ha2ne hw hwne htr⟩

theorem cmdSiteAt_high {A A' B : Str} {k : Nat} {ws f a m g a2 w rest : Str}
    (hs : cmdSiteAt (A ++ B) k ws f a m g a2 w rest) (hk : A.length ≤ k) :
    cmdSiteAt (A' ++ B) (k - A.length + A'.length) ws f a m g a2 w rest := by
  have hd := cmdSiteAt_flat hs
  obtain ⟨hws, hwsne, hf, hfne, ha, hane, hm, hmne, hg, hgne, ha2, ha2ne, hw, hwne, -⟩ := hs
  have htr := @drop_eq_transfer_high A A' B _ _ _ hd hk
  exact cmdSiteAt_of_flat hws hwsne hf hfne ha hane hm hmne hg hgne ha2 ha2ne hw hwne htr

theorem uthFlag_elim {s : Str} (h : uthFlagB s = true) :
    ∃ k x, x ≠ [] ∧ allWord x = true ∧ k + 28 + x.length ≤ s.length ∧
      s.drop k = str ".shell??" ++ (x ++ (str "?.userTerminalHint??" ++
        s.drop (k + 28 + x.length))) := by
  unfold uthFlagB at h
  rw [List.any_eq_true] at h
  obtain ⟨k, hkmem, hsite⟩ := h
  unfold uthSiteValid at hsite
  simp only [Bool.and_eq_true] at hsite
  obtain ⟨hocc, hxne, hU⟩ := hsite
  set x := wordRunFwd s (k + 8) with hx
  have hxne' : x ≠ [] := by simpa [List.isEmpty_iff] using hxne
  have hxw : allWord x = true := by
    rw [hx]
    unfold allWord wordRunFwd
    rw [List.all_eq_true]
    intro c hc
    exact List.mem_takeWhile_imp hc
  have hdk : s.drop k = str ".shell??" ++ s.drop (k + 8) := by
    have := occursAt_decomp hocc
    rwa [show (str ".shell??").length = 8 from by decide] at this
  have hd8 : s.drop (k + 8) = x ++ (s.drop (k + 8)).dropWhile (fun c => wordChar c) := by
    have h0 : (s.drop (k + 8)).takeWhile (fun c => wordChar c) ++
        (s.drop (k + 8)).dropWhile (fun c => wordChar c) = s.drop (k + 8) :=
      List.takeWhile_append_dropWhile _ _
    rw [hx]
    unfold wordRunFwd
    exact h0.symm
  have hXd : s.drop (k + 8 + x.length) = (s.drop (k + 8)).dropWhile (fun c => wordChar c) := by
    conv_lhs => rw [← List.drop_drop, hd8]
    rw [List.drop_left]
  have hUocc : s.drop (k + 8 + x.length) =
      str "?.userTerminalHint??" ++ s.drop (k + 28 + x.length) := by
    have := occursAt_decomp hU
    rw [show (str "?.userTerminalHint??").length = 20 from by decide] at this
    rw [this]
    congr 2
    omega
  refine ⟨k, x, hxne', hxw, ?_, ?_⟩
  · have hb := occursAt_bound hU (by decide)
    rw [show (str "?.userTerminalHint??").length = 20 from by decide] at hb
    omega
  · rw [hdk, hd8, ← hXd, hUocc]

theorem zshValid_of_siteAt {s : Str} {k : Nat} {ch : Char} {e rest : Str}
    (hs : zshSiteAt s k ch e rest) :
    zshSiteValid s k = true ∧ wordRunFwd s (k + 17) = e := by
  obtain ⟨hch, hene, hew, hk1, hdrop⟩ := hs
  exact zshValid_intro hch hene hew hk1 hdrop

theorem siteAt_of_zshValid {s : Str} {k : Nat} (h : zshSiteValid s k = true) :
    ∃ ch e rest, zshSiteAt s k ch e rest ∧ wordRunFwd s (k + 17) = e ∧
      k + 21 + e.length ≤ s.length := by
  obtain ⟨ch, e, hch, hene, hew, hk1, hbound, hrun, hdrop⟩ := zshValid_elim h
  exact ⟨ch, e, _, ⟨hch, hene, hew, hk1, hdrop⟩, hrun, hbound⟩

theorem parse_of_cmdSiteAt {s : Str} {k : Nat} {ws f a m g a2 w rest : Str}
    (hs : cmdSiteAt s k ws f a m g a2 w rest) :
    parseCmdSite s k = some (f, str "(0," ++ m ++ str "." ++ g ++ str ")") := by
  obtain ⟨hws, hwsne, hf, hfne, ha, hane, hm, hmne, hg, hgne, ha2, ha2ne, hw, hwne, hd⟩ := hs
  exact cmdParse_intro hws hwsne hf hfne ha hane hm hmne hg hgne ha2 ha2ne hw hwne hd

theorem cmdSiteAt_of_parse {s f fx : Str} {k : Nat} (h : parseCmdSite s k = some (f, fx)) :
    ∃ ws a m g a2 w rest, cmdSiteAt s k ws f a m g a2 w rest ∧
      fx = str "(0," ++ m ++ str "." ++ g ++ str ")" := by
  obtain ⟨ws, a, m, g, a2, w, hws, hwsne, hf, hfne, ha, hane, hm, hmne, hg, hgne,
    ha2, ha2ne, hw, hwne, hfx, hd⟩ := cmdParse_elim h
  exact ⟨ws, a, m, g, a2, w, _,
    ⟨hws, hwsne, hf, hfne, ha, hane, hm, hmne, hg, hgne, ha2, ha2ne, hw, hwne, hd⟩, hfx⟩

theorem drop_eq_bound {s u rest : Str} {k : Nat} (hd : s.drop k = u ++ rest) (hu : u ≠ []) :
    k + u.length ≤ s.length := by
  by_cases hk : k ≤ s.length
  · have hlen := congrArg List.length hd
    rw [List.length_drop, List.length_append] at hlen
    omega
  · exfalso
    rw [List.drop_eq_nil_of_le (by omega)] at hd
    have h2 := hd.symm
    rw [List.append_eq_nil] at h2
    exact hu h2.1

theorem cmdSiteAt_bound {s : Str} {k : Nat} {ws f a m g a2 w rest : Str}
    (hs : cmdSiteAt s k ws f a m g a2 w rest) :
    k + 39 + ws.length + f.length + a.length + m.length + g.length + a2.length +
      w.length ≤ s.length := by
  have hd := cmdSiteAt_flat hs
  have := drop_eq_bound hd (by simp [str])
  rw [cmdW_flat_length] at this
  omega

theorem uthSiteAt_bound {s : Str} {k : Nat} {x rest : Str}
    (hs : uthSiteAt s k x rest) : k + 28 + x.length ≤ s.length := by
  have hd := uthSiteAt_flat hs
  have := drop_eq_bound hd (by simp [str])
  rw [uthW_flat_length] at this
  omega

theorem zshSiteAt_bound {s : Str} {k : Nat} {ch : Char} {e rest : Str}
    (hs : zshSiteAt s k ch e rest) : k + 21 + e.length ≤ s.length := by
  have hd := zshSiteAt_flat hs
  have hb := drop_eq_bound hd (by simp)
  rw [zshW_flat_length] at hb
  have hk1 := hs.2.2.2.1
  omega

/-- First zsh site and its enum capture survive an insertion that no site
(of either string) straddles. -/
theorem zshFirst_insert {t I : Str} {p k0 : Nat} (hp : p ≤ t.length)
    (hfs : zshFirstSite t = some k0)
    (hA : ∀ k ch e rest, zshSiteAt t k ch e rest → k + 21 + e.length ≤ p ∨ p < k)
    (hB : ∀ k ch e rest, zshSiteAt (insertAt t I p) k ch e rest →
      k + 21 + e.length ≤ p ∨ p + I.length < k) :
    ∃ k1, zshFirstSite (insertAt t I p) = some k1 ∧
      wordRunFwd (insertAt t I p) (k1 + 17) = wordRunFwd t (k0 + 17) := by
  obtain ⟨hk0lt, hvalid0, hmin0⟩ := zshFirstSite_eq_some_iff.mp hfs
  obtain ⟨ch, e, rest, hsite0, hrun0, hbound0⟩ := siteAt_of_zshValid hvalid0
  have hagree : (insertAt t I p).take p = t.take p := insertAt_take_left hp
  have hlen' : (insertAt t I p).length = t.length + I.length := insertAt_length hp
  have hp' : p ≤ (insertAt t I p).length := by omega
  set A := t.take p with hAdef
  set B := t.drop p with hBdef
  have hlenA : A.length = p := by
    rw [hAdef, List.length_take]
    omega
  have htAB : t = A ++ B := (List.take_append_drop p t).symm
  have ht' : insertAt t I p = (A ++ I) ++ B := by
    unfold insertAt
    rw [List.append_assoc]
  have hlenA' : (A ++ I).length = p + I.length := by
    rw [List.length_append, hlenA]
  rcases hA k0 ch e rest hsite0 with hwin | hwin2
  · -- the site lies wholly below the insertion point
    obtain ⟨rest', hsite0'⟩ := zshSiteAt_low hagree hsite0 hwin hp'
    obtain ⟨hvalid0', hrun0'⟩ := zshValid_of_siteAt hsite0'
    refine ⟨k0, zshFirstSite_eq_some_iff.mpr ⟨by omega, hvalid0', ?_⟩, by rw [hrun0', hrun0]⟩
    intro j hj
    cases hvj : zshSiteValid (insertAt t I p) j with
    | false => rfl
    | true =>
      exfalso
      obtain ⟨ch', e', rest'', hsj, -, -⟩ := siteAt_of_zshValid hvj
      rcases hB j ch' e' rest'' hsj with hwj | hwj
      · obtain ⟨rest3, hsj'⟩ := zshSiteAt_low hagree.symm hsj hwj (by omega)
        have hvt0 := (zshValid_of_siteAt hsj').1
        rw [hmin0 j hj] at hvt0
        exact Bool.false_ne_true hvt0
      · omega
  · -- the site lies wholly above the insertion point
    rw [htAB] at hsite0
    have hsite1 := @zshSiteAt_high A (A ++ I) B k0 ch e rest hsite0 (by omega)
    have harith : k0 - A.length + (A ++ I).length = k0 + I.length := by
      rw [hlenA', hlenA]
      omega
    rw [harith, ← ht'] at hsite1
    obtain ⟨hvalid1, hrun1⟩ := zshValid_of_siteAt hsite1
    refine ⟨k0 + I.length,
      zshFirstSite_eq_some_iff.mpr ⟨by omega, hvalid1, ?_⟩, by rw [hrun1, hrun0]⟩
    intro j hj
    cases hvj : zshSiteValid (insertAt t I p) j with
    | false => rfl
    | true =>
      exfalso
      obtain ⟨ch', e', rest'', hsj, -, -⟩ := siteAt_of_zshValid hvj
      rcases hB j ch' e' rest'' hsj with hwj | hwj
      · obtain ⟨rest3, hsj'⟩ := zshSiteAt_low hagree.symm hsj hwj (by omega)
        have hvt := (zshValid_of_siteAt hsj').1
        have hjk : j < k0 := by omega
        rw [hmin0 j hjk] at hvt
        exact Bool.false_ne_true hvt
      · rw [ht'] at hsj
        have hsj2 := @zshSiteAt_high (A ++ I) A B j ch' e' rest'' hsj (by omega)
        rw [← htAB] at hsj2
        have hvt := (zshValid_of_siteAt hsj2).1
        have hjk : j - (A ++ I).length + A.length < k0 := by
          rw [hlenA', hlenA]
          omega
        rw [hmin0 _ hjk] at hvt
        exact Bool.false_ne_true hvt

/-- The first `re_cmd` capture survives an insertion that no site (of
either string) straddles. -/
theorem cmdFirst_insert {t I : Str} {p : Nat} {v : Str × Str} (hp : p ≤ t.length)
    (hcc : cmdCaptures t = some v)
    (hA : ∀ k ws f a m g a2 w rest, cmdSiteAt t k ws f a m g a2 w rest →
      k + 39 + ws.length + f.length + a.length + m.length + g.length + a2.length +
        w.length ≤ p ∨ p ≤ k)
    (hB : ∀ k ws f a m g a2 w rest, cmdSiteAt (insertAt t I p) k ws f a m g a2 w rest →
      k + 39 + ws.length + f.length + a.length + m.length + g.length + a2.length +
        w.length ≤ p ∨ p + I.length ≤ k) :
    cmdCaptures (insertAt t I p) = some v := by
  obtain ⟨k0, hk0lt, hparse0, hmin0⟩ := cmdCaptures_eq_some_iff.mp hcc
  obtain ⟨ws, a, m, g, a2, w, rest, hsite0, hfx⟩ := cmdSiteAt_of_parse hparse0
  have hagree : (insertAt t I p).take p = t.take p := insertAt_take_left hp
  have hlen' : (insertAt t I p).length = t.length + I.length := insertAt_length hp
  have hp' : p ≤ (insertAt t I p).length := by omega
  set A := t.take p with hAdef
  set B := t.drop p with hBdef
  have hlenA : A.length = p := by
    rw [hAdef, List.length_take]
    omega
  have htAB : t = A ++ B := (List.take_append_drop p t).symm
  have ht' : insertAt t I p = (A ++ I) ++ B := by
    unfold insertAt
    rw [List.append_assoc]
  have hlenA' : (A ++ I).length = p + I.length := by
    rw [List.length_append, hlenA]
  have hv : v = (v.1, str "(0," ++ m ++ str "." ++ g ++ str ")") := by
    rw [← hfx]
  rcases hA k0 ws v.1 a m g a2 w rest hsite0 with hwin | hwin2
  · obtain ⟨rest', hsite0'⟩ := cmdSiteAt_low hagree hsite0 hwin hp'
    have hparse0' := parse_of_cmdSiteAt hsite0'
    refine cmdCaptures_eq_some_iff.mpr ⟨k0, by omega, by rw [hparse0', ← hv], ?_⟩
    intro j hj
    cases hpj : parseCmdSite (insertAt t I p) j with
    | none => rfl
    | some w' =>
      exfalso
      obtain ⟨ws', a', m', g', a2', w2, rest'', hsj, -⟩ := cmdSiteAt_of_parse hpj
      rcases hB j ws' w'.1 a' m' g' a2' w2 rest'' hsj with hwj | hwj
      · obtain ⟨rest3, hsj'⟩ := cmdSiteAt_low hagree.symm hsj hwj (by omega)
        have hpt := parse_of_cmdSiteAt hsj'
        rw [hmin0 j hj] at hpt
        exact absurd hpt (by simp)
      · have hb0 := cmdSiteAt_bound hsite0
        omega
  · rw [htAB] at hsite0
    have hsite1 := @cmdSiteAt_high A (A ++ I) B k0 ws v.1 a m g a2 w rest hsite0 (by omega)
    have harith : k0 - A.length + (A ++ I).length = k0 + I.length := by
      rw [hlenA', hlenA]
      omega
    rw [harith, ← ht'] at hsite1
    have hparse1 := parse_of_cmdSiteAt hsite1
    refine cmdCaptures_eq_some_iff.mpr ⟨k0 + I.length, by omega, by rw [hparse1, ← hv], ?_⟩
    intro j hj
    cases hpj : parseCmdSite (insertAt t I p) j with
    | none => rfl
    | some w' =>
      exfalso
      obtain ⟨ws', a', m', g', a2', w2, rest'', hsj, -⟩ := cmdSiteAt_of_parse hpj
      rcases hB j ws' w'.1 a' m' g' a2' w2 rest'' hsj with hwj | hwj
      · obtain ⟨rest3, hsj'⟩ := cmdSiteAt_low hagree.symm hsj hwj (by omega)
        have hpt := parse_of_cmdSiteAt hsj'
        have hjk : j < k0 := by omega
        rw [hmin0 j hjk] at hpt
        exact absurd hpt (by simp)
      · rw [ht'] at hsj
        have hsj2 := @cmdSiteAt_high (A ++ I) A B j ws' w'.1 a' m' g' a2' w2 rest'' hsj
          (by omega)
        rw [← htAB] at hsj2
        have hpt := parse_of_cmdSiteAt hsj2
        have hjk : j - (A ++ I).length + A.length < k0 := by
          rw [hlenA', hlenA]
          omega
        rw [hmin0 _ hjk] at hpt
        exact absurd hpt (by simp)

/-- The userTerminalHint flag survives an insertion that no site of the
original text straddles. -/
theorem uthFlag_insert {t I : Str} {p : Nat} (hp : p ≤ t.length)
    (hflag : uthFlagB t = true)
    (hA : ∀ k x rest, uthSiteAt t k x rest → k + 28 + x.length ≤ p ∨ p ≤ k) :
    uthFlagB (insertAt t I p) = true := by
  obtain ⟨k, x, hxne, hxw, hkb, hdrop⟩ := uthFlag_elim hflag
  have hsite : uthSiteAt t k x (t.drop (k + 28 + x.length)) := ⟨hxne, hxw, hdrop⟩
  have hagree : (insertAt t I p).take p = t.take p := insertAt_take_left hp
  have hlen' : (insertAt t I p).length = t.length + I.length := insertAt_length hp
  have hp' : p ≤ (insertAt t I p).length := by omega
  set A := t.take p with hAdef
  set B := t.drop p with hBdef
  have hlenA : A.length = p := by
    rw [hAdef, List.length_take]
    omega
  have htAB : t = A ++ B := (List.take_append_drop p t).symm
  have ht' : insertAt t I p = (A ++ I) ++ B := by
    unfold insertAt
    rw [List.append_assoc]
  rcases hA k x _ hsite with hwin | hwin2
  · obtain ⟨rest', hsite'⟩ := uthSiteAt_low hagree hsite hwin hp'
    obtain ⟨hxne', hxw', hdrop'⟩ := hsite'
    exact uthFlagB_intro hxne' (fun c hc => allWord_mem hxw' hc) hdrop' (by omega)
  · rw [htAB] at hsite
    have hsite1 := @uthSiteAt_high A (A ++ I) B k x _ hsite (by omega)
    rw [← ht'] at hsite1
    obtain ⟨hxne', hxw', hdrop'⟩ := hsite1
    have hbnd : k - A.length + (A ++ I).length ≤ (insertAt t I p).length := by
      rw [List.length_append, hlenA]
      omega
    exact uthFlagB_intro hxne' (fun c hc => allWord_mem hxw' hc) hdrop' hbnd

theorem head_eq_of_prefix {u v : Str} (h : u <+: v) (hne : u ≠ []) :
    v.head? = u.head? := by
  cases u with
  | nil => exact absurd rfl hne
  | cons c tl =>
    obtain ⟨z, hz⟩ := h
    rw [← hz]
    rfl

theorem last_eq_of_suffix {u v : Str} (h : u <:+ v) (hne : u ≠ []) :
    v.getLast? = u.getLast? := by
  rw [← List.head?_reverse, ← List.head?_reverse]
  rw [← List.reverse_prefix] at h
  exact head_eq_of_prefix h (by simpa using hne)

theorem head_eq_of_two_prefixes {u v w : Str} (h1 : u <+: w) (h2 : v <+: w)
    (h1ne : u ≠ []) (h2ne : v ≠ []) : u.head? = v.head? := by
  rw [← head_eq_of_prefix h1 h1ne, ← head_eq_of_prefix h2 h2ne]

theorem last_eq_of_two_suffixes {u v w : Str} (h1 : u <:+ w) (h2 : v <:+ w)
    (h1ne : u ≠ []) (h2ne : v ≠ []) : u.getLast? = v.getLast? := by
  rw [← last_eq_of_suffix h1 h1ne, ← last_eq_of_suffix h2 h2ne]

theorem take_getLast {l : Str} {σ : Nat} (h1 : 1 ≤ σ) (h2 : σ ≤ l.length) :
    (l.take σ).getLast? = l[σ - 1]? := by
  rw [List.getLast?_eq_getElem?]
  have hlen : (l.take σ).length = σ := by
    rw [List.length_take]
    omega
  rw [hlen, List.getElem?_take]
  rw [if_pos (by omega : σ - 1 < σ)]

theorem take_ne_nil_of_pos {l : Str} {σ : Nat} (h1 : 1 ≤ σ) (h2 : σ ≤ l.length) :
    l.take σ ≠ [] := by
  have hlen : (l.take σ).length = σ := by
    rw [List.length_take]
    omega
  intro hc
  rw [hc] at hlen
  simp at hlen
  omega

theorem drop_ne_nil_of_lt {l : Str} {σ : Nat} (h : σ < l.length) : l.drop σ ≠ [] := by
  intro hc
  have := congrArg List.length hc
  rw [List.length_drop] at this
  simp at this
  omega

/-- A crossing occurrence forces the character just before the junction. -/
theorem cross_lastchar {t W α : Str} {k p : Nat} {pc : Char}
    (hocc : occursAt W t k = true) (hα : α <:+ t.take p)
    (hαlast : α.getLast? = some pc) (hαne : α ≠ [])
    (hk : k < p) (hp2 : p ≤ k + W.length) :
    W[p - k - 1]? = some pc := by
  have htk := occursAt_cross_take hocc hk hp2
  have hWlen : 1 ≤ W.length := by omega
  have hσ : p - k ≤ W.length := by omega
  have hne : W.take (p - k) ≠ [] := take_ne_nil_of_pos (by omega) hσ
  have hl := last_eq_of_two_suffixes htk hα hne hαne
  rw [hαlast, take_getLast (by omega) hσ] at hl
  exact hl

/-- A crossing occurrence forces the character just after the junction. -/
theorem cross_headchar {t W β : Str} {k p : Nat} {hc : Char}
    (hocc : occursAt W t k = true) (hβ : β <+: t.drop p)
    (hβhead : β.head? = some hc) (hβne : β ≠ [])
    (hk : k ≤ p) (hp2 : p < k + W.length) :
    W[p - k]? = some hc := by
  have hdr := occursAt_cross_drop hocc hk
  have hne : W.drop (p - k) ≠ [] := drop_ne_nil_of_lt (by omega)
  have hh := head_eq_of_two_prefixes hdr hβ hne hβne
  rw [hβhead] at hh
  rw [← hh, List.head?_drop]

theorem mem_of_getElem? {l : Str} {j : Nat} {c : Char} (h : l[j]? = some c) : c ∈ l := by
  have hj : j < l.length := by
    by_contra hc
    push_neg at hc
    rw [List.getElem?_eq_none (by omega)] at h
    exact absurd h (by simp)
  rw [List.getElem?_eq_getElem hj] at h
  rw [← Option.some_inj.mp h]
  exact List.getElem_mem hj

theorem zshW_chars {ch : Char} {e : Str} {c : Char}
    (hc : c ∈ ch :: (zshLit ++ (e ++ str ".Zsh")))
    (hch : wordChar ch = true) (hew : allWord e = true) :
    wordChar c = true ∨ c ∈ zshLit ∨ c ∈ str ".Zsh" := by
  rcases List.mem_cons.mp hc with rfl | hc2
  · exact Or.inl hch
  · rcases List.mem_append.mp hc2 with h | h
    · exact Or.inr (Or.inl h)
    · rcases List.mem_append.mp h with h2 | h2
      · exact Or.inl (allWord_mem hew h2)
      · exact Or.inr (Or.inr h2)

theorem cmdW_chars {ws f a m g a2 w : Str} {x : Char}
    (hx : x ∈ (str "function" ++ (ws ++ (f ++ (str "(" ++ (a ++
      (str ")\x7btry\x7breturn(0," ++ (m ++ (str "." ++ (g ++ (str ")(" ++
      (a2 ++ (str ",[]).cmd!==" ++ (w ++ str "\x7d"))))))))))))))
    (hws : allWs ws = true) (hf : allWord f = true) (ha : allWord a = true)
    (hm : allWord m = true) (hg : allWord g = true) (ha2 : allWord a2 = true)
    (hw : allWord w = true) :
    wordChar x = true ∨ wsChar x = true ∨
      x ∈ str "function()\x7btry\x7breturn(0,.)(,[]).cmd!==\x7d" := by
  rcases List.mem_append.mp hx with h | h
  · exact Or.inr (Or.inr ((by decide :
      str "function" ⊆ str "function()\x7btry\x7breturn(0,.)(,[]).cmd!==\x7d") h))
  rcases List.mem_append.mp h with h | h
  · exact Or.inr (Or.inl (allWs_mem hws h))
  rcases List.mem_append.mp h with h | h
  · exact Or.inl (allWord_mem hf h)
  rcases List.mem_append.mp h with h | h
  · exact Or.inr (Or.inr ((by decide :
      str "(" ⊆ str "function()\x7btry\x7breturn(0,.)(,[]).cmd!==\x7d") h))
  rcases List.mem_append.mp h with h | h
  · exact Or.inl (allWord_mem ha h)
  rcases List.mem_append.mp h with h | h
  · exact Or.inr (Or.inr ((by decide :
      str ")\x7btry\x7breturn(0," ⊆ str "function()\x7btry\x7breturn(0,.)(,[]).cmd!==\x7d") h))
  rcases List.mem_append.mp h with h | h
  · exact Or.inl (allWord_mem hm h)
  rcases List.mem_append.mp h with h | h
  · exact Or.inr (Or.inr ((by decide :
      str "." ⊆ str "function()\x7btry\x7breturn(0,.)(,[]).cmd!==\x7d") h))
  rcases List.mem_append.mp h with h | h
  · exact Or.inl (allWord_mem hg h)
  rcases List.mem_append.mp h with h | h
  · exact Or.inr (Or.inr ((by decide :
      str ")(" ⊆ str "function()\x7btry\x7breturn(0,.)(,[]).cmd!==\x7d") h))
  rcases List.mem_append.mp h with h | h
  · exact Or.inl (allWord_mem ha2 h)
  rcases List.mem_append.mp h with h | h
  · exact Or.inr (Or.inr ((by decide :
      str ",[]).cmd!==" ⊆ str "function()\x7btry\x7breturn(0,.)(,[]).cmd!==\x7d") h))
  rcases List.mem_append.mp h with h | h
  · exact Or.inl (allWord_mem hw h)
  · exact Or.inr (Or.inr ((by decide :
      str "\x7d" ⊆ str "function()\x7btry\x7breturn(0,.)(,[]).cmd!==\x7d") h))

theorem nuW_chars {E : Str} {x : Char}
    (hx : x ∈ nu_detection_str E) (hE : allWord E = true) :
    wordChar x = true ∨ x ∈ str ".includes(\"nu\")?.Naive" := by
  unfold nu_detection_str at hx
  rcases List.mem_append.mp hx with h | h
  · rcases List.mem_append.mp h with h2 | h2
    · exact Or.inr ((by decide : str ".includes(\"nu\")?" ⊆ str ".includes(\"nu\")?.Naive") h2)
    · exact Or.inl (allWord_mem hE h2)
  · exact Or.inr ((by decide : str ".Naive" ⊆ str ".includes(\"nu\")?.Naive") h)

theorem sysW_chars {c : Str} {x : Char}
    (hx : x ∈ c ++ str "(\"nu\")") (hc : allWord c = true) :
    wordChar x = true ∨ x ∈ str "(\"nu\")" := by
  rcases List.mem_append.mp hx with h | h
  · exact Or.inl (allWord_mem hc h)
  · exact Or.inr h

theorem naiveW_chars {E : Str} {x : Char}
    (hx : x ∈ naive_case_str E) (hE : allWord E = true) :
    wordChar x = true ∨ x ∈ str "case .Naive:" := by
  unfold naive_case_str at hx
  rcases List.mem_append.mp hx with h | h
  · rcases List.mem_append.mp h with h2 | h2
    · exact Or.inr ((by decide : str "case " ⊆ str "case .Naive:") h2)
    · exact Or.inl (allWord_mem hE h2)
  · exact Or.inr ((by decide : str ".Naive:" ⊆ str "case .Naive:") h)

theorem uthW_chars {x : Str} {c : Char}
    (hc : c ∈ str ".shell??" ++ (x ++ str "?.userTerminalHint??"))
    (hx : allWord x = true) :
    wordChar c = true ∨ c ∈ str ".shell??userTerminalHint" := by
  rcases List.mem_append.mp hc with h | h
  · exact Or.inr ((by decide : str ".shell??" ⊆ str ".shell??userTerminalHint") h)
  · rcases List.mem_append.mp h with h2 | h2
    · exact Or.inl (allWord_mem hx h2)
    · exact Or.inr ((by decide : str "?.userTerminalHint??" ⊆ str ".shell??userTerminalHint") h2)

theorem occ_in_append2 {A B w : Str} {k : Nat} (h : occursAt w (A ++ B) k = true) :
    occursAt w A k = true ∨ (A.length ≤ k ∧ occursAt w B (k - A.length) = true) ∨
    (k < A.length ∧ A.length < k + w.length ∧
      w.take (A.length - k) <:+ A ∧ w.drop (A.length - k) <+: B) := by
  by_cases h1 : k < A.length
  · by_cases h2 : k + w.length ≤ A.length
    · left
      rw [occursAt_iff] at h ⊢
      rw [List.drop_append_eq_append_drop] at h
      have h0 : k - A.length = 0 := by omega
      rw [h0, List.drop_zero] at h
      refine prefix_of_append_le h ?_
      rw [List.length_drop]
      omega
    · push_neg at h2
      refine Or.inr (Or.inr ⟨h1, by omega, ?_, ?_⟩)
      · have hh := @occursAt_cross_take w (A ++ B) k A.length h h1 (by omega)
        rwa [List.take_left] at hh
      · have hh := @occursAt_cross_drop w (A ++ B) k A.length h (by omega)
        rwa [List.drop_left] at hh
  · push_neg at h1
    refine Or.inr (Or.inl ⟨h1, ?_⟩)
    rw [occursAt_iff] at h ⊢
    rwa [drop_append_ge h1] at h

theorem mem_of_occursAt {u s : Str} {j : Nat} {c : Char}
    (h : occursAt u s j = true) (hc : c ∈ u) : c ∈ s := by
  rw [occursAt_iff] at h
  exact (List.drop_subset j s) (mem_of_pref h hc)

theorem occursAt_trans {I W u : Str} {j δ : Nat} (h1 : occursAt W I j = true)
    (h2 : occursAt u W δ = true) (hδ : δ ≤ W.length) :
    occursAt u I (j + δ) = true := by
  have hd1 := occursAt_decomp h1
  rw [occursAt_iff] at h2 ⊢
  have hdd : I.drop (j + δ) = W.drop δ ++ I.drop (j + W.length) := by
    have : I.drop (j + δ) = (I.drop j).drop δ := by
      rw [List.drop_drop]
    rw [this, hd1, List.drop_append_eq_append_drop]
    have h0 : δ - W.length = 0 := by omega
    rw [h0, List.drop_zero]
  rw [hdd]
  obtain ⟨z, hz⟩ := h2
  rw [← hz, List.append_assoc]
  exact ⟨z ++ I.drop (j + W.length), rfl⟩

theorem occ_refute_word {u s : Str} {j : Nat} {c : Char} (h : occursAt u s j = true)
    (hs : allWord s = true) (hc : c ∈ u) (hcw : wordChar c = false) : False := by
  have := allWord_mem hs (mem_of_occursAt h hc)
  rw [hcw] at this
  exact Bool.false_ne_true this

theorem suffix_refute_word {u s : Str} {c : Char} (h : u <:+ s) (hs : allWord s = true)
    (hc : c ∈ u) (hcw : wordChar c = false) : False := by
  have := allWord_mem hs (mem_of_suffix h hc)
  rw [hcw] at this
  exact Bool.false_ne_true this

theorem prefix_refute_word {u s : Str} {c : Char} (h : u <+: s) (hs : allWord s = true)
    (hc : c ∈ u) (hcw : wordChar c = false) : False := by
  have := allWord_mem hs (mem_of_pref h hc)
  rw [hcw] at this
  exact Bool.false_ne_true this

theorem occ_refute_contains {u L : Str} {j : Nat} (h : occursAt u L j = true)
    (hL : containsStr L u = false) : False := by
  have := containsStr_of_occursAt h
  rw [hL] at this
  exact Bool.false_ne_true this

/-- The head of a nonempty prefix of `s ++ rest` with `s` a nonempty
all-word run is a word character. -/
theorem prefix_head_word {u s rest : Str} (h : u <+: s ++ rest)
    (hs : allWord s = true) (hsne : s ≠ []) (hune : u ≠ []) :
    ∃ c, u.head? = some c ∧ wordChar c = true := by
  cases u with
  | nil => exact absurd rfl hune
  | cons c tl =>
    refine ⟨c, rfl, ?_⟩
    cases s with
    | nil => exact absurd rfl hsne
    | cons d sl =>
      simp only [List.cons_append, List.cons_prefix_cons] at h
      rw [h.1]
      exact allWord_mem hs (by simp)

theorem sysNuInsertion_chars {c E : Str} {x : Char}
    (hx : x ∈ sysNuInsertion c E) (hc : allWord c = true) (hE : allWord E = true) :
    wordChar x = true ∨ x ∈ str "(\"nu\")?.Naive:" := by
  unfold sysNuInsertion at hx
  rcases List.mem_append.mp hx with h | h
  · rcases List.mem_append.mp h with h | h
    · rcases List.mem_append.mp h with h | h
      · exact Or.inl (allWord_mem hc h)
      · exact Or.inr ((by decide : str "(\"nu\")?" ⊆ str "(\"nu\")?.Naive:") h)
    · exact Or.inl (allWord_mem hE h)
  · exact Or.inr ((by decide : str ".Naive:" ⊆ str "(\"nu\")?.Naive:") h)

/-- The rotated form of the nu-detection insertion. -/
theorem nuRotIns_chars {hint E : Str} {x : Char}
    (hx : x ∈ str "nu\")?" ++ (E ++ (str ".Naive:" ++ (hint ++ str ".includes(\""))))
    (hh : allWord hint = true) (hE : allWord E = true) :
    wordChar x = true ∨ x ∈ str "nu\")?.Naive:.includes(\"" := by
  rcases List.mem_append.mp hx with h | h
  · exact Or.inr ((by decide : str "nu\")?" ⊆ str "nu\")?.Naive:.includes(\"") h)
  rcases List.mem_append.mp h with h | h
  · exact Or.inl (allWord_mem hE h)
  rcases List.mem_append.mp h with h | h
  · exact Or.inr ((by decide : str ".Naive:" ⊆ str "nu\")?.Naive:.includes(\"") h)
  rcases List.mem_append.mp h with h | h
  · exact Or.inl (allWord_mem hh h)
  · exact Or.inr ((by decide : str ".includes(\"" ⊆ str "nu\")?.Naive:.includes(\"") h)

/-- The `re1` site text contains the anchor `("z` at offset 10. -/
theorem zshW_anchor {ch : Char} {e : Str} :
    occursAt (str "(\"z") (ch :: (zshLit ++ (e ++ str ".Zsh"))) 10 = true := by
  have h2 : ch :: (zshLit ++ (e ++ str ".Zsh")) =
      (ch :: zshLit.take 9) ++ (zshLit.drop 9 ++ (e ++ str ".Zsh")) := by
    conv_lhs => rw [← List.take_append_drop 9 zshLit]
    rw [List.cons_append, List.append_assoc]
  have h3 : (ch :: (zshLit.take 9)).length = 10 := by
    rw [List.length_cons, List.length_take, show zshLit.length = 17 from by decide]
    omega
  have h4 : (ch :: (zshLit ++ (e ++ str ".Zsh"))).drop 10 =
      str "(\"z" ++ (str "sh\")?" ++ (e ++ str ".Zsh")) := by
    rw [h2, List.drop_left' h3,
      show zshLit.drop 9 = str "(\"z" ++ str "sh\")?" from by decide, List.append_assoc]
  exact occursAt_of_drop_eq h4

/-- The `re_cmd` site text contains the anchor `){t` just after the argument. -/
theorem cmdW_anchor {ws f a m g a2 w : Str} :
    occursAt (str ")\x7bt") (str "function" ++ (ws ++ (f ++ (str "(" ++ (a ++
      (str ")\x7btry\x7breturn(0," ++ (m ++ (str "." ++ (g ++ (str ")(" ++
      (a2 ++ (str ",[]).cmd!==" ++ (w ++ str "\x7d")))))))))))))
      (9 + ws.length + f.length + a.length) = true := by
  apply occursAt_of_drop_eq
  have h1 : (str "function" ++ (ws ++ (f ++ (str "(" ++ (a ++
      (str ")\x7btry\x7breturn(0," ++ (m ++ (str "." ++ (g ++ (str ")(" ++
      (a2 ++ (str ",[]).cmd!==" ++ (w ++ str "\x7d"))))))))))))).drop
        (9 + ws.length + f.length + a.length) =
      str ")\x7btry\x7breturn(0," ++ (m ++ (str "." ++ (g ++ (str ")(" ++
      (a2 ++ (str ",[]).cmd!==" ++ (w ++ str "\x7d"))))))) := by
    have h2 : str "function" ++ (ws ++ (f ++ (str "(" ++ (a ++
        (str ")\x7btry\x7breturn(0," ++ (m ++ (str "." ++ (g ++ (str ")(" ++
        (a2 ++ (str ",[]).cmd!==" ++ (w ++ str "\x7d")))))))))))) =
        (str "function" ++ (ws ++ (f ++ (str "(" ++ a)))) ++
        (str ")\x7btry\x7breturn(0," ++ (m ++ (str "." ++ (g ++ (str ")(" ++
        (a2 ++ (str ",[]).cmd!==" ++ (w ++ str "\x7d")))))))) := by
      simp [List.append_assoc]
    rw [h2]
    apply List.drop_left'
    simp only [List.length_append]
    rw [show (str "function").length = 8 from by decide,
      show (str "(").length = 1 from by decide]
    omega
  rw [h1]
  rw [show str ")\x7btry\x7breturn(0," = str ")\x7bt" ++ str "ry\x7breturn(0," from by decide]
  rw [List.append_assoc]

theorem head_mem_take {c : Char} {u' : Str} {σ : Nat} (h : 1 ≤ σ) :
    c ∈ (c :: u').take σ := by
  cases σ with
  | zero => omega
  | succ n => simp [List.take_succ_cons]

/-- Refute a straddle whose left part lands in an all-word run, for an
anchor starting with a non-word character. -/
theorem straddle_refute_word_left {u' X : Str} {c : Char} {σ : Nat}
    (hs : (c :: u').take σ <:+ X) (hX : allWord X = true)
    (hσ : 1 ≤ σ) (hcw : wordChar c = false) : False :=
  suffix_refute_word hs hX (head_mem_take hσ) hcw

/-- The anchor `("z` does not occur in the system-nu insertion. -/
theorem anchor_z_not_sysNu {c E : Str} {j : Nat} (hc : allWord c = true)
    (hE : allWord E = true)
    (h : occursAt (str "(\"z") (sysNuInsertion c E) j = true) : False := by
  have hu : str "(\"z" = '(' :: str "\"z" := by decide
  unfold sysNuInsertion at h
  rw [List.append_assoc, List.append_assoc] at h
  rcases occ_in_append2 h with h1 | ⟨-, h1⟩ | ⟨hb1, hb2, hs1, -⟩
  · exact occ_refute_word h1 hc (by decide : '(' ∈ str "(\"z") (by decide)
  · rcases occ_in_append2 h1 with h2 | ⟨-, h2⟩ | ⟨hk1, hk2, hs2, hd2⟩
    · exact occ_refute_contains h2 (by decide)
    · rcases occ_in_append2 h2 with h3 | ⟨-, h3⟩ | ⟨hm1, hm2, hs3, -⟩
      · exact occ_refute_word h3 hE (by decide : '(' ∈ str "(\"z") (by decide)
      · exact occ_refute_contains h3 (by decide)
      · rw [hu] at hs3
        exact straddle_refute_word_left hs3 hE (by omega) (by decide)
    · set σ := (str "(\"nu\")?").length - (j - c.length) with hσdef
      have hσ1 : 1 ≤ σ := by
        rw [hσdef]
        omega
      have hσ2 : σ ≤ 2 := by
        rw [hσdef]
        rw [show (str "(\"z").length = 3 from by decide] at hk2
        omega
      interval_cases σ
      · rw [show (str "(\"z").take 1 = str "(" from by decide] at hs2
        rw [List.isSuffixOf_iff_suffix.symm] at hs2
        exact absurd hs2 (by decide)
      · rw [show (str "(\"z").take 2 = str "(\"" from by decide] at hs2
        rw [List.isSuffixOf_iff_suffix.symm] at hs2
        exact absurd hs2 (by decide)
  · rw [hu] at hs1
    exact straddle_refute_word_left hs1 hc (by omega) (by decide)

theorem cross_char_mem {t W α : Str} {k p : Nat} {pc : Char}
    (hocc : occursAt W t k = true) (hα : α <:+ t.take p)
    (hαlast : α.getLast? = some pc) (hαne : α ≠ [])
    (hk : k < p) (hp2 : p ≤ k + W.length) : pc ∈ W :=
  mem_of_getElem? (cross_lastchar hocc hα hαlast hαne hk hp2)

theorem zshW_char_notin {ch : Char} {e : Str} {x : Char} (hch : wordChar ch = true)
    (hew : allWord e = true) (hx1 : wordChar x = false)
    (hx2 : x ∉ zshLit) (hx3 : x ∉ str ".Zsh") :
    x ∉ ch :: (zshLit ++ (e ++ str ".Zsh")) := by
  intro hmem
  rcases zshW_chars hmem hch hew with h | h | h
  · rw [hx1] at h
    exact Bool.false_ne_true h
  · exact hx2 h
  · exact hx3 h

theorem cmdW_char_notin {ws f a m g a2 w : Str} {x : Char}
    (hws : allWs ws = true) (hf : allWord f = true) (ha : allWord a = true)
    (hm : allWord m = true) (hg : allWord g = true) (ha2 : allWord a2 = true)
    (hw : allWord w = true) (hx1 : wordChar x = false) (hx2 : wsChar x = false)
    (hx3 : x ∉ str "function()\x7btry\x7breturn(0,.)(,[]).cmd!==\x7d") :
    x ∉ str "function" ++ (ws ++ (f ++ (str "(" ++ (a ++
      (str ")\x7btry\x7breturn(0," ++ (m ++ (str "." ++ (g ++ (str ")(" ++
      (a2 ++ (str ",[]).cmd!==" ++ (w ++ str "\x7d")))))))))))) := by
  intro hmem
  rcases cmdW_chars hmem hws hf ha hm hg ha2 hw with h | h | h
  · rw [hx1] at h
    exact Bool.false_ne_true h
  · rw [hx2] at h
    exact Bool.false_ne_true h
  · exact hx3 h

theorem nuW_char_notin {E : Str} {x : Char} (hE : allWord E = true)
    (hx1 : wordChar x = false) (hx2 : x ∉ str ".includes(\"nu\")?.Naive") :
    x ∉ nu_detection_str E := by
  intro hmem
  rcases nuW_chars hmem hE with h | h
  · rw [hx1] at h
    exact Bool.false_ne_true h
  · exact hx2 h

theorem sysW_char_notin {c : Str} {x : Char} (hc : allWord c = true)
    (hx1 : wordChar x = false) (hx2 : x ∉ str "(\"nu\")") :
    x ∉ c ++ str "(\"nu\")" := by
  intro hmem
  rcases sysW_chars hmem hc with h | h
  · rw [hx1] at h
    exact Bool.false_ne_true h
  · exact hx2 h

theorem uthW_char_notin {u : Str} {x : Char} (hu : allWord u = true)
    (hx1 : wordChar x = false) (hx2 : x ∉ str ".shell??userTerminalHint") :
    x ∉ str ".shell??" ++ (u ++ str "?.userTerminalHint??") := by
  intro hmem
  rcases uthW_chars hmem hu with h | h
  · rw [hx1] at h
    exact Bool.false_ne_true h
  · exact hx2 h

/-- The only colon in `case <E>.Naive:` is its final character. -/
theorem naiveW_colon_pos {E : Str} {j : Nat} (hE : allWord E = true)
    (h : (naive_case_str E)[j]? = some ':') : j = (naive_case_str E).length - 1 := by
  unfold naive_case_str at h ⊢
  by_cases h1 : j < (str "case " ++ E).length
  · exfalso
    rw [List.getElem?_append, if_pos h1] at h
    have hmem := mem_of_getElem? h
    rcases List.mem_append.mp hmem with h2 | h2
    · exact absurd h2 (by decide)
    · have := allWord_mem hE h2
      exact absurd this (by decide)
  · push_neg at h1
    have h2 : ((str "case " ++ E) ++ str ".Naive:")[j]? = (str ".Naive:")[j - (str "case " ++ E).length]? := by
      rw [List.getElem?_append_right h1]
    rw [h2] at h
    have hj2 : j - (str "case " ++ E).length < 7 := by
      by_contra hc
      push_neg at hc
      rw [List.getElem?_eq_none (by rw [show (str ".Naive:").length = 7 from by decide]; omega)] at h
      exact absurd h (by simp)
    have hpos : ∀ j' < 7, (str ".Naive:")[j']? = some ':' → j' = 6 := by decide
    have h6 := hpos _ hj2 h
    rw [List.length_append] at h1 h6 hj2
    rw [List.length_append, List.length_append,
      show (str ".Naive:").length = 7 from by decide]
    omega

/-!
### Exclusion lemmas for the system-nu insertion event (M2)

The insertion point follows the literal `.PowerShell:`; no discovery
site or presence-flag witness can straddle a position preceded by `:`.
-/

theorem colon_hA_Z {t α : Str} {p : Nat}
    (hα : α <:+ t.take p) (hαlast : α.getLast? = some ':') (hαne : α ≠ []) :
    ∀ k ch e rest, zshSiteAt t k ch e rest → k + 21 + e.length ≤ p ∨ p < k := by
  intro k ch e rest hs
  by_contra hcon
  push_neg at hcon
  obtain ⟨h1, h2⟩ := hcon
  have hocc := occursAt_of_drop_eq (zshSiteAt_flat hs)
  have hk1 := hs.2.2.2.1
  have hmem := cross_char_mem hocc hα hαlast hαne (by omega)
    (by rw [@zshW_flat_length ch e]; omega)
  exact zshW_char_notin hs.1 hs.2.2.1 (by decide) (by decide) (by decide) hmem

theorem colon_hA_C {t α : Str} {p : Nat}
    (hα : α <:+ t.take p) (hαlast : α.getLast? = some ':') (hαne : α ≠ []) :
    ∀ k ws f a m g a2 w rest, cmdSiteAt t k ws f a m g a2 w rest →
      k + 39 + ws.length + f.length + a.length + m.length + g.length + a2.length +
        w.length ≤ p ∨ p ≤ k := by
  intro k ws f a m g a2 w rest hs
  by_contra hcon
  push_neg at hcon
  obtain ⟨h1, h2⟩ := hcon
  have hocc := occursAt_of_drop_eq (cmdSiteAt_flat hs)
  obtain ⟨hws, hwsne, hf, hfne, ha, hane, hm, hmne, hg, hgne, ha2, ha2ne, hw, hwne, -⟩ := hs
  have hmem := cross_char_mem hocc hα hαlast hαne (by omega)
    (by rw [@cmdW_flat_length ws f a m g a2 w]; omega)
  exact cmdW_char_notin hws hf ha hm hg ha2 hw (by decide) (by decide) (by decide) hmem

theorem colon_hexc_nu {t α E : Str} {p : Nat} (hE : allWord E = true)
    (hα : α <:+ t.take p) (hαlast : α.getLast? = some ':') (hαne : α ≠ []) :
    ∀ k, occursAt (nu_detection_str E) t k = true →
      k + (nu_detection_str E).length ≤ p ∨ p ≤ k := by
  intro k hk
  by_contra hcon
  push_neg at hcon
  obtain ⟨h1, h2⟩ := hcon
  have hmem := cross_char_mem hk hα hαlast hαne (by omega) (by omega)
  exact nuW_char_notin hE (by decide) (by decide) hmem

theorem colon_hexc_sys {t α c : Str} {p : Nat} (hc : allWord c = true)
    (hα : α <:+ t.take p) (hαlast : α.getLast? = some ':') (hαne : α ≠ []) :
    ∀ k, occursAt (c ++ str "(\"nu\")") t k = true →
      k + (c ++ str "(\"nu\")").length ≤ p ∨ p ≤ k := by
  intro k hk
  by_contra hcon
  push_neg at hcon
  obtain ⟨h1, h2⟩ := hcon
  have hmem := cross_char_mem hk hα hαlast hαne (by omega) (by omega)
  exact sysW_char_notin hc (by decide) (by decide) hmem

theorem colon_hexc_naive {t α E : Str} {p : Nat} (hE : allWord E = true)
    (hα : α <:+ t.take p) (hαlast : α.getLast? = some ':') (hαne : α ≠ []) :
    ∀ k, occursAt (naive_case_str E) t k = true →
      k + (naive_case_str E).length ≤ p ∨ p ≤ k := by
  intro k hk
  by_contra hcon
  push_neg at hcon
  obtain ⟨h1, h2⟩ := hcon
  have hchar := cross_lastchar hk hα hαlast hαne (by omega) (by omega)
  have := naiveW_colon_pos hE hchar
  omega

theorem colon_hexc_uth {t α x : Str} {p : Nat} (hx : allWord x = true) :
    ∀ hα : α <:+ t.take p, α.getLast? = some ':' → α ≠ [] →
    ∀ k rest, uthSiteAt t k x rest → k + 28 + x.length ≤ p ∨ p ≤ k := by
  intro hα hαlast hαne k rest hs
  by_contra hcon
  push_neg at hcon
  obtain ⟨h1, h2⟩ := hcon
  have hocc := occursAt_of_drop_eq (uthSiteAt_flat hs)
  have hmem := cross_char_mem hocc hα hαlast hαne (by omega)
    (by rw [@uthW_flat_length x]; omega)
  exact uthW_char_notin hs.2.1 (by decide) (by decide) hmem

theorem getLast?_suffix {l : Str} {c : Char} (h : l.getLast? = some c) : [c] <:+ l := by
  rw [← List.head?_reverse] at h
  cases hl : l.reverse with
  | nil =>
    rw [hl] at h
    exact absurd h (by simp)
  | cons d tl =>
    rw [hl] at h
    have hd : d = c := by simpa using h
    have h2 : l = tl.reverse ++ [c] := by
      have h3 : l.reverse.reverse = (d :: tl).reverse := by rw [hl]
      rw [List.reverse_reverse] at h3
      rw [h3, hd]
      simp
    rw [h2]
    exact ⟨tl.reverse, rfl⟩

theorem take_left_append {X B : Str} : (X ++ B).take X.length = X := List.take_left X B

/-- zsh-site exclusion over an insertion flanked by `:` on both sides. -/
theorem colon_hB_Z {t I α : Str} {p : Nat} (hp : p ≤ t.length)
    (hα : α <:+ t.take p) (hαlast : α.getLast? = some ':') (hαne : α ≠ [])
    (hIlast : I.getLast? = some ':')
    (hscan : ∀ j, occursAt (str "(\"z") I j = true → False) :
    ∀ k ch e rest, zshSiteAt (insertAt t I p) k ch e rest →
      k + 21 + e.length ≤ p ∨ p + I.length < k := by
  intro k ch e rest hs
  have hocc0 := occursAt_of_drop_eq (zshSiteAt_flat hs)
  have hk1 := hs.2.2.2.1
  have hA : (t.take p).length = p := by
    rw [List.length_take]
    omega
  have hocc : occursAt (ch :: (zshLit ++ (e ++ str ".Zsh")))
      (t.take p ++ I ++ t.drop p) (k - 1) = true := hocc0
  rcases occ_in_append3 hocc with ⟨hb, -⟩ | ⟨hb, -⟩ | ⟨hb1, hb2, hin⟩ |
    ⟨hb1, hb2, -, -⟩ | ⟨hb1, hb2, hb3, -, -⟩
  · left
    rw [@zshW_flat_length ch e] at hb
    rw [hA] at hb
    omega
  · right
    rw [hA] at hb
    omega
  · exfalso
    have hanch := occursAt_trans hin (@zshW_anchor ch e)
      (by rw [@zshW_flat_length ch e]; omega)
    exact hscan _ hanch
  · exfalso
    rw [hA] at hb1 hb2
    rw [@zshW_flat_length ch e] at hb2
    have hα' : α <:+ (t.take p ++ I ++ t.drop p).take p := by
      have : (t.take p ++ I ++ t.drop p).take p = t.take p := insertAt_take_left hp
      rwa [this]
    have hmem := cross_char_mem hocc hα' hαlast hαne (by omega)
      (by rw [@zshW_flat_length ch e]; omega)
    exact zshW_char_notin hs.1 hs.2.2.1 (by decide) (by decide) (by decide) hmem
  · exfalso
    rw [hA] at hb1 hb2 hb3
    rw [@zshW_flat_length ch e] at hb3
    have htake : (t.take p ++ I ++ t.drop p).take (p + I.length) = t.take p ++ I := by
      have hlen : (t.take p ++ I).length = p + I.length := by
        rw [List.length_append, hA]
      rw [← hlen]
      exact take_left_append
    have hα' : ([':'] : Str) <:+ (t.take p ++ I ++ t.drop p).take (p + I.length) := by
      rw [htake]
      exact (getLast?_suffix hIlast).trans (List.suffix_append _ _)
    have hmem := cross_char_mem hocc hα'
      (show ([':'] : Str).getLast? = some ':' from by decide) (by decide) (by omega)
      (by rw [@zshW_flat_length ch e]; omega)
    exact zshW_char_notin hs.1 hs.2.2.1 (by decide) (by decide) (by decide) hmem

/-- cmd-site exclusion over an insertion flanked by `:` on both sides. -/
theorem colon_hB_C {t I α : Str} {p : Nat} (hp : p ≤ t.length)
    (hα : α <:+ t.take p) (hαlast : α.getLast? = some ':') (hαne : α ≠ [])
    (hIlast : I.getLast? = some ':')
    (hscan : ∀ j, occursAt (str ")\x7bt") I j = true → False) :
    ∀ k ws f a m g a2 w rest, cmdSiteAt (insertAt t I p) k ws f a m g a2 w rest →
      k + 39 + ws.length + f.length + a.length + m.length + g.length + a2.length +
        w.length ≤ p ∨ p + I.length ≤ k := by
  intro k ws f a m g a2 w rest hs
  have hocc0 := occursAt_of_drop_eq (cmdSiteAt_flat hs)
  obtain ⟨hws, hwsne, hf, hfne, ha, hane, hm, hmne, hg, hgne, ha2, ha2ne, hw, hwne, -⟩ := hs
  have hA : (t.take p).length = p := by
    rw [List.length_take]
    omega
  have hocc : occursAt (str "function" ++ (ws ++ (f ++ (str "(" ++ (a ++
      (str ")\x7btry\x7breturn(0," ++ (m ++ (str "." ++ (g ++ (str ")(" ++
      (a2 ++ (str ",[]).cmd!==" ++ (w ++ str "\x7d")))))))))))))
      (t.take p ++ I ++ t.drop p) k = true := hocc0
  rcases occ_in_append3 hocc with ⟨hb, -⟩ | ⟨hb, -⟩ | ⟨hb1, hb2, hin⟩ |
    ⟨hb1, hb2, -, -⟩ | ⟨hb1, hb2, hb3, -, -⟩
  · left
    rw [@cmdW_flat_length ws f a m g a2 w] at hb
    rw [hA] at hb
    omega
  · right
    rw [hA] at hb
    omega
  · exfalso
    have hanch := occursAt_trans hin (@cmdW_anchor ws f a m g a2 w)
      (by rw [@cmdW_flat_length ws f a m g a2 w]; omega)
    exact hscan _ hanch
  · exfalso
    rw [hA] at hb1 hb2
    rw [@cmdW_flat_length ws f a m g a2 w] at hb2
    have hα' : α <:+ (t.take p ++ I ++ t.drop p).take p := by
      have : (t.take p ++ I ++ t.drop p).take p = t.take p := insertAt_take_left hp
      rwa [this]
    have hmem := cross_char_mem hocc hα' hαlast hαne (by omega)
      (by rw [@cmdW_flat_length ws f a m g a2 w]; omega)
    exact cmdW_char_notin hws hf ha hm hg ha2 hw (by decide) (by decide) (by decide) hmem
  · exfalso
    rw [hA] at hb1 hb2 hb3
    rw [@cmdW_flat_length ws f a m g a2 w] at hb3
    have htake : (t.take p ++ I ++ t.drop p).take (p + I.length) = t.take p ++ I := by
      have hlen : (t.take p ++ I).length = p + I.length := by
        rw [List.length_append, hA]
      rw [← hlen]
      exact take_left_append
    have hα' : ([':'] : Str) <:+ (t.take p ++ I ++ t.drop p).take (p + I.length) := by
      rw [htake]
      exact (getLast?_suffix hIlast).trans (List.suffix_append _ _)
    have hmem := cross_char_mem hocc hα'
      (show ([':'] : Str).getLast? = some ':' from by decide) (by decide) (by omega)
      (by rw [@cmdW_flat_length ws f a m g a2 w]; omega)
    exact cmdW_char_notin hws hf ha hm hg ha2 hw (by decide) (by decide) (by decide) hmem

/-- A containment flag survives an insertion provided no occurrence of the
pattern crosses the insertion point. -/
theorem contains_insert {t I w : Str} {p : Nat} (hp : p ≤ t.length)
    (hc : containsStr t w = true)
    (hexc : ∀ k, occursAt w t k = true → k + w.length ≤ p ∨ p ≤ k) :
    containsStr (insertAt t I p) w = true := by
  obtain ⟨k, hk, -⟩ := occursAt_of_containsStr hc
  rcases hexc k hk with h | h
  · exact containsStr_of_occursAt (occursAt_insert_before hk h)
  · exact containsStr_of_occursAt (occursAt_insert_after hk h hp)

/-- The anchor `){t` does not occur in the system-nu insertion. -/
theorem anchor_bt_not_sysNu {c E : Str} {j : Nat} (hc : allWord c = true)
    (hE : allWord E = true)
    (h : occursAt (str ")\x7bt") (sysNuInsertion c E) j = true) : False := by
  have hmem := mem_of_occursAt h (by decide : '\x7b' ∈ str ")\x7bt")
  rcases sysNuInsertion_chars hmem hc hE with h2 | h2
  · exact absurd h2 (by decide)
  · exact absurd h2 (by decide)

/-!
### Generic crossing-refutation framework

A pattern occurrence that straddles a position `p` leaves a suffix of the
pattern's prefix on the left of `p` and a prefix of its suffix on the right;
when the text around `p` is partially known this pins the pattern's
characters.
-/

theorem suffix_of_suffix_length_le {a b c : Str} (h1 : a <:+ c) (h2 : b <:+ c)
    (hl : a.length ≤ b.length) : a <:+ b := by
  rw [← List.reverse_prefix] at h1 h2 ⊢
  exact List.prefix_of_prefix_length_le h1 h2 (by simpa using hl)

/-- Backward alignment: a known suffix `α` of `t.take p` short enough to fit
inside the crossing part is a suffix of `W.take (p - k)`. -/
theorem cross_suffix_align {t W α : Str} {k p : Nat}
    (hocc : occursAt W t k = true) (hα : α <:+ t.take p)
    (hk : k < p) (hp2 : p ≤ k + W.length) (hlen : α.length ≤ p - k) :
    α <:+ W.take (p - k) := by
  have htk := occursAt_cross_take hocc hk hp2
  refine suffix_of_suffix_length_le hα htk ?_
  rw [List.length_take]
  omega

/-- Backward alignment, short side: when the crossing part is shorter than
the known suffix, the pattern's prefix is a suffix of `α`. -/
theorem cross_take_suffix_of_le {t W α : Str} {k p : Nat}
    (hocc : occursAt W t k = true) (hα : α <:+ t.take p)
    (hk : k < p) (hp2 : p ≤ k + W.length) (hlen : p - k ≤ α.length) :
    W.take (p - k) <:+ α := by
  have htk := occursAt_cross_take hocc hk hp2
  refine suffix_of_suffix_length_le htk hα ?_
  rw [List.length_take]
  omega

/-- Forward alignment, short side: the crossing tail of the pattern fits
inside the known prefix `β` of `t.drop p`. -/
theorem cross_drop_prefix_of_le {t W β γ : Str} {k p : Nat}
    (hocc : occursAt W t k = true) (hd : t.drop p = β ++ γ)
    (hk : k ≤ p) (hlen : W.length - (p - k) ≤ β.length) :
    W.drop (p - k) <+: β := by
  have hdr := occursAt_cross_drop hocc hk
  rw [hd] at hdr
  refine prefix_of_append_le hdr ?_
  rw [List.length_drop]
  omega

/-- Forward alignment, long side: a crossing tail longer than the known
prefix `β` of `t.drop p` absorbs all of `β`. -/
theorem cross_beta_prefix_of_le {t W β γ : Str} {k p : Nat}
    (hocc : occursAt W t k = true) (hd : t.drop p = β ++ γ)
    (hk : k ≤ p) (hlen : β.length ≤ W.length - (p - k)) :
    β <+: W.drop (p - k) := by
  have hdr := occursAt_cross_drop hocc hk
  rw [hd] at hdr
  refine List.prefix_of_prefix_length_le (List.prefix_append β γ) hdr ?_
  rw [List.length_drop]
  omega

theorem suffix_getElem {α L : Str} {j : Nat} (h : α <:+ L) (hj : j < α.length) :
    L[L.length - α.length + j]? = α[j]? := by
  obtain ⟨w, hw⟩ := h
  subst hw
  rw [List.getElem?_append_right (by rw [List.length_append]; omega),
    List.length_append]
  congr 1
  omega

theorem prefix_getElem {D s : Str} {j : Nat} (h : D <+: s) (hj : j < D.length) :
    s[j]? = D[j]? := by
  obtain ⟨w, hw⟩ := h
  subst hw
  rw [List.getElem?_append, if_pos hj]

/-- A suffix of a list that is itself a prefix of `β` makes the suffix's
own suffixes occur inside `β`. -/
theorem contains_of_suffix_pref {L D β : Str} (hs : L <:+ D) (hp : D <+: β) :
    containsStr β L = true := by
  obtain ⟨u, hu⟩ := hs
  obtain ⟨w, hw⟩ := hp
  have hocc : occursAt L β u.length = true := by
    apply occursAt_of_drop_eq
    rw [← hw, ← hu, List.append_assoc, drop_append_ge (le_refl _), Nat.sub_self,
      List.drop_zero]
  exact containsStr_of_occursAt hocc

theorem suffix_eq_drop {u L : Str} (h : u <:+ L) : u = L.drop (L.length - u.length) := by
  obtain ⟨w, hw⟩ := h
  subst hw
  rw [List.length_append, Nat.add_sub_cancel, drop_append_ge (le_refl _),
    Nat.sub_self, List.drop_zero]

/-- Short-forward refutation: the crossing tail `D = W.drop σ` of a pattern
ending in the closed literal `L` cannot be a prefix of `β` when `β` neither
contains `L` nor starts with a proper suffix of `L`. -/
theorem tail_lit_refute {W0 L β : Str} {σ : Nat} (hσ : σ < (W0 ++ L).length)
    (h : (W0 ++ L).drop σ <+: β)
    (hc : containsStr β L = false)
    (hs : ∀ j < L.length, 1 ≤ j → ¬ (L.drop j <+: β)) : False := by
  set D := (W0 ++ L).drop σ with hD
  have hDlen : D.length = (W0 ++ L).length - σ := by rw [hD, List.length_drop]
  have hDsfx : D <:+ W0 ++ L := List.drop_suffix _ _
  have hLsfx : L <:+ W0 ++ L := List.suffix_append _ _
  by_cases hcase : L.length ≤ D.length
  · have hLD : L <:+ D := suffix_of_suffix_length_le hLsfx hDsfx hcase
    rw [contains_of_suffix_pref hLD h] at hc
    exact absurd hc (by decide)
  · push_neg at hcase
    have hDL : D <:+ L := suffix_of_suffix_length_le hDsfx hLsfx (by omega)
    have hDeq := suffix_eq_drop hDL
    have hj1 : 1 ≤ L.length - D.length := by omega
    have hj2 : L.length - D.length < L.length := by
      rw [List.length_append] at hσ hDlen
      omega
    exact hs _ hj2 hj1 (hDeq ▸ h)

/-- Rotating an insertion across a stretch of text it duplicates. -/
theorem insertAt_rotate {t pre suf rest : Str} {p : Nat} (hp : p ≤ t.length)
    (hd : t.drop p = pre ++ rest) :
    insertAt t (pre ++ suf) p = insertAt t (suf ++ pre) (p + pre.length) := by
  have hlenA : (t.take p).length = p := by
    rw [List.length_take]
    omega
  have hsplit : t = t.take p ++ (pre ++ rest) := by
    conv_lhs => rw [← List.take_append_drop p t, hd]
  have htake : t.take (p + pre.length) = t.take p ++ pre := by
    conv_lhs => rw [hsplit]
    rw [List.take_append_eq_append_take, hlenA, Nat.add_sub_cancel_left]
    congr 1
    · rw [List.take_take, Nat.min_eq_right (by omega)]
    · exact List.take_left pre rest
  have hdrop : t.drop (p + pre.length) = rest := by
    conv_lhs => rw [hsplit]
    rw [drop_append_ge (by omega), hlenA, Nat.add_sub_cancel_left,
      drop_append_ge (le_refl _), Nat.sub_self, List.drop_zero]
  unfold insertAt
  rw [htake, hdrop, hd]
  simp only [List.append_assoc]

theorem getElem_cons_cases {a : Char} {l : Str} {j : Nat} {c : Char}
    (h : (a :: l)[j]? = some c) : (j = 0 ∧ a = c) ∨ (1 ≤ j ∧ l[j - 1]? = some c) := by
  cases j with
  | zero =>
    left
    exact ⟨rfl, by simpa using h⟩
  | succ n =>
    right
    exact ⟨by omega, by simpa using h⟩

theorem getElem_append_cases {A B : Str} {j : Nat} {c : Char}
    (h : (A ++ B)[j]? = some c) :
    (j < A.length ∧ A[j]? = some c) ∨ (A.length ≤ j ∧ B[j - A.length]? = some c) := by
  by_cases hj : j < A.length
  · left
    refine ⟨hj, ?_⟩
    rwa [List.getElem?_append, if_pos hj] at h
  · push_neg at hj
    right
    refine ⟨hj, ?_⟩
    rwa [List.getElem?_append_right hj] at h

theorem allWord_getElem {e : Str} {i : Nat} {c : Char} (he : allWord e = true)
    (h : e[i]? = some c) : wordChar c = true := allWord_mem he (mem_of_getElem? h)

theorem getElem_lit_pos {L : Str} {i : Nat} {c : Char} (h : L[i]? = some c) :
    i < L.length ∧ L[i]? = some c := by
  refine ⟨?_, h⟩
  by_contra hc
  push_neg at hc
  rw [List.getElem?_eq_none hc] at h
  exact absurd h (by simp)

/-- In a `re1` site text, `"` appears only at indices 11 and 15. -/
theorem zshW_quote_pos {ch : Char} {e : Str} {j : Nat} (hch : wordChar ch = true)
    (he : allWord e = true)
    (h : (ch :: (zshLit ++ (e ++ str ".Zsh")))[j]? = some '"') : j = 11 ∨ j = 15 := by
  rcases getElem_cons_cases h with ⟨hj, hc⟩ | ⟨hj, h2⟩
  · rw [hc] at hch
    exact absurd hch (by decide)
  · rcases getElem_append_cases h2 with ⟨hlt, h3⟩ | ⟨hge, h3⟩
    · have hpos : ∀ i < 17, zshLit[i]? = some '"' → i = 10 ∨ i = 14 := by decide
      have h4 := hpos (j - 1) (by rw [show zshLit.length = 17 from by decide] at hlt; omega) h3
      omega
    · rcases getElem_append_cases h3 with ⟨hlt2, h4⟩ | ⟨hge2, h4⟩
      · exact absurd (allWord_getElem he h4) (by decide)
      · have hpos : ∀ i < 4, (str ".Zsh")[i]? = some '"' → False := by decide
        obtain ⟨hb, -⟩ := getElem_lit_pos h4
        rw [show (str ".Zsh").length = 4 from by decide] at hb
        exact (hpos _ hb h4).elim

/-- In a `re1` site text, `?` appears only at index 17. -/
theorem zshW_qmark_pos {ch : Char} {e : Str} {j : Nat} (hch : wordChar ch = true)
    (he : allWord e = true)
    (h : (ch :: (zshLit ++ (e ++ str ".Zsh")))[j]? = some '?') : j = 17 := by
  rcases getElem_cons_cases h with ⟨hj, hc⟩ | ⟨hj, h2⟩
  · rw [hc] at hch
    exact absurd hch (by decide)
  · rcases getElem_append_cases h2 with ⟨hlt, h3⟩ | ⟨hge, h3⟩
    · have hpos : ∀ i < 17, zshLit[i]? = some '?' → i = 16 := by decide
      have h4 := hpos (j - 1) (by rw [show zshLit.length = 17 from by decide] at hlt; omega) h3
      omega
    · rcases getElem_append_cases h3 with ⟨hlt2, h4⟩ | ⟨hge2, h4⟩
      · exact absurd (allWord_getElem he h4) (by decide)
      · have hpos : ∀ i < 4, (str ".Zsh")[i]? = some '?' → False := by decide
        obtain ⟨hb, -⟩ := getElem_lit_pos h4
        rw [show (str ".Zsh").length = 4 from by decide] at hb
        exact (hpos _ hb h4).elim

/-- In a `re1` site text, `)` appears only at index 16. -/
theorem zshW_rparen_pos {ch : Char} {e : Str} {j : Nat} (hch : wordChar ch = true)
    (he : allWord e = true)
    (h : (ch :: (zshLit ++ (e ++ str ".Zsh")))[j]? = some ')') : j = 16 := by
  rcases getElem_cons_cases h with ⟨hj, hc⟩ | ⟨hj, h2⟩
  · rw [hc] at hch
    exact absurd hch (by decide)
  · rcases getElem_append_cases h2 with ⟨hlt, h3⟩ | ⟨hge, h3⟩
    · have hpos : ∀ i < 17, zshLit[i]? = some ')' → i = 15 := by decide
      have h4 := hpos (j - 1) (by rw [show zshLit.length = 17 from by decide] at hlt; omega) h3
      omega
    · rcases getElem_append_cases h3 with ⟨hlt2, h4⟩ | ⟨hge2, h4⟩
      · exact absurd (allWord_getElem he h4) (by decide)
      · have hpos : ∀ i < 4, (str ".Zsh")[i]? = some ')' → False := by decide
        obtain ⟨hb, -⟩ := getElem_lit_pos h4
        rw [show (str ".Zsh").length = 4 from by decide] at hb
        exact (hpos _ hb h4).elim

/-- In the `nu_detection_str` pattern, `"` appears only at indices 10 and 13. -/
theorem nuW_quote_pos {E : Str} {j : Nat} (hE : allWord E = true)
    (h : (nu_detection_str E)[j]? = some '"') : j = 10 ∨ j = 13 := by
  unfold nu_detection_str at h
  rcases getElem_append_cases h with ⟨hlt, h2⟩ | ⟨hge, h2⟩
  · rcases getElem_append_cases h2 with ⟨hlt2, h3⟩ | ⟨hge2, h3⟩
    · have hpos : ∀ i < 16, (str ".includes(\"nu\")?")[i]? = some '"' → i = 10 ∨ i = 13 := by
        decide
      have h4 := hpos j
        (by rw [show (str ".includes(\"nu\")?").length = 16 from by decide] at hlt2; omega) h3
      omega
    · exact absurd (allWord_getElem hE h3) (by decide)
  · have hpos : ∀ i < 6, (str ".Naive")[i]? = some '"' → False := by decide
    obtain ⟨hb, -⟩ := getElem_lit_pos h2
    rw [show (str ".Naive").length = 6 from by decide] at hb
    exact (hpos _ hb h2).elim

/-- In the `nu_detection_str` pattern, `?` appears only at index 15. -/
theorem nuW_qmark_pos {E : Str} {j : Nat} (hE : allWord E = true)
    (h : (nu_detection_str E)[j]? = some '?') : j = 15 := by
  unfold nu_detection_str at h
  rcases getElem_append_cases h with ⟨hlt, h2⟩ | ⟨hge, h2⟩
  · rcases getElem_append_cases h2 with ⟨hlt2, h3⟩ | ⟨hge2, h3⟩
    · have hpos : ∀ i < 16, (str ".includes(\"nu\")?")[i]? = some '?' → i = 15 := by decide
      have h4 := hpos j
        (by rw [show (str ".includes(\"nu\")?").length = 16 from by decide] at hlt2; omega) h3
      omega
    · exact absurd (allWord_getElem hE h3) (by decide)
  · have hpos : ∀ i < 6, (str ".Naive")[i]? = some '?' → False := by decide
    obtain ⟨hb, -⟩ := getElem_lit_pos h2
    rw [show (str ".Naive").length = 6 from by decide] at hb
    exact (hpos _ hb h2).elim

/-- In the `nu_detection_str` pattern, `)` appears only at index 14. -/
theorem nuW_rparen_pos {E : Str} {j : Nat} (hE : allWord E = true)
    (h : (nu_detection_str E)[j]? = some ')') : j = 14 := by
  unfold nu_detection_str at h
  rcases getElem_append_cases h with ⟨hlt, h2⟩ | ⟨hge, h2⟩
  · rcases getElem_append_cases h2 with ⟨hlt2, h3⟩ | ⟨hge2, h3⟩
    · have hpos : ∀ i < 16, (str ".includes(\"nu\")?")[i]? = some ')' → i = 14 := by decide
      have h4 := hpos j
        (by rw [show (str ".includes(\"nu\")?").length = 16 from by decide] at hlt2; omega) h3
      omega
    · exact absurd (allWord_getElem hE h3) (by decide)
  · have hpos : ∀ i < 6, (str ".Naive")[i]? = some ')' → False := by decide
    obtain ⟨hb, -⟩ := getElem_lit_pos h2
    rw [show (str ".Naive").length = 6 from by decide] at hb
    exact (hpos _ hb h2).elim

/-- In the system-nu presence pattern `f("nu")`, `"` appears only at
indices `f.length + 1` and `f.length + 4`. -/
theorem sysW_quote_pos {f : Str} {j : Nat} (hf : allWord f = true)
    (h : (f ++ str "(\"nu\")")[j]? = some '"') :
    j = f.length + 1 ∨ j = f.length + 4 := by
  rcases getElem_append_cases h with ⟨hlt, h2⟩ | ⟨hge, h2⟩
  · exact absurd (allWord_getElem hf h2) (by decide)
  · have hpos : ∀ i < 6, (str "(\"nu\")")[i]? = some '"' → i = 1 ∨ i = 4 := by decide
    obtain ⟨hb, -⟩ := getElem_lit_pos h2
    rw [show (str "(\"nu\")").length = 6 from by decide] at hb
    have h4 := hpos _ hb h2
    omega

/-- In the system-nu presence pattern `f("nu")`, `)` appears only at the
final index `f.length + 5`. -/
theorem sysW_rparen_pos {f : Str} {j : Nat} (hf : allWord f = true)
    (h : (f ++ str "(\"nu\")")[j]? = some ')') : j = f.length + 5 := by
  rcases getElem_append_cases h with ⟨hlt, h2⟩ | ⟨hge, h2⟩
  · exact absurd (allWord_getElem hf h2) (by decide)
  · have hpos : ∀ i < 6, (str "(\"nu\")")[i]? = some ')' → i = 5 := by decide
    obtain ⟨hb, -⟩ := getElem_lit_pos h2
    rw [show (str "(\"nu\")").length = 6 from by decide] at hb
    have h4 := hpos _ hb h2
    omega

/-- Concrete characters of the system-nu pattern just after the name. -/
theorem sysW_getElem_lit {f : Str} {i : Nat} (hi : i < 6) :
    (f ++ str "(\"nu\")")[f.length + i]? = (str "(\"nu\")")[i]? := by
  rw [List.getElem?_append_right (by omega)]
  congr 1
  omega

theorem getElem?_take_eq {s : Str} {σ j : Nat} (hj : j < σ) :
    (s.take σ)[j]? = s[j]? := by
  rw [List.getElem?_take, if_pos hj]

/-!
### Single-character junction exclusions

Generalizations of the colon-junction family: any junction whose preceding
character is outside a pattern's character set excludes crossings of that
pattern.
-/

theorem char_hA_Z {t α : Str} {p : Nat} {pc : Char}
    (hα : α <:+ t.take p) (hαlast : α.getLast? = some pc) (hαne : α ≠ [])
    (hw : wordChar pc = false) (hz : pc ∉ zshLit) (hz2 : pc ∉ str ".Zsh") :
    ∀ k ch e rest, zshSiteAt t k ch e rest → k + 21 + e.length ≤ p ∨ p < k := by
  intro k ch e rest hs
  by_contra hcon
  push_neg at hcon
  obtain ⟨h1, h2⟩ := hcon
  have hocc := occursAt_of_drop_eq (zshSiteAt_flat hs)
  have hk1 := hs.2.2.2.1
  have hmem := cross_char_mem hocc hα hαlast hαne (by omega)
    (by rw [@zshW_flat_length ch e]; omega)
  exact zshW_char_notin hs.1 hs.2.2.1 hw hz hz2 hmem

theorem char_hA_C {t α : Str} {p : Nat} {pc : Char}
    (hα : α <:+ t.take p) (hαlast : α.getLast? = some pc) (hαne : α ≠ [])
    (hpw : wordChar pc = false) (hpws : wsChar pc = false)
    (hl : pc ∉ str "function()\x7btry\x7breturn(0,.)(,[]).cmd!==\x7d") :
    ∀ k ws f a m g a2 w rest, cmdSiteAt t k ws f a m g a2 w rest →
      k + 39 + ws.length + f.length + a.length + m.length + g.length + a2.length +
        w.length ≤ p ∨ p ≤ k := by
  intro k ws f a m g a2 w rest hs
  by_contra hcon
  push_neg at hcon
  obtain ⟨h1, h2⟩ := hcon
  have hocc := occursAt_of_drop_eq (cmdSiteAt_flat hs)
  obtain ⟨hws, hwsne, hf, hfne, ha, hane, hm, hmne, hg, hgne, ha2, ha2ne, hw2, hwne, -⟩ := hs
  have hmem := cross_char_mem hocc hα hαlast hαne (by omega)
    (by rw [@cmdW_flat_length ws f a m g a2 w]; omega)
  exact cmdW_char_notin hws hf ha hm hg ha2 hw2 hpw hpws hl hmem

theorem char_hexc_nu {t α E : Str} {p : Nat} {pc : Char} (hE : allWord E = true)
    (hα : α <:+ t.take p) (hαlast : α.getLast? = some pc) (hαne : α ≠ [])
    (hw : wordChar pc = false) (hl : pc ∉ str ".includes(\"nu\")?.Naive") :
    ∀ k, occursAt (nu_detection_str E) t k = true →
      k + (nu_detection_str E).length ≤ p ∨ p ≤ k := by
  intro k hk
  by_contra hcon
  push_neg at hcon
  obtain ⟨h1, h2⟩ := hcon
  have hmem := cross_char_mem hk hα hαlast hαne (by omega) (by omega)
  exact nuW_char_notin hE hw hl hmem

theorem char_hexc_sys {t α f : Str} {p : Nat} {pc : Char} (hf : allWord f = true)
    (hα : α <:+ t.take p) (hαlast : α.getLast? = some pc) (hαne : α ≠ [])
    (hw : wordChar pc = false) (hl : pc ∉ str "(\"nu\")") :
    ∀ k, occursAt (f ++ str "(\"nu\")") t k = true →
      k + (f ++ str "(\"nu\")").length ≤ p ∨ p ≤ k := by
  intro k hk
  by_contra hcon
  push_neg at hcon
  obtain ⟨h1, h2⟩ := hcon
  have hmem := cross_char_mem hk hα hαlast hαne (by omega) (by omega)
  exact sysW_char_notin hf hw hl hmem

theorem naiveW_char_notin {E : Str} {x : Char} (hE : allWord E = true)
    (hx1 : wordChar x = false) (hx2 : x ∉ str "case .Naive:") :
    x ∉ naive_case_str E := by
  intro hmem
  rcases naiveW_chars hmem hE with h | h
  · rw [hx1] at h
    exact Bool.false_ne_true h
  · exact hx2 h

theorem char_hexc_naive {t α E : Str} {p : Nat} {pc : Char} (hE : allWord E = true)
    (hα : α <:+ t.take p) (hαlast : α.getLast? = some pc) (hαne : α ≠ [])
    (hw : wordChar pc = false) (hl : pc ∉ str "case .Naive:") :
    ∀ k, occursAt (naive_case_str E) t k = true →
      k + (naive_case_str E).length ≤ p ∨ p ≤ k := by
  intro k hk
  by_contra hcon
  push_neg at hcon
  obtain ⟨h1, h2⟩ := hcon
  have hmem := cross_char_mem hk hα hαlast hαne (by omega) (by omega)
  exact naiveW_char_notin hE hw hl hmem

theorem char_hexc_uth {t α x : Str} {p : Nat} {pc : Char} (hx : allWord x = true)
    (hα : α <:+ t.take p) (hαlast : α.getLast? = some pc) (hαne : α ≠ [])
    (hw : wordChar pc = false) (hl : pc ∉ str ".shell??userTerminalHint") :
    ∀ k, occursAt (str ".shell??" ++ (x ++ str "?.userTerminalHint??")) t k = true →
      k + 28 + x.length ≤ p ∨ p ≤ k := by
  intro k hk
  by_contra hcon
  push_neg at hcon
  obtain ⟨h1, h2⟩ := hcon
  have hlen : (str ".shell??" ++ (x ++ str "?.userTerminalHint??")).length = 28 + x.length := by
    simp only [List.length_append]
    rw [show (str ".shell??").length = 8 from by decide,
      show (str "?.userTerminalHint??").length = 20 from by decide]
    omega
  have hmem := cross_char_mem hk hα hαlast hαne (by omega) (by rw [hlen]; omega)
  exact uthW_char_notin hx hw hl hmem

theorem getLast_of_suffix_singleton {l : Str} {c : Char} (h : [c] <:+ l) :
    l.getLast? = some c := by
  obtain ⟨u, hu⟩ := h
  rw [← hu]
  exact List.getLast?_concat u

/-- Characters of the `re1` site text at literal offsets. -/
theorem zshW_getElem_lit {ch : Char} {e : Str} {i : Nat} (hi : i < 17) :
    (ch :: (zshLit ++ (e ++ str ".Zsh")))[i + 1]? = zshLit[i]? := by
  rw [List.getElem?_cons_succ, List.getElem?_append, if_pos]
  rw [show zshLit.length = 17 from by decide]
  omega

theorem nuW_getElem_lit {E : Str} {i : Nat} (hi : i < 16) :
    (nu_detection_str E)[i]? = (str ".includes(\"nu\")?")[i]? := by
  unfold nu_detection_str
  rw [List.getElem?_append, if_pos, List.getElem?_append, if_pos]
  · rw [show (str ".includes(\"nu\")?").length = 16 from by decide]
    omega
  · rw [List.length_append, show (str ".includes(\"nu\")?").length = 16 from by decide]
    omega

/-- Character extraction from a backward alignment: the known suffix `α` of
`t.take p` is reproduced inside the crossing pattern. -/
theorem cross_align_getElem {t W α : Str} {k p j : Nat} {c : Char}
    (hocc : occursAt W t k = true) (hα : α <:+ t.take p)
    (hk : k < p) (hp2 : p ≤ k + W.length) (hlen : α.length ≤ p - k)
    (hj : j < α.length) (hc : α[j]? = some c) :
    W[p - k - α.length + j]? = some c := by
  have hal := cross_suffix_align hocc hα hk hp2 hlen
  have h2 := suffix_getElem hal hj
  have hσle : p - k ≤ W.length := by omega
  rw [List.length_take, Nat.min_eq_left hσle] at h2
  rw [← getElem?_take_eq (show p - k - α.length + j < p - k by omega), h2, hc]

/-- A zsh site cannot cross a position preceded by `.includes("` and
followed by a character other than `z`. -/
theorem inc_quote_hA_Z {t γ : Str} {p : Nat} {hc : Char}
    (hsfx : str ".includes(\"" <:+ t.take p) (hfwd : t.drop p = hc :: γ)
    (hz : hc ≠ 'z') :
    ∀ k ch e rest, zshSiteAt t k ch e rest → k + 21 + e.length ≤ p ∨ p < k := by
  intro k ch e rest hs
  by_contra hcon
  push_neg at hcon
  obtain ⟨h1, h2⟩ := hcon
  have hocc := occursAt_of_drop_eq (zshSiteAt_flat hs)
  have hk1 := hs.2.2.2.1
  have hch := hs.1
  have he := hs.2.2.1
  have hWlen := @zshW_flat_length ch e
  have hklt : k - 1 < p := by omega
  have hple : p ≤ (k - 1) + (ch :: (zshLit ++ (e ++ str ".Zsh"))).length := by
    rw [hWlen]
    omega
  have hq := cross_lastchar hocc hsfx
    (show (str ".includes(\"").getLast? = some '"' from by decide) (by decide) hklt hple
  rcases zshW_quote_pos hch he hq with hp12 | hp16
  · have hlt : p < (k - 1) + (ch :: (zshLit ++ (e ++ str ".Zsh"))).length := by
      rw [hWlen]
      omega
    have hβ : [hc] <+: t.drop p := by
      rw [hfwd]
      exact ⟨γ, rfl⟩
    have hhd := cross_headchar hocc hβ rfl (by simp) (by omega) hlt
    have h12 : p - (k - 1) = 12 := by omega
    rw [h12] at hhd
    have hz12 : (ch :: (zshLit ++ (e ++ str ".Zsh")))[12]? = some 'z' := by
      have hg := @zshW_getElem_lit ch e 11 (by omega)
      rw [show (11 + 1) = 12 from rfl] at hg
      rw [hg]
      decide
    rw [hz12] at hhd
    exact hz (Option.some_inj.mp hhd).symm
  · have hpq : str "(\"" <:+ t.take p :=
      List.IsSuffix.trans (by decide : str "(\"" <:+ str ".includes(\"") hsfx
    have hal := cross_align_getElem hocc hpq hklt hple
      (by rw [show (str "(\"").length = 2 from by decide]; omega)
      (show 0 < (str "(\"").length from by decide) (show (str "(\"")[0]? = some '(' from by decide)
    have h14 : p - (k - 1) - (str "(\"").length + 0 = 14 := by
      rw [show (str "(\"").length = 2 from by decide]
      omega
    rw [h14] at hal
    have hh14 : (ch :: (zshLit ++ (e ++ str ".Zsh")))[14]? = some 'h' := by
      have hg := @zshW_getElem_lit ch e 13 (by omega)
      rw [show (13 + 1) = 14 from rfl] at hg
      rw [hg]
      decide
    rw [hh14] at hal
    exact absurd (Option.some_inj.mp hal) (by decide)

theorem sysW_length {f : Str} : (f ++ str "(\"nu\")").length = f.length + 6 := by
  rw [List.length_append, show (str "(\"nu\")").length = 6 from by decide]

/-- A system-nu occurrence cannot cross a position preceded by
`.includes("` and followed by a character other than `n`. -/
theorem inc_quote_hexc_sys {t γ f : Str} {p : Nat} {hc : Char}
    (hf : allWord f = true)
    (hsfx : str ".includes(\"" <:+ t.take p) (hfwd : t.drop p = hc :: γ)
    (hn : hc ≠ 'n') :
    ∀ k, occursAt (f ++ str "(\"nu\")") t k = true →
      k + (f ++ str "(\"nu\")").length ≤ p ∨ p ≤ k := by
  intro k hk
  by_contra hcon
  push_neg at hcon
  obtain ⟨h1, h2⟩ := hcon
  rw [sysW_length] at h1
  have hple : p ≤ k + (f ++ str "(\"nu\")").length := by
    rw [sysW_length]
    omega
  have hq := cross_lastchar hk hsfx
    (show (str ".includes(\"").getLast? = some '"' from by decide) (by decide) (by omega) hple
  rcases sysW_quote_pos hf hq with hq1 | hq4
  · have hlt : p < k + (f ++ str "(\"nu\")").length := by
      rw [sysW_length]
      omega
    have hβ : [hc] <+: t.drop p := by
      rw [hfwd]
      exact ⟨γ, rfl⟩
    have hhd := cross_headchar hk hβ rfl (by simp) (by omega) hlt
    have hidx : p - k = f.length + 2 := by omega
    rw [hidx, sysW_getElem_lit (by omega), show (str "(\"nu\")")[2]? = some 'n' from by decide]
      at hhd
    exact hn (Option.some_inj.mp hhd).symm
  · have hpq : str "(\"" <:+ t.take p :=
      List.IsSuffix.trans (by decide : str "(\"" <:+ str ".includes(\"") hsfx
    have hal := cross_align_getElem hk hpq (by omega) hple
      (by rw [show (str "(\"").length = 2 from by decide]; omega)
      (show 0 < (str "(\"").length from by decide) (show (str "(\"")[0]? = some '(' from by decide)
    have hidx : p - k - (str "(\"").length + 0 = f.length + 3 := by
      rw [show (str "(\"").length = 2 from by decide]
      omega
    rw [hidx, sysW_getElem_lit (by omega), show (str "(\"nu\")")[3]? = some 'u' from by decide]
      at hal
    exact absurd (Option.some_inj.mp hal) (by decide)

/-- A zsh site cannot cross a position preceded by `??`. -/
theorem qq_hA_Z {t : Str} {p : Nat} (hsfx : str "??" <:+ t.take p) :
    ∀ k ch e rest, zshSiteAt t k ch e rest → k + 21 + e.length ≤ p ∨ p < k := by
  intro k ch e rest hs
  by_contra hcon
  push_neg at hcon
  obtain ⟨h1, h2⟩ := hcon
  have hocc := occursAt_of_drop_eq (zshSiteAt_flat hs)
  have hk1 := hs.2.2.2.1
  have hWlen := @zshW_flat_length ch e
  have hklt : k - 1 < p := by omega
  have hple : p ≤ (k - 1) + (ch :: (zshLit ++ (e ++ str ".Zsh"))).length := by
    rw [hWlen]
    omega
  have hq := cross_lastchar hocc hsfx
    (show (str "??").getLast? = some '?' from by decide) (by decide) hklt hple
  have hpin := zshW_qmark_pos hs.1 hs.2.2.1 hq
  have hal := cross_align_getElem hocc hsfx hklt hple
    (by rw [show (str "??").length = 2 from by decide]; omega)
    (show 0 < (str "??").length from by decide) (show (str "??")[0]? = some '?' from by decide)
  have hidx : p - (k - 1) - (str "??").length + 0 = 16 := by
    rw [show (str "??").length = 2 from by decide]
    omega
  rw [hidx] at hal
  have hg := @zshW_getElem_lit ch e 15 (by omega)
  rw [show (15 + 1) = 16 from rfl] at hg
  rw [hg, show zshLit[15]? = some ')' from by decide] at hal
  exact absurd (Option.some_inj.mp hal) (by decide)

/-- A `nu_detection_str` occurrence cannot cross a position preceded by `??`. -/
theorem qq_hexc_nu {t E : Str} {p : Nat} (hE : allWord E = true)
    (hsfx : str "??" <:+ t.take p) :
    ∀ k, occursAt (nu_detection_str E) t k = true →
      k + (nu_detection_str E).length ≤ p ∨ p ≤ k := by
  intro k hk
  by_contra hcon
  push_neg at hcon
  obtain ⟨h1, h2⟩ := hcon
  have hq := cross_lastchar hk hsfx
    (show (str "??").getLast? = some '?' from by decide) (by decide) (by omega) (by omega)
  have hpin := nuW_qmark_pos hE hq
  have hal := cross_align_getElem hk hsfx (by omega) (by omega)
    (by rw [show (str "??").length = 2 from by decide]; omega)
    (show 0 < (str "??").length from by decide) (show (str "??")[0]? = some '?' from by decide)
  have hidx : p - k - (str "??").length + 0 = 14 := by
    rw [show (str "??").length = 2 from by decide]
    omega
  rw [hidx, nuW_getElem_lit (by omega),
    show (str ".includes(\"nu\")?")[14]? = some ')' from by decide] at hal
  exact absurd (Option.some_inj.mp hal) (by decide)

/-- A zsh site cannot cross a position preceded by `/sh"`. -/
theorem binsh_hA_Z {t : Str} {p : Nat} (hsfx : str "/sh\"" <:+ t.take p) :
    ∀ k ch e rest, zshSiteAt t k ch e rest → k + 21 + e.length ≤ p ∨ p < k := by
  intro k ch e rest hs
  by_contra hcon
  push_neg at hcon
  obtain ⟨h1, h2⟩ := hcon
  have hocc := occursAt_of_drop_eq (zshSiteAt_flat hs)
  have hk1 := hs.2.2.2.1
  have hWlen := @zshW_flat_length ch e
  have hklt : k - 1 < p := by omega
  have hple : p ≤ (k - 1) + (ch :: (zshLit ++ (e ++ str ".Zsh"))).length := by
    rw [hWlen]
    omega
  have hq := cross_lastchar hocc
    (List.IsSuffix.trans (by decide : [(.ofNat 34 : Char)] <:+ str "/sh\"") hsfx)
    (show ([(.ofNat 34 : Char)] : Str).getLast? = some '"' from by decide) (by decide) hklt hple
  have hpin := zshW_quote_pos hs.1 hs.2.2.1 hq
  have hal := cross_suffix_align hocc hsfx hklt hple
    (by rw [show (str "/sh\"").length = 4 from by decide]; omega)
  have hmem : '/' ∈ ch :: (zshLit ++ (e ++ str ".Zsh")) :=
    List.take_subset _ _ (mem_of_suffix hal (by decide))
  exact zshW_char_notin hs.1 hs.2.2.1 (by decide) (by decide) (by decide) hmem

/-- A `nu_detection_str` occurrence cannot cross a position preceded by `/sh"`. -/
theorem binsh_hexc_nu {t E : Str} {p : Nat} (hE : allWord E = true)
    (hsfx : str "/sh\"" <:+ t.take p) :
    ∀ k, occursAt (nu_detection_str E) t k = true →
      k + (nu_detection_str E).length ≤ p ∨ p ≤ k := by
  intro k hk
  by_contra hcon
  push_neg at hcon
  obtain ⟨h1, h2⟩ := hcon
  have hq := cross_lastchar hk
    (List.IsSuffix.trans (by decide : [(.ofNat 34 : Char)] <:+ str "/sh\"") hsfx)
    (show ([(.ofNat 34 : Char)] : Str).getLast? = some '"' from by decide) (by decide)
    (by omega) (by omega)
  have hpin := nuW_quote_pos hE hq
  have hal := cross_suffix_align hk hsfx (by omega) (by omega)
    (by rw [show (str "/sh\"").length = 4 from by decide]; omega)
  have hmem : '/' ∈ nu_detection_str E :=
    List.take_subset _ _ (mem_of_suffix hal (by decide))
  exact nuW_char_notin hE (by decide) (by decide) hmem

/-- A system-nu occurrence cannot cross a position preceded by `h"`. -/
theorem binsh_hexc_sys {t f : Str} {p : Nat} (hf : allWord f = true)
    (hsfx : str "h\"" <:+ t.take p) :
    ∀ k, occursAt (f ++ str "(\"nu\")") t k = true →
      k + (f ++ str "(\"nu\")").length ≤ p ∨ p ≤ k := by
  intro k hk
  by_contra hcon
  push_neg at hcon
  obtain ⟨h1, h2⟩ := hcon
  rw [sysW_length] at h1
  have hple : p ≤ k + (f ++ str "(\"nu\")").length := by
    rw [sysW_length]
    omega
  have hq := cross_lastchar hk
    (List.IsSuffix.trans (by decide : [(.ofNat 34 : Char)] <:+ str "h\"") hsfx)
    (show ([(.ofNat 34 : Char)] : Str).getLast? = some '"' from by decide) (by decide)
    (by omega) hple
  rcases sysW_quote_pos hf hq with hq1 | hq4
  · have hal := cross_align_getElem hk hsfx (by omega) hple
      (by rw [show (str "h\"").length = 2 from by decide]; omega)
      (show 0 < (str "h\"").length from by decide) (show (str "h\"")[0]? = some 'h' from by decide)
    have hidx : p - k - (str "h\"").length + 0 = f.length := by
      rw [show (str "h\"").length = 2 from by decide]
      omega
    rw [hidx, show f.length = f.length + 0 from by omega, sysW_getElem_lit (by omega),
      show (str "(\"nu\")")[0]? = some '(' from by decide] at hal
    exact absurd (Option.some_inj.mp hal) (by decide)
  · have hal := cross_align_getElem hk hsfx (by omega) hple
      (by rw [show (str "h\"").length = 2 from by decide]; omega)
      (show 0 < (str "h\"").length from by decide) (show (str "h\"")[0]? = some 'h' from by decide)
    have hidx : p - k - (str "h\"").length + 0 = f.length + 3 := by
      rw [show (str "h\"").length = 2 from by decide]
      omega
    rw [hidx, sysW_getElem_lit (by omega),
      show (str "(\"nu\")")[3]? = some 'u' from by decide] at hal
    exact absurd (Option.some_inj.mp hal) (by decide)

/-- A zsh site cannot cross a position preceded by `/sh")`. -/
theorem rp_hA_Z {t : Str} {p : Nat} (hsfx : str "/sh\")" <:+ t.take p) :
    ∀ k ch e rest, zshSiteAt t k ch e rest → k + 21 + e.length ≤ p ∨ p < k := by
  intro k ch e rest hs
  by_contra hcon
  push_neg at hcon
  obtain ⟨h1, h2⟩ := hcon
  have hocc := occursAt_of_drop_eq (zshSiteAt_flat hs)
  have hk1 := hs.2.2.2.1
  have hWlen := @zshW_flat_length ch e
  have hklt : k - 1 < p := by omega
  have hple : p ≤ (k - 1) + (ch :: (zshLit ++ (e ++ str ".Zsh"))).length := by
    rw [hWlen]
    omega
  have hq := cross_lastchar hocc
    (List.IsSuffix.trans (by decide : str ")" <:+ str "/sh\")") hsfx)
    (show (str ")").getLast? = some ')' from by decide) (by decide) hklt hple
  have hpin := zshW_rparen_pos hs.1 hs.2.2.1 hq
  have hal := cross_suffix_align hocc hsfx hklt hple
    (by rw [show (str "/sh\")").length = 5 from by decide]; omega)
  have hmem : '/' ∈ ch :: (zshLit ++ (e ++ str ".Zsh")) :=
    List.take_subset _ _ (mem_of_suffix hal (by decide))
  exact zshW_char_notin hs.1 hs.2.2.1 (by decide) (by decide) (by decide) hmem

/-- A `nu_detection_str` occurrence cannot cross a position preceded by `/sh")`. -/
theorem rp_hexc_nu {t E : Str} {p : Nat} (hE : allWord E = true)
    (hsfx : str "/sh\")" <:+ t.take p) :
    ∀ k, occursAt (nu_detection_str E) t k = true →
      k + (nu_detection_str E).length ≤ p ∨ p ≤ k := by
  intro k hk
  by_contra hcon
  push_neg at hcon
  obtain ⟨h1, h2⟩ := hcon
  have hq := cross_lastchar hk
    (List.IsSuffix.trans (by decide : str ")" <:+ str "/sh\")") hsfx)
    (show (str ")").getLast? = some ')' from by decide) (by decide) (by omega) (by omega)
  have hpin := nuW_rparen_pos hE hq
  have hal := cross_suffix_align hk hsfx (by omega) (by omega)
    (by rw [show (str "/sh\")").length = 5 from by decide]; omega)
  have hmem : '/' ∈ nu_detection_str E :=
    List.take_subset _ _ (mem_of_suffix hal (by decide))
  exact nuW_char_notin hE (by decide) (by decide) hmem

/-- A system-nu occurrence cannot cross a position preceded by `)`. -/
theorem rp_hexc_sys {t f : Str} {p : Nat} (hf : allWord f = true)
    (hsfx : str ")" <:+ t.take p) :
    ∀ k, occursAt (f ++ str "(\"nu\")") t k = true →
      k + (f ++ str "(\"nu\")").length ≤ p ∨ p ≤ k := by
  intro k hk
  by_contra hcon
  push_neg at hcon
  obtain ⟨h1, h2⟩ := hcon
  rw [sysW_length] at h1
  have hq := cross_lastchar hk hsfx
    (show (str ")").getLast? = some ')' from by decide) (by decide) (by omega)
    (by rw [sysW_length]; omega)
  have hpin := sysW_rparen_pos hf hq
  omega

/-- A cmd site cannot cross a position preceded by `")`. -/
theorem rp_hA_C {t : Str} {p : Nat} (hsfx : str "\")" <:+ t.take p) :
    ∀ k ws f a m g a2 w rest, cmdSiteAt t k ws f a m g a2 w rest →
      k + 39 + ws.length + f.length + a.length + m.length + g.length + a2.length +
        w.length ≤ p ∨ p ≤ k := by
  intro k ws f a m g a2 w rest hs
  by_contra hcon
  push_neg at hcon
  obtain ⟨h1, h2⟩ := hcon
  have hocc := occursAt_of_drop_eq (cmdSiteAt_flat hs)
  obtain ⟨hws, hwsne, hf, hfne, ha, hane, hm, hmne, hg, hgne, ha2, ha2ne, hw2, hwne, -⟩ := hs
  have hWlen := @cmdW_flat_length ws f a m g a2 w
  have hple : p ≤ k + (str "function" ++ (ws ++ (f ++ (str "(" ++ (a ++
      (str ")\x7btry\x7breturn(0," ++ (m ++ (str "." ++ (g ++ (str ")(" ++
      (a2 ++ (str ",[]).cmd!==" ++ (w ++ str "\x7d"))))))))))))).length := by
    rw [hWlen]
    omega
  by_cases hσ : 2 ≤ p - k
  · have hal := cross_align_getElem hocc hsfx (by omega) hple
      (by rw [show (str "\")").length = 2 from by decide]; omega)
      (show 0 < (str "\")").length from by decide)
      (show (str "\")")[0]? = some '"' from by decide)
    have hmem := mem_of_getElem? hal
    exact cmdW_char_notin hws hf ha hm hg ha2 hw2 (by decide) (by decide) (by decide) hmem
  · push_neg at hσ
    have hq := cross_lastchar hocc hsfx
      (show (str "\")").getLast? = some ')' from by decide) (by decide) (by omega) hple
    have hidx : p - k - 1 = 0 := by omega
    rw [hidx] at hq
    have hhd : (str "function" ++ (ws ++ (f ++ (str "(" ++ (a ++
        (str ")\x7btry\x7breturn(0," ++ (m ++ (str "." ++ (g ++ (str ")(" ++
        (a2 ++ (str ",[]).cmd!==" ++ (w ++ str "\x7d")))))))))))))[0]? = some 'f' := by
      rw [List.getElem?_append, if_pos (by rw [show (str "function").length = 8 from by decide]; omega)]
      decide
    rw [hhd] at hq
    exact absurd (Option.some_inj.mp hq) (by decide)

/-!
### Forward-context crossing exclusions

For insertions whose right-hand context is known (`default:` or a
`case `-headed block) the crossing tail of a pattern is refuted against
that context.
-/

theorem zshW_as_tail {ch : Char} {e : Str} :
    ch :: (zshLit ++ (e ++ str ".Zsh")) = (ch :: (zshLit ++ e)) ++ str ".Zsh" := by
  rw [List.cons_append, List.append_assoc]

theorem cmdW_as_tail {ws f a m g a2 w : Str} :
    str "function" ++ (ws ++ (f ++ (str "(" ++ (a ++ (str ")\x7btry\x7breturn(0," ++
      (m ++ (str "." ++ (g ++ (str ")(" ++ (a2 ++ (str ",[]).cmd!==" ++
      (w ++ str "\x7d")))))))))))) =
    (str "function" ++ (ws ++ (f ++ (str "(" ++ (a ++ (str ")\x7btry\x7breturn(0," ++
      (m ++ (str "." ++ (g ++ (str ")(" ++ (a2 ++ (str ",[]).cmd!==" ++ w)))))))))))) ++
      str "\x7d" := by
  simp only [List.append_assoc]

theorem uthW_as_tail {x : Str} :
    str ".shell??" ++ (x ++ str "?.userTerminalHint??") =
    (str ".shell??" ++ x) ++ str "?.userTerminalHint??" := by
  rw [List.append_assoc]

theorem cmdW_last {ws f a m g a2 w : Str} :
    (str "function" ++ (ws ++ (f ++ (str "(" ++ (a ++ (str ")\x7btry\x7breturn(0," ++
      (m ++ (str "." ++ (g ++ (str ")(" ++ (a2 ++ (str ",[]).cmd!==" ++
      (w ++ str "\x7d"))))))))))))).getLast? = some '\x7d' := by
  rw [cmdW_as_tail, show (str "\x7d") = ['\x7d'] from by decide]
  exact List.getLast?_concat _

/-- A zsh site cannot cross a position followed by `default:`. -/
theorem fwd_default_hA_Z {t γ : Str} {p : Nat}
    (hd : t.drop p = str "default:" ++ γ) :
    ∀ k ch e rest, zshSiteAt t k ch e rest → k + 21 + e.length ≤ p ∨ p < k := by
  intro k ch e rest hs
  by_contra hcon
  push_neg at hcon
  obtain ⟨h1, h2⟩ := hcon
  have hocc := occursAt_of_drop_eq (zshSiteAt_flat hs)
  have hk1 := hs.2.2.2.1
  have hWlen := @zshW_flat_length ch e
  have hk' : k - 1 ≤ p := by omega
  by_cases hsl : (ch :: (zshLit ++ (e ++ str ".Zsh"))).length - (p - (k - 1)) ≤
      (str "default:").length
  · have hD := cross_drop_prefix_of_le hocc hd hk' hsl
    rw [zshW_as_tail] at hD
    refine tail_lit_refute ?_ hD (by decide) (by decide)
    rw [← zshW_as_tail, hWlen]
    omega
  · push_neg at hsl
    have hβ := cross_beta_prefix_of_le hocc hd hk' (by omega)
    have hcolon : ':' ∈ ch :: (zshLit ++ (e ++ str ".Zsh")) :=
      List.drop_subset _ _ (mem_of_pref hβ (by decide))
    exact zshW_char_notin hs.1 hs.2.2.1 (by decide) (by decide) (by decide) hcolon

/-- A cmd site cannot cross a position followed by `default:`. -/
theorem fwd_default_hA_C {t γ : Str} {p : Nat}
    (hd : t.drop p = str "default:" ++ γ) :
    ∀ k ws f a m g a2 w rest, cmdSiteAt t k ws f a m g a2 w rest →
      k + 39 + ws.length + f.length + a.length + m.length + g.length + a2.length +
        w.length ≤ p ∨ p ≤ k := by
  intro k ws f a m g a2 w rest hs
  by_contra hcon
  push_neg at hcon
  obtain ⟨h1, h2⟩ := hcon
  have hocc := occursAt_of_drop_eq (cmdSiteAt_flat hs)
  obtain ⟨hws, hwsne, hf, hfne, ha, hane, hm, hmne, hg, hgne, ha2, ha2ne, hw2, hwne, -⟩ := hs
  have hWlen := @cmdW_flat_length ws f a m g a2 w
  by_cases hsl : (str "function" ++ (ws ++ (f ++ (str "(" ++ (a ++
      (str ")\x7btry\x7breturn(0," ++ (m ++ (str "." ++ (g ++ (str ")(" ++
      (a2 ++ (str ",[]).cmd!==" ++ (w ++ str "\x7d"))))))))))))).length - (p - k) ≤
      (str "default:").length
  · have hD := cross_drop_prefix_of_le hocc hd (by omega) hsl
    rw [cmdW_as_tail] at hD
    refine tail_lit_refute ?_ hD (by decide) ?_
    · rw [← cmdW_as_tail, hWlen]
      omega
    · intro j hj hj2 _
      rw [show (str "\x7d").length = 1 from by decide] at hj
      omega
  · push_neg at hsl
    have hβ := cross_beta_prefix_of_le hocc hd (by omega) (by omega)
    have hcolon := List.drop_subset _ _ (mem_of_pref hβ (by decide : ':' ∈ str "default:"))
    exact cmdW_char_notin hws hf ha hm hg ha2 hw2 (by decide) (by decide) (by decide) hcolon

/-- A `nu_detection_str` occurrence cannot cross a position followed by
`default:`. -/
theorem fwd_default_hexc_nu {t γ E : Str} {p : Nat} (hE : allWord E = true)
    (hd : t.drop p = str "default:" ++ γ) :
    ∀ k, occursAt (nu_detection_str E) t k = true →
      k + (nu_detection_str E).length ≤ p ∨ p ≤ k := by
  intro k hk
  by_contra hcon
  push_neg at hcon
  obtain ⟨h1, h2⟩ := hcon
  have hlnu : (nu_detection_str E).length = 22 + E.length := by
    unfold nu_detection_str
    simp only [List.length_append]
    rw [show (str ".includes(\"nu\")?").length = 16 from by decide,
      show (str ".Naive").length = 6 from by decide]
    omega
  by_cases hsl : (nu_detection_str E).length - (p - k) ≤ (str "default:").length
  · have hD := cross_drop_prefix_of_le hk hd (by omega) hsl
    refine tail_lit_refute ?_ hD (by decide) (by decide)
    have h3 : ((str ".includes(\"nu\")?" ++ E) ++ str ".Naive").length = 22 + E.length := hlnu
    rw [h3]
    rw [hlnu] at h1
    omega
  · push_neg at hsl
    have hβ := cross_beta_prefix_of_le hk hd (by omega) (by omega)
    have hcolon := List.drop_subset _ _ (mem_of_pref hβ (by decide : ':' ∈ str "default:"))
    exact nuW_char_notin hE (by decide) (by decide) hcolon

/-- A system-nu occurrence cannot cross a position followed by `default:`. -/
theorem fwd_default_hexc_sys {t γ f : Str} {p : Nat} (hf : allWord f = true)
    (hd : t.drop p = str "default:" ++ γ) :
    ∀ k, occursAt (f ++ str "(\"nu\")") t k = true →
      k + (f ++ str "(\"nu\")").length ≤ p ∨ p ≤ k := by
  intro k hk
  by_contra hcon
  push_neg at hcon
  obtain ⟨h1, h2⟩ := hcon
  by_cases hsl : (f ++ str "(\"nu\")").length - (p - k) ≤ (str "default:").length
  · have hD := cross_drop_prefix_of_le hk hd (by omega) hsl
    exact tail_lit_refute (by omega) hD (by decide) (by decide)
  · push_neg at hsl
    have hβ := cross_beta_prefix_of_le hk hd (by omega) (by omega)
    have hcolon := List.drop_subset _ _ (mem_of_pref hβ (by decide : ':' ∈ str "default:"))
    exact sysW_char_notin hf (by decide) (by decide) hcolon

/-- A userTerminalHint site cannot cross a position followed by `default:`. -/
theorem fwd_default_hexc_uth {t γ x : Str} {p : Nat} (hx : allWord x = true)
    (hd : t.drop p = str "default:" ++ γ) :
    ∀ k, occursAt (str ".shell??" ++ (x ++ str "?.userTerminalHint??")) t k = true →
      k + 28 + x.length ≤ p ∨ p ≤ k := by
  intro k hk
  by_contra hcon
  push_neg at hcon
  obtain ⟨h1, h2⟩ := hcon
  have hlen : (str ".shell??" ++ (x ++ str "?.userTerminalHint??")).length = 28 + x.length := by
    simp only [List.length_append]
    rw [show (str ".shell??").length = 8 from by decide,
      show (str "?.userTerminalHint??").length = 20 from by decide]
    omega
  by_cases hsl : (str ".shell??" ++ (x ++ str "?.userTerminalHint??")).length - (p - k) ≤
      (str "default:").length
  · have hD := cross_drop_prefix_of_le hk hd (by omega) hsl
    rw [uthW_as_tail] at hD
    refine tail_lit_refute ?_ hD (by decide) (by decide)
    rw [← uthW_as_tail, hlen]
    omega
  · push_neg at hsl
    have hβ := cross_beta_prefix_of_le hk hd (by omega) (by omega)
    have hcolon := List.drop_subset _ _ (mem_of_pref hβ (by decide : ':' ∈ str "default:"))
    exact uthW_char_notin hx (by decide) (by decide) hcolon

/-- A zsh site cannot cross a position followed by `case `. -/
theorem fwd_case_hA_Z {t ρ : Str} {p : Nat}
    (hd : t.drop p = str "case " ++ ρ) :
    ∀ k ch e rest, zshSiteAt t k ch e rest → k + 21 + e.length ≤ p ∨ p < k := by
  intro k ch e rest hs
  by_contra hcon
  push_neg at hcon
  obtain ⟨h1, h2⟩ := hcon
  have hocc := occursAt_of_drop_eq (zshSiteAt_flat hs)
  have hk1 := hs.2.2.2.1
  have hWlen := @zshW_flat_length ch e
  by_cases hsl : (ch :: (zshLit ++ (e ++ str ".Zsh"))).length - (p - (k - 1)) ≤ 4
  · have hD := cross_drop_prefix_of_le hocc hd (by omega)
      (by rw [show (str "case ").length = 5 from by decide]; omega)
    have hDW : (ch :: (zshLit ++ (e ++ str ".Zsh"))).drop (p - (k - 1)) <:+
        str ".Zsh" := by
      refine suffix_of_suffix_length_le (List.drop_suffix _ _) ?_ ?_
      · rw [zshW_as_tail]
        exact List.suffix_append _ _
      · rw [List.length_drop, show (str ".Zsh").length = 4 from by decide]
        omega
    have hdec : ∀ j < 4, ¬ ((str ".Zsh").drop j <+: str "case ") := by decide
    have hDeq := suffix_eq_drop hDW
    have hjlt : (str ".Zsh").length -
        ((ch :: (zshLit ++ (e ++ str ".Zsh"))).drop (p - (k - 1))).length < 4 := by
      rw [List.length_drop, hWlen, show (str ".Zsh").length = 4 from by decide]
      omega
    exact hdec _ hjlt (hDeq ▸ hD)
  · push_neg at hsl
    have hβ := cross_beta_prefix_of_le hocc hd (by omega)
      (by rw [show (str "case ").length = 5 from by decide]; omega)
    have hsp : ' ' ∈ ch :: (zshLit ++ (e ++ str ".Zsh")) :=
      List.drop_subset _ _ (mem_of_pref hβ (by decide))
    exact zshW_char_notin hs.1 hs.2.2.1 (by decide) (by decide) (by decide) hsp

/-- A `nu_detection_str` occurrence cannot cross a position followed by `case `. -/
theorem fwd_case_hexc_nu {t ρ E : Str} {p : Nat} (hE : allWord E = true)
    (hd : t.drop p = str "case " ++ ρ) :
    ∀ k, occursAt (nu_detection_str E) t k = true →
      k + (nu_detection_str E).length ≤ p ∨ p ≤ k := by
  intro k hk
  by_contra hcon
  push_neg at hcon
  obtain ⟨h1, h2⟩ := hcon
  by_cases hsl : (nu_detection_str E).length - (p - k) ≤ 4
  · have hD := cross_drop_prefix_of_le hk hd (by omega)
      (by rw [show (str "case ").length = 5 from by decide]; omega)
    have hDW : (nu_detection_str E).drop (p - k) <:+ str ".Naive" := by
      refine suffix_of_suffix_length_le (List.drop_suffix _ _) ?_ ?_
      · exact List.suffix_append _ _
      · rw [List.length_drop, show (str ".Naive").length = 6 from by decide]
        omega
    have hdec : ∀ j < 6, 2 ≤ j → ¬ ((str ".Naive").drop j <+: str "case ") := by decide
    have hDeq := suffix_eq_drop hDW
    have hjlt : (str ".Naive").length - ((nu_detection_str E).drop (p - k)).length < 6 := by
      rw [List.length_drop, show (str ".Naive").length = 6 from by decide]
      omega
    refine hdec _ hjlt ?_ (hDeq ▸ hD)
    rw [List.length_drop, show (str ".Naive").length = 6 from by decide]
    omega
  · push_neg at hsl
    have hβ := cross_beta_prefix_of_le hk hd (by omega)
      (by rw [show (str "case ").length = 5 from by decide]; omega)
    have hsp := List.drop_subset _ _ (mem_of_pref hβ (by decide : ' ' ∈ str "case "))
    exact nuW_char_notin hE (by decide) (by decide) hsp

/-- A system-nu occurrence cannot cross a position followed by `case `. -/
theorem fwd_case_hexc_sys {t ρ f : Str} {p : Nat} (hf : allWord f = true)
    (hd : t.drop p = str "case " ++ ρ) :
    ∀ k, occursAt (f ++ str "(\"nu\")") t k = true →
      k + (f ++ str "(\"nu\")").length ≤ p ∨ p ≤ k := by
  intro k hk
  by_contra hcon
  push_neg at hcon
  obtain ⟨h1, h2⟩ := hcon
  by_cases hsl : (f ++ str "(\"nu\")").length - (p - k) ≤ 4
  · have hD := cross_drop_prefix_of_le hk hd (by omega)
      (by rw [show (str "case ").length = 5 from by decide]; omega)
    have hDW : (f ++ str "(\"nu\")").drop (p - k) <:+ str "(\"nu\")" := by
      refine suffix_of_suffix_length_le (List.drop_suffix _ _) (List.suffix_append _ _) ?_
      rw [List.length_drop, show (str "(\"nu\")").length = 6 from by decide]
      omega
    have hdec : ∀ j < 6, 2 ≤ j → ¬ ((str "(\"nu\")").drop j <+: str "case ") := by decide
    have hDeq := suffix_eq_drop hDW
    have hjlt : (str "(\"nu\")").length - ((f ++ str "(\"nu\")").drop (p - k)).length < 6 := by
      rw [List.length_drop, show (str "(\"nu\")").length = 6 from by decide]
      omega
    refine hdec _ hjlt ?_ (hDeq ▸ hD)
    rw [List.length_drop, show (str "(\"nu\")").length = 6 from by decide]
    omega
  · push_neg at hsl
    have hβ := cross_beta_prefix_of_le hk hd (by omega)
      (by rw [show (str "case ").length = 5 from by decide]; omega)
    have hsp := List.drop_subset _ _ (mem_of_pref hβ (by decide : ' ' ∈ str "case "))
    exact sysW_char_notin hf (by decide) (by decide) hsp

/-- A userTerminalHint site cannot cross a position followed by `case `. -/
theorem fwd_case_hexc_uth {t ρ x : Str} {p : Nat} (hx : allWord x = true)
    (hd : t.drop p = str "case " ++ ρ) :
    ∀ k, occursAt (str ".shell??" ++ (x ++ str "?.userTerminalHint??")) t k = true →
      k + 28 + x.length ≤ p ∨ p ≤ k := by
  intro k hk
  by_contra hcon
  push_neg at hcon
  obtain ⟨h1, h2⟩ := hcon
  have hlen : (str ".shell??" ++ (x ++ str "?.userTerminalHint??")).length = 28 + x.length := by
    simp only [List.length_append]
    rw [show (str ".shell??").length = 8 from by decide,
      show (str "?.userTerminalHint??").length = 20 from by decide]
    omega
  by_cases hsl : (str ".shell??" ++ (x ++ str "?.userTerminalHint??")).length - (p - k) ≤ 4
  · have hD := cross_drop_prefix_of_le hk hd (by omega)
      (by rw [show (str "case ").length = 5 from by decide]; omega)
    have hDW : (str ".shell??" ++ (x ++ str "?.userTerminalHint??")).drop (p - k) <:+
        str "?.userTerminalHint??" := by
      refine suffix_of_suffix_length_le (List.drop_suffix _ _) ?_ ?_
      · rw [uthW_as_tail]
        exact List.suffix_append _ _
      · rw [List.length_drop, show (str "?.userTerminalHint??").length = 20 from by decide]
        omega
    have hdec : ∀ j < 20, 16 ≤ j → ¬ ((str "?.userTerminalHint??").drop j <+: str "case ") := by
      decide
    have hDeq := suffix_eq_drop hDW
    have hjlt : (str "?.userTerminalHint??").length -
        ((str ".shell??" ++ (x ++ str "?.userTerminalHint??")).drop (p - k)).length < 20 := by
      rw [List.length_drop, hlen, show (str "?.userTerminalHint??").length = 20 from by decide]
      omega
    refine hdec _ hjlt ?_ (hDeq ▸ hD)
    rw [List.length_drop, hlen, show (str "?.userTerminalHint??").length = 20 from by decide]
    omega
  · push_neg at hsl
    have hβ := cross_beta_prefix_of_le hk hd (by omega)
      (by rw [show (str "case ").length = 5 from by decide]; omega)
    have hsp := List.drop_subset _ _ (mem_of_pref hβ (by decide : ' ' ∈ str "case "))
    exact uthW_char_notin hx (by decide) (by decide) hsp

/-- A cmd site cannot cross a position followed by `case <E><L2>` where
`L2` holds a colon but no closing brace. -/
theorem fwd_caseE_hA_C {t ρ E L2 : Str} {p : Nat} (hE : allWord E = true)
    (hcolon : ':' ∈ L2) (hbrace : '\x7d' ∉ L2)
    (hd : t.drop p = (str "case " ++ E ++ L2) ++ ρ) :
    ∀ k ws f a m g a2 w rest, cmdSiteAt t k ws f a m g a2 w rest →
      k + 39 + ws.length + f.length + a.length + m.length + g.length + a2.length +
        w.length ≤ p ∨ p ≤ k := by
  intro k ws f a m g a2 w rest hs
  by_contra hcon
  push_neg at hcon
  obtain ⟨h1, h2⟩ := hcon
  have hocc := occursAt_of_drop_eq (cmdSiteAt_flat hs)
  obtain ⟨hws, hwsne, hf, hfne, ha, hane, hm, hmne, hg, hgne, ha2, ha2ne, hw2, hwne, -⟩ := hs
  have hWlen := @cmdW_flat_length ws f a m g a2 w
  by_cases hsl : (str "function" ++ (ws ++ (f ++ (str "(" ++ (a ++
      (str ")\x7btry\x7breturn(0," ++ (m ++ (str "." ++ (g ++ (str ")(" ++
      (a2 ++ (str ",[]).cmd!==" ++ (w ++ str "\x7d"))))))))))))).length - (p - k) ≤
      (str "case " ++ E ++ L2).length
  · have hD := cross_drop_prefix_of_le hocc hd (by omega) hsl
    have hDne : (str "function" ++ (ws ++ (f ++ (str "(" ++ (a ++
        (str ")\x7btry\x7breturn(0," ++ (m ++ (str "." ++ (g ++ (str ")(" ++
        (a2 ++ (str ",[]).cmd!==" ++ (w ++ str "\x7d"))))))))))))).drop (p - k) ≠ [] := by
      apply drop_ne_nil_of_lt
      rw [hWlen]
      omega
    have hlast := last_eq_of_suffix (List.drop_suffix _ _) hDne
    rw [cmdW_last] at hlast
    have hmem : '\x7d' ∈ str "case " ++ E ++ L2 :=
      mem_of_pref hD (mem_of_suffix (getLast?_suffix hlast.symm) (by decide))
    rcases List.mem_append.mp hmem with hmem2 | hmem2
    · rcases List.mem_append.mp hmem2 with hmem3 | hmem3
      · exact absurd hmem3 (by decide)
      · exact absurd (allWord_mem hE hmem3) (by decide)
    · exact hbrace hmem2
  · push_neg at hsl
    have hβ := cross_beta_prefix_of_le hocc hd (by omega) (by omega)
    have hc2 : ':' ∈ str "case " ++ E ++ L2 :=
      List.mem_append.mpr (Or.inr hcolon)
    have hcolon2 := List.drop_subset _ _ (mem_of_pref hβ hc2)
    exact cmdW_char_notin hws hf ha hm hg ha2 hw2 (by decide) (by decide) (by decide) hcolon2

/-!
### Generic no-new-site builders

An insertion admits no zsh or cmd site overlapping it provided both of its
junctions exclude crossings and the inserted text contains no site anchor.
-/

theorem build_hB_Z {t I : Str} {p : Nat} (hp : p ≤ t.length)
    (hcrossL : ∀ k ch e rest, zshSiteAt (insertAt t I p) k ch e rest →
      k + 21 + e.length ≤ p ∨ p < k)
    (hcrossR : ∀ k ch e rest, zshSiteAt (insertAt t I p) k ch e rest →
      k + 21 + e.length ≤ p + I.length ∨ p + I.length < k)
    (hscan : ∀ j, occursAt (str "(\"z") I j = true → False) :
    ∀ k ch e rest, zshSiteAt (insertAt t I p) k ch e rest →
      k + 21 + e.length ≤ p ∨ p + I.length < k := by
  intro k ch e rest hs
  have hocc0 := occursAt_of_drop_eq (zshSiteAt_flat hs)
  have hk1 := hs.2.2.2.1
  have hA : (t.take p).length = p := by
    rw [List.length_take]
    omega
  have hocc : occursAt (ch :: (zshLit ++ (e ++ str ".Zsh")))
      (t.take p ++ I ++ t.drop p) (k - 1) = true := hocc0
  have hWlen := @zshW_flat_length ch e
  rcases occ_in_append3 hocc with ⟨hb, -⟩ | ⟨hb, -⟩ | ⟨hb1, hb2, hin⟩ |
    ⟨hb1, hb2, -, -⟩ | ⟨hb1, hb2, hb3, -, -⟩
  · left
    rw [hWlen, hA] at hb
    omega
  · right
    rw [hA] at hb
    omega
  · exfalso
    have hanch := occursAt_trans hin (@zshW_anchor ch e) (by rw [hWlen]; omega)
    exact hscan _ hanch
  · rw [hA] at hb1 hb2
    rw [hWlen] at hb2
    rcases hcrossL k ch e rest hs with hc | hc
    · exact absurd hc (by omega)
    · exact absurd hc (by omega)
  · rw [hA] at hb1 hb2 hb3
    rw [hWlen] at hb3
    rcases hcrossR k ch e rest hs with hc | hc
    · exact absurd hc (by omega)
    · exact absurd hc (by omega)

theorem build_hB_C {t I : Str} {p : Nat} (hp : p ≤ t.length)
    (hcrossL : ∀ k ws f a m g a2 w rest, cmdSiteAt (insertAt t I p) k ws f a m g a2 w rest →
      k + 39 + ws.length + f.length + a.length + m.length + g.length + a2.length +
        w.length ≤ p ∨ p ≤ k)
    (hcrossR : ∀ k ws f a m g a2 w rest, cmdSiteAt (insertAt t I p) k ws f a m g a2 w rest →
      k + 39 + ws.length + f.length + a.length + m.length + g.length + a2.length +
        w.length ≤ p + I.length ∨ p + I.length ≤ k)
    (hscan : ∀ j, occursAt (str ")\x7bt") I j = true → False) :
    ∀ k ws f a m g a2 w rest, cmdSiteAt (insertAt t I p) k ws f a m g a2 w rest →
      k + 39 + ws.length + f.length + a.length + m.length + g.length + a2.length +
        w.length ≤ p ∨ p + I.length ≤ k := by
  intro k ws f a m g a2 w rest hs
  have hocc0 := occursAt_of_drop_eq (cmdSiteAt_flat hs)
  have hA : (t.take p).length = p := by
    rw [List.length_take]
    omega
  have hocc : occursAt (str "function" ++ (ws ++ (f ++ (str "(" ++ (a ++
      (str ")\x7btry\x7breturn(0," ++ (m ++ (str "." ++ (g ++ (str ")(" ++
      (a2 ++ (str ",[]).cmd!==" ++ (w ++ str "\x7d")))))))))))))
      (t.take p ++ I ++ t.drop p) k = true := hocc0
  have hWlen := @cmdW_flat_length ws f a m g a2 w
  rcases occ_in_append3 hocc with ⟨hb, -⟩ | ⟨hb, -⟩ | ⟨hb1, hb2, hin⟩ |
    ⟨hb1, hb2, -, -⟩ | ⟨hb1, hb2, hb3, -, -⟩
  · left
    rw [hWlen, hA] at hb
    omega
  · right
    rw [hA] at hb
    omega
  · exfalso
    have hanch := occursAt_trans hin (@cmdW_anchor ws f a m g a2 w) (by rw [hWlen]; omega)
    exact hscan _ hanch
  · rw [hA] at hb1 hb2
    rw [hWlen] at hb2
    rcases hcrossL k ws f a m g a2 w rest hs with hc | hc
    · exact absurd hc (by omega)
    · exact absurd hc (by omega)
  · rw [hA] at hb1 hb2 hb3
    rw [hWlen] at hb3
    rcases hcrossR k ws f a m g a2 w rest hs with hc | hc
    · exact absurd hc (by omega)
    · exact absurd hc (by omega)

/-!
### The insertion texts of the patch steps, in rotated/decomposed form
-/

/-- The nu-detection insertion, rotated past the duplicated
`hint.includes("` prefix. -/
def nuRotIns (hint E : Str) : Str :=
  str "nu\")?" ++ E ++ str ".Naive:" ++ hint ++ str ".includes(\""

/-- The inserted part of the userTerminalHint replacement. -/
def uthIns (sv : Str) : Str := sv ++ str "?.userTerminalHint??"

/-- The `case` block prepended by `patch_shell_path_fallback`. -/
def shellP (E FE : Str) : Str :=
  str "case " ++ E ++ str ".Naive:\x7bconst _np=" ++ FE ++
  str "(\"nu\",[]).cmd;if(_np!==\"nu\")return _np\x7d"

/-- The win32 conditional inserted by `patch_shell_path_fallback`. -/
def winR : Str := str "(\"win32\"===process.platform?ne():"

/-- The shared middle of the shell-fallback find/replace pair. -/
def shellMid : Str := str "default:return process.env.SHELL||"

theorem suffix_word_end_refute {u X hint : Str} {c : Char}
    (hs : u <:+ X ++ hint) (hh : allWord hint = true) (hne : hint ≠ [])
    (hu : u.getLast? = some c) (hcw : wordChar c = false) : False := by
  have hune : u ≠ [] := by
    intro h
    rw [h] at hu
    exact absurd hu (by simp)
  obtain ⟨d, hd⟩ : ∃ d, hint.getLast? = some d := by
    cases hh2 : hint.getLast? with
    | none => exact absurd (List.getLast?_eq_none_iff.mp hh2) hne
    | some d => exact ⟨d, rfl⟩
  have hXh : (X ++ hint).getLast? = some d :=
    getLast_of_suffix_singleton ((getLast?_suffix hd).trans (List.suffix_append _ _))
  have heq := last_eq_of_suffix hs hune
  rw [hu, hXh] at heq
  rw [Option.some_inj] at heq
  have hw := allWord_mem hh (mem_of_suffix (getLast?_suffix hd)
    (show d ∈ ([d] : Str) from by simp))
  rw [heq, hcw] at hw
  exact Bool.false_ne_true hw

/-- The anchor `("z` does not occur in the rotated nu insertion. -/
theorem anchor_z_not_nuRot {hint E : Str} {j : Nat} (hh : allWord hint = true)
    (hhne : hint ≠ []) (hE : allWord E = true)
    (h : occursAt (str "(\"z") (nuRotIns hint E) j = true) : False := by
  have hz : str "(\"z" = '(' :: str "\"z" := by decide
  unfold nuRotIns at h
  simp only [List.append_assoc] at h
  rcases occ_in_append2 h with h1 | ⟨-, h1⟩ | ⟨hb1, hb2, hs1, -⟩
  · exact occ_refute_contains h1 (by decide)
  · rcases occ_in_append2 h1 with h2 | ⟨-, h2⟩ | ⟨hk1, hk2, hs2, -⟩
    · exact occ_refute_word h2 hE (by decide : '(' ∈ str "(\"z") (by decide)
    · rcases occ_in_append2 h2 with h3 | ⟨-, h3⟩ | ⟨hm1, hm2, hs3, -⟩
      · exact occ_refute_contains h3 (by decide)
      · rcases occ_in_append2 h3 with h4 | ⟨-, h4⟩ | ⟨hn1, hn2, hs4, -⟩
        · exact occ_refute_word h4 hh (by decide : '(' ∈ str "(\"z") (by decide)
        · exact occ_refute_contains h4 (by decide)
        · rw [hz] at hs4
          exact straddle_refute_word_left hs4 hh (by omega) (by decide)
      · exact (by decide : ∀ σ' < 3, 1 ≤ σ' → ¬ ((str "(\"z").take σ' <:+ str ".Naive:"))
          _ (by rw [show (str "(\"z").length = 3 from by decide] at hm2; omega)
          (by omega) hs3
    · rw [hz] at hs2
      exact straddle_refute_word_left hs2 hE (by omega) (by decide)
  · exact (by decide : ∀ σ' < 3, 1 ≤ σ' → ¬ ((str "(\"z").take σ' <:+ str "nu\")?"))
      _ (by rw [show (str "(\"z").length = 3 from by decide] at hb2; omega)
      (by omega) hs1

/-- The anchor `){t` does not occur in the rotated nu insertion. -/
theorem anchor_bt_not_nuRot {hint E : Str} {j : Nat} (hh : allWord hint = true)
    (hE : allWord E = true)
    (h : occursAt (str ")\x7bt") (nuRotIns hint E) j = true) : False := by
  have hmem := mem_of_occursAt h (by decide : '\x7b' ∈ str ")\x7bt")
  unfold nuRotIns at hmem
  rcases List.mem_append.mp hmem with h2 | h2
  · rcases List.mem_append.mp h2 with h3 | h3
    · rcases List.mem_append.mp h3 with h4 | h4
      · rcases List.mem_append.mp h4 with h5 | h5
        · exact absurd h5 (by decide)
        · exact absurd (allWord_mem hE h5) (by decide)
      · exact absurd h4 (by decide)
    · exact absurd (allWord_mem hh h3) (by decide)
  · exact absurd h2 (by decide)

/-- The anchor `("z` does not occur in the userTerminalHint insertion. -/
theorem anchor_z_not_uthIns {sv : Str} {j : Nat} (hsv : allWord sv = true)
    (h : occursAt (str "(\"z") (uthIns sv) j = true) : False := by
  have hmem := mem_of_occursAt h (by decide : '(' ∈ str "(\"z")
  unfold uthIns at hmem
  rcases List.mem_append.mp hmem with h2 | h2
  · exact absurd (allWord_mem hsv h2) (by decide)
  · exact absurd h2 (by decide)

/-- The anchor `){t` does not occur in the userTerminalHint insertion. -/
theorem anchor_bt_not_uthIns {sv : Str} {j : Nat} (hsv : allWord sv = true)
    (h : occursAt (str ")\x7bt") (uthIns sv) j = true) : False := by
  have hmem := mem_of_occursAt h (by decide : '\x7b' ∈ str ")\x7bt")
  unfold uthIns at hmem
  rcases List.mem_append.mp hmem with h2 | h2
  · exact absurd (allWord_mem hsv h2) (by decide)
  · exact absurd h2 (by decide)

/-- Neither anchor occurs in the closed win32 conditional. -/
theorem anchor_z_not_winR {j : Nat} (h : occursAt (str "(\"z") winR j = true) : False :=
  occ_refute_contains h (by decide)

theorem anchor_bt_not_winR {j : Nat} (h : occursAt (str ")\x7bt") winR j = true) : False :=
  occ_refute_contains h (by decide)

/-- No three-character anchor occurs in a single-character insertion. -/
theorem anchor3_not_singleton {pat : Str} {c : Char} {j : Nat}
    (hlen : pat.length = 3) (h : occursAt pat [c] j = true) : False := by
  have hb := occursAt_bound h (by intro h2; rw [h2] at hlen; exact absurd hlen (by decide))
  rw [hlen, show ([c] : Str).length = 1 from rfl] at hb
  omega

/-- Segment decomposition of the Naive-case block for the discovered
`(0,m.g)` find-exec call. -/
theorem naiveCaseBlock_expand {E m g lz nv ov : Str} :
    naiveCaseBlock E (str "(0," ++ m ++ str "." ++ g ++ str ")") lz nv ov =
    str "case " ++ (E ++ (str ".Naive:\x7bconst _np=" ++ (str "(0," ++ (m ++ (str "." ++ (g ++
    (str ")" ++ (str "(\"nu\",[]).cmd;return new " ++ (lz ++ (str "(Promise.resolve(new " ++
    (nv ++ (str "(process.cwd(),\x7bshell:" ++ (ov ++
    (str "?.userTerminalHint||(_np!==\"nu\"?_np:void 0)||process.env.SHELL||\"/bin/sh\",..." ++
    (ov ++ str "\x7d)))\x7d"))))))))))))))) := by
  unfold naiveCaseBlock
  simp only [List.append_assoc]

/-- Segment decomposition of the shell-fallback `case` block. -/
theorem shellP_expand {E m g : Str} :
    shellP E (str "(0," ++ m ++ str "." ++ g ++ str ")") =
    str "case " ++ (E ++ (str ".Naive:\x7bconst _np=" ++ (str "(0," ++ (m ++ (str "." ++ (g ++
    (str ")" ++ str "(\"nu\",[]).cmd;if(_np!==\"nu\")return _np\x7d"))))))) := by
  unfold shellP
  simp only [List.append_assoc]

/-- The anchor `("z` does not occur in the Naive-case block. -/
theorem anchor_z_not_I4 {E m g lz nv ov : Str} {j : Nat} (hE : allWord E = true)
    (hm : allWord m = true) (hg : allWord g = true) (hlz : allWord lz = true)
    (hnv : allWord nv = true) (hov : allWord ov = true)
    (h : occursAt (str "(\"z")
      (naiveCaseBlock E (str "(0," ++ m ++ str "." ++ g ++ str ")") lz nv ov) j = true) :
    False := by
  have hz : str "(\"z" = '(' :: str "\"z" := by decide
  have hp3 : (str "(\"z").length = 3 := by decide
  rw [naiveCaseBlock_expand] at h
  rcases occ_in_append2 h with h1 | ⟨-, h1⟩ | ⟨hb1, hb2, hs1, -⟩
  · exact occ_refute_contains h1 (by decide)
  rotate_left
  · exact (by decide : ∀ σ' < 3, 1 ≤ σ' → ¬ ((str "(\"z").take σ' <:+ str "case "))
      _ (by rw [hp3] at hb2; omega) (by omega) hs1
  rcases occ_in_append2 h1 with h2 | ⟨-, h2⟩ | ⟨hb1, hb2, hs1, -⟩
  · exact occ_refute_word h2 hE (by decide : '(' ∈ str "(\"z") (by decide)
  rotate_left
  · rw [hz] at hs1
    exact straddle_refute_word_left hs1 hE (by omega) (by decide)
  rcases occ_in_append2 h2 with h3 | ⟨-, h3⟩ | ⟨hb1, hb2, hs1, -⟩
  · exact occ_refute_contains h3 (by decide)
  rotate_left
  · exact (by decide : ∀ σ' < 3, 1 ≤ σ' → ¬ ((str "(\"z").take σ' <:+ str ".Naive:\x7bconst _np="))
      _ (by rw [hp3] at hb2; omega) (by omega) hs1
  rcases occ_in_append2 h3 with h4 | ⟨-, h4⟩ | ⟨hb1, hb2, hs1, -⟩
  · exact occ_refute_contains h4 (by decide)
  rotate_left
  · exact (by decide : ∀ σ' < 3, 1 ≤ σ' → ¬ ((str "(\"z").take σ' <:+ str "(0,"))
      _ (by rw [hp3] at hb2; omega) (by omega) hs1
  rcases occ_in_append2 h4 with h5 | ⟨-, h5⟩ | ⟨hb1, hb2, hs1, -⟩
  · exact occ_refute_word h5 hm (by decide : '(' ∈ str "(\"z") (by decide)
  rotate_left
  · rw [hz] at hs1
    exact straddle_refute_word_left hs1 hm (by omega) (by decide)
  rcases occ_in_append2 h5 with h6 | ⟨-, h6⟩ | ⟨hb1, hb2, hs1, -⟩
  · exact occ_refute_contains h6 (by decide)
  rotate_left
  · exact (by decide : ∀ σ' < 3, 1 ≤ σ' → ¬ ((str "(\"z").take σ' <:+ str "."))
      _ (by rw [hp3] at hb2; omega) (by omega) hs1
  rcases occ_in_append2 h6 with h7 | ⟨-, h7⟩ | ⟨hb1, hb2, hs1, -⟩
  · exact occ_refute_word h7 hg (by decide : '(' ∈ str "(\"z") (by decide)
  rotate_left
  · rw [hz] at hs1
    exact straddle_refute_word_left hs1 hg (by omega) (by decide)
  rcases occ_in_append2 h7 with h8 | ⟨-, h8⟩ | ⟨hb1, hb2, hs1, -⟩
  · exact occ_refute_contains h8 (by decide)
  rotate_left
  · exact (by decide : ∀ σ' < 3, 1 ≤ σ' → ¬ ((str "(\"z").take σ' <:+ str ")"))
      _ (by rw [hp3] at hb2; omega) (by omega) hs1
  rcases occ_in_append2 h8 with h9 | ⟨-, h9⟩ | ⟨hb1, hb2, hs1, -⟩
  · exact occ_refute_contains h9 (by decide)
  rotate_left
  · exact (by decide : ∀ σ' < 3, 1 ≤ σ' →
      ¬ ((str "(\"z").take σ' <:+ str "(\"nu\",[]).cmd;return new "))
      _ (by rw [hp3] at hb2; omega) (by omega) hs1
  rcases occ_in_append2 h9 with h10 | ⟨-, h10⟩ | ⟨hb1, hb2, hs1, -⟩
  · exact occ_refute_word h10 hlz (by decide : '(' ∈ str "(\"z") (by decide)
  rotate_left
  · rw [hz] at hs1
    exact straddle_refute_word_left hs1 hlz (by omega) (by decide)
  rcases occ_in_append2 h10 with h11 | ⟨-, h11⟩ | ⟨hb1, hb2, hs1, -⟩
  · exact occ_refute_contains h11 (by decide)
  rotate_left
  · exact (by decide : ∀ σ' < 3, 1 ≤ σ' →
      ¬ ((str "(\"z").take σ' <:+ str "(Promise.resolve(new "))
      _ (by rw [hp3] at hb2; omega) (by omega) hs1
  rcases occ_in_append2 h11 with h12 | ⟨-, h12⟩ | ⟨hb1, hb2, hs1, -⟩
  · exact occ_refute_word h12 hnv (by decide : '(' ∈ str "(\"z") (by decide)
  rotate_left
  · rw [hz] at hs1
    exact straddle_refute_word_left hs1 hnv (by omega) (by decide)
  rcases occ_in_append2 h12 with h13 | ⟨-, h13⟩ | ⟨hb1, hb2, hs1, -⟩
  · exact occ_refute_contains h13 (by decide)
  rotate_left
  · exact (by decide : ∀ σ' < 3, 1 ≤ σ' →
      ¬ ((str "(\"z").take σ' <:+ str "(process.cwd(),\x7bshell:"))
      _ (by rw [hp3] at hb2; omega) (by omega) hs1
  rcases occ_in_append2 h13 with h14 | ⟨-, h14⟩ | ⟨hb1, hb2, hs1, -⟩
  · exact occ_refute_word h14 hov (by decide : '(' ∈ str "(\"z") (by decide)
  rotate_left
  · rw [hz] at hs1
    exact straddle_refute_word_left hs1 hov (by omega) (by decide)
  rcases occ_in_append2 h14 with h15 | ⟨-, h15⟩ | ⟨hb1, hb2, hs1, -⟩
  · exact occ_refute_contains h15 (by decide)
  rotate_left
  · exact (by decide : ∀ σ' < 3, 1 ≤ σ' → ¬ ((str "(\"z").take σ' <:+
      str "?.userTerminalHint||(_np!==\"nu\"?_np:void 0)||process.env.SHELL||\"/bin/sh\",..."))
      _ (by rw [hp3] at hb2; omega) (by omega) hs1
  rcases occ_in_append2 h15 with h16 | ⟨-, h16⟩ | ⟨hb1, hb2, hs1, -⟩
  · exact occ_refute_word h16 hov (by decide : '(' ∈ str "(\"z") (by decide)
  · exact occ_refute_contains h16 (by decide)
  · rw [hz] at hs1
    exact straddle_refute_word_left hs1 hov (by omega) (by decide)

/-- The anchor `){t` does not occur in the Naive-case block. -/
theorem anchor_bt_not_I4 {E m g lz nv ov : Str} {j : Nat} (hE : allWord E = true)
    (hm : allWord m = true) (hg : allWord g = true) (hlz : allWord lz = true)
    (hnv : allWord nv = true) (hov : allWord ov = true)
    (h : occursAt (str ")\x7bt")
      (naiveCaseBlock E (str "(0," ++ m ++ str "." ++ g ++ str ")") lz nv ov) j = true) :
    False := by
  have hz : str ")\x7bt" = ')' :: str "\x7bt" := by decide
  have hp3 : (str ")\x7bt").length = 3 := by decide
  rw [naiveCaseBlock_expand] at h
  rcases occ_in_append2 h with h1 | ⟨-, h1⟩ | ⟨hb1, hb2, hs1, -⟩
  · exact occ_refute_contains h1 (by decide)
  rotate_left
  · exact (by decide : ∀ σ' < 3, 1 ≤ σ' → ¬ ((str ")\x7bt").take σ' <:+ str "case "))
      _ (by rw [hp3] at hb2; omega) (by omega) hs1
  rcases occ_in_append2 h1 with h2 | ⟨-, h2⟩ | ⟨hb1, hb2, hs1, -⟩
  · exact occ_refute_word h2 hE (by decide : ')' ∈ str ")\x7bt") (by decide)
  rotate_left
  · rw [hz] at hs1
    exact straddle_refute_word_left hs1 hE (by omega) (by decide)
  rcases occ_in_append2 h2 with h3 | ⟨-, h3⟩ | ⟨hb1, hb2, hs1, -⟩
  · exact occ_refute_contains h3 (by decide)
  rotate_left
  · exact (by decide : ∀ σ' < 3, 1 ≤ σ' → ¬ ((str ")\x7bt").take σ' <:+ str ".Naive:\x7bconst _np="))
      _ (by rw [hp3] at hb2; omega) (by omega) hs1
  rcases occ_in_append2 h3 with h4 | ⟨-, h4⟩ | ⟨hb1, hb2, hs1, -⟩
  · exact occ_refute_contains h4 (by decide)
  rotate_left
  · exact (by decide : ∀ σ' < 3, 1 ≤ σ' → ¬ ((str ")\x7bt").take σ' <:+ str "(0,"))
      _ (by rw [hp3] at hb2; omega) (by omega) hs1
  rcases occ_in_append2 h4 with h5 | ⟨-, h5⟩ | ⟨hb1, hb2, hs1, -⟩
  · exact occ_refute_word h5 hm (by decide : ')' ∈ str ")\x7bt") (by decide)
  rotate_left
  · rw [hz] at hs1
    exact straddle_refute_word_left hs1 hm (by omega) (by decide)
  rcases occ_in_append2 h5 with h6 | ⟨-, h6⟩ | ⟨hb1, hb2, hs1, -⟩
  · exact occ_refute_contains h6 (by decide)
  rotate_left
  · exact (by decide : ∀ σ' < 3, 1 ≤ σ' → ¬ ((str ")\x7bt").take σ' <:+ str "."))
      _ (by rw [hp3] at hb2; omega) (by omega) hs1
  rcases occ_in_append2 h6 with h7 | ⟨-, h7⟩ | ⟨hb1, hb2, hs1, -⟩
  · exact occ_refute_word h7 hg (by decide : ')' ∈ str ")\x7bt") (by decide)
  rotate_left
  · rw [hz] at hs1
    exact straddle_refute_word_left hs1 hg (by omega) (by decide)
  rcases occ_in_append2 h7 with h8 | ⟨-, h8⟩ | ⟨hb1, hb2, hs1, hd1⟩
  · exact occ_refute_contains h8 (by decide)
  rotate_left
  · have hone : (str ")").length - (j - (str "case ").length - E.length -
        (str ".Naive:\x7bconst _np=").length - (str "(0,").length - m.length -
        (str ".").length - g.length) = 1 := by
      rw [show (str ")").length = 1 from by decide] at hb1 ⊢
      omega
    rw [hone] at hd1
    have hne : (str ")\x7bt").drop 1 ≠ [] := by decide
    have hhd := head_eq_of_prefix hd1 hne
    rw [show (str ")\x7bt").drop 1 = '\x7b' :: str "t" from by decide,
      show str "(\"nu\",[]).cmd;return new " = '(' :: str "\"nu\",[]).cmd;return new "
        from by decide, List.cons_append, List.head?_cons, List.head?_cons] at hhd
    exact absurd hhd (by decide)
  rcases occ_in_append2 h8 with h9 | ⟨-, h9⟩ | ⟨hb1, hb2, hs1, -⟩
  · exact occ_refute_contains h9 (by decide)
  rotate_left
  · exact (by decide : ∀ σ' < 3, 1 ≤ σ' →
      ¬ ((str ")\x7bt").take σ' <:+ str "(\"nu\",[]).cmd;return new "))
      _ (by rw [hp3] at hb2; omega) (by omega) hs1
  rcases occ_in_append2 h9 with h10 | ⟨-, h10⟩ | ⟨hb1, hb2, hs1, -⟩
  · exact occ_refute_word h10 hlz (by decide : ')' ∈ str ")\x7bt") (by decide)
  rotate_left
  · rw [hz] at hs1
    exact straddle_refute_word_left hs1 hlz (by omega) (by decide)
  rcases occ_in_append2 h10 with h11 | ⟨-, h11⟩ | ⟨hb1, hb2, hs1, -⟩
  · exact occ_refute_contains h11 (by decide)
  rotate_left
  · exact (by decide : ∀ σ' < 3, 1 ≤ σ' →
      ¬ ((str ")\x7bt").take σ' <:+ str "(Promise.resolve(new "))
      _ (by rw [hp3] at hb2; omega) (by omega) hs1
  rcases occ_in_append2 h11 with h12 | ⟨-, h12⟩ | ⟨hb1, hb2, hs1, -⟩
  · exact occ_refute_word h12 hnv (by decide : ')' ∈ str ")\x7bt") (by decide)
  rotate_left
  · rw [hz] at hs1
    exact straddle_refute_word_left hs1 hnv (by omega) (by decide)
  rcases occ_in_append2 h12 with h13 | ⟨-, h13⟩ | ⟨hb1, hb2, hs1, -⟩
  · exact occ_refute_contains h13 (by decide)
  rotate_left
  · exact (by decide : ∀ σ' < 3, 1 ≤ σ' →
      ¬ ((str ")\x7bt").take σ' <:+ str "(process.cwd(),\x7bshell:"))
      _ (by rw [hp3] at hb2; omega) (by omega) hs1
  rcases occ_in_append2 h13 with h14 | ⟨-, h14⟩ | ⟨hb1, hb2, hs1, -⟩
  · exact occ_refute_word h14 hov (by decide : ')' ∈ str ")\x7bt") (by decide)
  rotate_left
  · rw [hz] at hs1
    exact straddle_refute_word_left hs1 hov (by omega) (by decide)
  rcases occ_in_append2 h14 with h15 | ⟨-, h15⟩ | ⟨hb1, hb2, hs1, -⟩
  · exact occ_refute_contains h15 (by decide)
  rotate_left
  · exact (by decide : ∀ σ' < 3, 1 ≤ σ' → ¬ ((str ")\x7bt").take σ' <:+
      str "?.userTerminalHint||(_np!==\"nu\"?_np:void 0)||process.env.SHELL||\"/bin/sh\",..."))
      _ (by rw [hp3] at hb2; omega) (by omega) hs1
  rcases occ_in_append2 h15 with h16 | ⟨-, h16⟩ | ⟨hb1, hb2, hs1, -⟩
  · exact occ_refute_word h16 hov (by decide : ')' ∈ str ")\x7bt") (by decide)
  · exact occ_refute_contains h16 (by decide)
  · rw [hz] at hs1
    exact straddle_refute_word_left hs1 hov (by omega) (by decide)

/-- The anchor `("z` does not occur in the shell-fallback case block. -/
theorem anchor_z_not_P {E m g : Str} {j : Nat} (hE : allWord E = true)
    (hm : allWord m = true) (hg : allWord g = true)
    (h : occursAt (str "(\"z") (shellP E (str "(0," ++ m ++ str "." ++ g ++ str ")")) j = true) :
    False := by
  have hz : str "(\"z" = '(' :: str "\"z" := by decide
  have hp3 : (str "(\"z").length = 3 := by decide
  rw [shellP_expand] at h
  rcases occ_in_append2 h with h1 | ⟨-, h1⟩ | ⟨hb1, hb2, hs1, -⟩
  · exact occ_refute_contains h1 (by decide)
  rotate_left
  · exact (by decide : ∀ σ' < 3, 1 ≤ σ' → ¬ ((str "(\"z").take σ' <:+ str "case "))
      _ (by rw [hp3] at hb2; omega) (by omega) hs1
  rcases occ_in_append2 h1 with h2 | ⟨-, h2⟩ | ⟨hb1, hb2, hs1, -⟩
  · exact occ_refute_word h2 hE (by decide : '(' ∈ str "(\"z") (by decide)
  rotate_left
  · rw [hz] at hs1
    exact straddle_refute_word_left hs1 hE (by omega) (by decide)
  rcases occ_in_append2 h2 with h3 | ⟨-, h3⟩ | ⟨hb1, hb2, hs1, -⟩
  · exact occ_refute_contains h3 (by decide)
  rotate_left
  · exact (by decide : ∀ σ' < 3, 1 ≤ σ' → ¬ ((str "(\"z").take σ' <:+ str ".Naive:\x7bconst _np="))
      _ (by rw [hp3] at hb2; omega) (by omega) hs1
  rcases occ_in_append2 h3 with h4 | ⟨-, h4⟩ | ⟨hb1, hb2, hs1, -⟩
  · exact occ_refute_contains h4 (by decide)
  rotate_left
  · exact (by decide : ∀ σ' < 3, 1 ≤ σ' → ¬ ((str "(\"z").take σ' <:+ str "(0,"))
      _ (by rw [hp3] at hb2; omega) (by omega) hs1
  rcases occ_in_append2 h4 with h5 | ⟨-, h5⟩ | ⟨hb1, hb2, hs1, -⟩
  · exact occ_refute_word h5 hm (by decide : '(' ∈ str "(\"z") (by decide)
  rotate_left
  · rw [hz] at hs1
    exact straddle_refute_word_left hs1 hm (by omega) (by decide)
  rcases occ_in_append2 h5 with h6 | ⟨-, h6⟩ | ⟨hb1, hb2, hs1, -⟩
  · exact occ_refute_contains h6 (by decide)
  rotate_left
  · exact (by decide : ∀ σ' < 3, 1 ≤ σ' → ¬ ((str "(\"z").take σ' <:+ str "."))
      _ (by rw [hp3] at hb2; omega) (by omega) hs1
  rcases occ_in_append2 h6 with h7 | ⟨-, h7⟩ | ⟨hb1, hb2, hs1, -⟩
  · exact occ_refute_word h7 hg (by decide : '(' ∈ str "(\"z") (by decide)
  rotate_left
  · rw [hz] at hs1
    exact straddle_refute_word_left hs1 hg (by omega) (by decide)
  rcases occ_in_append2 h7 with h8 | ⟨-, h8⟩ | ⟨hb1, hb2, hs1, -⟩
  · exact occ_refute_contains h8 (by decide)
  · exact occ_refute_contains h8 (by decide)
  · exact (by decide : ∀ σ' < 3, 1 ≤ σ' → ¬ ((str "(\"z").take σ' <:+ str ")"))
      _ (by rw [hp3] at hb2; omega) (by omega) hs1

/-- The anchor `){t` does not occur in the shell-fallback case block. -/
theorem anchor_bt_not_P {E m g : Str} {j : Nat} (hE : allWord E = true)
    (hm : allWord m = true) (hg : allWord g = true)
    (h : occursAt (str ")\x7bt") (shellP E (str "(0," ++ m ++ str "." ++ g ++ str ")")) j = true) :
    False := by
  have hz : str ")\x7bt" = ')' :: str "\x7bt" := by decide
  have hp3 : (str ")\x7bt").length = 3 := by decide
  rw [shellP_expand] at h
  rcases occ_in_append2 h with h1 | ⟨-, h1⟩ | ⟨hb1, hb2, hs1, -⟩
  · exact occ_refute_contains h1 (by decide)
  rotate_left
  · exact (by decide : ∀ σ' < 3, 1 ≤ σ' → ¬ ((str ")\x7bt").take σ' <:+ str "case "))
      _ (by rw [hp3] at hb2; omega) (by omega) hs1
  rcases occ_in_append2 h1 with h2 | ⟨-, h2⟩ | ⟨hb1, hb2, hs1, -⟩
  · exact occ_refute_word h2 hE (by decide : ')' ∈ str ")\x7bt") (by decide)
  rotate_left
  · rw [hz] at hs1
    exact straddle_refute_word_left hs1 hE (by omega) (by decide)
  rcases occ_in_append2 h2 with h3 | ⟨-, h3⟩ | ⟨hb1, hb2, hs1, -⟩
  · exact occ_refute_contains h3 (by decide)
  rotate_left
  · exact (by decide : ∀ σ' < 3, 1 ≤ σ' → ¬ ((str ")\x7bt").take σ' <:+ str ".Naive:\x7bconst _np="))
      _ (by rw [hp3] at hb2; omega) (by omega) hs1
  rcases occ_in_append2 h3 with h4 | ⟨-, h4⟩ | ⟨hb1, hb2, hs1, -⟩
  · exact occ_refute_contains h4 (by decide)
  rotate_left
  · exact (by decide : ∀ σ' < 3, 1 ≤ σ' → ¬ ((str ")\x7bt").take σ' <:+ str "(0,"))
      _ (by rw [hp3] at hb2; omega) (by omega) hs1
  rcases occ_in_append2 h4 with h5 | ⟨-, h5⟩ | ⟨hb1, hb2, hs1, -⟩
  · exact occ_refute_word h5 hm (by decide : ')' ∈ str ")\x7bt") (by decide)
  rotate_left
  · rw [hz] at hs1
    exact straddle_refute_word_left hs1 hm (by omega) (by decide)
  rcases occ_in_append2 h5 with h6 | ⟨-, h6⟩ | ⟨hb1, hb2, hs1, -⟩
  · exact occ_refute_contains h6 (by decide)
  rotate_left
  · exact (by decide : ∀ σ' < 3, 1 ≤ σ' → ¬ ((str ")\x7bt").take σ' <:+ str "."))
      _ (by rw [hp3] at hb2; omega) (by omega) hs1
  rcases occ_in_append2 h6 with h7 | ⟨-, h7⟩ | ⟨hb1, hb2, hs1, -⟩
  · exact occ_refute_word h7 hg (by decide : ')' ∈ str ")\x7bt") (by decide)
  rotate_left
  · rw [hz] at hs1
    exact straddle_refute_word_left hs1 hg (by omega) (by decide)
  rcases occ_in_append2 h7 with h8 | ⟨-, h8⟩ | ⟨hb1, hb2, hs1, hd1⟩
  · exact occ_refute_contains h8 (by decide)
  · exact occ_refute_contains h8 (by decide)
  · have hone : (str ")").length - (j - (str "case ").length - E.length -
        (str ".Naive:\x7bconst _np=").length - (str "(0,").length - m.length -
        (str ".").length - g.length) = 1 := by
      rw [show (str ")").length = 1 from by decide] at hb1 ⊢
      omega
    rw [hone] at hd1
    have hne : (str ")\x7bt").drop 1 ≠ [] := by decide
    have hhd := head_eq_of_prefix hd1 hne
    rw [show (str ")\x7bt").drop 1 = '\x7b' :: str "t" from by decide,
      show str "(\"nu\",[]).cmd;if(_np!==\"nu\")return _np\x7d" =
        '(' :: str "\"nu\",[]).cmd;if(_np!==\"nu\")return _np\x7d" from by decide,
      List.head?_cons, List.head?_cons] at hhd
    exact absurd hhd (by decide)

theorem insertAt_drop_at {t I : Str} {p : Nat} (hp : p ≤ t.length) :
    (insertAt t I p).drop p = I ++ t.drop p := by
  unfold insertAt
  rw [List.append_assoc, drop_append_ge (by rw [List.length_take]; omega),
    List.length_take, Nat.min_eq_left hp, Nat.sub_self, List.drop_zero]

theorem insertAt_take_mid {t I : Str} {p : Nat} (hp : p ≤ t.length) :
    (insertAt t I p).take (p + I.length) = t.take p ++ I := by
  unfold insertAt
  rw [List.append_assoc, List.take_append_eq_append_take, List.take_take,
    Nat.min_eq_right (by omega), List.length_take, Nat.min_eq_left hp,
    Nat.add_sub_cancel_left, List.take_append_eq_append_take, Nat.sub_self,
    List.take_zero, List.append_nil, List.take_length]

theorem insertAt_drop_right {t I : Str} {p : Nat} (hp : p ≤ t.length) :
    (insertAt t I p).drop (p + I.length) = t.drop p := by
  unfold insertAt
  rw [List.append_assoc, drop_append_ge (by rw [List.length_take]; omega),
    List.length_take, Nat.min_eq_left hp, Nat.add_sub_cancel_left,
    drop_append_ge (le_refl _), Nat.sub_self, List.drop_zero]

/-- Extending a take across a known prefix of the remainder. -/
theorem take_of_drop_prefix {t u w : Str} {q : Nat} (hq : q ≤ t.length)
    (hd : t.drop q = u ++ w) : t.take (q + u.length) = t.take q ++ u := by
  have hsplit : t = t.take q ++ (u ++ w) := by
    conv_lhs => rw [← List.take_append_drop q t, hd]
  have hlenA : (t.take q).length = q := by
    rw [List.length_take]
    omega
  conv_lhs => rw [hsplit]
  rw [List.take_append_eq_append_take, hlenA, Nat.add_sub_cancel_left]
  congr 1
  · rw [List.take_take, Nat.min_eq_right (by omega)]
  · exact List.take_left u w

theorem nuRotIns_cons {hint E : Str} :
    nuRotIns hint E =
      'n' :: (str "u\")?" ++ E ++ str ".Naive:" ++ hint ++ str ".includes(\"") := by
  unfold nuRotIns
  rw [show str "nu\")?" = 'n' :: str "u\")?" from by decide]
  simp only [List.cons_append]

theorem nuRotIns_suffix {hint E : Str} : str ".includes(\"" <:+ nuRotIns hint E := by
  unfold nuRotIns
  exact List.suffix_append _ _

/-- No new zsh site overlaps the rotated nu insertion. -/
theorem nuRot_hB_Z {t hint E γ : Str} {p : Nat} (hp : p ≤ t.length)
    (hh : allWord hint = true) (hhne : hint ≠ []) (hE : allWord E = true)
    (hsfx : str ".includes(\"" <:+ t.take p)
    (hfwd : t.drop p = str "pwsh\")" ++ γ) :
    ∀ k ch e rest, zshSiteAt (insertAt t (nuRotIns hint E) p) k ch e rest →
      k + 21 + e.length ≤ p ∨ p + (nuRotIns hint E).length < k := by
  apply build_hB_Z hp
  · apply inc_quote_hA_Z
    · rw [insertAt_take_left hp]
      exact hsfx
    · rw [insertAt_drop_at hp, nuRotIns_cons, List.cons_append]
    · decide
  · apply inc_quote_hA_Z
    · rw [insertAt_take_mid hp]
      exact nuRotIns_suffix.trans (List.suffix_append _ _)
    · rw [insertAt_drop_right hp, hfwd,
        show str "pwsh\")" = 'p' :: str "wsh\")" from by decide, List.cons_append]
    · decide
  · intro j hj
    exact anchor_z_not_nuRot hh hhne hE hj

/-- No new cmd site overlaps the rotated nu insertion. -/
theorem nuRot_hB_C {t hint E : Str} {p : Nat} (hp : p ≤ t.length)
    (hh : allWord hint = true) (hE : allWord E = true)
    (hsfx : str ".includes(\"" <:+ t.take p) :
    ∀ k ws f a m g a2 w rest,
      cmdSiteAt (insertAt t (nuRotIns hint E) p) k ws f a m g a2 w rest →
      k + 39 + ws.length + f.length + a.length + m.length + g.length + a2.length +
        w.length ≤ p ∨ p + (nuRotIns hint E).length ≤ k := by
  apply build_hB_C hp
  · apply @char_hA_C _ (str ".includes(\"") _ '"'
    · rw [insertAt_take_left hp]
      exact hsfx
    · decide
    · decide
    · decide
    · decide
    · decide
  · apply @char_hA_C _ (str ".includes(\"") _ '"'
    · rw [insertAt_take_mid hp]
      exact nuRotIns_suffix.trans (List.suffix_append _ _)
    · decide
    · decide
    · decide
    · decide
    · decide
  · intro j hj
    exact anchor_bt_not_nuRot hh hE hj

theorem caseE_head {E L2 X : Str} :
    str "case " ++ (E ++ (L2 ++ X)) = (str "case " ++ E ++ L2) ++ X := by
  simp only [List.append_assoc]

/-- No new zsh site overlaps the userTerminalHint insertion. -/
theorem uthIns_hB_Z {t sv : Str} {p : Nat} (hp : p ≤ t.length) (hsv : allWord sv = true)
    (hsfx : str "??" <:+ t.take p) :
    ∀ k ch e rest, zshSiteAt (insertAt t (uthIns sv) p) k ch e rest →
      k + 21 + e.length ≤ p ∨ p + (uthIns sv).length < k := by
  apply build_hB_Z hp
  · apply qq_hA_Z
    rw [insertAt_take_left hp]
    exact hsfx
  · apply qq_hA_Z
    rw [insertAt_take_mid hp]
    refine List.IsSuffix.trans ?_ (List.suffix_append _ _)
    unfold uthIns
    exact List.IsSuffix.trans (by decide : str "??" <:+ str "?.userTerminalHint??")
      (List.suffix_append _ _)
  · intro j hj
    exact anchor_z_not_uthIns hsv hj

/-- No new cmd site overlaps the userTerminalHint insertion. -/
theorem uthIns_hB_C {t sv : Str} {p : Nat} (hp : p ≤ t.length) (hsv : allWord sv = true)
    (hsfx : str "??" <:+ t.take p) :
    ∀ k ws f a m g a2 w rest, cmdSiteAt (insertAt t (uthIns sv) p) k ws f a m g a2 w rest →
      k + 39 + ws.length + f.length + a.length + m.length + g.length + a2.length +
        w.length ≤ p ∨ p + (uthIns sv).length ≤ k := by
  apply build_hB_C hp
  · apply @char_hA_C _ (str "??") _ '?'
    · rw [insertAt_take_left hp]
      exact hsfx
    · decide
    · decide
    · decide
    · decide
    · decide
  · apply @char_hA_C _ (str "??") _ '?'
    · rw [insertAt_take_mid hp]
      refine List.IsSuffix.trans ?_ (List.suffix_append _ _)
      unfold uthIns
      exact List.IsSuffix.trans (by decide : str "??" <:+ str "?.userTerminalHint??")
        (List.suffix_append _ _)
    · decide
    · decide
    · decide
    · decide
    · decide
  · intro j hj
    exact anchor_bt_not_uthIns hsv hj

/-- No new zsh site overlaps the Naive-case block insertion. -/
theorem I4_hB_Z {t E m g lz nv ov γ : Str} {q : Nat} (hq : q ≤ t.length)
    (hE : allWord E = true) (hm : allWord m = true) (hg : allWord g = true)
    (hlz : allWord lz = true) (hnv : allWord nv = true) (hov : allWord ov = true)
    (hctx : t.drop q = str "default:" ++ γ ∨ t.drop q = str "case " ++ γ) :
    ∀ k ch e rest, zshSiteAt
      (insertAt t (naiveCaseBlock E (str "(0," ++ m ++ str "." ++ g ++ str ")") lz nv ov) q)
      k ch e rest →
      k + 21 + e.length ≤ q ∨
        q + (naiveCaseBlock E (str "(0," ++ m ++ str "." ++ g ++ str ")") lz nv ov).length < k := by
  apply build_hB_Z hq
  · apply fwd_case_hA_Z
    rw [insertAt_drop_at hq, naiveCaseBlock_expand, List.append_assoc]
  · rcases hctx with h | h
    · apply fwd_default_hA_Z
      rw [insertAt_drop_right hq]
      exact h
    · apply fwd_case_hA_Z
      rw [insertAt_drop_right hq]
      exact h
  · intro j hj
    exact anchor_z_not_I4 hE hm hg hlz hnv hov hj

/-- No new cmd site overlaps the Naive-case block insertion. -/
theorem I4_hB_C {t E m g lz nv ov γ : Str} {q : Nat} (hq : q ≤ t.length)
    (hE : allWord E = true) (hm : allWord m = true) (hg : allWord g = true)
    (hlz : allWord lz = true) (hnv : allWord nv = true) (hov : allWord ov = true)
    (hctx : t.drop q = str "default:" ++ γ ∨
      t.drop q = (str "case " ++ E ++ str ".ZshLight:") ++ γ) :
    ∀ k1 ws1 f1 a1 m1 g1 a21 w1 rest1, cmdSiteAt
      (insertAt t (naiveCaseBlock E (str "(0," ++ m ++ str "." ++ g ++ str ")") lz nv ov) q)
      k1 ws1 f1 a1 m1 g1 a21 w1 rest1 →
      k1 + 39 + ws1.length + f1.length + a1.length + m1.length + g1.length + a21.length +
        w1.length ≤ q ∨
        q + (naiveCaseBlock E (str "(0," ++ m ++ str "." ++ g ++ str ")") lz nv ov).length ≤ k1 := by
  apply build_hB_C hq
  · have hdrop : (insertAt t
        (naiveCaseBlock E (str "(0," ++ m ++ str "." ++ g ++ str ")") lz nv ov) q).drop q =
        (str "case " ++ E ++ str ".Naive:\x7bconst _np=") ++
        (str "(0," ++ (m ++ (str "." ++ (g ++ (str ")" ++ (str "(\"nu\",[]).cmd;return new " ++
        (lz ++ (str "(Promise.resolve(new " ++ (nv ++ (str "(process.cwd(),\x7bshell:" ++
        (ov ++ (str "?.userTerminalHint||(_np!==\"nu\"?_np:void 0)||process.env.SHELL||\"/bin/sh\",..." ++
        (ov ++ (str "\x7d)))\x7d" ++ t.drop q)))))))))))))) := by
      rw [insertAt_drop_at hq, naiveCaseBlock_expand]
      simp only [List.append_assoc]
    exact @fwd_caseE_hA_C _ _ E (str ".Naive:\x7bconst _np=") _ hE (by decide) (by decide) hdrop
  · rcases hctx with h | h
    · apply fwd_default_hA_C
      rw [insertAt_drop_right hq]
      exact h
    · have hdrop : (insertAt t
          (naiveCaseBlock E (str "(0," ++ m ++ str "." ++ g ++ str ")") lz nv ov) q).drop
          (q + (naiveCaseBlock E (str "(0," ++ m ++ str "." ++ g ++ str ")") lz nv ov).length) =
          (str "case " ++ E ++ str ".ZshLight:") ++ γ := by
        rw [insertAt_drop_right hq]
        exact h
      exact @fwd_caseE_hA_C _ _ E (str ".ZshLight:") _ hE (by decide) (by decide) hdrop
  · intro j hj
    exact anchor_bt_not_I4 hE hm hg hlz hnv hov hj

theorem suffix_append_same {u v w : Str} (h : u <:+ v) : u ++ w <:+ v ++ w := by
  obtain ⟨x, hx⟩ := h
  exact ⟨x, by rw [← hx, List.append_assoc]⟩

/-- No new zsh site overlaps the shell-fallback case block insertion. -/
theorem P_hB_Z {t E m g γ : Str} {q : Nat} (hq : q ≤ t.length)
    (hE : allWord E = true) (hm : allWord m = true) (hg : allWord g = true)
    (hctx : t.drop q = str "default:" ++ γ) :
    ∀ k ch e rest, zshSiteAt
      (insertAt t (shellP E (str "(0," ++ m ++ str "." ++ g ++ str ")")) q) k ch e rest →
      k + 21 + e.length ≤ q ∨
        q + (shellP E (str "(0," ++ m ++ str "." ++ g ++ str ")")).length < k := by
  apply build_hB_Z hq
  · apply fwd_case_hA_Z
    rw [insertAt_drop_at hq, shellP_expand, List.append_assoc]
  · apply fwd_default_hA_Z
    rw [insertAt_drop_right hq]
    exact hctx
  · intro j hj
    exact anchor_z_not_P hE hm hg hj

/-- No new cmd site overlaps the shell-fallback case block insertion. -/
theorem P_hB_C {t E m g γ : Str} {q : Nat} (hq : q ≤ t.length)
    (hE : allWord E = true) (hm : allWord m = true) (hg : allWord g = true)
    (hctx : t.drop q = str "default:" ++ γ) :
    ∀ k1 ws1 f1 a1 m1 g1 a21 w1 rest1, cmdSiteAt
      (insertAt t (shellP E (str "(0," ++ m ++ str "." ++ g ++ str ")")) q)
      k1 ws1 f1 a1 m1 g1 a21 w1 rest1 →
      k1 + 39 + ws1.length + f1.length + a1.length + m1.length + g1.length + a21.length +
        w1.length ≤ q ∨
        q + (shellP E (str "(0," ++ m ++ str "." ++ g ++ str ")")).length ≤ k1 := by
  apply build_hB_C hq
  · have hdrop : (insertAt t (shellP E (str "(0," ++ m ++ str "." ++ g ++ str ")")) q).drop q =
        (str "case " ++ E ++ str ".Naive:\x7bconst _np=") ++
        (str "(0," ++ (m ++ (str "." ++ (g ++ (str ")" ++
        (str "(\"nu\",[]).cmd;if(_np!==\"nu\")return _np\x7d" ++ t.drop q)))))) := by
      rw [insertAt_drop_at hq, shellP_expand]
      simp only [List.append_assoc]
    exact @fwd_caseE_hA_C _ _ E (str ".Naive:\x7bconst _np=") _ hE (by decide) (by decide) hdrop
  · apply fwd_default_hA_C
    rw [insertAt_drop_right hq]
    exact hctx
  · intro j hj
    exact anchor_bt_not_P hE hm hg hj

/-- No new zsh site overlaps the win32 conditional insertion. -/
theorem winR_hB_Z {t : Str} {p : Nat} (hp : p ≤ t.length)
    (hsfx : str "||" <:+ t.take p) :
    ∀ k ch e rest, zshSiteAt (insertAt t winR p) k ch e rest →
      k + 21 + e.length ≤ p ∨ p + winR.length < k := by
  apply build_hB_Z hp
  · apply @char_hA_Z _ (str "||") _ '|'
    · rw [insertAt_take_left hp]
      exact hsfx
    · decide
    · decide
    · decide
    · decide
    · decide
  · apply @char_hA_Z _ (str ":") _ ':'
    · rw [insertAt_take_mid hp]
      exact List.IsSuffix.trans (by decide : str ":" <:+ winR) (List.suffix_append _ _)
    · decide
    · decide
    · decide
    · decide
    · decide
  · intro j hj
    exact anchor_z_not_winR hj

/-- No new cmd site overlaps the win32 conditional insertion. -/
theorem winR_hB_C {t : Str} {p : Nat} (hp : p ≤ t.length)
    (hsfx : str "||" <:+ t.take p) :
    ∀ k ws f a m g a2 w rest, cmdSiteAt (insertAt t winR p) k ws f a m g a2 w rest →
      k + 39 + ws.length + f.length + a.length + m.length + g.length + a2.length +
        w.length ≤ p ∨ p + winR.length ≤ k := by
  apply build_hB_C hp
  · apply @char_hA_C _ (str "||") _ '|'
    · rw [insertAt_take_left hp]
      exact hsfx
    · decide
    · decide
    · decide
    · decide
    · decide
  · apply @char_hA_C _ (str ":") _ ':'
    · rw [insertAt_take_mid hp]
      exact List.IsSuffix.trans (by decide : str ":" <:+ winR) (List.suffix_append _ _)
    · decide
    · decide
    · decide
    · decide
    · decide
  · intro j hj
    exact anchor_bt_not_winR hj

/-- No new zsh site overlaps the closing-parenthesis insertion. -/
theorem rp_hB_Z {t : Str} {p : Nat} (hp : p ≤ t.length)
    (hsfx : str "/sh\"" <:+ t.take p) :
    ∀ k ch e rest, zshSiteAt (insertAt t (str ")") p) k ch e rest →
      k + 21 + e.length ≤ p ∨ p + (str ")").length < k := by
  apply build_hB_Z hp
  · apply binsh_hA_Z
    rw [insertAt_take_left hp]
    exact hsfx
  · apply rp_hA_Z
    rw [insertAt_take_mid hp]
    exact suffix_append_same hsfx
  · intro j hj
    rw [show (str ")") = [')'] from by decide] at hj
    exact anchor3_not_singleton (by decide) hj

/-- No new cmd site overlaps the closing-parenthesis insertion. -/
theorem rp_hB_C {t : Str} {p : Nat} (hp : p ≤ t.length)
    (hsfx : str "/sh\"" <:+ t.take p) :
    ∀ k ws f a m g a2 w rest, cmdSiteAt (insertAt t (str ")") p) k ws f a m g a2 w rest →
      k + 39 + ws.length + f.length + a.length + m.length + g.length + a2.length +
        w.length ≤ p ∨ p + (str ")").length ≤ k := by
  apply build_hB_C hp
  · apply @char_hA_C _ (str "/sh\"") _ '"'
    · rw [insertAt_take_left hp]
      exact hsfx
    · decide
    · decide
    · decide
    · decide
    · decide
  · apply rp_hA_C
    rw [insertAt_take_mid hp]
    have h2 : str "\"" <:+ t.take p :=
      List.IsSuffix.trans (by decide : str "\"" <:+ str "/sh\"") hsfx
    exact suffix_append_same h2
  · intro j hj
    rw [show (str ")") = [')'] from by decide] at hj
    exact anchor3_not_singleton (by decide) hj

/-!
### Event characterizations of the five patch steps
-/

theorem nuIns_split {v : DiscoveredVars} :
    nuInsertion v = (v.hint_var ++ str ".includes(\"")
      ++ (str "nu\")?" ++ v.enum_var ++ str ".Naive:") := by
  unfold nuInsertion
  rw [show str ".includes(\"nu\")?" = str ".includes(\"" ++ str "nu\")?" from by decide]
  simp only [List.append_assoc]

theorem nuRot_eq {hint E : Str} :
    (str "nu\")?" ++ E ++ str ".Naive:") ++ (hint ++ str ".includes(\"") =
      nuRotIns hint E := by
  unfold nuRotIns
  simp only [List.append_assoc]

theorem nuIns_prefix_establishes {code : Str} {v : DiscoveredVars} {q : Nat} {rest : Str}
    (hd : code.drop q = nuInsertion v ++ rest) :
    containsStr code (nu_detection_str v.enum_var) = true := by
  apply containsStr_of_occursAt
  apply @occursAt_of_drop_eq _ _ (str ":" ++ rest) (q + v.hint_var.length)
  have h2 : code.drop (q + v.hint_var.length) =
      str ".includes(\"nu\")?" ++ (v.enum_var ++ (str ".Naive:" ++ rest)) := by
    refine drop_shift rfl ?_
    rw [hd]
    unfold nuInsertion
    simp only [List.append_assoc]
  rw [h2]
  unfold nu_detection_str
  rw [show str ".Naive:" = str ".Naive" ++ str ":" from by decide]
  simp only [List.append_assoc]

theorem nuRot_establishes {code δ hint E : Str} {p : Nat}
    (htake : code.take p = δ ++ (hint ++ str ".includes(\"")) :
    containsStr (insertAt code (nuRotIns hint E) p) (nu_detection_str E) = true := by
  apply containsStr_of_occursAt
  apply @occursAt_of_drop_eq _ _ (str ":" ++ (hint ++ (str ".includes(\"" ++ code.drop p)))
    ((δ ++ hint).length)
  have h1 : insertAt code (nuRotIns hint E) p =
      (δ ++ hint) ++ (str ".includes(\"" ++ (nuRotIns hint E ++ code.drop p)) := by
    unfold insertAt
    rw [htake]
    unfold nuRotIns
    simp only [List.append_assoc]
  rw [h1, List.drop_left]
  unfold nuRotIns nu_detection_str
  rw [show str ".includes(\"nu\")?" = str ".includes(\"" ++ str "nu\")?" from by decide,
    show str ".Naive:" = str ".Naive" ++ str ":" from by decide]
  simp only [List.append_assoc]

/-- Event characterization of `patch_nu_detection` when the flag is unset
and the step succeeds: either the already-present re-check fired (text
unchanged, pattern present), or the step inserted the rotated nu insertion
at a `hint.includes("` / `pwsh")` junction. -/
theorem M1_event {code : Str} (v : DiscoveredVars) (hnu : v.has_nu_detection = false)
    (hok : (patch_nu_detection code v).2.ok = true) :
    ((patch_nu_detection code v).1 = code ∧
      containsStr code (nu_detection_str v.enum_var) = true) ∨
    (∃ δ γ p, p ≤ code.length ∧
      (patch_nu_detection code v).1 = insertAt code (nuRotIns v.hint_var v.enum_var) p ∧
      code.take p = δ ++ (v.hint_var ++ str ".includes(\"") ∧
      code.drop p = str "pwsh\")" ++ γ) := by
  cases hz : firstOcc (v.hint_var ++ str ".includes(\"zsh\")") code with
  | none =>
    exfalso
    unfold patch_nu_detection at hok
    rw [hnu] at hok
    simp only [Bool.false_eq_true, if_false, hz] at hok
    simp [StepResult.mkFail] at hok
  | some zshIdx =>
    cases hps : firstOcc (v.hint_var ++ str ".includes(\"pwsh\")")
        ((code.drop zshIdx).take 2000) with
    | none =>
      exfalso
      unfold patch_nu_detection at hok
      rw [hnu] at hok
      simp only [Bool.false_eq_true, if_false, hz, hps] at hok
      simp [StepResult.mkFail] at hok
    | some psIncIdx =>
      have hoccRegion : occursAt (v.hint_var ++ str ".includes(\"pwsh\")")
          ((code.drop zshIdx).take 2000) psIncIdx = true :=
        occursAt_iff.mpr (firstOcc_some_spec hps).2
      have hoccCode := occursAt_in_slice hoccRegion
      have hdecomp := occursAt_decomp hoccCode
      have hdq : code.drop (zshIdx + psIncIdx) = (v.hint_var ++ str ".includes(\"")
          ++ (str "pwsh\")" ++ code.drop (zshIdx + psIncIdx +
            (v.hint_var ++ str ".includes(\"pwsh\")").length)) := by
        rw [hdecomp]
        rw [show str ".includes(\"pwsh\")" = str ".includes(\"" ++ str "pwsh\")" from by decide]
        simp only [List.append_assoc]
      have hlq := congrArg List.length hdq
      rw [List.length_drop, List.length_append, List.length_append, List.length_append,
        show (str "pwsh\")").length = 6 from by decide,
        show (str ".includes(\"").length = 11 from by decide, List.length_drop] at hlq
      have hqle : zshIdx + psIncIdx ≤ code.length := by omega
      have htakep : code.take (zshIdx + psIncIdx +
          (v.hint_var ++ str ".includes(\"").length) =
          code.take (zshIdx + psIncIdx) ++ (v.hint_var ++ str ".includes(\"") :=
        take_of_drop_prefix hqle hdq
      have hdropp : code.drop (zshIdx + psIncIdx +
          (v.hint_var ++ str ".includes(\"").length) =
          str "pwsh\")" ++ code.drop (zshIdx + psIncIdx +
            (v.hint_var ++ str ".includes(\"pwsh\")").length) :=
        drop_shift rfl hdq
      have hple : zshIdx + psIncIdx + (v.hint_var ++ str ".includes(\"").length ≤
          code.length := by
        rw [List.length_append, show (str ".includes(\"").length = 11 from by decide]
        omega
      cases hpre : (nuInsertion v).isPrefixOf (code.drop (zshIdx + psIncIdx)) with
      | true =>
        left
        have hout : (patch_nu_detection code v).1 = code := by
          unfold patch_nu_detection
          rw [hnu]
          simp only [Bool.false_eq_true, if_false, hz, hps, hpre, if_true]
        refine ⟨hout, ?_⟩
        obtain ⟨r2, hr2⟩ := List.isPrefixOf_iff_prefix.mp hpre
        exact nuIns_prefix_establishes hr2.symm
      | false =>
        right
        refine ⟨code.take (zshIdx + psIncIdx),
          code.drop (zshIdx + psIncIdx + (v.hint_var ++ str ".includes(\"pwsh\")").length),
          zshIdx + psIncIdx + (v.hint_var ++ str ".includes(\"").length,
          hple, ?_, htakep, hdropp⟩
        have hout : (patch_nu_detection code v).1 =
            insertAt code (nuInsertion v) (zshIdx + psIncIdx) := by
          unfold patch_nu_detection
          rw [hnu]
          simp only [Bool.false_eq_true, if_false, hz, hps, hpre]
        rw [hout, nuIns_split, insertAt_rotate hqle hdq, nuRot_eq]

/-!
### Destructuring the step loop and the discovery record
-/

theorem applySteps_cons_true {nf : Str × PatchFn} {rest : List (Str × PatchFn)}
    {code t : Str} {v : DiscoveredVars} {steps : List StepResult}
    (h : applySteps (nf :: rest) code v = (t, steps, true)) :
    (nf.2 code v).2.ok = true ∧
    ∃ steps2, applySteps rest (nf.2 code v).1 v = (t, steps2, true) := by
  unfold applySteps at h
  dsimp only at h
  split at h
  case isTrue hok =>
    refine ⟨hok, (applySteps rest (nf.2 code v).1 v).2.1, ?_⟩
    have h1 := congrArg Prod.fst h
    have h3 := congrArg (fun x : Str × List StepResult × Bool => x.2.2) h
    dsimp only at h1 h3
    exact Prod.ext_iff.mpr ⟨h1, Prod.ext_iff.mpr ⟨rfl, h3⟩⟩
  case isFalse hok =>
    have h3 := congrArg (fun x : Str × List StepResult × Bool => x.2.2) h
    exact absurd h3 (by simp)

theorem applySteps_nil_out {code t : Str} {v : DiscoveredVars} {steps : List StepResult}
    (h : applySteps [] code v = (t, steps, true)) : t = code := by
  unfold applySteps at h
  exact (congrArg Prod.fst h).symm

/-- What a successful discovery reports, field by field. -/
theorem discover_ok_spec {code : Str} {v : DiscoveredVars}
    (h : discover_vars code = .ok v) :
    zshCaptures code = some (v.hint_var, v.enum_var) ∧
    v.cmd_exists_fn = (cmdCaptures code).map (fun c => c.1) ∧
    v.find_exec_call = (cmdCaptures code).map (fun c => c.2) ∧
    v.has_nu_detection = has_nu_detection_in code v.enum_var ∧
    v.has_naive_case = has_naive_case_in code v.enum_var ∧
    v.has_system_nu = has_system_nu_in code ((cmdCaptures code).map (fun c => c.1)) ∧
    v.has_user_terminal_hint = uthFlagB code ∧
    v.lazy_exec = lazyExecCapture code v.enum_var ∧
    (v.naive_exec = none ∨
      ∃ x, v.naive_exec = some x ∧ (naiveExecA code v.enum_var = some x ∨
        naiveExecC code = some x ∨ naiveExecD code = some x)) := by
  unfold discover_vars at h
  cases hzc : zshCaptures code with
  | none =>
    rw [hzc] at h
    exact absurd h (by simp)
  | some he =>
    rw [hzc] at h
    dsimp only at h
    rw [Except.ok.injEq] at h
    subst h
    refine ⟨rfl, rfl, rfl, rfl, rfl, rfl, rfl, rfl, ?_⟩
    dsimp only
    cases h1 : (if has_naive_case_in code he.2 then naiveExecA code he.2 else none) with
    | some x =>
      refine Or.inr ⟨x, rfl, Or.inl ?_⟩
      by_cases hnc : has_naive_case_in code he.2
      · rw [if_pos hnc] at h1
        exact h1
      · rw [if_neg hnc] at h1
        exact absurd h1 (by simp)
    | none =>
      cases h2 : naiveExecC code with
      | some x => exact Or.inr ⟨x, rfl, Or.inr (Or.inl rfl)⟩
      | none =>
        cases h3 : naiveExecD code with
        | some x => exact Or.inr ⟨x, rfl, Or.inr (Or.inr rfl)⟩
        | none => exact Or.inl rfl

/-- The zsh-site captures are nonempty word runs at the first valid site. -/
theorem zsh_captures_shape {code hint E : Str}
    (h : zshCaptures code = some (hint, E)) :
    allWord hint = true ∧ hint ≠ [] ∧ allWord E = true ∧ E ≠ [] ∧
    ∃ k, zshFirstSite code = some k ∧ wordRunFwd code (k + 17) = E := by
  obtain ⟨k, hk, heq⟩ := zshCaptures_eq_iff.mp h
  have heq1 : hint = wordRunBack code k := congrArg Prod.fst heq
  have heq2 : E = wordRunFwd code (k + 17) := congrArg Prod.snd heq
  obtain ⟨-, hvalid, -⟩ := zshFirstSite_eq_some_iff.mp hk
  obtain ⟨ch, e, -, hene, hew, -, -, hrun, -⟩ := zshValid_elim hvalid
  have hintne : hint ≠ [] := by
    unfold zshSiteValid at hvalid
    rw [Bool.and_eq_true, Bool.and_eq_true] at hvalid
    obtain ⟨⟨-, hne⟩, -⟩ := hvalid
    rw [heq1]
    intro hcon
    rw [hcon] at hne
    exact absurd hne (by decide)
  refine ⟨?_, hintne, ?_, ?_, k, hk, heq2.symm⟩
  · rw [heq1]
    unfold allWord
    rw [List.all_eq_true]
    exact wordRunBack_all_word code k
  · rw [heq2, hrun]
    exact hew
  · rw [heq2, hrun]
    exact hene

/-- The cmd-site captures are a nonempty word-run function name and a
`(0,m.g)` call with nonempty word runs `m`, `g`. -/
theorem cmd_captures_shape {code c fx : Str} (h : cmdCaptures code = some (c, fx)) :
    allWord c = true ∧ c ≠ [] ∧
    ∃ m g, allWord m = true ∧ m ≠ [] ∧ allWord g = true ∧ g ≠ [] ∧
      fx = str "(0," ++ m ++ str "." ++ g ++ str ")" := by
  obtain ⟨k, -, hparse, -⟩ := cmdCaptures_eq_some_iff.mp h
  obtain ⟨ws, a, m, g, a2, w, rest, hsite, hfx⟩ := cmdSiteAt_of_parse hparse
  obtain ⟨-, -, hf, hfne, -, -, hm, hmne, hg, hgne, -⟩ := hsite
  exact ⟨hf, hfne, m, g, hm, hmne, hg, hgne, hfx⟩

/-!
### The word-run shape of the lazy captures
-/

theorem parseNewSite_word {s : Str} {j : Nat} {wp : Str × Nat}
    (h : parseNewSite s j = some wp) : allWord wp.1 = true := by
  unfold parseNewSite at h
  dsimp only at h
  repeat' split at h
  all_goals first
    | (cases Option.some_inj.mp h; exact wordRunFwd_allWord s _)
    | exact absurd h (by simp)

theorem lazyFindNew_word {s : Str} {p : Nat} {wp : Str × Nat}
    (h : lazyFindNew s p = some wp) : allWord wp.1 = true := by
  have hmem := List.mem_of_mem_head? (Option.mem_def.mpr h)
  obtain ⟨j, -, hps⟩ := List.mem_filterMap.mp hmem
  exact parseNewSite_word hps

theorem lazyExecCapture_word {s e x : Str} (h : lazyExecCapture s e = some x) :
    allWord x = true := by
  have hmem := List.mem_of_mem_head? (Option.mem_def.mpr h)
  obtain ⟨k, -, hk⟩ := List.mem_filterMap.mp hmem
  obtain ⟨p, -, hp2⟩ := Option.bind_eq_some.mp hk
  obtain ⟨wp, hwp, hx⟩ := Option.map_eq_some'.mp hp2
  rw [← hx]
  exact lazyFindNew_word hwp

theorem naiveExecA_word {s e x : Str} (h : naiveExecA s e = some x) :
    allWord x = true := by
  have hmem := List.mem_of_mem_head? (Option.mem_def.mpr h)
  obtain ⟨k, -, hk⟩ := List.mem_filterMap.mp hmem
  obtain ⟨p, -, hp2⟩ := Option.bind_eq_some.mp hk
  have hmem2 := List.mem_of_mem_head? (Option.mem_def.mpr hp2)
  obtain ⟨j, -, hj⟩ := List.mem_filterMap.mp hmem2
  obtain ⟨wp, -, hwp2⟩ := Option.bind_eq_some.mp hj
  obtain ⟨wp2, hwp2', hx⟩ := Option.map_eq_some'.mp hwp2
  rw [← hx]
  exact lazyFindNew_word hwp2'

theorem naiveExecC_word {s x : Str} (h : naiveExecC s = some x) :
    allWord x = true := by
  have hmem := List.mem_of_mem_head? (Option.mem_def.mpr h)
  obtain ⟨j, -, hj⟩ := List.mem_filterMap.mp hmem
  obtain ⟨wp, hwp, hrest⟩ := Option.bind_eq_some.mp hj
  have hx : x = wp.1 := by
    dsimp only at hrest
    repeat' split at hrest
    all_goals first
      | exact (Option.some_inj.mp hrest).symm
      | exact absurd hrest (by simp)
  rw [hx]
  exact parseNewSite_word hwp

theorem naiveExecD_word {s x : Str} (h : naiveExecD s = some x) :
    allWord x = true := by
  have hmem := List.mem_of_mem_head? (Option.mem_def.mpr h)
  obtain ⟨j, -, hj⟩ := List.mem_filterMap.mp hmem
  obtain ⟨wp, hwp, hrest⟩ := Option.bind_eq_some.mp hj
  have hx : x = wp.1 := by
    dsimp only at hrest
    repeat' split at hrest
    all_goals first
      | exact (Option.some_inj.mp hrest).symm
      | exact absurd hrest (by simp)
  rw [hx]
  exact parseNewSite_word hwp

theorem optsCapture_word {s x : Str} (h : optsCapture s = some x) :
    allWord x = true := by
  have hmem := List.mem_of_mem_head? (Option.mem_def.mpr h)
  obtain ⟨k, -, hk⟩ := List.mem_filterMap.mp hmem
  dsimp only at hk
  repeat' split at hk
  all_goals first
    | (cases Option.some_inj.mp hk; exact wordRunFwd_allWord s _)
    | exact absurd hk (by simp)

theorem naive_exec_word {code : Str} {v : DiscoveredVars} {nv : Str}
    (h : discover_vars code = .ok v) (hnv : v.naive_exec = some nv) :
    allWord nv = true := by
  obtain ⟨-, -, -, -, -, -, -, -, hne⟩ := discover_ok_spec h
  rcases hne with h0 | ⟨x, hx, hsrc⟩
  · rw [h0] at hnv
    exact absurd hnv (by simp)
  · rw [hx] at hnv
    obtain rfl := Option.some_inj.mp hnv
    rcases hsrc with h1 | h2 | h3
    · exact naiveExecA_word h1
    · exact naiveExecC_word h2
    · exact naiveExecD_word h3

/-!
### Event characterizations of the remaining patch steps
-/

/-- Event characterization of `patch_system_nu_detection` when the flag is
unset and the step succeeds: the insertion lands just after the
`<enum>.PowerShell:` head of the last tail-pattern occurrence. -/
theorem M2_event {code : Str} (v : DiscoveredVars) {c : Str}
    (hsys : v.has_system_nu = false) (hcmd : v.cmd_exists_fn = some c)
    (hok : (patch_system_nu_detection code v).2.ok = true) :
    ∃ q, q ≤ code.length ∧
      (patch_system_nu_detection code v).1 =
        insertAt code (sysNuInsertion c v.enum_var) q ∧
      (v.enum_var ++ str ".PowerShell:") <:+ code.take q := by
  cases hlo : lastOcc (v.enum_var ++ str ".PowerShell:" ++ v.enum_var ++ str ".Naive\x7d")
      code with
  | none =>
    exfalso
    unfold patch_system_nu_detection at hok
    rw [hsys, hcmd] at hok
    simp only [Bool.false_eq_true, if_false, hlo] at hok
    simp [StepResult.mkFail] at hok
  | some tailIdx =>
    obtain ⟨htb, hpre⟩ := lastOcc_some_spec hlo
    obtain ⟨rest, hrest⟩ := hpre
    have hdq : code.drop tailIdx = (v.enum_var ++ str ".PowerShell:") ++
        ((v.enum_var ++ str ".Naive\x7d") ++ rest) := by
      rw [← hrest]
      simp only [List.append_assoc]
    have htake := take_of_drop_prefix htb hdq
    refine ⟨tailIdx + (v.enum_var ++ str ".PowerShell:").length, ?_, ?_, ?_⟩
    · have hlq := congrArg List.length hdq
      rw [List.length_drop, List.length_append, List.length_append, List.length_append] at hlq
      rw [List.length_append]
      omega
    · unfold patch_system_nu_detection
      rw [hsys, hcmd]
      simp only [Bool.false_eq_true, if_false, hlo]
    · rw [htake]
      exact List.suffix_append _ _

/-- Event characterization of `patch_user_terminal_hint` when the flag is
unset and the step succeeds: the replacement is an insertion of the
userTerminalHint fallback right after a `<sv>?.shell??` occurrence. -/
theorem M3_event {code : Str} (v : DiscoveredVars)
    (huth : v.has_user_terminal_hint = false)
    (hok : (patch_user_terminal_hint code v).2.ok = true) :
    ∃ sv i3 tail, allWord sv = true ∧ sv ≠ [] ∧
      code.drop i3 = (sv ++ str "?.shell??") ++ tail ∧
      i3 + (sv.length + 9) ≤ code.length ∧
      (patch_user_terminal_hint code v).1 =
        insertAt code (uthIns sv) (i3 + (sv.length + 9)) := by
  cases hcap : uthCapture code with
  | none =>
    exfalso
    unfold patch_user_terminal_hint at hok
    rw [huth] at hok
    simp only [Bool.false_eq_true, if_false, hcap] at hok
    simp [StepResult.mkFail] at hok
  | some sv =>
    obtain ⟨hsvne, hcont⟩ := uthCapture_spec hcap
    have hsvw : allWord sv = true := by
      unfold allWord
      rw [List.all_eq_true]
      exact uthCapture_word hcap
    obtain ⟨i3, hfo⟩ := containsStr_some_firstOcc hcont
    obtain ⟨hi3, hpre⟩ := firstOcc_some_spec hfo
    obtain ⟨tail, htail⟩ := hpre
    have hdq : code.drop i3 = (sv ++ str "?.shell??") ++ tail := htail.symm
    have hulen : (sv ++ str "?.shell??").length = sv.length + 9 := by
      rw [List.length_append]
      rfl
    have hbound : i3 + (sv.length + 9) ≤ code.length := by
      have hlq := congrArg List.length hdq
      rw [List.length_drop, List.length_append, hulen] at hlq
      omega
    have htakep := take_of_drop_prefix hi3 hdq
    refine ⟨sv, i3, tail, hsvw, hsvne, hdq, hbound, ?_⟩
    unfold patch_user_terminal_hint
    rw [huth]
    simp only [Bool.false_eq_true, if_false, hcap]
    rw [replaceFirst_found hfo]
    unfold insertAt uthIns
    rw [hulen] at htakep
    rw [hulen, htakep]
    simp only [List.append_assoc]

/-- Event characterization of `patch_naive_case` when the flag is unset and
the step succeeds: the block is inserted either before a `default:` or
before a `case <enum>.ZshLight:`. -/
theorem M4_event {code : Str} (v : DiscoveredVars) {lz nv fx : Str}
    (hnaive : v.has_naive_case = false) (hlz : v.lazy_exec = some lz)
    (hnv : v.naive_exec = some nv) (hfx : v.find_exec_call = some fx)
    (hok : (patch_naive_case code v).2.ok = true) :
    ∃ q γ, q ≤ code.length ∧
      (patch_naive_case code v).1 =
        insertAt code
          (naiveCaseBlock v.enum_var fx lz nv ((optsCapture code).getD (str "t"))) q ∧
      (code.drop q = str "default:" ++ γ ∨
        code.drop q = (str "case " ++ v.enum_var ++ str ".ZshLight:") ++ γ) := by
  cases hzc : firstOcc (str "case " ++ v.enum_var ++ str ".Zsh:") code with
  | none =>
    exfalso
    unfold patch_naive_case at hok
    rw [hnaive, hlz, hnv, hfx] at hok
    simp only [Bool.false_eq_true, if_false, hzc] at hok
    simp [StepResult.mkFail] at hok
  | some searchFrom =>
    cases hdef : (firstOcc (str "default:") (code.drop searchFrom)).filter
        (fun d => d < 10000) with
    | some d =>
      have hocc : occursAt (str "default:") code (searchFrom + d) = true := by
        cases hfd : firstOcc (str "default:") (code.drop searchFrom) with
        | none =>
          rw [hfd] at hdef
          exact absurd hdef (by simp [Option.filter])
        | some d0 =>
          rw [hfd] at hdef
          simp only [Option.filter] at hdef
          split at hdef
          · obtain rfl := Option.some_inj.mp hdef
            have hp := (firstOcc_some_spec hfd).2
            rw [List.drop_drop] at hp
            rw [occursAt_iff]
            first
              | exact hp
              | (rw [Nat.add_comm]; exact hp)
          · exact absurd hdef (by simp)
      have hb : searchFrom + d + 8 ≤ code.length := by
        have := occursAt_bound hocc (by decide)
        have h8 : (str "default:").length = 8 := by decide
        omega
      refine ⟨searchFrom + d, code.drop (searchFrom + d + 8), by omega, ?_, Or.inl ?_⟩
      · unfold patch_naive_case
        rw [hnaive, hlz, hnv, hfx]
        simp only [Bool.false_eq_true, if_false, hzc, hdef]
      · have := occursAt_decomp hocc
        rw [this]
        have h8 : (str "default:").length = 8 := by decide
        rw [h8]
    | none =>
      cases hzl : firstOcc (str "case " ++ v.enum_var ++ str ".ZshLight:")
          (code.drop searchFrom) with
      | none =>
        exfalso
        unfold patch_naive_case at hok
        rw [hnaive, hlz, hnv, hfx] at hok
        simp only [Bool.false_eq_true, if_false, hzc, hdef, hzl] at hok
        simp [StepResult.mkFail] at hok
      | some z =>
        have hocc : occursAt (str "case " ++ v.enum_var ++ str ".ZshLight:") code
            (searchFrom + z) = true := by
          have hp := (firstOcc_some_spec hzl).2
          rw [List.drop_drop] at hp
          rw [occursAt_iff]
          first
            | exact hp
            | (rw [Nat.add_comm]; exact hp)
        have hb := occursAt_bound hocc
          (ne_nil_append_right (show str ".ZshLight:" ≠ [] from by decide))
        refine ⟨searchFrom + z,
          code.drop (searchFrom + z + (str "case " ++ v.enum_var ++ str ".ZshLight:").length),
          by omega, ?_, Or.inr ?_⟩
        · unfold patch_naive_case
          rw [hnaive, hlz, hnv, hfx]
          simp only [Bool.false_eq_true, if_false, hzc, hdef, hzl]
        · exact occursAt_decomp hocc

/-- Event characterization of `patch_shell_path_fallback` on success:
either the already-patched marker was present (text unchanged), or the
`default:return process.env.SHELL||"/bin/sh"` literal was replaced by the
expanded fallback. -/
theorem M5_event {code : Str} (v : DiscoveredVars) {fx : Str}
    (hfx : v.find_exec_call = some fx)
    (hok : (patch_shell_path_fallback code v).2.ok = true) :
    (patch_shell_path_fallback code v).1 = code ∨
    ∃ i, i + 43 ≤ code.length ∧
      code.drop i = shellFallbackFind ++ code.drop (i + 43) ∧
      (patch_shell_path_fallback code v).1 =
        code.take i ++ (shellFallbackRepl v.enum_var fx ++ code.drop (i + 43)) := by
  cases hmark : containsStr code (fx ++ str "(\"nu\",[])") with
  | true =>
    left
    unfold patch_shell_path_fallback
    rw [hfx]
    simp only [hmark, if_true]
  | false =>
    cases hcf : containsStr code shellFallbackFind with
    | false =>
      exfalso
      unfold patch_shell_path_fallback at hok
      rw [hfx] at hok
      simp only [hmark, Bool.false_eq_true, if_false, hcf, Bool.not_false, if_true] at hok
      simp [StepResult.mkFail] at hok
    | true =>
      obtain ⟨i, hfo⟩ := containsStr_some_firstOcc hcf
      obtain ⟨hi, hpre⟩ := firstOcc_some_spec hfo
      have hocc : occursAt shellFallbackFind code i = true := occursAt_iff.mpr hpre
      have hdq := occursAt_decomp hocc
      have h43 : shellFallbackFind.length = 43 := by decide
      rw [h43] at hdq
      have hb : i + 43 ≤ code.length := by
        have := occursAt_bound hocc (by decide)
        omega
      right
      refine ⟨i, hb, hdq, ?_⟩
      unfold patch_shell_path_fallback
      rw [hfx]
      simp only [hmark, Bool.false_eq_true, if_false, hcf, Bool.not_true]
      rw [hfo]
      cases hco : containsStr ((code.drop (i - 500)).take (i - (i - 500)))
            (str "findActualExecutable") ||
          containsStr ((code.drop (i - 500)).take (i - (i - 500))) (str "PowerShell") with
      | false =>
        exfalso
        unfold patch_shell_path_fallback at hok
        rw [hfx] at hok
        simp only [hmark, Bool.false_eq_true, if_false, hcf, Bool.not_true, hfo, hco,
          Bool.not_false, if_true] at hok
        simp [StepResult.mkFail] at hok
      | true =>
        simp only [hco, Bool.not_true, Bool.false_eq_true, if_false]
        rw [replaceFirst_found hfo, h43]
        simp only [List.append_assoc]

/-!
### Transport of the detection state across each insertion
-/

/-- Transport across the rotated nu-detection insertion: the zsh enum
capture and the cmd captures survive, the other presence flags survive,
and the nu-detection pattern is established. -/
theorem M1_keep {t hint E c γ δ : Str} {p : Nat}
    (hp : p ≤ t.length)
    (hh : allWord hint = true) (hhne : hint ≠ []) (hE : allWord E = true)
    (hc : allWord c = true)
    (htk : t.take p = δ ++ (hint ++ str ".includes(\""))
    (hfwd : t.drop p = str "pwsh\")" ++ γ) :
    ((∃ k1, zshFirstSite t = some k1 ∧ wordRunFwd t (k1 + 17) = E) →
      ∃ k2, zshFirstSite (insertAt t (nuRotIns hint E) p) = some k2 ∧
        wordRunFwd (insertAt t (nuRotIns hint E) p) (k2 + 17) = E) ∧
    (∀ cc : Str × Str, cmdCaptures t = some cc →
      cmdCaptures (insertAt t (nuRotIns hint E) p) = some cc) ∧
    containsStr (insertAt t (nuRotIns hint E) p) (nu_detection_str E) = true ∧
    (containsStr t (c ++ str "(\"nu\")") = true →
      containsStr (insertAt t (nuRotIns hint E) p) (c ++ str "(\"nu\")") = true) ∧
    (containsStr t (naive_case_str E) = true →
      containsStr (insertAt t (nuRotIns hint E) p) (naive_case_str E) = true) ∧
    (uthFlagB t = true → uthFlagB (insertAt t (nuRotIns hint E) p) = true) := by
  have hsfx : str ".includes(\"" <:+ t.take p := by
    rw [htk]
    exact (List.suffix_append hint (str ".includes(\"")).trans (List.suffix_append δ _)
  have hcons : t.drop p = 'p' :: (str "wsh\")" ++ γ) := by
    rw [hfwd, show str "pwsh\")" = 'p' :: str "wsh\")" from by decide, List.cons_append]
  refine ⟨?_, ?_, ?_, ?_, ?_, ?_⟩
  · rintro ⟨k1, hk1, hrun⟩
    obtain ⟨k2, hk2, hrun2⟩ := zshFirst_insert hp hk1
      (inc_quote_hA_Z hsfx hcons (by decide))
      (nuRot_hB_Z hp hh hhne hE hsfx hfwd)
    exact ⟨k2, hk2, by rw [hrun2, hrun]⟩
  · intro cc hcc
    refine cmdFirst_insert hp hcc ?_ (nuRot_hB_C hp hh hE hsfx)
    exact @char_hA_C _ (str ".includes(\"") _ '"' hsfx (by decide) (by decide) (by decide)
      (by decide) (by decide)
  · exact nuRot_establishes htk
  · intro h
    exact contains_insert hp h (inc_quote_hexc_sys hc hsfx hcons (by decide))
  · intro h
    exact contains_insert hp h
      (@char_hexc_naive _ (str ".includes(\"") _ _ '"' hE hsfx (by decide) (by decide)
        (by decide) (by decide))
  · intro h
    refine uthFlag_insert hp h ?_
    intro k x rest hs
    exact @char_hexc_uth _ (str ".includes(\"") _ _ '"' hs.2.1 hsfx (by decide) (by decide)
      (by decide) (by decide) k (occursAt_of_drop_eq (uthSiteAt_flat hs))

/-- Transport across the system-nu insertion at a `<enum>.PowerShell:`
junction: captures and flags survive, and the `<c>("nu")` marker is
established. -/
theorem M2_keep {t c E : Str} {q : Nat}
    (hq : q ≤ t.length) (hc : allWord c = true) (hE : allWord E = true)
    (hsfx : (E ++ str ".PowerShell:") <:+ t.take q) :
    ((∃ k1, zshFirstSite t = some k1 ∧ wordRunFwd t (k1 + 17) = E) →
      ∃ k2, zshFirstSite (insertAt t (sysNuInsertion c E) q) = some k2 ∧
        wordRunFwd (insertAt t (sysNuInsertion c E) q) (k2 + 17) = E) ∧
    (∀ cc : Str × Str, cmdCaptures t = some cc →
      cmdCaptures (insertAt t (sysNuInsertion c E) q) = some cc) ∧
    (containsStr t (nu_detection_str E) = true →
      containsStr (insertAt t (sysNuInsertion c E) q) (nu_detection_str E) = true) ∧
    containsStr (insertAt t (sysNuInsertion c E) q) (c ++ str "(\"nu\")") = true ∧
    (containsStr t (naive_case_str E) = true →
      containsStr (insertAt t (sysNuInsertion c E) q) (naive_case_str E) = true) ∧
    (uthFlagB t = true → uthFlagB (insertAt t (sysNuInsertion c E) q) = true) := by
  have hαlast : (E ++ str ".PowerShell:").getLast? = some ':' := by
    rw [last_eq_of_suffix (List.suffix_append E (str ".PowerShell:")) (by decide)]
    decide
  have hαne : (E ++ str ".PowerShell:") ≠ [] := ne_nil_append_right (by decide)
  have hIlast : (sysNuInsertion c E).getLast? = some ':' := by
    unfold sysNuInsertion
    rw [last_eq_of_suffix (List.suffix_append (c ++ str "(\"nu\")?" ++ E) (str ".Naive:"))
      (by decide)]
    decide
  refine ⟨?_, ?_, ?_, ?_, ?_, ?_⟩
  · rintro ⟨k1, hk1, hrun⟩
    obtain ⟨k2, hk2, hrun2⟩ := zshFirst_insert hq hk1
      (colon_hA_Z hsfx hαlast hαne)
      (colon_hB_Z hq hsfx hαlast hαne hIlast (fun j hj => anchor_z_not_sysNu hc hE hj))
    exact ⟨k2, hk2, by rw [hrun2, hrun]⟩
  · intro cc hcc
    exact cmdFirst_insert hq hcc (colon_hA_C hsfx hαlast hαne)
      (colon_hB_C hq hsfx hαlast hαne hIlast (fun j hj => anchor_bt_not_sysNu hc hE hj))
  · intro h
    exact contains_insert hq h (colon_hexc_nu hE hsfx hαlast hαne)
  · exact containsStr_insertAt_of_sub (sysNu_infix_insertion c E)
  · intro h
    exact contains_insert hq h (colon_hexc_naive hE hsfx hαlast hαne)
  · intro h
    refine uthFlag_insert hq h ?_
    intro k x rest hs
    exact colon_hexc_uth hs.2.1 hsfx hαlast hαne k rest hs

/-- Transport across the userTerminalHint insertion right after a
`<sv>?.shell??` occurrence: captures and flags survive, and the
userTerminalHint regex is established. -/
theorem M3_keep {t sv E c tail : Str} {i3 : Nat}
    (hE : allWord E = true) (hc : allWord c = true)
    (hsv : allWord sv = true) (hsvne : sv ≠ [])
    (hdq : t.drop i3 = (sv ++ str "?.shell??") ++ tail)
    (hb : i3 + (sv.length + 9) ≤ t.length) :
    ((∃ k1, zshFirstSite t = some k1 ∧ wordRunFwd t (k1 + 17) = E) →
      ∃ k2, zshFirstSite (insertAt t (uthIns sv) (i3 + (sv.length + 9))) = some k2 ∧
        wordRunFwd (insertAt t (uthIns sv) (i3 + (sv.length + 9))) (k2 + 17) = E) ∧
    (∀ cc : Str × Str, cmdCaptures t = some cc →
      cmdCaptures (insertAt t (uthIns sv) (i3 + (sv.length + 9))) = some cc) ∧
    (containsStr t (nu_detection_str E) = true →
      containsStr (insertAt t (uthIns sv) (i3 + (sv.length + 9)))
        (nu_detection_str E) = true) ∧
    (containsStr t (c ++ str "(\"nu\")") = true →
      containsStr (insertAt t (uthIns sv) (i3 + (sv.length + 9)))
        (c ++ str "(\"nu\")") = true) ∧
    uthFlagB (insertAt t (uthIns sv) (i3 + (sv.length + 9))) = true := by
  have hp : i3 + (sv.length + 9) ≤ t.length := hb
  have hi3 : i3 ≤ t.length := by omega
  have hulen : (sv ++ str "?.shell??").length = sv.length + 9 := by
    rw [List.length_append]
    rfl
  have htakep : t.take (i3 + (sv.length + 9)) = t.take i3 ++ (sv ++ str "?.shell??") := by
    rw [← hulen]
    exact take_of_drop_prefix hi3 hdq
  have hsfx : str "??" <:+ t.take (i3 + (sv.length + 9)) := by
    rw [htakep]
    exact ((show str "??" <:+ str "?.shell??" from by decide).trans
      (List.suffix_append _ _)).trans (List.suffix_append _ _)
  refine ⟨?_, ?_, ?_, ?_, ?_⟩
  · rintro ⟨k1, hk1, hrun⟩
    obtain ⟨k2, hk2, hrun2⟩ := zshFirst_insert hp hk1 (qq_hA_Z hsfx)
      (uthIns_hB_Z hp hsv hsfx)
    exact ⟨k2, hk2, by rw [hrun2, hrun]⟩
  · intro cc hcc
    exact cmdFirst_insert hp hcc
      (@char_hA_C _ (str "??") _ '?' hsfx (by decide) (by decide) (by decide) (by decide)
        (by decide))
      (uthIns_hB_C hp hsv hsfx)
  · intro h
    exact contains_insert hp h (qq_hexc_nu hE hsfx)
  · intro h
    exact contains_insert hp h
      (@char_hexc_sys _ (str "??") _ _ '?' hc hsfx (by decide) (by decide) (by decide)
        (by decide))
  · have h1 : insertAt t (uthIns sv) (i3 + (sv.length + 9)) =
        (t.take i3 ++ sv ++ str "?") ++ (str ".shell??" ++ (sv ++
          (str "?.userTerminalHint??" ++ t.drop (i3 + (sv.length + 9))))) := by
      unfold insertAt uthIns
      rw [htakep, show str "?.shell??" = str "?" ++ str ".shell??" from by decide]
      simp only [List.append_assoc]
    have hlen1 : (t.take i3 ++ sv ++ str "?").length = i3 + sv.length + 1 := by
      simp only [List.length_append, List.length_take]
      rw [Nat.min_eq_left hi3, show (str "?").length = 1 from by decide]
    have hdropk : (insertAt t (uthIns sv) (i3 + (sv.length + 9))).drop
        (i3 + sv.length + 1) = str ".shell??" ++ (sv ++
          (str "?.userTerminalHint??" ++ t.drop (i3 + (sv.length + 9)))) := by
      rw [h1]
      exact List.drop_left' hlen1
    refine uthFlagB_intro hsvne (List.all_eq_true.mp hsv) hdropk ?_
    rw [insertAt_length hp]
    omega

/-- Transport across the Naive-case block insertion at a `default:` or
`case <enum>.ZshLight:` junction: captures and flags survive, and the
`case <enum>.Naive:` literal is established. -/
theorem M4_keep {t E m g lz nv ov c γ : Str} {q : Nat}
    (hq : q ≤ t.length) (hE : allWord E = true) (hm : allWord m = true)
    (hg : allWord g = true) (hlz : allWord lz = true) (hnv : allWord nv = true)
    (hov : allWord ov = true) (hc : allWord c = true)
    (hctx : t.drop q = str "default:" ++ γ ∨
      t.drop q = (str "case " ++ E ++ str ".ZshLight:") ++ γ) :
    ((∃ k1, zshFirstSite t = some k1 ∧ wordRunFwd t (k1 + 17) = E) →
      ∃ k2, zshFirstSite (insertAt t
          (naiveCaseBlock E (str "(0," ++ m ++ str "." ++ g ++ str ")") lz nv ov) q) =
            some k2 ∧
        wordRunFwd (insertAt t
          (naiveCaseBlock E (str "(0," ++ m ++ str "." ++ g ++ str ")") lz nv ov) q)
          (k2 + 17) = E) ∧
    (∀ cc : Str × Str, cmdCaptures t = some cc →
      cmdCaptures (insertAt t
        (naiveCaseBlock E (str "(0," ++ m ++ str "." ++ g ++ str ")") lz nv ov) q) =
          some cc) ∧
    (containsStr t (nu_detection_str E) = true →
      containsStr (insertAt t
        (naiveCaseBlock E (str "(0," ++ m ++ str "." ++ g ++ str ")") lz nv ov) q)
        (nu_detection_str E) = true) ∧
    (containsStr t (c ++ str "(\"nu\")") = true →
      containsStr (insertAt t
        (naiveCaseBlock E (str "(0," ++ m ++ str "." ++ g ++ str ")") lz nv ov) q)
        (c ++ str "(\"nu\")") = true) ∧
    containsStr (insertAt t
      (naiveCaseBlock E (str "(0," ++ m ++ str "." ++ g ++ str ")") lz nv ov) q)
      (naive_case_str E) = true := by
  have hctx2 : t.drop q = str "default:" ++ γ ∨
      t.drop q = str "case " ++ (E ++ (str ".ZshLight:" ++ γ)) := by
    rcases hctx with h | h
    · exact Or.inl h
    · right
      rw [h]
      simp only [List.append_assoc]
  have hAZ : ∀ k ch e rest, zshSiteAt t k ch e rest → k + 21 + e.length ≤ q ∨ q < k := by
    rcases hctx2 with h | h
    · exact fwd_default_hA_Z h
    · exact fwd_case_hA_Z h
  have hAC : ∀ k ws f a m1 g1 a2 w rest, cmdSiteAt t k ws f a m1 g1 a2 w rest →
      k + 39 + ws.length + f.length + a.length + m1.length + g1.length + a2.length +
        w.length ≤ q ∨ q ≤ k := by
    rcases hctx with h | h
    · exact fwd_default_hA_C h
    · exact fwd_caseE_hA_C hE (by decide) (by decide) h
  have hBZ : ∀ k ch e rest, zshSiteAt (insertAt t
      (naiveCaseBlock E (str "(0," ++ m ++ str "." ++ g ++ str ")") lz nv ov) q)
      k ch e rest → k + 21 + e.length ≤ q ∨
      q + (naiveCaseBlock E (str "(0," ++ m ++ str "." ++ g ++ str ")") lz nv ov).length
        < k := by
    rcases hctx2 with h | h
    · exact I4_hB_Z hq hE hm hg hlz hnv hov (Or.inl h)
    · exact I4_hB_Z hq hE hm hg hlz hnv hov (Or.inr h)
  have hBC : ∀ k1 ws1 f1 a1 m1 g1 a21 w1 rest1, cmdSiteAt (insertAt t
      (naiveCaseBlock E (str "(0," ++ m ++ str "." ++ g ++ str ")") lz nv ov) q)
      k1 ws1 f1 a1 m1 g1 a21 w1 rest1 →
      k1 + 39 + ws1.length + f1.length + a1.length + m1.length + g1.length + a21.length +
        w1.length ≤ q ∨
      q + (naiveCaseBlock E (str "(0," ++ m ++ str "." ++ g ++ str ")") lz nv ov).length
        ≤ k1 := by
    rcases hctx with h | h
    · exact I4_hB_C hq hE hm hg hlz hnv hov (Or.inl h)
    · exact I4_hB_C hq hE hm hg hlz hnv hov (Or.inr h)
  have hNU : ∀ k, occursAt (nu_detection_str E) t k = true →
      k + (nu_detection_str E).length ≤ q ∨ q ≤ k := by
    rcases hctx2 with h | h
    · exact fwd_default_hexc_nu hE h
    · exact fwd_case_hexc_nu hE h
  have hSY : ∀ k, occursAt (c ++ str "(\"nu\")") t k = true →
      k + (c ++ str "(\"nu\")").length ≤ q ∨ q ≤ k := by
    rcases hctx2 with h | h
    · exact fwd_default_hexc_sys hc h
    · exact fwd_case_hexc_sys hc h
  refine ⟨?_, ?_, ?_, ?_, ?_⟩
  · rintro ⟨k1, hk1, hrun⟩
    obtain ⟨k2, hk2, hrun2⟩ := zshFirst_insert hq hk1 hAZ hBZ
    exact ⟨k2, hk2, by rw [hrun2, hrun]⟩
  · intro cc hcc
    exact cmdFirst_insert hq hcc hAC hBC
  · intro h
    exact contains_insert hq h hNU
  · intro h
    exact contains_insert hq h hSY
  · exact containsStr_insertAt_of_sub (naiveCase_infix_insertion _ _ _ _ _)

/-- Transport across the shell-fallback case-block insertion at a
`default:` junction. -/
theorem P_keep {t E m g c γ : Str} {q : Nat}
    (hq : q ≤ t.length) (hE : allWord E = true) (hm : allWord m = true)
    (hg : allWord g = true) (hc : allWord c = true)
    (hctx : t.drop q = str "default:" ++ γ) :
    ((∃ k1, zshFirstSite t = some k1 ∧ wordRunFwd t (k1 + 17) = E) →
      ∃ k2, zshFirstSite (insertAt t
          (shellP E (str "(0," ++ m ++ str "." ++ g ++ str ")")) q) = some k2 ∧
        wordRunFwd (insertAt t
          (shellP E (str "(0," ++ m ++ str "." ++ g ++ str ")")) q) (k2 + 17) = E) ∧
    (∀ cc : Str × Str, cmdCaptures t = some cc →
      cmdCaptures (insertAt t
        (shellP E (str "(0," ++ m ++ str "." ++ g ++ str ")")) q) = some cc) ∧
    (containsStr t (nu_detection_str E) = true →
      containsStr (insertAt t (shellP E (str "(0," ++ m ++ str "." ++ g ++ str ")")) q)
        (nu_detection_str E) = true) ∧
    (containsStr t (c ++ str "(\"nu\")") = true →
      containsStr (insertAt t (shellP E (str "(0," ++ m ++ str "." ++ g ++ str ")")) q)
        (c ++ str "(\"nu\")") = true) ∧
    (uthFlagB t = true →
      uthFlagB (insertAt t (shellP E (str "(0," ++ m ++ str "." ++ g ++ str ")")) q) =
        true) := by
  refine ⟨?_, ?_, ?_, ?_, ?_⟩
  · rintro ⟨k1, hk1, hrun⟩
    obtain ⟨k2, hk2, hrun2⟩ := zshFirst_insert hq hk1 (fwd_default_hA_Z hctx)
      (P_hB_Z hq hE hm hg hctx)
    exact ⟨k2, hk2, by rw [hrun2, hrun]⟩
  · intro cc hcc
    exact cmdFirst_insert hq hcc (fwd_default_hA_C hctx) (P_hB_C hq hE hm hg hctx)
  · intro h
    exact contains_insert hq h (fwd_default_hexc_nu hE hctx)
  · intro h
    exact contains_insert hq h (fwd_default_hexc_sys hc hctx)
  · intro h
    refine uthFlag_insert hq h ?_
    intro k x rest hs
    exact fwd_default_hexc_uth hs.2.1 hctx k (occursAt_of_drop_eq (uthSiteAt_flat hs))

/-- Transport across the win32 conditional insertion at a `||` junction. -/
theorem winR_keep {t E c : Str} {p : Nat}
    (hp : p ≤ t.length) (hE : allWord E = true) (hc : allWord c = true)
    (hsfx : str "||" <:+ t.take p) :
    ((∃ k1, zshFirstSite t = some k1 ∧ wordRunFwd t (k1 + 17) = E) →
      ∃ k2, zshFirstSite (insertAt t winR p) = some k2 ∧
        wordRunFwd (insertAt t winR p) (k2 + 17) = E) ∧
    (∀ cc : Str × Str, cmdCaptures t = some cc →
      cmdCaptures (insertAt t winR p) = some cc) ∧
    (containsStr t (nu_detection_str E) = true →
      containsStr (insertAt t winR p) (nu_detection_str E) = true) ∧
    (containsStr t (c ++ str "(\"nu\")") = true →
      containsStr (insertAt t winR p) (c ++ str "(\"nu\")") = true) ∧
    (uthFlagB t = true → uthFlagB (insertAt t winR p) = true) := by
  refine ⟨?_, ?_, ?_, ?_, ?_⟩
  · rintro ⟨k1, hk1, hrun⟩
    obtain ⟨k2, hk2, hrun2⟩ := zshFirst_insert hp hk1
      (@char_hA_Z _ (str "||") _ '|' hsfx (by decide) (by decide) (by decide) (by decide)
        (by decide))
      (winR_hB_Z hp hsfx)
    exact ⟨k2, hk2, by rw [hrun2, hrun]⟩
  · intro cc hcc
    exact cmdFirst_insert hp hcc
      (@char_hA_C _ (str "||") _ '|' hsfx (by decide) (by decide) (by decide) (by decide)
        (by decide))
      (winR_hB_C hp hsfx)
  · intro h
    exact contains_insert hp h
      (@char_hexc_nu _ (str "||") _ _ '|' hE hsfx (by decide) (by decide) (by decide)
        (by decide))
  · intro h
    exact contains_insert hp h
      (@char_hexc_sys _ (str "||") _ _ '|' hc hsfx (by decide) (by decide) (by decide)
        (by decide))
  · intro h
    refine uthFlag_insert hp h ?_
    intro k x rest hs
    exact @char_hexc_uth _ (str "||") _ _ '|' hs.2.1 hsfx (by decide) (by decide)
      (by decide) (by decide) k (occursAt_of_drop_eq (uthSiteAt_flat hs))

/-- Transport across the closing-parenthesis insertion at a `/sh"`
junction. -/
theorem rp_keep {t E c : Str} {p : Nat}
    (hp : p ≤ t.length) (hE : allWord E = true) (hc : allWord c = true)
    (hsfx : str "/sh\"" <:+ t.take p) :
    ((∃ k1, zshFirstSite t = some k1 ∧ wordRunFwd t (k1 + 17) = E) →
      ∃ k2, zshFirstSite (insertAt t (str ")") p) = some k2 ∧
        wordRunFwd (insertAt t (str ")") p) (k2 + 17) = E) ∧
    (∀ cc : Str × Str, cmdCaptures t = some cc →
      cmdCaptures (insertAt t (str ")") p) = some cc) ∧
    (containsStr t (nu_detection_str E) = true →
      containsStr (insertAt t (str ")") p) (nu_detection_str E) = true) ∧
    (containsStr t (c ++ str "(\"nu\")") = true →
      containsStr (insertAt t (str ")") p) (c ++ str "(\"nu\")") = true) ∧
    (uthFlagB t = true → uthFlagB (insertAt t (str ")") p) = true) := by
  have hsfx2 : str "h\"" <:+ t.take p :=
    (show str "h\"" <:+ str "/sh\"" from by decide).trans hsfx
  refine ⟨?_, ?_, ?_, ?_, ?_⟩
  · rintro ⟨k1, hk1, hrun⟩
    obtain ⟨k2, hk2, hrun2⟩ := zshFirst_insert hp hk1 (binsh_hA_Z hsfx)
      (rp_hB_Z hp hsfx)
    exact ⟨k2, hk2, by rw [hrun2, hrun]⟩
  · intro cc hcc
    exact cmdFirst_insert hp hcc
      (@char_hA_C _ (str "/sh\"") _ '"' hsfx (by decide) (by decide) (by decide) (by decide)
        (by decide))
      (rp_hB_C hp hsfx)
  · intro h
    exact contains_insert hp h (binsh_hexc_nu hE hsfx)
  · intro h
    exact contains_insert hp h (binsh_hexc_sys hc hsfx2)
  · intro h
    refine uthFlag_insert hp h ?_
    intro k x rest hs
    exact @char_hexc_uth _ (str "/sh\"") _ _ '"' hs.2.1 hsfx (by decide) (by decide)
      (by decide) (by decide) k (occursAt_of_drop_eq (uthSiteAt_flat hs))

theorem insertAt_eq (t I : Str) (p : Nat) :
    insertAt t I p = t.take p ++ I ++ t.drop p := rfl

/-- Transport across the whole shell-fallback replacement, decomposed into
its three insertions. -/
theorem M5_pack {code E c m g tail : Str} {i : Nat}
    (hE : allWord E = true) (hc : allWord c = true) (hm : allWord m = true)
    (hg : allWord g = true)
    (hb : i + 43 ≤ code.length)
    (hdq : code.drop i = shellFallbackFind ++ tail) :
    ((∃ k1, zshFirstSite code = some k1 ∧ wordRunFwd code (k1 + 17) = E) →
      ∃ k2, zshFirstSite (code.take i ++
          (shellFallbackRepl E (str "(0," ++ m ++ str "." ++ g ++ str ")") ++ tail)) =
            some k2 ∧
        wordRunFwd (code.take i ++
          (shellFallbackRepl E (str "(0," ++ m ++ str "." ++ g ++ str ")") ++ tail))
          (k2 + 17) = E) ∧
    (∀ cc : Str × Str, cmdCaptures code = some cc →
      cmdCaptures (code.take i ++
        (shellFallbackRepl E (str "(0," ++ m ++ str "." ++ g ++ str ")") ++ tail)) =
          some cc) ∧
    (containsStr code (nu_detection_str E) = true →
      containsStr (code.take i ++
        (shellFallbackRepl E (str "(0," ++ m ++ str "." ++ g ++ str ")") ++ tail))
        (nu_detection_str E) = true) ∧
    (containsStr code (c ++ str "(\"nu\")") = true →
      containsStr (code.take i ++
        (shellFallbackRepl E (str "(0," ++ m ++ str "." ++ g ++ str ")") ++ tail))
        (c ++ str "(\"nu\")") = true) ∧
    (uthFlagB code = true →
      uthFlagB (code.take i ++
        (shellFallbackRepl E (str "(0," ++ m ++ str "." ++ g ++ str ")") ++ tail)) =
        true) := by
  have hi : i ≤ code.length := by omega
  have hctx : code.drop i = str "default:" ++
      (str "return process.env.SHELL||\"/bin/sh\"" ++ tail) := by
    rw [hdq, show shellFallbackFind = str "default:" ++
      str "return process.env.SHELL||\"/bin/sh\"" from by decide, List.append_assoc]
  obtain ⟨k1Z, k1C, k1N, k1S, k1U⟩ := @P_keep code E m g c _ i hi hE hm hg hc hctx
  have ht1 : insertAt code (shellP E (str "(0," ++ m ++ str "." ++ g ++ str ")")) i =
      ((code.take i ++ shellP E (str "(0," ++ m ++ str "." ++ g ++ str ")")) ++
        shellMid) ++ (str "\"/bin/sh\"" ++ tail) := by
    rw [insertAt_eq, hdq,
      show shellFallbackFind = shellMid ++ str "\"/bin/sh\"" from by decide]
    simp only [List.append_assoc]
  have hlen2 : ((code.take i ++ shellP E (str "(0," ++ m ++ str "." ++ g ++ str ")")) ++
      shellMid).length =
      i + (shellP E (str "(0," ++ m ++ str "." ++ g ++ str ")")).length + 34 := by
    simp only [List.length_append, List.length_take]
    rw [Nat.min_eq_left hi, show shellMid.length = 34 from by decide]
  have ht1take : (insertAt code
      (shellP E (str "(0," ++ m ++ str "." ++ g ++ str ")")) i).take
      (i + (shellP E (str "(0," ++ m ++ str "." ++ g ++ str ")")).length + 34) =
      (code.take i ++ shellP E (str "(0," ++ m ++ str "." ++ g ++ str ")")) ++
        shellMid := by
    rw [ht1]
    exact List.take_left' hlen2
  have ht1drop : (insertAt code
      (shellP E (str "(0," ++ m ++ str "." ++ g ++ str ")")) i).drop
      (i + (shellP E (str "(0," ++ m ++ str "." ++ g ++ str ")")).length + 34) =
      str "\"/bin/sh\"" ++ tail := by
    rw [ht1]
    exact List.drop_left' hlen2
  have hp2 : i + (shellP E (str "(0," ++ m ++ str "." ++ g ++ str ")")).length + 34 ≤
      (insertAt code (shellP E (str "(0," ++ m ++ str "." ++ g ++ str ")")) i).length := by
    rw [insertAt_length hi]
    omega
  have hsfx2 : str "||" <:+ (insertAt code
      (shellP E (str "(0," ++ m ++ str "." ++ g ++ str ")")) i).take
      (i + (shellP E (str "(0," ++ m ++ str "." ++ g ++ str ")")).length + 34) := by
    rw [ht1take]
    exact (show str "||" <:+ shellMid from by decide).trans (List.suffix_append _ _)
  obtain ⟨k2Z, k2C, k2N, k2S, k2U⟩ := winR_keep hp2 hE hc hsfx2
  have ht2 : insertAt (insertAt code
      (shellP E (str "(0," ++ m ++ str "." ++ g ++ str ")")) i) winR
      (i + (shellP E (str "(0," ++ m ++ str "." ++ g ++ str ")")).length + 34) =
      ((((code.take i ++ shellP E (str "(0," ++ m ++ str "." ++ g ++ str ")")) ++
        shellMid) ++ winR) ++ str "\"/bin/sh\"") ++ tail := by
    rw [insertAt_eq, ht1take, ht1drop]
    simp only [List.append_assoc]
  have hlen3 : ((((code.take i ++
      shellP E (str "(0," ++ m ++ str "." ++ g ++ str ")")) ++
      shellMid) ++ winR) ++ str "\"/bin/sh\"").length =
      i + (shellP E (str "(0," ++ m ++ str "." ++ g ++ str ")")).length + 34 +
        winR.length + 9 := by
    simp only [List.length_append, List.length_take]
    rw [Nat.min_eq_left hi, show shellMid.length = 34 from by decide,
      show (str "\"/bin/sh\"").length = 9 from by decide]
  have ht2take : (insertAt (insertAt code
      (shellP E (str "(0," ++ m ++ str "." ++ g ++ str ")")) i) winR
      (i + (shellP E (str "(0," ++ m ++ str "." ++ g ++ str ")")).length + 34)).take
      (i + (shellP E (str "(0," ++ m ++ str "." ++ g ++ str ")")).length + 34 +
        winR.length + 9) =
      (((code.take i ++ shellP E (str "(0," ++ m ++ str "." ++ g ++ str ")")) ++
        shellMid) ++ winR) ++ str "\"/bin/sh\"" := by
    rw [ht2]
    exact List.take_left' hlen3
  have ht2drop : (insertAt (insertAt code
      (shellP E (str "(0," ++ m ++ str "." ++ g ++ str ")")) i) winR
      (i + (shellP E (str "(0," ++ m ++ str "." ++ g ++ str ")")).length + 34)).drop
      (i + (shellP E (str "(0," ++ m ++ str "." ++ g ++ str ")")).length + 34 +
        winR.length + 9) = tail := by
    rw [ht2]
    exact List.drop_left' hlen3
  have hp3 : i + (shellP E (str "(0," ++ m ++ str "." ++ g ++ str ")")).length + 34 +
      winR.length + 9 ≤
      (insertAt (insertAt code
        (shellP E (str "(0," ++ m ++ str "." ++ g ++ str ")")) i) winR
        (i + (shellP E (str "(0," ++ m ++ str "." ++ g ++ str ")")).length + 34)).length := by
    rw [insertAt_length hp2, insertAt_length hi]
    omega
  have hsfx3 : str "/sh\"" <:+ (insertAt (insertAt code
      (shellP E (str "(0," ++ m ++ str "." ++ g ++ str ")")) i) winR
      (i + (shellP E (str "(0," ++ m ++ str "." ++ g ++ str ")")).length + 34)).take
      (i + (shellP E (str "(0," ++ m ++ str "." ++ g ++ str ")")).length + 34 +
        winR.length + 9) := by
    rw [ht2take]
    exact (show str "/sh\"" <:+ str "\"/bin/sh\"" from by decide).trans
      (List.suffix_append _ _)
  obtain ⟨k3Z, k3C, k3N, k3S, k3U⟩ := rp_keep hp3 hE hc hsfx3
  have hout : insertAt (insertAt (insertAt code
      (shellP E (str "(0," ++ m ++ str "." ++ g ++ str ")")) i) winR
      (i + (shellP E (str "(0," ++ m ++ str "." ++ g ++ str ")")).length + 34)) (str ")")
      (i + (shellP E (str "(0," ++ m ++ str "." ++ g ++ str ")")).length + 34 +
        winR.length + 9) =
      code.take i ++
        (shellFallbackRepl E (str "(0," ++ m ++ str "." ++ g ++ str ")") ++ tail) := by
    rw [insertAt_eq, ht2take, ht2drop]
    unfold shellFallbackRepl shellP shellMid winR
    rw [show str "(\"nu\",[]).cmd;if(_np!==\"nu\")return _np\x7ddefault:return process.env.SHELL||(\"win32\"===process.platform?ne():\"/bin/sh\")" =
      str "(\"nu\",[]).cmd;if(_np!==\"nu\")return _np\x7d" ++
      (str "default:return process.env.SHELL||" ++
        (str "(\"win32\"===process.platform?ne():" ++
          (str "\"/bin/sh\"" ++ str ")"))) from by decide]
    simp only [List.append_assoc]
  refine ⟨?_, ?_, ?_, ?_, ?_⟩
  · intro h
    have h3 := k3Z (k2Z (k1Z h))
    rw [hout] at h3
    exact h3
  · intro cc hcc
    have h3 := k3C cc (k2C cc (k1C cc hcc))
    rw [hout] at h3
    exact h3
  · intro h
    have h3 := k3N (k2N (k1N h))
    rw [hout] at h3
    exact h3
  · intro h
    have h3 := k3S (k2S (k1S h))
    rw [hout] at h3
    exact h3
  · intro h
    have h3 := k3U (k2U (k1U h))
    rw [hout] at h3
    exact h3

/-!
### Uniform per-step transport: skip and insert cases combined
-/

/-- A successful nu-detection step preserves the captures and the other
flags and leaves the nu-detection pattern present. -/
theorem M1_full {t : Str} {v : DiscoveredVars} {c : Str}
    (hok : (patch_nu_detection t v).2.ok = true)
    (hh : allWord v.hint_var = true) (hhne : v.hint_var ≠ [])
    (hE : allWord v.enum_var = true) (hc : allWord c = true)
    (hflag : v.has_nu_detection = true →
      containsStr t (nu_detection_str v.enum_var) = true) :
    ((∃ k1, zshFirstSite t = some k1 ∧ wordRunFwd t (k1 + 17) = v.enum_var) →
      ∃ k2, zshFirstSite (patch_nu_detection t v).1 = some k2 ∧
        wordRunFwd (patch_nu_detection t v).1 (k2 + 17) = v.enum_var) ∧
    (∀ cc : Str × Str, cmdCaptures t = some cc →
      cmdCaptures (patch_nu_detection t v).1 = some cc) ∧
    containsStr (patch_nu_detection t v).1 (nu_detection_str v.enum_var) = true ∧
    (containsStr t (c ++ str "(\"nu\")") = true →
      containsStr (patch_nu_detection t v).1 (c ++ str "(\"nu\")") = true) ∧
    (containsStr t (naive_case_str v.enum_var) = true →
      containsStr (patch_nu_detection t v).1 (naive_case_str v.enum_var) = true) ∧
    (uthFlagB t = true → uthFlagB (patch_nu_detection t v).1 = true) := by
  cases hnu : v.has_nu_detection with
  | true =>
    have hout : (patch_nu_detection t v).1 = t := by
      unfold patch_nu_detection
      rw [if_pos hnu]
    rw [hout]
    exact ⟨id, fun cc h => h, hflag hnu, id, id, id⟩
  | false =>
    rcases M1_event v hnu hok with ⟨hout, hnu0⟩ | ⟨δ, γ, p, hp, hout, htk, hfwd⟩
    · rw [hout]
      exact ⟨id, fun cc h => h, hnu0, id, id, id⟩
    · rw [hout]
      exact M1_keep hp hh hhne hE hc htk hfwd

/-- A system-nu step with no commandExists capture and an unset flag fails. -/
theorem M2_none_fails {t : Str} {v : DiscoveredVars}
    (hsys : v.has_system_nu = false) (hcmd : v.cmd_exists_fn = none) :
    (patch_system_nu_detection t v).2.ok = false := by
  unfold patch_system_nu_detection
  rw [hsys, hcmd]
  simp only [Bool.false_eq_true, if_false]
  rfl

/-- A successful system-nu-detection step preserves the captures and the
other flags and leaves the `<c>("nu")` marker present. -/
theorem M2_full {t : Str} {v : DiscoveredVars} {c : Str}
    (hok : (patch_system_nu_detection t v).2.ok = true)
    (hc : allWord c = true) (hE : allWord v.enum_var = true)
    (hcmd : v.cmd_exists_fn = some c)
    (hflag : v.has_system_nu = true → containsStr t (c ++ str "(\"nu\")") = true) :
    ((∃ k1, zshFirstSite t = some k1 ∧ wordRunFwd t (k1 + 17) = v.enum_var) →
      ∃ k2, zshFirstSite (patch_system_nu_detection t v).1 = some k2 ∧
        wordRunFwd (patch_system_nu_detection t v).1 (k2 + 17) = v.enum_var) ∧
    (∀ cc : Str × Str, cmdCaptures t = some cc →
      cmdCaptures (patch_system_nu_detection t v).1 = some cc) ∧
    (containsStr t (nu_detection_str v.enum_var) = true →
      containsStr (patch_system_nu_detection t v).1 (nu_detection_str v.enum_var) = true) ∧
    containsStr (patch_system_nu_detection t v).1 (c ++ str "(\"nu\")") = true ∧
    (containsStr t (naive_case_str v.enum_var) = true →
      containsStr (patch_system_nu_detection t v).1 (naive_case_str v.enum_var) = true) ∧
    (uthFlagB t = true → uthFlagB (patch_system_nu_detection t v).1 = true) := by
  cases hsys : v.has_system_nu with
  | true =>
    have hout : (patch_system_nu_detection t v).1 = t := by
      unfold patch_system_nu_detection
      rw [if_pos hsys]
    rw [hout]
    exact ⟨id, fun cc h => h, id, hflag hsys, id, id⟩
  | false =>
    obtain ⟨q, hq, hout, hsfx⟩ := M2_event v hsys hcmd hok
    rw [hout]
    exact M2_keep hq hc hE hsfx

/-- A successful userTerminalHint step preserves the captures and the other
flags and leaves the userTerminalHint regex matching. -/
theorem M3_full {t : Str} {v : DiscoveredVars} {c : Str}
    (hok : (patch_user_terminal_hint t v).2.ok = true)
    (hE : allWord v.enum_var = true) (hc : allWord c = true)
    (hflag : v.has_user_terminal_hint = true → uthFlagB t = true) :
    ((∃ k1, zshFirstSite t = some k1 ∧ wordRunFwd t (k1 + 17) = v.enum_var) →
      ∃ k2, zshFirstSite (patch_user_terminal_hint t v).1 = some k2 ∧
        wordRunFwd (patch_user_terminal_hint t v).1 (k2 + 17) = v.enum_var) ∧
    (∀ cc : Str × Str, cmdCaptures t = some cc →
      cmdCaptures (patch_user_terminal_hint t v).1 = some cc) ∧
    (containsStr t (nu_detection_str v.enum_var) = true →
      containsStr (patch_user_terminal_hint t v).1 (nu_detection_str v.enum_var) = true) ∧
    (containsStr t (c ++ str "(\"nu\")") = true →
      containsStr (patch_user_terminal_hint t v).1 (c ++ str "(\"nu\")") = true) ∧
    uthFlagB (patch_user_terminal_hint t v).1 = true := by
  cases huth : v.has_user_terminal_hint with
  | true =>
    have hout : (patch_user_terminal_hint t v).1 = t := by
      unfold patch_user_terminal_hint
      rw [if_pos huth]
    rw [hout]
    exact ⟨id, fun cc h => h, id, id, hflag huth⟩
  | false =>
    obtain ⟨sv, i3, tail, hsvw, hsvne, hdq, hb, hout⟩ := M3_event v huth hok
    rw [hout]
    exact M3_keep hE hc hsvw hsvne hdq hb

/-- A successful naive-case step preserves the captures and the other
flags and leaves the `case <enum>.Naive:` literal present. -/
theorem M4_full {t : Str} {v : DiscoveredVars} {c : Str}
    (hok : (patch_naive_case t v).2.ok = true)
    (hE : allWord v.enum_var = true) (hc : allWord c = true)
    (hlzw : ∀ lz, v.lazy_exec = some lz → allWord lz = true)
    (hnvw : ∀ nv, v.naive_exec = some nv → allWord nv = true)
    (hfxd : ∃ m g, allWord m = true ∧ allWord g = true ∧
      v.find_exec_call = some (str "(0," ++ m ++ str "." ++ g ++ str ")"))
    (hflag : v.has_naive_case = true →
      containsStr t (naive_case_str v.enum_var) = true) :
    ((∃ k1, zshFirstSite t = some k1 ∧ wordRunFwd t (k1 + 17) = v.enum_var) →
      ∃ k2, zshFirstSite (patch_naive_case t v).1 = some k2 ∧
        wordRunFwd (patch_naive_case t v).1 (k2 + 17) = v.enum_var) ∧
    (∀ cc : Str × Str, cmdCaptures t = some cc →
      cmdCaptures (patch_naive_case t v).1 = some cc) ∧
    (containsStr t (nu_detection_str v.enum_var) = true →
      containsStr (patch_naive_case t v).1 (nu_detection_str v.enum_var) = true) ∧
    (containsStr t (c ++ str "(\"nu\")") = true →
      containsStr (patch_naive_case t v).1 (c ++ str "(\"nu\")") = true) ∧
    containsStr (patch_naive_case t v).1 (naive_case_str v.enum_var) = true := by
  cases hna : v.has_naive_case with
  | true =>
    have hout : (patch_naive_case t v).1 = t := by
      unfold patch_naive_case
      rw [if_pos hna]
    rw [hout]
    exact ⟨id, fun cc h => h, id, id, hflag hna⟩
  | false =>
    obtain ⟨m, g, hm, hg, hfexv⟩ := hfxd
    cases hlz : v.lazy_exec with
    | none =>
      exfalso
      unfold patch_naive_case at hok
      rw [hna, hlz] at hok
      simp only [Bool.false_eq_true, if_false] at hok
      simp [StepResult.mkFail] at hok
    | some lz =>
      cases hnv : v.naive_exec with
      | none =>
        exfalso
        unfold patch_naive_case at hok
        rw [hna, hlz, hnv] at hok
        simp only [Bool.false_eq_true, if_false] at hok
        simp [StepResult.mkFail] at hok
      | some nv =>
        obtain ⟨q, γ, hq, hout, hctx⟩ := M4_event v hna hlz hnv hfexv hok
        rw [hout]
        have hov : allWord ((optsCapture t).getD (str "t")) = true := by
          cases ho : optsCapture t with
          | none => decide
          | some x => exact optsCapture_word ho
        exact M4_keep hq hE hm hg (hlzw lz hlz) (hnvw nv hnv) hov hc hctx

/-- A successful shell-path-fallback step preserves the captures and all
four flags. -/
theorem M5_full {t : Str} {v : DiscoveredVars} {c : Str}
    (hok : (patch_shell_path_fallback t v).2.ok = true)
    (hE : allWord v.enum_var = true) (hc : allWord c = true)
    (hfxd : ∃ m g, allWord m = true ∧ allWord g = true ∧
      v.find_exec_call = some (str "(0," ++ m ++ str "." ++ g ++ str ")")) :
    ((∃ k1, zshFirstSite t = some k1 ∧ wordRunFwd t (k1 + 17) = v.enum_var) →
      ∃ k2, zshFirstSite (patch_shell_path_fallback t v).1 = some k2 ∧
        wordRunFwd (patch_shell_path_fallback t v).1 (k2 + 17) = v.enum_var) ∧
    (∀ cc : Str × Str, cmdCaptures t = some cc →
      cmdCaptures (patch_shell_path_fallback t v).1 = some cc) ∧
    (containsStr t (nu_detection_str v.enum_var) = true →
      containsStr (patch_shell_path_fallback t v).1 (nu_detection_str v.enum_var) = true) ∧
    (containsStr t (c ++ str "(\"nu\")") = true →
      containsStr (patch_shell_path_fallback t v).1 (c ++ str "(\"nu\")") = true) ∧
    (uthFlagB t = true → uthFlagB (patch_shell_path_fallback t v).1 = true) := by
  obtain ⟨m, g, hm, hg, hfexv⟩ := hfxd
  rcases M5_event v hfexv hok with hout | ⟨i, hb, hdq, hout⟩
  · rw [hout]
    exact ⟨id, fun cc h => h, id, id, id⟩
  · rw [hout]
    exact M5_pack hE hc hm hg hb hdq

/-!
### A successful step loop leaves the plan fully patched
-/

/-- After a successful CLI step loop, quick detection sees all three CLI
presence flags. -/
theorem cli_success_detect {code t3 : Str} {v : DiscoveredVars} {steps : List StepResult}
    (hdv : discover_vars code = .ok v)
    (hap : applySteps CLI_PLAN.patches code v = (t3, steps, true)) :
    ∃ det, quick_detect t3 = some det ∧ CLI_PLAN.is_fully_patched det = true := by
  obtain ⟨hzc, hcmdf, hfexf, hnuf, hnaf, hsyf, huthf, hlzf, hnef⟩ := discover_ok_spec hdv
  obtain ⟨hhw, hhne, hEw, hEne, k0, hk0, hrun0⟩ := zsh_captures_shape hzc
  have hpat : CLI_PLAN.patches = [(str "Nu detection", patch_nu_detection),
      (str "System nu detection", patch_system_nu_detection),
      (str "Naive case", patch_naive_case)] := rfl
  rw [hpat] at hap
  obtain ⟨hok1, steps1, hap1⟩ := applySteps_cons_true hap
  obtain ⟨hok2, steps2, hap2⟩ := applySteps_cons_true hap1
  obtain ⟨hok3, steps3, hap3⟩ := applySteps_cons_true hap2
  have hok1a : (patch_nu_detection code v).2.ok = true := hok1
  have hok2a : (patch_system_nu_detection
      (patch_nu_detection code v).1 v).2.ok = true := hok2
  have hok3a : (patch_naive_case (patch_system_nu_detection
      (patch_nu_detection code v).1 v).1 v).2.ok = true := hok3
  have ht3a : t3 = (patch_naive_case (patch_system_nu_detection
      (patch_nu_detection code v).1 v).1 v).1 := applySteps_nil_out hap3
  cases hcc0 : cmdCaptures code with
  | none =>
    exfalso
    have hcmdn : v.cmd_exists_fn = none := by rw [hcmdf, hcc0]; rfl
    have hsysn : v.has_system_nu = false := by rw [hsyf, hcc0]; rfl
    exact absurd (hok2a.symm.trans (M2_none_fails hsysn hcmdn)) (by decide)
  | some cc =>
    obtain ⟨c, fx⟩ := cc
    obtain ⟨hcw, hcne, m, g, hmw, hmne, hgw, hgne, hfxeq⟩ := cmd_captures_shape hcc0
    have hcmd : v.cmd_exists_fn = some c := by rw [hcmdf, hcc0]; rfl
    have hfexv : v.find_exec_call = some fx := by rw [hfexf, hcc0]; rfl
    obtain ⟨hZf1, hCf1, hnu1, hSf1, hNf1, hUf1⟩ :=
      @M1_full code v c hok1a hhw hhne hEw hcw (fun h => hnuf.symm.trans h)
    have hZ1 := hZf1 ⟨k0, hk0, hrun0⟩
    have hC1 := hCf1 (c, fx) hcc0
    have hsys1 : v.has_system_nu = true →
        containsStr (patch_nu_detection code v).1 (c ++ str "(\"nu\")") = true := by
      intro h
      refine hSf1 ?_
      rw [hsyf, hcc0] at h
      exact h
    have hna1 : v.has_naive_case = true →
        containsStr (patch_nu_detection code v).1 (naive_case_str v.enum_var) = true :=
      fun h => hNf1 (hnaf.symm.trans h)
    obtain ⟨hZf2, hCf2, hNuf2, hsys2, hNf2, hUf2⟩ :=
      M2_full hok2a hcw hEw hcmd hsys1
    have hZ2 := hZf2 hZ1
    have hC2 := hCf2 (c, fx) hC1
    have hnu2 := hNuf2 hnu1
    have hna2 := fun h => hNf2 (hna1 h)
    obtain ⟨hZf3, hCf3, hNuf3, hSf3, hnaive3⟩ :=
      M4_full hok3a hEw hcw
        (fun lz hl => lazyExecCapture_word (hlzf.symm.trans hl))
        (fun nv hn => naive_exec_word hdv hn)
        ⟨m, g, hmw, hgw, by rw [hfexv, hfxeq]⟩
        hna2
    have hZ3 := hZf3 hZ2
    have hC3 := hCf3 (c, fx) hC2
    have hnu3 := hNuf3 hnu2
    have hsys3 := hSf3 hsys2
    rw [ht3a]
    obtain ⟨k3, hk3, hrun3⟩ := hZ3
    have hzc3 : zshCaptures (patch_naive_case (patch_system_nu_detection
        (patch_nu_detection code v).1 v).1 v).1 =
        some (wordRunBack (patch_naive_case (patch_system_nu_detection
          (patch_nu_detection code v).1 v).1 v).1 k3, v.enum_var) :=
      zshCaptures_eq_iff.mpr ⟨k3, hk3, by rw [hrun3]⟩
    have hq3 : quick_detect (patch_naive_case (patch_system_nu_detection
        (patch_nu_detection code v).1 v).1 v).1 =
        some { has_nu := has_nu_detection_in (patch_naive_case
                 (patch_system_nu_detection (patch_nu_detection code v).1 v).1 v).1
                 v.enum_var,
               has_system_nu := has_system_nu_in (patch_naive_case
                 (patch_system_nu_detection (patch_nu_detection code v).1 v).1 v).1
                 ((cmdCaptures (patch_naive_case (patch_system_nu_detection
                   (patch_nu_detection code v).1 v).1 v).1).map (fun c => c.1)),
               has_naive_case := has_naive_case_in (patch_naive_case
                 (patch_system_nu_detection (patch_nu_detection code v).1 v).1 v).1
                 v.enum_var,
               has_uth := uthFlagB (patch_naive_case (patch_system_nu_detection
                 (patch_nu_detection code v).1 v).1 v).1 } := by
      unfold quick_detect
      rw [hzc3]
      rfl
    refine ⟨_, hq3, ?_⟩
    show (has_nu_detection_in (patch_naive_case (patch_system_nu_detection
        (patch_nu_detection code v).1 v).1 v).1 v.enum_var &&
      has_system_nu_in (patch_naive_case (patch_system_nu_detection
        (patch_nu_detection code v).1 v).1 v).1
        ((cmdCaptures (patch_naive_case (patch_system_nu_detection
          (patch_nu_detection code v).1 v).1 v).1).map (fun c => c.1)) &&
      has_naive_case_in (patch_naive_case (patch_system_nu_detection
        (patch_nu_detection code v).1 v).1 v).1 v.enum_var) = true
    rw [Bool.and_eq_true, Bool.and_eq_true, hC3]
    exact ⟨⟨hnu3, hsys3⟩, hnaive3⟩

/-- After a successful IDE step loop, quick detection sees all three IDE
presence flags. -/
theorem ide_success_detect {code t4 : Str} {v : DiscoveredVars} {steps : List StepResult}
    (hdv : discover_vars code = .ok v)
    (hap : applySteps IDE_PLAN.patches code v = (t4, steps, true)) :
    ∃ det, quick_detect t4 = some det ∧ IDE_PLAN.is_fully_patched det = true := by
  obtain ⟨hzc, hcmdf, hfexf, hnuf, hnaf, hsyf, huthf, hlzf, hnef⟩ := discover_ok_spec hdv
  obtain ⟨hhw, hhne, hEw, hEne, k0, hk0, hrun0⟩ := zsh_captures_shape hzc
  have hpat : IDE_PLAN.patches = [(str "Nu detection", patch_nu_detection),
      (str "System nu detection", patch_system_nu_detection),
      (str "userTerminalHint", patch_user_terminal_hint),
      (str "Shell path fallback", patch_shell_path_fallback)] := rfl
  rw [hpat] at hap
  obtain ⟨hok1, steps1, hap1⟩ := applySteps_cons_true hap
  obtain ⟨hok2, steps2, hap2⟩ := applySteps_cons_true hap1
  obtain ⟨hok3, steps3, hap3⟩ := applySteps_cons_true hap2
  obtain ⟨hok4, steps4, hap4⟩ := applySteps_cons_true hap3
  have hok1a : (patch_nu_detection code v).2.ok = true := hok1
  have hok2a : (patch_system_nu_detection
      (patch_nu_detection code v).1 v).2.ok = true := hok2
  have hok3a : (patch_user_terminal_hint (patch_system_nu_detection
      (patch_nu_detection code v).1 v).1 v).2.ok = true := hok3
  have hok4a : (patch_shell_path_fallback (patch_user_terminal_hint
      (patch_system_nu_detection (patch_nu_detection code v).1 v).1 v).1 v).2.ok =
      true := hok4
  have ht4a : t4 = (patch_shell_path_fallback (patch_user_terminal_hint
      (patch_system_nu_detection (patch_nu_detection code v).1 v).1 v).1 v).1 :=
    applySteps_nil_out hap4
  cases hcc0 : cmdCaptures code with
  | none =>
    exfalso
    have hcmdn : v.cmd_exists_fn = none := by rw [hcmdf, hcc0]; rfl
    have hsysn : v.has_system_nu = false := by rw [hsyf, hcc0]; rfl
    exact absurd (hok2a.symm.trans (M2_none_fails hsysn hcmdn)) (by decide)
  | some cc =>
    obtain ⟨c, fx⟩ := cc
    obtain ⟨hcw, hcne, m, g, hmw, hmne, hgw, hgne, hfxeq⟩ := cmd_captures_shape hcc0
    have hcmd : v.cmd_exists_fn = some c := by rw [hcmdf, hcc0]; rfl
    have hfexv : v.find_exec_call = some fx := by rw [hfexf, hcc0]; rfl
    obtain ⟨hZf1, hCf1, hnu1, hSf1, hNf1, hUf1⟩ :=
      @M1_full code v c hok1a hhw hhne hEw hcw (fun h => hnuf.symm.trans h)
    have hZ1 := hZf1 ⟨k0, hk0, hrun0⟩
    have hC1 := hCf1 (c, fx) hcc0
    have hsys1 : v.has_system_nu = true →
        containsStr (patch_nu_detection code v).1 (c ++ str "(\"nu\")") = true := by
      intro h
      refine hSf1 ?_
      rw [hsyf, hcc0] at h
      exact h
    have huth1 : v.has_user_terminal_hint = true →
        uthFlagB (patch_nu_detection code v).1 = true :=
      fun h => hUf1 (huthf.symm.trans h)
    obtain ⟨hZf2, hCf2, hNuf2, hsys2, hNf2, hUf2⟩ :=
      M2_full hok2a hcw hEw hcmd hsys1
    have hZ2 := hZf2 hZ1
    have hC2 := hCf2 (c, fx) hC1
    have hnu2 := hNuf2 hnu1
    have huth2 := fun h => hUf2 (huth1 h)
    obtain ⟨hZf3, hCf3, hNuf3, hSf3, huth3⟩ :=
      @M3_full _ v c hok3a hEw hcw huth2
    have hZ3 := hZf3 hZ2
    have hC3 := hCf3 (c, fx) hC2
    have hnu3 := hNuf3 hnu2
    have hsys3 := hSf3 hsys2
    obtain ⟨hZf4, hCf4, hNuf4, hSf4, hUf4⟩ :=
      M5_full hok4a hEw hcw ⟨m, g, hmw, hgw, by rw [hfexv, hfxeq]⟩
    have hZ4 := hZf4 hZ3
    have hC4 := hCf4 (c, fx) hC3
    have hnu4 := hNuf4 hnu3
    have hsys4 := hSf4 hsys3
    have huth4 := hUf4 huth3
    rw [ht4a]
    obtain ⟨k4, hk4, hrun4⟩ := hZ4
    have hzc4 : zshCaptures (patch_shell_path_fallback (patch_user_terminal_hint
        (patch_system_nu_detection (patch_nu_detection code v).1 v).1 v).1 v).1 =
        some (wordRunBack (patch_shell_path_fallback (patch_user_terminal_hint
          (patch_system_nu_detection (patch_nu_detection code v).1 v).1 v).1 v).1 k4,
          v.enum_var) :=
      zshCaptures_eq_iff.mpr ⟨k4, hk4, by rw [hrun4]⟩
    have hq4 : quick_detect (patch_shell_path_fallback (patch_user_terminal_hint
        (patch_system_nu_detection (patch_nu_detection code v).1 v).1 v).1 v).1 =
        some { has_nu := has_nu_detection_in (patch_shell_path_fallback
                 (patch_user_terminal_hint (patch_system_nu_detection
                   (patch_nu_detection code v).1 v).1 v).1 v).1 v.enum_var,
               has_system_nu := has_system_nu_in (patch_shell_path_fallback
                 (patch_user_terminal_hint (patch_system_nu_detection
                   (patch_nu_detection code v).1 v).1 v).1 v).1
                 ((cmdCaptures (patch_shell_path_fallback (patch_user_terminal_hint
                   (patch_system_nu_detection (patch_nu_detection code v).1 v).1 v).1
                   v).1).map (fun c => c.1)),
               has_naive_case := has_naive_case_in (patch_shell_path_fallback
                 (patch_user_terminal_hint (patch_system_nu_detection
                   (patch_nu_detection code v).1 v).1 v).1 v).1 v.enum_var,
               has_uth := uthFlagB (patch_shell_path_fallback (patch_user_terminal_hint
                 (patch_system_nu_detection (patch_nu_detection code v).1 v).1 v).1
                 v).1 } := by
      unfold quick_detect
      rw [hzc4]
      rfl
    refine ⟨_, hq4, ?_⟩
    show (has_nu_detection_in (patch_shell_path_fallback (patch_user_terminal_hint
        (patch_system_nu_detection (patch_nu_detection code v).1 v).1 v).1 v).1
        v.enum_var &&
      has_system_nu_in (patch_shell_path_fallback (patch_user_terminal_hint
        (patch_system_nu_detection (patch_nu_detection code v).1 v).1 v).1 v).1
        ((cmdCaptures (patch_shell_path_fallback (patch_user_terminal_hint
          (patch_system_nu_detection (patch_nu_detection code v).1 v).1 v).1
          v).1).map (fun c => c.1)) &&
      uthFlagB (patch_shell_path_fallback (patch_user_terminal_hint
        (patch_system_nu_detection (patch_nu_detection code v).1 v).1 v).1 v).1) = true
    rw [Bool.and_eq_true, Bool.and_eq_true, hC4]
    exact ⟨⟨hnu4, hsys4⟩, huth4⟩

/-- A successful non-short-circuit live run comes from a successful
discovery and a fully successful step loop over the prepped text. -/
theorem run_patch_live_success {fs fs' : FsState} {r : PatchResult} {plan : PatchPlan}
    (hsc : shortCircuits fs plan = false)
    (h1 : run_patch fs false plan = (fs', r)) (hs : r.success = true) :
    ∃ v steps t,
      discover_vars (prepped fs plan).target = .ok v ∧
      applySteps plan.patches (prepped fs plan).target v = (t, steps, true) ∧
      fs' = { prepped fs plan with target := t } := by
  unfold run_patch run_patch_main at h1
  simp only [hsc, Bool.false_eq_true, reduceIte, Bool.not_false] at h1
  cases hdisc : discover_vars (prepped fs plan).target with
  | error e =>
    exfalso
    rw [hdisc] at h1
    dsimp only at h1
    have hr := congrArg (fun x : FsState × PatchResult => x.2.success) h1
    dsimp only at hr
    rw [hs] at hr
    exact absurd hr (by decide)
  | ok v =>
    rw [hdisc] at h1
    dsimp only at h1
    by_cases ht : (applySteps plan.patches (prepped fs plan).target v).2.2 = true
    · simp only [ht, Bool.not_true, Bool.false_eq_true, reduceIte] at h1
      refine ⟨v, (applySteps plan.patches (prepped fs plan).target v).2.1,
        (applySteps plan.patches (prepped fs plan).target v).1, rfl, ?_, ?_⟩
      · exact Prod.ext_iff.mpr ⟨rfl, Prod.ext_iff.mpr ⟨rfl, ht⟩⟩
      · exact (congrArg Prod.fst h1).symm
    · exfalso
      simp only [Bool.not_eq_true] at ht
      simp only [ht, Bool.not_false, reduceIte] at h1
      have hr := congrArg (fun x : FsState × PatchResult => x.2.success) h1
      dsimp only at hr
      rw [hs] at hr
      exact absurd hr (by decide)

/-- C1: for every source text on which a full patch-plan run (CLI or IDE
plan) succeeds, running the same plan again on the resulting state
short-circuits: every configured patch step reports `skipped`, the run
succeeds, and the text (indeed the whole file state) is byte-for-byte
unchanged from after the first run. -/
theorem C1_second_run_idempotent {fs fs' : FsState} {r : PatchResult} {plan : PatchPlan}
    (d2 : Bool) (hplan : plan = CLI_PLAN ∨ plan = IDE_PLAN)
    (h1 : run_patch fs false plan = (fs', r)) (hs : r.success = true) :
    run_patch fs' d2 plan =
      (fs', { success := true, steps := shortCircuitSteps plan }) ∧
    ∀ s ∈ plan.patches.map
      (fun pch => StepResult.mkSkipped pch.1 (str "Already present, skipped")),
      s.skipped = true := by
  have key : shortCircuits fs' plan = true := by
    cases hsc : shortCircuits fs plan with
    | true =>
      have hfs : fs' = fs := by
        unfold run_patch at h1
        simp only [hsc, reduceIte] at h1
        exact (congrArg Prod.fst h1).symm
      rw [hfs]
      exact hsc
    | false =>
      obtain ⟨v, steps, t, hdv, hap, hfs'⟩ := run_patch_live_success hsc h1 hs
      have hdet : ∃ det, quick_detect t = some det ∧ plan.is_fully_patched det = true := by
        rcases hplan with rfl | rfl
        · exact cli_success_detect hdv hap
        · exact ide_success_detect hdv hap
      obtain ⟨det, hq, hp⟩ := hdet
      unfold shortCircuits
      rw [hfs']
      dsimp only
      rw [hq]
      exact hp
  refine ⟨?_, ?_⟩
  · unfold run_patch
    simp only [key, reduceIte]
  · intro s hsm
    obtain ⟨pch, -, rfl⟩ := List.mem_map.mp hsm
    rfl

/-- Witness: the demo CLI text patches successfully, and the second CLI
run on the patched state short-circuits with every patch step skipped. -/
theorem C1_witness :
    run_patch (run_patch demoCliFs false CLI_PLAN).1 false CLI_PLAN =
      ((run_patch demoCliFs false CLI_PLAN).1,
        { success := true, steps := shortCircuitSteps CLI_PLAN }) ∧
    ∀ s ∈ CLI_PLAN.patches.map
      (fun pch => StepResult.mkSkipped pch.1 (str "Already present, skipped")),
      s.skipped = true :=
  @C1_second_run_idempotent demoCliFs (run_patch demoCliFs false CLI_PLAN).1
    (run_patch demoCliFs false CLI_PLAN).2 CLI_PLAN false (Or.inl rfl) rfl (by decide)

end Nupatch

